import Mathlib

/-!
# Glyph cache and batched renderer: a verification development

A shallow embedding of the UTF-8 decoder (`src/utf-8.cpp`), the glyph atlas
(`src/glyph-cache.cpp`) and the batched scene renderer (`src/renderer.cpp`),
followed by theorems about them.

Conventions of the embedding:
* `size_t`, `FT_UInt` and `int` quantities are natural numbers or integers; in the
  decoder a fixed-width wrap-around is written out (`% 2 ^ 32`, `% 256`) wherever the
  source can reach it; the packing cursor of the atlas is computed without wrap-around.
* A `float` is a rational number. The pen position of the text renderers is computed in
  single precision: every operation on it rounds its result to a 24-bit significand
  (`Single.plus`, `Single.times`, ...). Sums of integer advances from zero, the stored
  texture coordinates and the geometry of the scene renderer are exact; the definitions
  marked as single precision say what rounding makes of a texture coordinate.
* A byte string (`std::string_view`) is a `List (Fin 256)`.
* Calls into FreeType, OpenGL and the file system are oracles passed as parameters;
  their observable effects (texture uploads, draw calls, feed messages) are logged
  in the state.
-/

set_option autoImplicit false

/-! ## The message feed (`feed.h`), as far as the core uses it -/

namespace Feed

/-- The three queues of `MessageFeed`: `queue_info`, `queue_warning`, `queue_error`. -/
inductive Severity where
  | info
  | warning
  | error
deriving DecidableEq, Repr

/-- One queued message. -/
structure Message where
  severity : Severity
  text : String
deriving DecidableEq, Repr

/-- The feed: the messages queued so far, oldest first. -/
abbrev MessageFeed := List Message

/-- The method `queue_info`. -/
def queue_info (feed : MessageFeed) (message : String) : MessageFeed :=
  feed ++ [{ severity := Severity.info, text := message }]

/-- The method `queue_error`. -/
def queue_error (feed : MessageFeed) (error : String) : MessageFeed :=
  feed ++ [{ severity := Severity.error, text := error }]

end Feed

/-! ## The vectors of `vec.h` -/

/-- The struct `Vec2T<float>`; coordinates are rationals (exact arithmetic). -/
structure Vec2f where
  x : ℚ
  y : ℚ
deriving DecidableEq

namespace Vec2f

/-- The converting constructor `Vec2T(T xy)`. -/
def splat (xy : ℚ) : Vec2f := { x := xy, y := xy }

/-- The friend `operator+` of `Vec2T`. -/
def add (a b : Vec2f) : Vec2f := { x := a.x + b.x, y := a.y + b.y }

/-- The friend `operator-` of `Vec2T`. -/
def sub (a b : Vec2f) : Vec2f := { x := a.x - b.x, y := a.y - b.y }

instance : Add Vec2f := ⟨add⟩

instance : Sub Vec2f := ⟨sub⟩

end Vec2f

/-- The struct `Vec4T<float>`. -/
structure Vec4f where
  x : ℚ
  y : ℚ
  z : ℚ
  a : ℚ
deriving DecidableEq

/-! ## IEEE-754 single precision

Where a claim is about the rounding of `float` operations, a `float` is a significand
and a binary exponent, and every operation rounds its exact result to the nearest number
with a 24-bit significand, ties to even. Only what the conversions of unsigned integers,
their quotients and their products need is modelled: the finite numbers that are not
negative, in the normal range (no overflow, no underflow, no special values). -/

namespace Single

/-- The integer nearest to `a / b`, ties to even; `b` is positive. -/
def round_even (a b : Nat) : Nat :=
  if 2 * (a % b) < b then a / b
  else if b < 2 * (a % b) then a / b + 1
  else if a / b % 2 = 0 then a / b else a / b + 1

/-- The loop of `log2`: the number of halvings that bring `n` below 2, for at most
`fuel` halvings. -/
def log2_loop : Nat → Nat → Nat
  | 0, _ => 0
  | fuel + 1, n => if n < 2 then 0 else log2_loop fuel (n / 2) + 1

/-- The position of the leading one-bit of a positive `n`: the `k` with
`2 ^ k ≤ n < 2 ^ (k + 1)`. -/
def log2 (n : Nat) : Nat := log2_loop n n

/-- A single-precision number `m * 2 ^ e` that is not negative. Zero is `m = 0`, `e = 0`;
every other number has a significand of exactly 24 bits, `2 ^ 23 ≤ m < 2 ^ 24`. -/
structure Value where
  m : Nat
  e : Int
deriving DecidableEq

/-- The rational number that a `Value` stands for. -/
def Value.toRat (v : Value) : ℚ := (v.m : ℚ) * (2 : ℚ) ^ v.e

/-- A number with a significand of exactly 24 bits. -/
def Value.normal (v : Value) : Prop := 2 ^ 23 ≤ v.m ∧ v.m < 2 ^ 24

/-- The number zero. -/
def zero : Value := ⟨0, 0⟩

/-- The number `(a / b) * 2 ^ e` rounded to single precision, for a quotient `a / b`
that is at least `2 ^ 23` and below `2 ^ 24`: the significand is the integer nearest to
`a / b`, ties to even, and a significand that rounds up to `2 ^ 24` is `2 ^ 23` at the
next exponent. -/
def round_significand (a b : Nat) (e : Int) : Value :=
  if round_even a b = 2 ^ 24 then ⟨2 ^ 23, e + 1⟩ else ⟨round_even a b, e⟩

/-- The conversion `static_cast<float>` of an unsigned integer: a number of at most 24
bits is exact, a longer one is rounded. -/
def of_nat (n : Nat) : Value :=
  if n = 0 then zero
  else if log2 n ≤ 23 then ⟨n * 2 ^ (23 - log2 n), (log2 n : Int) - 23⟩
  else round_significand n (2 ^ (log2 n - 23)) ((log2 n : Int) - 23)

/-- The `float` division of normal numbers. The quotient of the significands is between
1/2 and 2; scaled by `2 ^ 23` when it is at least 1 and by `2 ^ 24` when it is not, it
is at least `2 ^ 23` and below `2 ^ 24`. -/
def div (x y : Value) : Value :=
  if x.m = 0 ∨ y.m = 0 then zero
  else if y.m ≤ x.m then round_significand (x.m * 2 ^ 23) y.m (x.e - y.e - 23)
  else round_significand (x.m * 2 ^ 24) y.m (x.e - y.e - 24)

/-- The `float` multiplication of normal numbers. The product of the significands is at
least `2 ^ 46` and below `2 ^ 48`; divided by `2 ^ 24` when it is at least `2 ^ 47` and
by `2 ^ 23` when it is not, it is at least `2 ^ 23` and below `2 ^ 24`. -/
def mul (x y : Value) : Value :=
  if x.m = 0 ∨ y.m = 0 then zero
  else if 2 ^ 47 ≤ x.m * y.m then round_significand (x.m * y.m) (2 ^ 24) (x.e + y.e + 24)
  else round_significand (x.m * y.m) (2 ^ 23) (x.e + y.e + 23)

/-- The conversion `static_cast<unsigned>` of a `float`: the fraction is cut off. -/
def to_uint (x : Value) : Nat := x.m * 2 ^ x.e.toNat / 2 ^ (-x.e).toNat

/-- The binary exponent of `a / b` for positive `a` and `b`: the integer `e` with
`2 ^ e ≤ a / b < 2 ^ (e + 1)`. The difference of the positions of the leading one-bits
is `e` or `e + 1`; one comparison tells which. -/
def exponent (a b : Nat) : Int :=
  if b * 2 ^ ((log2 a : Int) - (log2 b : Int)).toNat
      ≤ a * 2 ^ ((log2 b : Int) - (log2 a : Int)).toNat
  then (log2 a : Int) - (log2 b : Int) else (log2 a : Int) - (log2 b : Int) - 1

/-- The positive rational `a / b` rounded to single precision: scaled by the power of two
that brings it between `2 ^ 23` and `2 ^ 24`, it is rounded to the nearest integer, ties
to even. -/
def round_ratio (a b : Nat) : Value :=
  round_significand (a * 2 ^ (23 - exponent a b).toNat) (b * 2 ^ (exponent a b - 23).toNat)
    (exponent a b - 23)

/-- A rational rounded to single precision, as a rational. -/
def round (q : ℚ) : ℚ :=
  if q = 0 then 0
  else if 0 < q then (round_ratio q.num.natAbs q.den).toRat
  else -(round_ratio q.num.natAbs q.den).toRat

/-- The `float` addition, on rationals that are single-precision numbers. -/
def plus (x y : ℚ) : ℚ := round (x + y)

/-- The `float` multiplication. -/
def times (x y : ℚ) : ℚ := round (x * y)

/-- The `float` division. -/
def over (x y : ℚ) : ℚ := round (x / y)

end Single
/-! ## Part 1: `utf-8.h` / `utf-8.cpp` -/

namespace UTF8

/-- The constant `invalid_codepoint = static_cast<Codepoint>(-1)`, where `Codepoint` is
`uint32_t`. -/
def invalid_codepoint : Nat := 2 ^ 32 - 1

/-- The struct `CodepointResult` with its defaulted `operator==`; a `Codepoint` is a
`uint32_t` and an `Offset` a `size_t`. -/
structure CodepointResult where
  codepoint : Nat
  first : Nat
  last : Nat
deriving DecidableEq, Repr

/-- The constant `invalid`: the invalid codepoint with value-initialised offsets. -/
def invalid : CodepointResult :=
  { codepoint := invalid_codepoint, first := 0, last := 0 }

/-- The constant `ascii_end`. -/
def ascii_end : Nat := 0x80

/-- Modelled from the spec: `extend` of `enum-utils.h` (not part of the sources at hand),
the successor of an offset ("the walker advances by one byte"). -/
def extend (o : Nat) : Nat := o + 1

/-- The standard-library function `std::countl_one` at type `unsigned char`:
the number of consecutive one-bits starting at the most significant bit. -/
def countl_one (b : Nat) : Nat :=
  if b < 0x80 then 0
  else if b < 0xC0 then 1
  else if b < 0xE0 then 2
  else if b < 0xF0 then 3
  else if b < 0xF8 then 4
  else if b < 0xFC then 5
  else if b < 0xFE then 6
  else if b < 0xFF then 7
  else 8

/-- The byte of `input` at index `i`, as `static_cast<UTF8Char>(input.data()[i])`. -/
def byte_at (input : List (Fin 256)) (i : Nat) : Nat := (input.getD i 0).val

/-- The `for` loop of `next_codepoint`: `n` more continuation bytes are consumed;
`pos` is the index `first` points at, `result` the accumulated `uint32_t`. -/
def accumulate (input : List (Fin 256)) : Nat → Nat → Nat → Nat
  | 0, _, result => result
  | n + 1, pos, result =>
    -- c = *++first;
    let c := byte_at input (pos + 1)
    -- result <<= 6;  (on uint32_t)
    let result := (result <<< 6) % 2 ^ 32
    -- result |= c & 0x3f;
    accumulate input n (pos + 1) (result ||| (c &&& 0x3f))

/-- The function `UTF8::next_codepoint(input, start)`. -/
def next_codepoint (input : List (Fin 256)) (start : Nat) : CodepointResult :=
  if start ≥ input.length then invalid
  else if start = input.length then invalid
  else
    let first := byte_at input start
    if first &&& ascii_end = 0 then
      { codepoint := first, first := start, last := extend start }
    else
      let count : Int := countl_one first
      if count - 1 ≤ 0 then invalid
      else
        let count : Nat := (count - 1).toNat
        if start + count ≥ input.length then invalid
        else
          -- c <<= count + 1; c >>= count + 1;  (on unsigned char)
          let c := ((first <<< (count + 1)) % 256) >>> (count + 1)
          let result := accumulate input count start c
          { codepoint := result, first := start, last := start + count + 1 }

/-- The function `non_ascii_codepoint`. -/
def non_ascii_codepoint (c : Fin 256) : Bool := c.val &&& ascii_end != 0

/-- The function `ascii_codepoint`. -/
def ascii_codepoint (cp : Nat) : Bool := decide (cp < ascii_end)

/-- The class `CodepointWalker`: the text and the current offset. -/
structure CodepointWalker where
  text : List (Fin 256)
  current : Nat
deriving DecidableEq

namespace CodepointWalker

/-- The constructor `CodepointWalker(text, start)`. -/
def create (text : List (Fin 256)) (start : Nat) : CodepointWalker :=
  { text := text, current := start }

/-- The method `next_result`: the decode result and the walker afterwards. -/
def next_result (w : CodepointWalker) : CodepointResult × CodepointWalker :=
  let result := next_codepoint w.text w.current
  if result = invalid then
    (result, { w with current := extend w.current })
  else
    (result, { w with current := result.last })

/-- The method `next`: the codepoint of `next_result`, and the walker afterwards. -/
def next (w : CodepointWalker) : Nat × CodepointWalker :=
  ((next_result w).1.codepoint, (next_result w).2)

/-- The method `exhausted`. -/
def exhausted (w : CodepointWalker) : Bool := w.current == w.text.length

/-- The walker after `k` calls of `next`. -/
def advance (w : CodepointWalker) : Nat → CodepointWalker
  | 0 => w
  | k + 1 => advance (next w).2 k

end CodepointWalker

/-- The `while` loop of `codepoint_count`, run for at most `fuel` iterations;
`none` when the fuel runs out before the walker is exhausted. -/
def codepoint_count_loop : Nat → CodepointWalker → Nat → Option Nat
  | 0, _, _ => none
  | fuel + 1, walker, count =>
    if walker.exhausted then some count
    else codepoint_count_loop fuel (walker.next).2 (count + 1)

/-- The function `codepoint_count(input, start)`, with the loop bounded by `fuel`. -/
def codepoint_count (fuel : Nat) (input : List (Fin 256)) (start : Nat) : Option Nat :=
  codepoint_count_loop fuel (CodepointWalker.create input start) 0

/-- The standard UTF-8 encoding of a scalar value `c < 0x110000`, one to four bytes
(the encoding table of the comment in `next_codepoint`):
`0xxxxxxx`, `110xxxxx 10xxxxxx`, `1110xxxx 10xxxxxx 10xxxxxx`,
`11110xxx 10xxxxxx 10xxxxxx 10xxxxxx`. -/
def utf8 (c : Nat) : List (Fin 256) :=
  if c < 0x80 then [Fin.ofNat c]
  else if c < 0x800 then [Fin.ofNat (0xC0 + c / 64), Fin.ofNat (0x80 + c % 64)]
  else if c < 0x10000 then
    [Fin.ofNat (0xE0 + c / 4096), Fin.ofNat (0x80 + c / 64 % 64), Fin.ofNat (0x80 + c % 64)]
  else
    [Fin.ofNat (0xF0 + c / 262144), Fin.ofNat (0x80 + c / 4096 % 64),
      Fin.ofNat (0x80 + c / 64 % 64), Fin.ofNat (0x80 + c % 64)]

/-- A value followed by the low 6 bits of each of the bytes, shifted in 6 bits at a time
modulo `2 ^ 32` (the wording of the specification for the bits of a multi-byte
sequence). -/
def shift_in_low6 (lead : Nat) (bytes : List Nat) : Nat :=
  bytes.foldl (fun r b => (r * 64) % 2 ^ 32 + b % 64) lead

/-- The standard UTF-8 encoding of a list of scalar values: the encodings of its
members, one after the other. -/
def utf8_string (cs : List Nat) : List (Fin 256) := cs.flatMap utf8

end UTF8
/-! ## Part 2: `glyph-cache.h` / `glyph-cache.cpp`

Fields of `CharInfo` that only ever hold an integer converted to `float` (advance,
bitmap size, bearing) are integers; the texture coordinates `tx`, `ty` are rationals
(exact arithmetic). The packing cursor is computed without 32-bit wrap-around. -/

namespace Glyph

/-- The struct `CharInfo`. -/
structure CharInfo where
  ax : Int
  ay : Int
  bw : Nat
  bh : Nat
  bl : Int
  bt : Int
  tx : ℚ
  ty : ℚ
deriving DecidableEq

/-- A value-initialised `CharInfo`. -/
def CharInfo.zero : CharInfo :=
  { ax := 0, ay := 0, bw := 0, bh := 0, bl := 0, bt := 0, tx := 0, ty := 0 }

/-- The constant `MarkerGlyphCount`. -/
def MarkerGlyphCount : Nat := 3

/-- The constant `ValidCharStart`. -/
def ValidCharStart : Nat := 32

/-- The constant `CharInfoCount`. -/
def CharInfoCount : Nat := 128

/-- The constant `TotalCharInfoCount`. -/
def TotalCharInfoCount : Nat := CharInfoCount + MarkerGlyphCount

/-- The enumerator `SpecialGlyph::Whitespace`. -/
def SpecialGlyph.Whitespace : Nat := CharInfoCount

/-- The enumerator `SpecialGlyph::CarriageReturn`. -/
def SpecialGlyph.CarriageReturn : Nat := CharInfoCount + 1

/-- The enumerator `SpecialGlyph::Tab`. -/
def SpecialGlyph.Tab : Nat := CharInfoCount + 2

/-- The struct `SpecialGlyphEntry`. -/
structure SpecialGlyphEntry where
  index : Nat
  glyph : Nat
deriving DecidableEq

/-- The table `special_glyph_map`. -/
def special_glyph_map : List SpecialGlyphEntry :=
  [{ index := SpecialGlyph.Whitespace, glyph := 0x00B7 },
   { index := SpecialGlyph.CarriageReturn, glyph := 0x00B6 },
   { index := SpecialGlyph.Tab, glyph := 0x2192 }]

/-- The constant `texture_width`. -/
def texture_width : Nat := 1920

/-- The constant `texture_height`. -/
def texture_height : Nat := 1088

/-- The constant `sdf_width_addition` (the live definition, after the `#if 0` block). -/
def sdf_width_addition : Nat := 0

/-- The constant `sdf_height_addition` (the live definition, after the `#if 0` block). -/
def sdf_height_addition : Nat := 0

/-- The struct `UnicodeGlyphInfo`; an `FT_Face` is a number, `nullptr` is `none`. -/
structure UnicodeGlyphInfo where
  info : CharInfo := CharInfo.zero
  face : Option Nat := none
  rasterized : Bool := false
  failed_to_rasterize : Bool := false
deriving DecidableEq

/-- The struct `CachedFont`; the unordered map is a partial function on codepoints. -/
structure CachedFont where
  font_size : Int := 64
  cached_glyphs_map : Nat → Option UnicodeGlyphInfo := fun _ => none
  infos : Nat → CharInfo := fun _ => CharInfo.zero

/-- The fields of `face->glyph` that the atlas reads after `FT_Load_Char`. -/
structure GlyphSlot where
  advance_x : Int
  advance_y : Int
  bitmap_width : Nat
  bitmap_rows : Nat
  bitmap_left : Int
  bitmap_top : Int
deriving DecidableEq

/-- What FreeType and the file system answer. A call that can fail returns the
`FT_Error_String` text of the error. `load_char face size c` is `FT_Load_Char(face, c,
FT_LOAD_RENDER | FT_LOAD_TARGET_NORMAL)` on a face whose pixel size was last set to
`size`; `rasterize_flags` and `load_flags` are the same flags. -/
structure FreeType where
  /-- The `.ttf` files of the fallback-fonts folder, as `files_in_dir` lists them. -/
  files_in_dir : List String
  /-- The call `FT_New_Face`. -/
  new_face : String → Except String Nat
  /-- The call `FT_Get_Char_Index`. -/
  get_char_index : Nat → Nat → Nat
  /-- The call `FT_Set_Pixel_Sizes(face, 0, size)`. -/
  set_pixel_sizes : Nat → Int → Except String Unit
  /-- The call `FT_Load_Char`. -/
  load_char : Nat → Int → Nat → Except String GlyphSlot
  /-- The call `FT_Render_Glyph(face->glyph, FT_RENDER_MODE_NORMAL)` after that load. -/
  render_glyph : Nat → Int → Nat → Except String Unit
  /-- The field `family_name` of a face. -/
  family_name : Nat → String := fun _ => ""

/-- Whose pixels a `submit_glyph_data` call carries: a standard glyph of a font size, a
dynamically cached glyph of a font size, or a zeroed block. A label of the model; the
call itself carries only the rectangle and the buffer. -/
inductive GlyphOwner where
  | standard (font_size : Int) (index : Nat)
  | cached (font_size : Int) (glyph : Nat)
  | blank
deriving DecidableEq

/-- The struct `Render::GlyphEntry` of one `submit_glyph_data` call. -/
structure GlyphEntry where
  offset_x : Nat
  offset_y : Nat
  width : Nat
  height : Nat
  owner : GlyphOwner
deriving DecidableEq

/-- The struct `Atlas::Data`. The shared texture is the list of `submit_glyph_data`
calls made on it, oldest first; `selected_font` points at the entry of that key;
`dir_scans` counts the `files_in_dir` calls made on the fallback-fonts folder (a log of
the model, not a field of the source). -/
structure Data where
  face : Nat
  height : Nat := 0
  width : Nat := 0
  unicode_row_start : Nat := 0
  next_x : Nat := 0
  next_y : Nat := 0
  cur_row_max_height : Nat := 0
  fallback_fonts : List (Option Nat) := []
  selected_font : Option Int := none
  cached_fonts : Int → Option CachedFont := fun _ => none
  texture : List GlyphEntry := []
  dir_scans : Nat := 0

/-- The constant `Atlas::Data::default_font_size`. -/
def default_font_size : Int := 64

/-- The loop of `identify_font_face_for_glyph` that loads the fallback faces: a face
that fails to load or to resize is skipped. -/
def load_fallback_fonts (ft : FreeType) : List String → List (Option Nat)
  | [] => []
  | file :: files =>
    match ft.new_face file with
    | Except.error _ => load_fallback_fonts ft files
    | Except.ok face =>
      match ft.set_pixel_sizes face default_font_size with
      | Except.error _ => load_fallback_fonts ft files
      | Except.ok _ => some face :: load_fallback_fonts ft files

/-- The search loop of `identify_font_face_for_glyph` over the fallback faces. -/
def find_fallback_face (ft : FreeType) (glyph : Nat) : List (Option Nat) → Option Nat
  | [] => none
  | none :: faces => find_fallback_face ft glyph faces
  | some face :: faces =>
    if ft.get_char_index face glyph ≠ 0 then some face
    else find_fallback_face ft glyph faces

/-- The function `identify_font_face_for_glyph`. -/
def identify_font_face_for_glyph (ft : FreeType) (data : Data) (glyph : Nat) : Nat × Data :=
  let idx := ft.get_char_index data.face glyph
  if idx ≠ 0 then (data.face, data)
  else
    let data :=
      if data.fallback_fonts.isEmpty then
        -- Insert a sentinel value to avoid reloading this.
        { data with
          fallback_fonts := none :: load_fallback_fonts ft ft.files_in_dir
          dir_scans := data.dir_scans + 1 }
      else data
    match find_fallback_face ft glyph data.fallback_fonts with
    | some face => (face, data)
    | none => (data.face, data)

/-- The function `resize_font`: whether `FT_Set_Pixel_Sizes` succeeded, and the message
handed to the reporter when it did not. -/
def resize_font (ft : FreeType) (face : Nat) (size : Int) : Bool × List String :=
  match ft.set_pixel_sizes face size with
  | Except.error log => (false, ["Failed to set font size: " ++ log])
  | Except.ok _ => (true, [])

/-- The conversion `static_cast<FT_UInt>` of a non-negative `float`: truncation. -/
def to_uint (q : ℚ) : Nat := (Rat.floor q).toNat

/-- The metrics that `request_cached_glyph` and `rasterize_cached_glyph` copy from the
loaded glyph slot into a `CharInfo` (`ax`, `ay`, `bw`, `bh`, `bl`, `bt`); `tx` and `ty`
stay as they are. -/
def CharInfo.with_metrics (c : CharInfo) (slot : GlyphSlot) : CharInfo :=
  { c with
    ax := slot.advance_x >>> 6
    ay := slot.advance_y >>> 6
    bw := slot.bitmap_width
    bh := slot.bitmap_rows
    bl := slot.bitmap_left
    bt := slot.bitmap_top }

/-- The `submit_glyph_data` call of `rasterize_cached_glyph`: the rectangle starts at
`(FT_UInt)(tx * width)`, `(FT_UInt)(ty * height)` and has the size of the bitmap. The
texture coordinates are exact here, so that the rectangle starts at the position that
`request_cached_glyph` assigned; `atlas_position_single` is the column and the row that
single precision gives. -/
def upload_of (data : Data) (font : CachedFont) (glyph : Nat) (c : CharInfo)
    (slot : GlyphSlot) : GlyphEntry :=
  { offset_x := to_uint (c.tx * data.width)
    offset_y := to_uint (c.ty * data.height)
    width := slot.bitmap_width
    height := slot.bitmap_rows
    owner := GlyphOwner.cached font.font_size glyph }

/-- The data after one more `submit_glyph_data` call. -/
def Data.submit (data : Data) (entry : GlyphEntry) : Data :=
  { data with texture := data.texture ++ [entry] }

/-- The font with the dynamic entry of `glyph` written. -/
def CachedFont.set_glyph (font : CachedFont) (glyph : Nat) (info : UnicodeGlyphInfo) :
    CachedFont :=
  { font with
    cached_glyphs_map := Function.update font.cached_glyphs_map glyph (some info) }

/-- The function `rasterize_cached_glyph`: the result, the data and the glyph info
afterwards. -/
def rasterize_cached_glyph (ft : FreeType) (data : Data) (font : CachedFont)
    (info : UnicodeGlyphInfo) (glyph : Nat) : Bool × Data × UnicodeGlyphInfo :=
  if glyph = UTF8.invalid_codepoint then (false, data, info)
  else
    match info.face with
    | none => (false, data, info)
    | some face =>
      if ¬ (resize_font ft face font.font_size).1 then (false, data, info)
      else
        match ft.load_char face font.font_size glyph with
        | Except.error _ => (false, data, info)
        | Except.ok slot =>
          match ft.render_glyph face font.font_size glyph with
          | Except.error _ => (false, data, info)
          | Except.ok _ =>
            let y := to_uint (info.info.ty * data.height)
            -- This glyph cannot be rasterized.
            if y + slot.bitmap_rows > data.height then (false, data, info)
            else
              let entry := upload_of data font glyph info.info slot
              let info := { info with info := info.info.with_metrics slot }
              let data := data.submit entry
              let info := { info with rasterized := true }
              (true, data, info)

/-- The wrap test of `request_cached_glyph` is negative: the glyph fits the rest of the
current row, `x + sdf_width_addition + bitmap.width <= data->width`. -/
def fits_row (data : Data) (slot : GlyphSlot) : Prop :=
  ¬ (data.next_x + sdf_width_addition + slot.bitmap_width > data.width)

instance (data : Data) (slot : GlyphSlot) : Decidable (fits_row data slot) := by
  unfold fits_row; infer_instance

/-- The atlas column `request_cached_glyph` assigns to a newly measured glyph: the
cursor column, or 0 after a wrap. -/
def assigned_x (data : Data) (slot : GlyphSlot) : Nat :=
  if fits_row data slot then data.next_x else 0

/-- The atlas row `request_cached_glyph` assigns to a newly measured glyph: the cursor
row, or the row below the current one after a wrap. -/
def assigned_y (data : Data) (slot : GlyphSlot) : Nat :=
  if fits_row data slot then data.next_y else data.next_y + data.cur_row_max_height

/-- The `CharInfo` that `request_cached_glyph` records for a newly measured glyph:
the metrics of the slot, and the assigned position over the atlas size. -/
def placed_info (data : Data) (slot : GlyphSlot) : CharInfo :=
  { ax := slot.advance_x >>> 6
    ay := slot.advance_y >>> 6
    bw := slot.bitmap_width
    bh := slot.bitmap_rows
    bl := slot.bitmap_left
    bt := slot.bitmap_top
    tx := (assigned_x data slot : ℚ) / (data.width : ℚ)
    ty := (assigned_y data slot : ℚ) / (data.height : ℚ) }

/-- The packing cursor that `request_cached_glyph` writes back after placing a newly
measured glyph ("Write back to the data starts"). -/
def advance_cursor (data : Data) (slot : GlyphSlot) : Data :=
  { data with
    next_y := assigned_y data slot
    next_x := assigned_x data slot + (slot.bitmap_width + sdf_width_addition)
    cur_row_max_height :=
      max (if fits_row data slot then data.cur_row_max_height else 0)
        (slot.bitmap_rows + sdf_height_addition) }

/-- The enum `Rasterize`. -/
inductive Rasterize where
  | No
  | Yes
deriving DecidableEq, Repr

/-- The function `request_cached_glyph`: the glyph info returned (`none` for `nullptr`),
the data and the font afterwards. -/
def request_cached_glyph (ft : FreeType) (data : Data) (font : CachedFont) (glyph : Nat)
    (rasterize : Rasterize) : Option UnicodeGlyphInfo × Data × CachedFont :=
  if glyph = UTF8.invalid_codepoint then (none, data, font)
  else
    match font.cached_glyphs_map glyph with
    | some info =>
      -- not inserted
      if ¬ info.rasterized ∧ rasterize = Rasterize.Yes then
        if info.failed_to_rasterize then (none, data, font)
        else
          let (ok, data, info) := rasterize_cached_glyph ft data font info glyph
          let info := { info with failed_to_rasterize := !ok }
          let font := font.set_glyph glyph info
          if info.failed_to_rasterize then (none, data, font)
          else (some info, data, font)
      else (some info, data, font)
    | none =>
      -- inserted: a value-initialised entry
      let font := font.set_glyph glyph {}
      let (face, data) := identify_font_face_for_glyph ft data glyph
      if ¬ (resize_font ft face font.font_size).1 then (none, data, font)
      else
        match ft.load_char face font.font_size glyph with
        | Except.error _ => (none, data, font)
        | Except.ok slot =>
          -- the wrap test, the metrics, the texture coordinates, the cursor, the face
          let info : UnicodeGlyphInfo := { info := placed_info data slot, face := some face }
          let data := advance_cursor data slot
          let font := font.set_glyph glyph info
          if rasterize = Rasterize.Yes then
            let (ok, data, info) := rasterize_cached_glyph ft data font info glyph
            let info := { info with failed_to_rasterize := !ok }
            let font := font.set_glyph glyph info
            if info.failed_to_rasterize then (none, data, font)
            else (some info, data, font)
          else (some info, data, font)

/-- The three colour filters `default_color_filter`, `whitespace_glyph_color_filter`
and `carriage_return_glyph_color_filter`, by name. -/
inductive ColorFilter where
  | default_color
  | whitespace
  | carriage_return
deriving DecidableEq, Repr

/-- The struct `GlyphExtractResult`. -/
structure GlyphExtractResult where
  info : CharInfo
  x_advance : Int
  color_filter : ColorFilter
deriving DecidableEq

/-- The part of `extract_glyph_info` after the block `if (glyph >= CharInfoCount)`: the
markers for whitespace, carriage return and tab, the control characters, and the lookup
in the table `infos`. -/
def standard_glyph_info (font : CachedFont) (tabstop : Int) (glyph : Nat)
    (render_whitespace : Bool) : GlyphExtractResult :=
  let filter := ColorFilter.default_color
  let (glyph, filter) :=
    if glyph = 32 ∧ render_whitespace then (SpecialGlyph.Whitespace, ColorFilter.whitespace)
    else (glyph, filter)
  let (glyph, filter) :=
    if glyph = 13 then (SpecialGlyph.CarriageReturn, ColorFilter.carriage_return)
    else (glyph, filter)
  if glyph = 9 then
    let (glyph, filter) := (SpecialGlyph.Tab, ColorFilter.whitespace)
    -- Compute the additional advance factor (based on the tab character glyph or the
    -- whitespace glyph if render whitespace is off).
    let (glyph, filter) :=
      if ¬ render_whitespace then (32, ColorFilter.default_color) else (glyph, filter)
    let advance_x := (font.infos glyph).ax * tabstop
    { info := font.infos glyph, x_advance := advance_x, color_filter := filter }
  else
    -- If we still somehow have a control character, don't render it.
    let glyph := if glyph < ValidCharStart then 63 else glyph
    { info := font.infos glyph, x_advance := (font.infos glyph).ax, color_filter := filter }

/-- The function `extract_glyph_info`: the result, the data and the font afterwards;
`tabstop` is `rep(tabstop)`, `render_whitespace` is `is_yes(render_whitespace)`. -/
def extract_glyph_info (ft : FreeType) (data : Data) (font : CachedFont) (tabstop : Int)
    (glyph : Nat) (rasterize : Rasterize) (render_whitespace : Bool) :
    GlyphExtractResult × Data × CachedFont :=
  if glyph ≥ CharInfoCount then
    -- Sentinel value.
    if glyph = UTF8.invalid_codepoint then
      (standard_glyph_info font tabstop 63 render_whitespace, data, font)
    else
      match request_cached_glyph ft data font glyph rasterize with
      | (some info, data, font) =>
        ({ info := info.info, x_advance := info.info.ax
           color_filter := ColorFilter.default_color }, data, font)
      -- Either the glyph failed to rasterize or there's simply no mapping for it.
      | (none, data, font) => (standard_glyph_info font tabstop 63 render_whitespace, data, font)
  else (standard_glyph_info font tabstop glyph render_whitespace, data, font)

/-- The local variables of `populate_standard_glyphs` that its loops update: the pen
`x`, `y`, the height of the row, the table `font->infos` and the shared texture. -/
structure PopulateState where
  x : Nat
  y : Nat
  max_glyph_height_for_row : Nat
  infos : Nat → CharInfo
  texture : List GlyphEntry

/-- The body shared by the two loops of `populate_standard_glyphs`, once the glyph is
loaded and rendered: the wrap test, the entry of `font->infos`, the upload and the
advance of the pen. -/
def populate_step (font_size : Int) (width height : Nat) (st : PopulateState)
    (e : SpecialGlyphEntry) (slot : GlyphSlot) : PopulateState :=
  let wrap : Bool := st.x + slot.bitmap_width > width
  let y := if wrap then st.y + st.max_glyph_height_for_row else st.y
  let x := if wrap then 0 else st.x
  let max_height := if wrap then 0 else st.max_glyph_height_for_row
  let info : CharInfo :=
    { ax := slot.advance_x >>> 6
      ay := slot.advance_y >>> 6
      bw := slot.bitmap_width
      bh := slot.bitmap_rows
      bl := slot.bitmap_left
      bt := slot.bitmap_top
      tx := (x : ℚ) / (width : ℚ)
      ty := (y : ℚ) / (height : ℚ) }
  let entry : GlyphEntry :=
    { offset_x := x, offset_y := y, width := slot.bitmap_width,
      height := slot.bitmap_rows, owner := GlyphOwner.standard font_size e.index }
  { x := x + slot.bitmap_width
    y := y
    max_glyph_height_for_row := max max_height slot.bitmap_rows
    infos := Function.update st.infos e.index info
    texture := st.texture ++ [entry] }

/-- The two loops of `populate_standard_glyphs`, over the (index, character) pairs still
to do; `Except.error` is the early `return false` with the message handed to the
reporter, together with the state at that point. -/
def populate_loop (ft : FreeType) (face : Nat) (font_size : Int) (width height : Nat) :
    List SpecialGlyphEntry → PopulateState → Except (String × PopulateState) PopulateState
  | [], st => Except.ok st
  | e :: rest, st =>
    match ft.load_char face font_size e.glyph with
    | Except.error log => Except.error ("Failed to load the glyph: " ++ log, st)
    | Except.ok slot =>
      match ft.render_glyph face font_size e.glyph with
      | Except.error log => Except.error ("Failed to render the glyph: " ++ log, st)
      | Except.ok _ =>
        populate_loop ft face font_size width height rest
          (populate_step font_size width height st e slot)

/-- The characters of the first loop of `populate_standard_glyphs`:
`i = ValidCharStart, ..., CharInfoCount - 1`, each stored at its own index. -/
def standard_glyphs : List SpecialGlyphEntry :=
  (List.range (CharInfoCount - ValidCharStart)).map
    (fun k => { index := ValidCharStart + k, glyph := ValidCharStart + k })

/-- The function `populate_standard_glyphs`: the result, the messages handed to the
reporter, the data and the font afterwards. -/
def populate_standard_glyphs (ft : FreeType) (data : Data) (font : CachedFont) :
    Bool × List String × Data × CachedFont :=
  let face := data.face
  let st : PopulateState :=
    { x := data.next_x, y := data.next_y
      max_glyph_height_for_row := data.cur_row_max_height
      infos := font.infos, texture := data.texture }
  match resize_font ft face font.font_size with
  | (false, msgs) => (false, msgs, data, font)
  | (true, _) =>
    match populate_loop ft face font.font_size data.width data.height standard_glyphs st with
    | Except.error (msg, st) =>
      (false, [msg], { data with texture := st.texture }, { font with infos := st.infos })
    | Except.ok st =>
      -- Special glyphs.
      match populate_loop ft face font.font_size data.width data.height special_glyph_map st
        with
      | Except.error (msg, st) =>
        (false, [msg], { data with texture := st.texture }, { font with infos := st.infos })
      | Except.ok st =>
        -- Start on the row just under the standard glyphs.
        let data := { data with
          texture := st.texture
          unicode_row_start := st.y + st.max_glyph_height_for_row }
        let data := { data with next_y := data.unicode_row_start }
        let data := { data with next_x := 0 }
        let data := { data with cur_row_max_height := 0 }
        (true, [], data, { font with infos := st.infos })

/-- The function `try_set_font_size`: the result, the messages handed to the reporter
and the data afterwards; `selected_font` points at the entry of `size`. -/
def try_set_font_size (ft : FreeType) (data : Data) (size : Int) :
    Bool × List String × Data :=
  match data.cached_fonts size with
  | some _ =>
    -- not inserted
    (true, [], { data with selected_font := some size })
  | none =>
    let font : CachedFont := {}
    let data := { data with selected_font := some size }
    -- Let's also clear the existing unicode cache.
    let font := { font with font_size := size }
    let font := { font with cached_glyphs_map := fun _ => none }
    let (ok, msgs, data, font) := populate_standard_glyphs ft data font
    (ok, msgs, { data with cached_fonts := Function.update data.cached_fonts size (some font) })

/-- The state of `Atlas::Data` after a successful `Atlas::init`: the primary face is
loaded, everything else is value-initialised. -/
def Data.after_init (face : Nat) : Data := { face := face }

/-- The method `Atlas::populate_atlas`: the result and the data afterwards. -/
def populate_atlas (ft : FreeType) (data : Data) : Bool × Data :=
  let data := { data with width := texture_width }
  let data := { data with height := texture_height }
  let (ok, _, data) := try_set_font_size ft data default_font_size
  (ok, data)

/-- The class `RenderFontContext`: the font it is bound to (the key of the entry its
`CachedFont*` points at), the tabstop and the whitespace switch; the two custom colours
do not influence the layout. -/
structure RenderFontContext where
  font : Int
  tabs : Int := 1
  render_ws : Bool := false
deriving DecidableEq

/-- The method `Atlas::render_font_context`: the context and the data afterwards. -/
def render_font_context (ft : FreeType) (data : Data) (size : Int) : RenderFontContext × Data :=
  let (_, _, data) := try_set_font_size ft data size
  ({ font := size }, data)

/-- A call of `extract_glyph_info` through a context: the font the context points at is
read from the map and written back. A context whose font is gone (after
`try_load_font_face`) dangles; the call is then left out. -/
def RenderFontContext.extract (ft : FreeType) (ctx : RenderFontContext) (data : Data)
    (glyph : Nat) (rasterize : Rasterize) : Option GlyphExtractResult × Data :=
  match data.cached_fonts ctx.font with
  | none => (none, data)
  | some font =>
    let (result, data, font) :=
      extract_glyph_info ft data font ctx.tabs glyph rasterize ctx.render_ws
    (some result,
      { data with cached_fonts := Function.update data.cached_fonts ctx.font (some font) })

namespace RenderFontContext

end RenderFontContext

/-- A call on the atlas: `render_font_context(size)`, or one `extract_glyph_info` call
made through a context by a `measure_*` or `render_*` method (rasterizing or not). -/
inductive AtlasOp where
  | render_font_context (size : Int)
  | glyph (ctx : RenderFontContext) (glyph : Nat) (rasterize : Rasterize)

/-- The data after one call on the atlas. -/
def AtlasOp.apply (ft : FreeType) (data : Data) : AtlasOp → Data
  | AtlasOp.render_font_context size => (Glyph.render_font_context ft data size).2
  | AtlasOp.glyph ctx cp rasterize => (ctx.extract ft data cp rasterize).2

/-- The data after a sequence of calls on the atlas. -/
def run_atlas (ft : FreeType) (data : Data) : List AtlasOp → Data
  | [] => data
  | op :: ops => run_atlas ft (op.apply ft data) ops

/-- Every `populate_standard_glyphs` run of a sequence of calls completes: each
`render_font_context` call has `try_set_font_size` return `true`. -/
def populates_complete (ft : FreeType) (data : Data) : List AtlasOp → Bool
  | [] => true
  | AtlasOp.render_font_context size :: ops =>
    (try_set_font_size ft data size).1
      && populates_complete ft (render_font_context ft data size).2 ops
  | AtlasOp.glyph ctx cp rasterize :: ops =>
    populates_complete ft (ctx.extract ft data cp rasterize).2 ops

/-- The metrics of the glyph entry a label names: an entry of the table `infos` of a
resident font, or an entry of its dynamic map. -/
def entry_info (data : Data) : GlyphOwner → Option CharInfo
  | GlyphOwner.standard font_size index =>
    match data.cached_fonts font_size with
    | none => none
    | some font => if index < TotalCharInfoCount then some (font.infos index) else none
  | GlyphOwner.cached font_size glyph =>
    match data.cached_fonts font_size with
    | none => none
    | some font =>
      match font.cached_glyphs_map glyph with
      | none => none
      | some info => some info.info
  | GlyphOwner.blank => none

/-- The atlas column of a glyph, as `rasterize_cached_glyph` recovers it from `tx`. -/
def CharInfo.atlas_x (data : Data) (c : CharInfo) : Nat := to_uint (c.tx * data.width)

/-- The atlas row of a glyph, as `rasterize_cached_glyph` recovers it from `ty`. -/
def CharInfo.atlas_y (data : Data) (c : CharInfo) : Nat := to_uint (c.ty * data.height)

/-- Two half-open rectangles `[x, x + w) x [y, y + h)` share a pixel. -/
def rects_overlap (x1 y1 w1 h1 x2 y2 w2 h2 : Nat) : Prop :=
  max x1 x2 < min (x1 + w1) (x2 + w2) ∧ max y1 y2 < min (y1 + h1) (y2 + h2)

/-- The atlas rectangles of two glyphs overlap. -/
def glyphs_overlap (data : Data) (a b : CharInfo) : Prop :=
  rects_overlap (a.atlas_x data) (a.atlas_y data) a.bw a.bh
    (b.atlas_x data) (b.atlas_y data) b.bw b.bh

instance (x1 y1 w1 h1 x2 y2 w2 h2 : Nat) : Decidable (rects_overlap x1 y1 w1 h1 x2 y2 w2 h2) := by
  unfold rects_overlap; infer_instance

instance (data : Data) (a b : CharInfo) : Decidable (glyphs_overlap data a b) := by
  unfold glyphs_overlap; infer_instance

/-- The atlas data after `init` with primary face `face` and `populate_atlas`. -/
def Data.populated (ft : FreeType) (face : Nat) : Data :=
  (populate_atlas ft (Data.after_init face)).2

/-- The number of `submit_glyph_data` calls made for the glyph a label names. -/
def upload_count (data : Data) (owner : GlyphOwner) : Nat :=
  (data.texture.filter (fun e => e.owner = owner)).length

/-- The dynamic entry of codepoint `cp` in the font of size `s`, if resident. -/
def cached_entry (data : Data) (s : Int) (cp : Nat) : Option UnicodeGlyphInfo :=
  match data.cached_fonts s with
  | none => none
  | some font => font.cached_glyphs_map cp

/-- The flag `rasterized` of an optional entry; an absent entry counts as not
rasterized. -/
def is_rasterized (entry : Option UnicodeGlyphInfo) : Bool :=
  match entry with
  | some e => e.rasterized
  | none => false

/-- The flag `failed_to_rasterize` of an optional entry; an absent entry counts as not
failed. -/
def has_failed (entry : Option UnicodeGlyphInfo) : Bool :=
  match entry with
  | some e => e.failed_to_rasterize
  | none => false

/-- Every resident font has its key as `font_size`. -/
def font_keys_consistent (data : Data) : Prop :=
  ∀ s font, data.cached_fonts s = some font → font.font_size = s

/-- The uploads agree with the flags: the pixels of a dynamic entry have been submitted
once if the entry is marked `rasterized`, and never otherwise. -/
def uploads_match_flags (data : Data) : Prop :=
  ∀ s cp, upload_count data (GlyphOwner.cached s cp)
    = if is_rasterized (cached_entry data s cp) then 1 else 0

/-- An entry marked `failed_to_rasterize` is not marked `rasterized`. -/
def failures_unrasterized (data : Data) : Prop :=
  ∀ s cp, has_failed (cached_entry data s cp) = true →
    is_rasterized (cached_entry data s cp) = false

/-- The invariant of the dynamic glyph cache. -/
def cache_invariant (data : Data) : Prop :=
  font_keys_consistent data ∧ uploads_match_flags data ∧ failures_unrasterized data

/-- Dynamic entries exist only for codepoints outside the standard table, and never for
the invalid codepoint. -/
def entries_outside_table (data : Data) : Prop :=
  ∀ s cp, cached_entry data s cp ≠ none → CharInfoCount ≤ cp ∧ cp ≠ UTF8.invalid_codepoint

/-- The result of `extract_glyph_info` when the request for the glyph is refused: the
standard glyph of the question mark, with the default colour filter. -/
def question_mark (font : CachedFont) : GlyphExtractResult :=
  { info := font.infos 63, x_advance := (font.infos 63).ax
    color_filter := ColorFilter.default_color }

/-- Every dynamic entry that has a face stores the metrics FreeType gives for that face,
the font size and the codepoint. -/
def metrics_consistent (ft : FreeType) (data : Data) : Prop :=
  ∀ s font cp e face, data.cached_fonts s = some font →
    font.cached_glyphs_map cp = some e → e.face = some face →
    ∃ slot, ft.load_char face s cp = Except.ok slot ∧ e.info.with_metrics slot = e.info

/-- The request that a text loop makes for codepoint `cp` is answered: either
`extract_glyph_info` makes no request for it, or `request_cached_glyph` returns a glyph
(not `nullptr`, which has `extract_glyph_info` fall back to the question mark). -/
def request_answered (ft : FreeType) (ctx : RenderFontContext) (data : Data) (cp : Nat)
    (rasterize : Rasterize) : Bool :=
  if cp ≥ CharInfoCount ∧ cp ≠ UTF8.invalid_codepoint then
    match data.cached_fonts ctx.font with
    | none => true
    | some font => (request_cached_glyph ft data font cp rasterize).1.isSome
  else true

/-- A rectangle at `(cx, cy)` of size `bw` x `bh` lies in the part of the atlas that the
packing cursor `(x, y)` with row height `max_height` has passed: it ends above the
current row, or lies in the current row left of the cursor and is no taller than the
row. -/
def behind_cursor (x y max_height cx cy bw bh : Nat) : Prop :=
  cy + bh ≤ y ∨ (cy = y ∧ cx + bw ≤ x ∧ bh ≤ max_height)

/-- A family of glyph entries is packed in an atlas of `width` x `height` with cursor
`(x, y)` and row height `max_height`: every rectangle is behind the cursor, and the
rectangles of two entries do not overlap. -/
def packed_entries (width height : Nat) (entries : GlyphOwner → Option CharInfo)
    (x y max_height : Nat) : Prop :=
  (∀ o c, entries o = some c →
    behind_cursor x y max_height (to_uint (c.tx * width)) (to_uint (c.ty * height)) c.bw c.bh)
  ∧ ∀ o1 o2 c1 c2, o1 ≠ o2 → entries o1 = some c1 → entries o2 = some c2 →
      ¬ rects_overlap (to_uint (c1.tx * width)) (to_uint (c1.ty * height)) c1.bw c1.bh
          (to_uint (c2.tx * width)) (to_uint (c2.ty * height)) c2.bw c2.bh

/-- The packing invariant of the atlas. -/
def packed (data : Data) : Prop :=
  0 < data.width ∧ 0 < data.height
    ∧ packed_entries data.width data.height (entry_info data)
        data.next_x data.next_y data.cur_row_max_height

/-- The glyph entries while `populate_standard_glyphs` fills the table `infos` of a font
of size `size` that is not in the font table yet: those of the resident fonts, and the
table being filled. -/
def populate_entries (data : Data) (size : Int) (infos : Nat → CharInfo) :
    GlyphOwner → Option CharInfo
  | GlyphOwner.standard font_size index =>
    if font_size = size then some (infos index)
    else entry_info data (GlyphOwner.standard font_size index)
  | o => entry_info data o

/-- A FreeType whose every glyph bitmap is `size / 2` wide and `size` tall; ASCII
characters advance by half the size, all others by the full size. There are no fallback
fonts and nothing fails. -/
def FreeType.proportional : FreeType :=
  { files_in_dir := []
    new_face := fun _ => Except.error "no such file"
    get_char_index := fun _ c => c
    set_pixel_sizes := fun _ _ => Except.ok ()
    load_char := fun _ size c => Except.ok
      { advance_x := if c < 128 then 32 * size else 64 * size
        advance_y := 0
        bitmap_width := (size / 2).toNat
        bitmap_rows := size.toNat
        bitmap_left := 0
        bitmap_top := size }
    render_glyph := fun _ _ _ => Except.ok () }

/-- The FreeType `proportional`, except that loading `B` at pixel size 10 fails. -/
def FreeType.failing_at_B : FreeType :=
  { FreeType.proportional with
    load_char := fun face size c =>
      if size = 10 ∧ c = 66 then Except.error "invalid opcode"
      else FreeType.proportional.load_char face size c }

/-! ### `try_load_font_face`, `font_family`, the colour filters and `glyph_count_to_point` -/

/-- The method `Atlas::font_family`. -/
def font_family (ft : FreeType) (data : Data) : String := ft.family_name data.face

/-- The struct `CustomContextColors`. -/
structure CustomContextColors where
  whitespace : Vec4f
  carriage_return : Vec4f
deriving DecidableEq

/-- The constant `sentinel_color = hex_to_vec4f(0x00000000)`, the two custom colours of
a new `RenderFontContext`. -/
def sentinel_color : Vec4f := ⟨0, 0, 0, 0⟩

/-- The call `filter(&color, &colors)` of one of the three colour filters. -/
def ColorFilter.apply : ColorFilter → Vec4f → CustomContextColors → Vec4f
  | ColorFilter.default_color, color, _ => color
  | ColorFilter.whitespace, _, colors => colors.whitespace
  | ColorFilter.carriage_return, _, colors => colors.carriage_return

/-- The `submit_glyph_data` calls of the two loops of `try_load_font_face` that clear the
texture: zeroed blocks of 64 x 64, `x` in the outer loop and `y` in the inner one. -/
def clear_blocks : List GlyphEntry :=
  (List.range (texture_width / 64)).flatMap (fun x =>
    (List.range (texture_height / 64)).map (fun y =>
      { offset_x := x * 64, offset_y := y * 64, width := 64, height := 64
        owner := GlyphOwner.blank }))

/-- A reporter that queues each message as an error on the feed. -/
def report_errors (feed : Feed.MessageFeed) (msgs : List String) : Feed.MessageFeed :=
  msgs.foldl Feed.queue_error feed

/-- The method `Atlas::try_load_font_face`: the data and the feed afterwards. -/
def try_load_font_face (ft : FreeType) (data : Data) (path : String)
    (feed : Feed.MessageFeed) : Data × Feed.MessageFeed :=
  match ft.new_face path with
  | Except.error log =>
    (data, Feed.queue_error feed ("Failed to load font file '" ++ path ++ "': " ++ log))
  | Except.ok new_face =>
    let (resize_success, msgs) := resize_font ft new_face default_font_size
    let feed := report_errors feed msgs
    if ¬ resize_success then (data, feed)
    else
      -- At this point we can set the new font.
      let data := { data with face := new_face }
      -- Clear the data bounds for the texture.
      let data := { data with next_x := 0 }
      let data := { data with next_y := 0 }
      let data := { data with cur_row_max_height := 0 }
      let data := { data with unicode_row_start := 0 }
      -- We must clear the existing texture.
      let data := { data with texture := data.texture ++ clear_blocks }
      -- Clear out all cached fonts.
      let data := { data with cached_fonts := fun _ => none }
      -- Populate a default font.
      let (success, msgs, data) := try_set_font_size ft data default_font_size
      let feed := report_errors feed msgs
      if success then (data, Feed.queue_info feed "Font loaded.")
      else (data, feed)

/-- The data of `try_load_font_face` once the new face is set, the bounds are cleared,
the texture is overwritten and the cached fonts are cleared, before the default font is
populated. -/
def Data.reset_for_face (data : Data) (new_face : Nat) : Data :=
  { data with
    face := new_face, next_x := 0, next_y := 0, cur_row_max_height := 0
    unicode_row_start := 0, texture := data.texture ++ clear_blocks
    cached_fonts := fun _ => none }

/-- A call on the atlas, `try_load_font_face` included. -/
inductive AtlasCall where
  | populate_atlas
  | op (o : AtlasOp)
  | try_load_font_face (path : String)

/-- The data after one call on the atlas; the feed is left out. -/
def AtlasCall.apply (ft : FreeType) (data : Data) : AtlasCall → Data
  | AtlasCall.populate_atlas => (Glyph.populate_atlas ft data).2
  | AtlasCall.op o => o.apply ft data
  | AtlasCall.try_load_font_face path => (Glyph.try_load_font_face ft data path []).1

/-- The data after a sequence of calls on the atlas. -/
def run_calls (ft : FreeType) (data : Data) : List AtlasCall → Data
  | [] => data
  | c :: cs => run_calls ft (c.apply ft data) cs

/-- The first face, in list order, among the loaded fallback faces (the sentinel left
out) that has a non-zero glyph index for the codepoint. -/
def first_fallback_with_glyph (ft : FreeType) (glyph : Nat) (faces : List (Option Nat)) :
    Option Nat :=
  (faces.filterMap id).find? (fun face => ft.get_char_index face glyph ≠ 0)

namespace RenderFontContext

/-- The `while` loop of `glyph_count_to_point`, for at most `fuel` iterations; `none`
when the fuel runs out or the context dangles. The result is the count returned and the
data afterwards. -/
def glyph_count_loop (ft : FreeType) (ctx : RenderFontContext) (x_point : ℚ) :
    Nat → UTF8.CodepointWalker → Data → Nat → ℚ → Option (Nat × Data)
  | 0, _, _, _, _ => none
  | fuel + 1, walker, data, count, running_length =>
    if walker.exhausted then some (count, data)
    else
      match ctx.extract ft data walker.next.1 Rasterize.No with
      | (none, _) => none
      | (some r, data) =>
        let running_length := running_length + r.x_advance
        if running_length ≥ x_point then
          -- Let's do something nice.  If the point is > 50% of this glyph width, then we
          -- will move the count forward.
          let threshold := (r.x_advance : ℚ) / 2
          let threshold_length := (running_length - r.info.ax) + threshold
          if threshold_length ≥ x_point then some (count, data)
          else glyph_count_loop ft ctx x_point fuel walker.next.2 data (count + 1) running_length
        else glyph_count_loop ft ctx x_point fuel walker.next.2 data (count + 1) running_length

/-- The method `glyph_count_to_point`, with the loop bounded by `fuel`. -/
def glyph_count_to_point (ft : FreeType) (ctx : RenderFontContext) (fuel : Nat) (data : Data)
    (text : List (Fin 256)) (x_point : ℚ) : Option (Nat × Data) :=
  glyph_count_loop ft ctx x_point fuel (UTF8.CodepointWalker.create text 0) data 0 0

/-- The results of the `extract_glyph_info` calls that a metrics-only loop over the text
makes (`measure_text`, `glyph_count_to_point` when it does not return early), in order. -/
def lookup_loop (ft : FreeType) (ctx : RenderFontContext) :
    Nat → UTF8.CodepointWalker → Data → Option (List GlyphExtractResult)
  | 0, _, _ => none
  | fuel + 1, walker, data =>
    if walker.exhausted then some []
    else
      match ctx.extract ft data walker.next.1 Rasterize.No with
      | (none, _) => none
      | (some r, data) =>
        match lookup_loop ft ctx fuel walker.next.2 data with
        | none => none
        | some rs => some (r :: rs)

end RenderFontContext

/-- The number of leading glyphs whose midpoint lies before `x`: the pen position before
the glyph plus half of its x-advance is less than `x`. -/
def midpoints_before (x : ℚ) : List ℚ → ℚ → Nat
  | [], _ => 0
  | advance :: rest, pen =>
    if pen + advance / 2 < x then 1 + midpoints_before x rest (pen + advance) else 0

/-- The FreeType `proportional`, except that U+4E2D cannot be loaded. -/
def FreeType.without_4E2D : FreeType :=
  { FreeType.proportional with
    load_char := fun face size c =>
      if c = 0x4E2D then Except.error "invalid glyph"
      else FreeType.proportional.load_char face size c }

/-- The FreeType `proportional` with a second font file whose face 2 can be sized but
whose capital `B` cannot be loaded. -/
def FreeType.second_face_failing : FreeType :=
  { FreeType.proportional with
    new_face := fun path =>
      if path = "broken.ttf" then Except.ok 2 else Except.error "cannot open resource"
    load_char := fun face size c =>
      if face = 2 ∧ c = 66 then Except.error "invalid opcode"
      else FreeType.proportional.load_char face size c }

/-- The FreeType `proportional` with a second font file, whose face is face 2. -/
def FreeType.two_faces : FreeType :=
  { FreeType.proportional with
    new_face := fun path =>
      if path = "other.ttf" then Except.ok 2 else Except.error "cannot open resource"
    family_name := fun face => if face = 2 then "Other" else "Primary" }

/-- A FreeType with three files in the fallback-fonts folder: `a.ttf` loads as face 10,
`b.ttf` does not load, `c.ttf` loads as face 12. The primary face has the codepoints
below U+3000, face 10 has everything but U+4E2D, face 12 has everything. -/
def FreeType.with_fallbacks : FreeType :=
  { FreeType.proportional with
    files_in_dir := ["a.ttf", "b.ttf", "c.ttf"]
    new_face := fun path =>
      if path = "a.ttf" then Except.ok 10
      else if path = "c.ttf" then Except.ok 12
      else Except.error "unknown file format"
    get_char_index := fun face c =>
      if face = 10 then (if c = 0x4E2D then 0 else c)
      else if face = 12 then c
      else if c < 0x3000 then c else 0 }

/-- The texture coordinate that `request_cached_glyph` stores for an atlas position, in
single precision: `static_cast<float>(x) / static_cast<float>(data->width)`. -/
def texture_coordinate_single (x width : Nat) : Single.Value :=
  Single.div (Single.of_nat x) (Single.of_nat width)

/-- The atlas position that `rasterize_cached_glyph` recovers from a texture coordinate,
in single precision: `static_cast<FT_UInt>(info->info.tx * data->width)`. -/
def atlas_position_single (t : Single.Value) (width : Nat) : Nat :=
  Single.to_uint (Single.mul t (Single.of_nat width))

end Glyph
/-! ## Part 3: `renderer.cpp`, the vertex buffer and the drawing primitives -/

namespace Render

/-- The struct `RenderVertex`: position, colour and UV. -/
structure RenderVertex where
  pos : Vec2f
  color : Vec4f
  uv : Vec2f
deriving DecidableEq

/-- The constant `vertex_cap`. -/
def vertex_cap : Nat := 3 * 25000

/-- The primitive mode of a `glDrawArrays` call. -/
inductive Primitive where
  | Triangles
  | LineStrip
deriving DecidableEq, Repr

/-- One `glDrawArrays(mode, 0, count)` call, with the GL buffer contents it reads. -/
structure DrawCall where
  mode : Primitive
  count : Nat
  data : List RenderVertex
deriving DecidableEq

/-- The assertion that stopped a debug build. -/
inductive AssertFailure where
  | capacity
  | ownership
deriving DecidableEq, Repr

/-- The global data shared across all renderer instances that the drawing primitives
touch: the array `vertices`, `vertices_flush_count`, the debug-only `current_renderer`
(a renderer instance is a number, `nullptr` is `none`), the contents of the GL array
buffer, and the draw calls issued so far (oldest first). -/
structure Globals where
  vertices : Nat → RenderVertex
  vertices_flush_count : Nat
  current_renderer : Option Nat
  vbo : Nat → RenderVertex
  draw_calls : List DrawCall

/-- The state at program start: zero-initialised arrays, nothing staged, nothing drawn. -/
def Globals.initial : Globals :=
  { vertices := fun _ => ⟨⟨0, 0⟩, ⟨0, 0, 0, 0⟩, ⟨0, 0⟩⟩
    vertices_flush_count := 0
    current_renderer := none
    vbo := fun _ => ⟨⟨0, 0⟩, ⟨0, 0, 0, 0⟩, ⟨0, 0⟩⟩
    draw_calls := [] }

/-- The method `populate_buffer`: `glBufferSubData` of the first
`vertices_flush_count` vertices. -/
def populate_buffer (g : Globals) : Globals :=
  { g with vbo := fun i => if i < g.vertices_flush_count then g.vertices i else g.vbo i }

/-- A `glDrawArrays(mode, 0, vertices_flush_count)` call. -/
def draw_arrays (mode : Primitive) (g : Globals) : Globals :=
  { g with draw_calls := g.draw_calls ++
      [{ mode := mode, count := g.vertices_flush_count,
         data := (List.range g.vertices_flush_count).map g.vbo }] }

/-- The method `draw`. -/
def draw (g : Globals) : Globals := draw_arrays Primitive.Triangles g

/-- The method `flush`. -/
def flush (g : Globals) : Globals :=
  let g := populate_buffer g
  let g := draw g
  { g with vertices_flush_count := 0, current_renderer := none }

/-- The function `dummy_cull`. -/
def dummy_cull (g : Globals) : Globals := g

/-- The function `cull_vertices`. -/
def cull_vertices (g : Globals) : Globals := flush g

/-- The table `cullers`, indexed by a `bool`: entry 0 culls, entry 1 does nothing. -/
def cullers (index : Bool) : Globals → Globals :=
  if index then dummy_cull else cull_vertices

/-- The function `render_vertex`. -/
def render_vertex (g : Globals) (target : RenderVertex) : Except AssertFailure Globals :=
  -- assert(vertices_flush_count < vertex_cap);
  if ¬ (g.vertices_flush_count < vertex_cap) then Except.error AssertFailure.capacity
  else
    let g := { g with vertices := Function.update g.vertices g.vertices_flush_count target }
    let g := { g with vertices_flush_count := g.vertices_flush_count + 1 }
    Except.ok (cullers (decide (g.vertices_flush_count % vertex_cap ≠ 0)) g)

/-- The function `render_triangle`. -/
def render_triangle (g : Globals) (p0 p1 p2 : Vec2f) (c0 c1 c2 : Vec4f) (uv0 uv1 uv2 : Vec2f) :
    Except AssertFailure Globals := do
  let g ← render_vertex g { pos := p0, color := c0, uv := uv0 }
  let g ← render_vertex g { pos := p1, color := c1, uv := uv1 }
  render_vertex g { pos := p2, color := c2, uv := uv2 }

/-- The function `render_quad`. -/
def render_quad (g : Globals) (p0 p1 p2 p3 : Vec2f) (c0 c1 c2 c3 : Vec4f)
    (uv0 uv1 uv2 uv3 : Vec2f) : Except AssertFailure Globals := do
  let g ← render_triangle g p0 p1 p2 c0 c1 c2 uv0 uv1 uv2
  render_triangle g p1 p2 p3 c1 c2 c3 uv1 uv2 uv3

/-- The debug-build prologue of `solid_rect` and `render_image`:
`assert(current_renderer == nullptr or current_renderer == this)`, then
`current_renderer = this`. -/
def claim_buffer (g : Globals) (this : Nat) : Except AssertFailure Globals :=
  if g.current_renderer = none ∨ g.current_renderer = some this then
    Except.ok { g with current_renderer := some this }
  else Except.error AssertFailure.ownership

/-- The method `solid_rect`. -/
def solid_rect (g : Globals) (this : Nat) (top_left size : Vec2f) (color : Vec4f) :
    Except AssertFailure Globals := do
  let g ← claim_buffer g this
  let top_left_uv : Vec2f := ⟨-1, 1⟩
  let bottom_left_uv : Vec2f := ⟨-1, -1⟩
  let top_right_uv : Vec2f := ⟨1, 1⟩
  let bottom_right_uv : Vec2f := ⟨1, -1⟩
  render_quad g
    top_left (top_left + ⟨size.x, 0⟩) (top_left + ⟨0, size.y⟩) (top_left + size)
    color color color color
    top_left_uv top_right_uv bottom_left_uv bottom_right_uv

/-- The method `render_image`. -/
def render_image (g : Globals) (this : Nat) (pos size uv_pos uv_size : Vec2f) (color : Vec4f) :
    Except AssertFailure Globals := do
  let g ← claim_buffer g this
  render_quad g
    pos (pos + ⟨size.x, 0⟩) (pos + ⟨0, size.y⟩) (pos + size)
    color color color color
    uv_pos (uv_pos + ⟨uv_size.x, 0⟩) (uv_pos + ⟨0, uv_size.y⟩) (uv_pos + uv_size)

/-- The method `strike_rect`. -/
def strike_rect (g : Globals) (this : Nat) (top_left size : Vec2f) (thickness : ℚ)
    (color : Vec4f) : Except AssertFailure Globals := do
  let strike_pos := top_left
  let strike_size := size
  -- A
  let strike_size := { strike_size with y := thickness }
  let g ← solid_rect g this strike_pos strike_size color
  -- C
  let strike_pos := { strike_pos with y := top_left.y + size.y - thickness }
  let g ← solid_rect g this strike_pos strike_size color
  -- D
  let strike_pos := { strike_pos with y := top_left.y + thickness }
  let strike_size := { strike_size with y := size.y - thickness * 2 }
  let strike_size := { strike_size with x := thickness }
  let g ← solid_rect g this strike_pos strike_size color
  -- B
  let strike_pos := { strike_pos with x := top_left.x + size.x - thickness }
  solid_rect g this strike_pos strike_size color

/-- The method `solid_circle`. -/
def solid_circle (g : Globals) (this : Nat) (center : Vec2f) (radius : ℚ) (color : Vec4f) :
    Except AssertFailure Globals :=
  let top_left := center - Vec2f.splat radius
  let size := Vec2f.splat (radius * 2)
  solid_rect g this top_left size color

/-- The method `line`; the thickness only reaches `glLineWidth`. -/
def line (g : Globals) (a b : Vec2f) (color : Vec4f) : Except AssertFailure Globals := do
  let g ← render_vertex g { pos := a, color := color, uv := ⟨0, 0⟩ }
  let g ← render_vertex g { pos := b, color := color, uv := ⟨0, 0⟩ }
  let g := populate_buffer g
  let g := draw_arrays Primitive.LineStrip g
  pure { g with vertices_flush_count := 0, current_renderer := none }

/-- A call of one of the public drawing operations by the renderer instance `this`. -/
inductive DrawOp where
  | solid_rect (this : Nat) (top_left size : Vec2f) (color : Vec4f)
  | render_image (this : Nat) (pos size uv_pos uv_size : Vec2f) (color : Vec4f)
  | strike_rect (this : Nat) (top_left size : Vec2f) (thickness : ℚ) (color : Vec4f)
  | solid_circle (this : Nat) (center : Vec2f) (radius : ℚ) (color : Vec4f)
  | line (this : Nat) (a b : Vec2f) (thickness : ℚ) (color : Vec4f)
  | flush (this : Nat)

/-- The effect of one drawing operation on the global data. -/
def DrawOp.apply (g : Globals) : DrawOp → Except AssertFailure Globals
  | DrawOp.solid_rect this top_left size color => Render.solid_rect g this top_left size color
  | DrawOp.render_image this pos size uv_pos uv_size color =>
    Render.render_image g this pos size uv_pos uv_size color
  | DrawOp.strike_rect this top_left size thickness color =>
    Render.strike_rect g this top_left size thickness color
  | DrawOp.solid_circle this center radius color =>
    Render.solid_circle g this center radius color
  | DrawOp.line _ a b _ color => Render.line g a b color
  | DrawOp.flush _ => Except.ok (Render.flush g)

/-- A sequence of drawing operations, stopping at the first assertion failure. -/
def run_ops (g : Globals) : List DrawOp → Except AssertFailure Globals
  | [] => Except.ok g
  | op :: rest =>
    match op.apply g with
    | Except.ok g => run_ops g rest
    | Except.error e => Except.error e

/-- `n` consecutive `solid_rect` calls by one renderer, with free arguments. -/
def solid_rects (g : Globals) (this : Nat) (args : Nat → Vec2f × Vec2f × Vec4f) :
    Nat → Except AssertFailure Globals
  | 0 => Except.ok g
  | n + 1 =>
    match solid_rects g this args n with
    | Except.ok g => solid_rect g this (args n).1 (args n).2.1 (args n).2.2
    | Except.error e => Except.error e

/-- The number of triangle-list draw calls issued so far, that is, of flushes. -/
def flush_count (g : Globals) : Nat :=
  (g.draw_calls.filter (fun d => d.mode = Primitive.Triangles)).length

/-- The renderer instance that makes the call. -/
def DrawOp.renderer : DrawOp → Nat
  | DrawOp.solid_rect this _ _ _ => this
  | DrawOp.render_image this _ _ _ _ _ => this
  | DrawOp.strike_rect this _ _ _ _ => this
  | DrawOp.solid_circle this _ _ _ => this
  | DrawOp.line this _ _ _ _ => this
  | DrawOp.flush this => this

/-- The outcome of a call respects the capacity: it is a state with fewer than
`vertex_cap` staged vertices, or the ownership assertion stopped it; the capacity
assertion did not fail. -/
def capacity_respected : Except AssertFailure Globals → Prop
  | Except.ok g => g.vertices_flush_count < vertex_cap
  | Except.error e => e = AssertFailure.ownership

/-- The number of vertices emitted so far: those submitted by earlier flushes, as far as
they were full buffers, plus those staged now. -/
def emitted (g : Globals) : Nat := flush_count g * vertex_cap + g.vertices_flush_count

end Render

/-! ## Part 3, continued: `glew-helpers.h` / `renderer.cpp`, the shader-program matrix -/

namespace Render

/-- The enum `VertShader` (without `Count`). -/
inductive VertShader where
  | CameraTransform
  | NoTransform
  | OneOneTransform
deriving DecidableEq, Repr

/-- The enum `FragShader` (without `Count`). -/
inductive FragShader where
  | BasicColor
  | SolidCircle
  | Image
  | Text
  | Icon
  | BasicHSV
  | BasicFade
  | BasicTextureBlend
  | CRTWarp
  | CRTEasymode
  | CRTGamemode
  | CRTEasymodeLinearize
  | CRTEasymodeBlurHoriz
  | CRTEasymodeBlurVert
  | CRTEasymodeThresh
  | CRTEasymodeHalation
deriving DecidableEq, Repr

/-- The values `0 .. count_of<VertShader> - 1`, in the order of the `for` loop. -/
def all_vert_shaders : List VertShader :=
  [VertShader.CameraTransform, VertShader.NoTransform, VertShader.OneOneTransform]

/-- The values `0 .. count_of<FragShader> - 1`, in the order of the `for` loop. -/
def all_frag_shaders : List FragShader :=
  [FragShader.BasicColor, FragShader.SolidCircle, FragShader.Image, FragShader.Text,
   FragShader.Icon, FragShader.BasicHSV, FragShader.BasicFade, FragShader.BasicTextureBlend,
   FragShader.CRTWarp, FragShader.CRTEasymode, FragShader.CRTGamemode,
   FragShader.CRTEasymodeLinearize, FragShader.CRTEasymodeBlurHoriz,
   FragShader.CRTEasymodeBlurVert, FragShader.CRTEasymodeThresh,
   FragShader.CRTEasymodeHalation]

/-- The function `builtin_vert_shader_path`. -/
def builtin_vert_shader_path : VertShader → String
  | VertShader.CameraTransform => "../shaders/transform.vert"
  | VertShader.NoTransform => "../shaders/no-transform.vert"
  | VertShader.OneOneTransform => "../shaders/1-1-scale-transform.vert"

/-- The function `builtin_frag_shader_path`. -/
def builtin_frag_shader_path : FragShader → String
  | FragShader.BasicColor => "../shaders/basic_color.frag"
  | FragShader.SolidCircle => "../shaders/solid-circle.frag"
  | FragShader.Image => "../shaders/image.frag"
  | FragShader.Icon => "../shaders/icon.frag"
  | FragShader.Text => "../shaders/text.frag"
  | FragShader.BasicHSV => "../shaders/basic-hsv.frag"
  | FragShader.BasicFade => "../shaders/basic-fade.frag"
  | FragShader.BasicTextureBlend => "../shaders/basic-texture-blend.frag"
  | FragShader.CRTWarp => "../shaders/crt-warp.frag"
  | FragShader.CRTEasymode => "../shaders/crt-easymode.frag"
  | FragShader.CRTGamemode => "../shaders/crt-gamemode.frag"
  | FragShader.CRTEasymodeLinearize => "../shaders/crt-easymode-linearize.frag"
  | FragShader.CRTEasymodeBlurHoriz => "../shaders/crt-easymode-blur-horiz.frag"
  | FragShader.CRTEasymodeBlurVert => "../shaders/crt-easymode-blur-vert.frag"
  | FragShader.CRTEasymodeThresh => "../shaders/crt-easymode-threshold.frag"
  | FragShader.CRTEasymodeHalation => "../shaders/crt-easymode-halation.frag"

/-- The enum `Glew::ShaderType`. -/
inductive ShaderType where
  | Vertex
  | Fragment
deriving DecidableEq, Repr

/-- The function `Glew::stringify`. -/
def stringify : ShaderType → String
  | ShaderType.Fragment => "Fragment"
  | ShaderType.Vertex => "Vertex"

/-- What the file system and the GL driver answer during a shader reload.
A shader or program handle is a number, the null handle is 0. -/
structure ShaderEnv where
  /-- The function `combine_paths`. -/
  combine_paths : String → String → String
  /-- The function `read_file`: the `strerror` text of the failure, or the contents. -/
  read_file : String → Except String String
  /-- The call `glCreateShader` for a source about to be compiled. -/
  create_shader : ShaderType → String → Nat
  /-- The calls `glCompileShader` and `glGetShaderiv(GL_COMPILE_STATUS)`: the info log of
  a failed compilation, or success. -/
  compile_status : ShaderType → String → Except String Unit
  /-- The call `glCreateProgram`, for the vertex and fragment shader to attach. -/
  create_program : Nat → Nat → Nat
  /-- The calls `glLinkProgram` and `glGetProgramiv(GL_LINK_STATUS)`: the info log of a
  failed link, or success. -/
  link_status : Nat → Except String Unit

/-- The function `Glew::compile_shader`; the reporter queues errors on the feed. -/
def compile_shader (env : ShaderEnv) (type : ShaderType) (src : String)
    (feed : Feed.MessageFeed) : Nat × Feed.MessageFeed :=
  let handle := env.create_shader type src
  if handle = 0 then (0, feed)
  else
    match env.compile_status type src with
    | Except.error log =>
      let feed := Feed.queue_error feed ("Unable to compile shader type '" ++ stringify type ++ "'")
      let feed := Feed.queue_error feed log
      (0, feed)
    | Except.ok _ => (handle, feed)

/-- The function `compile_shader_file`; the reporter queues errors on the feed. -/
def compile_shader_file (env : ShaderEnv) (path : String) (type : ShaderType)
    (feed : Feed.MessageFeed) : Nat × Feed.MessageFeed :=
  match env.read_file path with
  | Except.error msg =>
    (0, Feed.queue_error feed ("Failed to load '" ++ path ++ "' shader file: " ++ msg))
  | Except.ok contents =>
    let (handle, feed) := compile_shader env type contents feed
    if handle = 0 then
      (handle, Feed.queue_error feed ("Failed to compile shader file: " ++ path))
    else (handle, feed)

/-- The function `Glew::link_program`; the reporter queues errors on the feed. -/
def link_program (env : ShaderEnv) (prog : Nat) (feed : Feed.MessageFeed) :
    Bool × Feed.MessageFeed :=
  match env.link_status prog with
  | Except.error log => (false, Feed.queue_error feed ("Failed to link shaders: " ++ log ++ "\n"))
  | Except.ok _ => (true, feed)

/-- The type `ShaderProgramContainer`: a program handle for every pair. -/
abbrev ShaderProgramContainer := VertShader → FragShader → Nat

/-- The inner `for` loop of `reload_shaders` over the fragment shaders still to do;
`none` is the early `return`. -/
def reload_row (env : ShaderEnv) (asset_core_path : String) (v : VertShader) (vert_handle : Nat) :
    List FragShader → ShaderProgramContainer → Feed.MessageFeed →
    Option ShaderProgramContainer × Feed.MessageFeed
  | [], new_programs, feed => (some new_programs, feed)
  | f :: rest, new_programs, feed =>
    let shader_path := env.combine_paths asset_core_path (builtin_frag_shader_path f)
    let (frag_handle, feed) := compile_shader_file env shader_path ShaderType.Fragment feed
    if frag_handle = 0 then (none, feed)
    else
      let program := env.create_program vert_handle frag_handle
      let new_programs := Function.update new_programs v (Function.update (new_programs v) f program)
      let (linked, feed) := link_program env program feed
      if ¬ linked then (none, feed)
      else reload_row env asset_core_path v vert_handle rest new_programs feed

/-- The outer `for` loop of `reload_shaders` over the vertex shaders still to do;
`none` is the early `return`. -/
def reload_matrix (env : ShaderEnv) (asset_core_path : String) :
    List VertShader → ShaderProgramContainer → Feed.MessageFeed →
    Option ShaderProgramContainer × Feed.MessageFeed
  | [], new_programs, feed => (some new_programs, feed)
  | v :: rest, new_programs, feed =>
    let shader_path := env.combine_paths asset_core_path (builtin_vert_shader_path v)
    let (vert_handle, feed) := compile_shader_file env shader_path ShaderType.Vertex feed
    if vert_handle = 0 then (none, feed)
    else
      match reload_row env asset_core_path v vert_handle all_frag_shaders new_programs feed with
      | (none, feed) => (none, feed)
      | (some new_programs, feed) => reload_matrix env asset_core_path rest new_programs feed

/-- The method `SceneRenderer::reload_shaders`: the live matrix `shader_programs` and the
feed afterwards. -/
def reload_shaders (env : ShaderEnv) (asset_core_path : String)
    (shader_programs : ShaderProgramContainer) (feed : Feed.MessageFeed) :
    ShaderProgramContainer × Feed.MessageFeed :=
  -- ShaderProgramContainer new_programs;  (null handles)
  match reload_matrix env asset_core_path all_vert_shaders (fun _ _ => 0) feed with
  | (none, feed) => (shader_programs, feed)
  | (some new_programs, feed) =>
    -- Success!  Let's move them all over.
    (new_programs, Feed.queue_info feed "Shaders reloaded.")

/-- The shader file at `path` can be read and compiles to a non-null handle. -/
def shader_file_ok (env : ShaderEnv) (type : ShaderType) (path : String) : Prop :=
  ∃ src, env.read_file path = Except.ok src
    ∧ env.create_shader type src ≠ 0
    ∧ env.compile_status type src = Except.ok ()

/-- The vertex shader file of `v` can be read and compiles to a non-null handle. -/
def vert_ok (env : ShaderEnv) (asset_core_path : String) (v : VertShader) : Prop :=
  shader_file_ok env ShaderType.Vertex
    (env.combine_paths asset_core_path (builtin_vert_shader_path v))

/-- The fragment shader file of `f` can be read and compiles to a non-null handle. -/
def frag_ok (env : ShaderEnv) (asset_core_path : String) (f : FragShader) : Prop :=
  shader_file_ok env ShaderType.Fragment
    (env.combine_paths asset_core_path (builtin_frag_shader_path f))

/-- The handle of the compiled shader at a path (0 when it cannot be read). -/
def shader_handle (env : ShaderEnv) (type : ShaderType) (path : String) : Nat :=
  match env.read_file path with
  | Except.error _ => 0
  | Except.ok src => env.create_shader type src

/-- The program that a reload creates for the pair `(v, f)`. -/
def new_program (env : ShaderEnv) (asset_core_path : String) (v : VertShader) (f : FragShader) :
    Nat :=
  env.create_program
    (shader_handle env ShaderType.Vertex
      (env.combine_paths asset_core_path (builtin_vert_shader_path v)))
    (shader_handle env ShaderType.Fragment
      (env.combine_paths asset_core_path (builtin_frag_shader_path f)))

/-- The combination `(v, f)` reads, compiles and links. -/
def combination_ok (env : ShaderEnv) (asset_core_path : String) (v : VertShader)
    (f : FragShader) : Prop :=
  vert_ok env asset_core_path v ∧ frag_ok env asset_core_path f
    ∧ env.link_status (new_program env asset_core_path v f) = Except.ok ()

/-- An environment in which every shader file reads, compiles and links; the source of
a file is its path. -/
def ShaderEnv.working : ShaderEnv :=
  { combine_paths := fun a b => a ++ "/" ++ b
    read_file := fun path => Except.ok path
    create_shader := fun _ _ => 1
    compile_status := fun _ _ => Except.ok ()
    create_program := fun _ _ => 7
    link_status := fun _ => Except.ok () }

/-- The environment `working` with a malformed `image.frag`: it does not compile. -/
def ShaderEnv.malformed_image : ShaderEnv :=
  { ShaderEnv.working with
    compile_status := fun _ src =>
      if src = "assets/../shaders/image.frag" then Except.error "syntax error"
      else Except.ok () }

end Render

/-! ## Part 3, continued: the camera, the render-texture pool and the geometry of
`strike_rect` -/

namespace Render

/-- The struct `CameraT<float>`. -/
structure Camera where
  pos : Vec2f := ⟨0, 0⟩
  scale : Vec2f := Vec2f.splat 3
  scale_velocity : Vec2f := ⟨0, 0⟩
  velocity : Vec2f := ⟨0, 0⟩
deriving DecidableEq

/-- The constant `Constants::max_camera_zoom`. -/
def max_camera_zoom : ℚ := 3

/-- The friend `operator*` of `Vec2T`. -/
def vec2_mul (a b : Vec2f) : Vec2f := { x := a.x * b.x, y := a.y * b.y }

/-- The function `cursor_camera_transform` (the `Camera` overload; the `WorldCamera`
overload has the same body), in exact arithmetic. -/
def cursor_camera_transform (old_camera : Camera) (target : Vec2f) (target_scale_x : ℚ)
    (zoom_factor_x : ℚ) (delta_time : ℚ) : Camera :=
  let camera := old_camera
  let (target, target_scale_x) :=
    if target_scale_x > max_camera_zoom then (target, max_camera_zoom)
    -- Sometimes the camera will be set to a scale of 0.f to indicate that we're manually
    -- zooming.
    else if camera.scale.x ≠ 0 then
      let offset_x := target.x - zoom_factor_x / camera.scale.x
      let offset_x := if offset_x < 0 then 0 else offset_x
      ({ target with x := zoom_factor_x / camera.scale.x + offset_x }, target_scale_x)
    else (target, target_scale_x)
  let camera := { camera with velocity := vec2_mul (target - camera.pos) (Vec2f.splat 15) }
  let camera := { camera with
    scale_velocity := { camera.scale_velocity with x := (target_scale_x - camera.scale.x) * 10 } }
  let camera := { camera with
    pos := camera.pos + vec2_mul camera.velocity (Vec2f.splat delta_time) }
  { camera with
    scale := camera.scale + vec2_mul camera.scale_velocity (Vec2f.splat delta_time) }

/-- The struct `ScreenDimensions`. -/
structure ScreenDimensions where
  width : Int := 0
  height : Int := 0
deriving DecidableEq, Repr

/-- The struct `FramebufferData`: the GL names of the framebuffer, of its colour
attachments and of its depth attachment. -/
structure FramebufferData where
  id : Nat := 0
  attachments : List Nat := []
  depth_attachment : Nat := 0
deriving DecidableEq, Repr

/-- The struct `RenderTextureData`. -/
structure RenderTextureData where
  data : FramebufferData := {}
  size : ScreenDimensions := {}
deriving DecidableEq, Repr

/-- A node of the `std::forward_list<RenderTextureData>`: its address and its value. -/
structure RenderTextureNode where
  address : Nat
  value : RenderTextureData := {}
deriving DecidableEq, Repr

/-- The assertion of the render-texture pool that stopped a debug build: `assert(found)`
of `render_texture_data`, or `assert(removed)` of `remove_list_element`. -/
inductive PoolAssert where
  | found
  | removed
deriving DecidableEq, Repr

/-- The global `render_texture_allocator` (front of the list first), with a log of the
framebuffers whose GL objects `delete_render_texture` has freed. -/
structure TexturePool where
  render_texture_allocator : List RenderTextureNode := []
  freed : List FramebufferData := []
deriving DecidableEq, Repr

/-- The function `alloc_render_texture`; `address` is where `emplace_front` places the
new node. The handle is the address. -/
def alloc_render_texture (pool : TexturePool) (address : Nat) : TexturePool × Nat :=
  ({ pool with
      render_texture_allocator := { address := address } :: pool.render_texture_allocator },
    address)

/-- The function `render_texture_data` of debug builds: the pointer, after the check
that a node of the list has this address. -/
def render_texture_data (pool : TexturePool) (tex : Nat) : Except PoolAssert Nat :=
  let found := pool.render_texture_allocator.foldl
    (fun found e => if e.address = tex then true else found) false
  if found then Except.ok tex else Except.error PoolAssert.found

/-- The loop of `remove_list_element`: the list without the first node at address `elm`,
or `none` when the loop ends without `removed`. -/
def remove_loop : List RenderTextureNode → Nat → Option (List RenderTextureNode)
  | [], _ => none
  | first :: rest, elm =>
    if first.address = elm then some rest
    else
      match remove_loop rest elm with
      | some rest => some (first :: rest)
      | none => none

/-- The function `ListHelpers::remove_list_element`. -/
def remove_list_element (list : List RenderTextureNode) (elm : Nat) :
    Except PoolAssert (List RenderTextureNode) :=
  match remove_loop list elm with
  | some list => Except.ok list
  | none => Except.error PoolAssert.removed

/-- The function `dealloc_render_texture`. -/
def dealloc_render_texture (pool : TexturePool) (tex : Nat) : Except PoolAssert TexturePool := do
  let data ← render_texture_data pool tex
  let list ← remove_list_element pool.render_texture_allocator data
  pure { pool with render_texture_allocator := list }

/-- A write through a `RenderTextureData*`. -/
def write_node (list : List RenderTextureNode) (data : Nat) (value : RenderTextureData) :
    List RenderTextureNode :=
  list.map (fun e => if e.address = data then { e with value := value } else e)

/-- The value a `RenderTextureData*` points at. -/
def read_node (list : List RenderTextureNode) (data : Nat) : Option RenderTextureData :=
  (list.find? (fun e => e.address = data)).map (fun e => e.value)

/-- The function `init_render_texture`; `framebuffer` is what `init_framebuffer` gets
from GL. -/
def init_render_texture (pool : TexturePool) (data : Nat) (screen : ScreenDimensions)
    (framebuffer : FramebufferData) : TexturePool :=
  { pool with
    render_texture_allocator :=
      write_node pool.render_texture_allocator data { data := framebuffer, size := screen } }

/-- The method `SceneRenderer::create_render_texture`: the pool afterwards and the
handle. -/
def create_render_texture (pool : TexturePool) (address : Nat) (framebuffer : FramebufferData)
    (screen : ScreenDimensions) : Except PoolAssert (TexturePool × Nat) := do
  -- Allocate a new texture.
  let (pool, tex) := alloc_render_texture pool address
  let tex_data ← render_texture_data pool tex
  -- Setup.
  pure (init_render_texture pool tex_data screen framebuffer, tex)

/-- The function `::Render::delete_render_texture`: the GL objects of the node are
freed. -/
def free_render_texture (pool : TexturePool) (data : Nat) : TexturePool :=
  match read_node pool.render_texture_allocator data with
  | some value => { pool with freed := pool.freed ++ [value.data] }
  | none => pool

/-- The method `SceneRenderer::delete_render_texture`. -/
def delete_render_texture (pool : TexturePool) (tex : Nat) : Except PoolAssert TexturePool := do
  let tex_data ← render_texture_data pool tex
  let pool := free_render_texture pool tex_data
  dealloc_render_texture pool tex

/-- A call on the render-texture pool. -/
inductive PoolOp where
  | create (address : Nat) (framebuffer : FramebufferData) (screen : ScreenDimensions)
  | delete (tex : Nat)

/-- The pool after one call. -/
def PoolOp.apply (pool : TexturePool) : PoolOp → Except PoolAssert TexturePool
  | PoolOp.create address framebuffer screen =>
    match create_render_texture pool address framebuffer screen with
    | Except.ok (pool, _) => Except.ok pool
    | Except.error e => Except.error e
  | PoolOp.delete tex => delete_render_texture pool tex

/-- A sequence of calls on the pool, stopping at the first assertion failure. -/
def run_pool (pool : TexturePool) : List PoolOp → Except PoolAssert TexturePool
  | [] => Except.ok pool
  | op :: rest =>
    match op.apply pool with
    | Except.ok pool => run_pool pool rest
    | Except.error e => Except.error e

/-- The addresses of the live nodes, front of the list first. -/
def live (pool : TexturePool) : List Nat := pool.render_texture_allocator.map (fun e => e.address)

/-- The heap never places a new node at the address of a live one: along the calls,
every `create` gets an address that no live node has. -/
def fresh_addresses (pool : TexturePool) : List PoolOp → Prop
  | [] => True
  | op :: rest =>
    (match op with
      | PoolOp.create address _ _ => address ∉ live pool
      | PoolOp.delete _ => True)
    ∧ match op.apply pool with
      | Except.ok pool => fresh_addresses pool rest
      | Except.error _ => True

/-- The vertices staged in the buffer, oldest first. -/
def staged (g : Globals) : List RenderVertex :=
  (List.range g.vertices_flush_count).map g.vertices

/-- Every triangle-list draw call issued so far has submitted whole quads: a vertex count
divisible by 6. -/
def whole_quads_drawn (g : Globals) : Prop :=
  ∀ d ∈ g.draw_calls, d.mode = Primitive.Triangles → d.count % 6 = 0

/-- An axis-aligned rectangle, by its top-left corner and its size. -/
structure Rect where
  top_left : Vec2f
  size : Vec2f
deriving DecidableEq

/-- A point of the closed rectangle. -/
def Rect.mem (r : Rect) (p : Vec2f) : Prop :=
  r.top_left.x ≤ p.x ∧ p.x ≤ r.top_left.x + r.size.x
    ∧ r.top_left.y ≤ p.y ∧ p.y ≤ r.top_left.y + r.size.y

/-- A point of the interior of the rectangle. -/
def Rect.interior (r : Rect) (p : Vec2f) : Prop :=
  r.top_left.x < p.x ∧ p.x < r.top_left.x + r.size.x
    ∧ r.top_left.y < p.y ∧ p.y < r.top_left.y + r.size.y

/-- The six vertex positions of the quad of a rectangle, as `render_quad` orders the
corners `0 1 2` and `1 2 3`. -/
def Rect.quad (r : Rect) : List Vec2f :=
  let p0 := r.top_left
  let p1 := r.top_left + ⟨r.size.x, 0⟩
  let p2 := r.top_left + ⟨0, r.size.y⟩
  let p3 := r.top_left + r.size
  [p0, p1, p2, p1, p2, p3]

/-- The four thin rectangles of an outline of the given thickness, in the order `A`,
`C`, `D`, `B` of the comment in `strike_rect`: top, bottom, left, right. -/
def outline_rects (top_left size : Vec2f) (thickness : ℚ) : List Rect :=
  [ { top_left := top_left, size := ⟨size.x, thickness⟩ },
    { top_left := ⟨top_left.x, top_left.y + size.y - thickness⟩, size := ⟨size.x, thickness⟩ },
    { top_left := ⟨top_left.x, top_left.y + thickness⟩
      size := ⟨thickness, size.y - thickness * 2⟩ },
    { top_left := ⟨top_left.x + size.x - thickness, top_left.y + thickness⟩
      size := ⟨thickness, size.y - thickness * 2⟩ } ]

end Render
/-! ## Theorems, part 1: the UTF-8 decoder -/

namespace UTF8

theorem and_ascii_end (b : Nat) (hb : b < 256) : (b &&& ascii_end = 0) ↔ b < 0x80 := by
  have h := Nat.and_two_pow b 7
  have ht := @Nat.testBit_to_div_mod 7 b
  simp only [ascii_end]
  norm_num at h ht ⊢
  rw [h]
  by_cases hlt : b < 128
  · have : b / 128 % 2 = 0 := by omega
    simp [ht, this, hlt]
  · have : b / 128 % 2 = 1 := by omega
    simp [ht, this, hlt]

theorem shl6_or (r c : Nat) :
    ((r <<< 6) % 2 ^ 32) ||| (c &&& 0x3f) = (r % 2 ^ 26) * 64 + c % 64 := by
  have h1 : (r <<< 6) % 2 ^ 32 = 2 ^ 6 * (r % 2 ^ 26) := by
    rw [Nat.shiftLeft_eq]; omega
  have h2 : c &&& 0x3f = c % 2 ^ 6 := Nat.and_pow_two_sub_one_eq_mod c 6
  rw [h1, h2, ← Nat.mul_add_lt_is_or (Nat.mod_lt _ (by norm_num))]
  omega

theorem chop (b n : Nat) : ((b <<< n) % 256) >>> n = (b * 2 ^ n % 256) / 2 ^ n := by
  rw [Nat.shiftLeft_eq, Nat.shiftRight_eq_div_pow]

theorem accumulate_zero (input : List (Fin 256)) (pos r : Nat) :
    accumulate input 0 pos r = r := rfl

theorem accumulate_succ (input : List (Fin 256)) (n pos r : Nat) :
    accumulate input (n + 1) pos r
      = accumulate input n (pos + 1) ((r % 2 ^ 26) * 64 + byte_at input (pos + 1) % 64) := by
  simp only [accumulate, shl6_or]

theorem byte_at_lt (input : List (Fin 256)) (i : Nat) : byte_at input i < 256 :=
  (input.getD i 0).isLt

theorem byte_at_middle (pre mid suf : List (Fin 256)) (i : Nat) (hi : i < mid.length) :
    byte_at (pre ++ mid ++ suf) (pre.length + i) = byte_at mid i := by
  unfold byte_at
  rw [List.append_assoc, List.getD_append_right _ _ _ _ (by omega)]
  simp only [Nat.add_sub_cancel_left]
  rw [List.getD_append _ _ _ _ hi]

theorem length_middle (pre mid suf : List (Fin 256)) :
    (pre ++ mid ++ suf).length = pre.length + mid.length + suf.length := by
  simp only [List.length_append]

theorem ofNat_val (n : Nat) (h : n < 256) : (Fin.ofNat n : Fin 256).val = n := by
  simp [Fin.ofNat, Nat.mod_eq_of_lt h]

/-- An ASCII lead byte decodes to itself with a one-byte span. -/
theorem next_codepoint_ascii (input : List (Fin 256)) (start : Nat)
    (hs : start < input.length) (hb : byte_at input start < 0x80) :
    next_codepoint input start
      = { codepoint := byte_at input start, first := start, last := start + 1 } := by
  unfold next_codepoint
  rw [if_neg (show ¬ start ≥ input.length by omega),
    if_neg (show ¬ start = input.length by omega)]
  simp only []
  rw [if_pos ((and_ascii_end _ (byte_at_lt _ _)).2 hb)]
  rfl

/-- A lead byte with `k ≥ 2` leading one-bits and `k - 1` bytes after it decodes to a
`k`-byte span; the codepoint is what the loop accumulates from the masked lead byte. -/
theorem next_codepoint_multi (input : List (Fin 256)) (start : Nat)
    (hb : 0xC0 ≤ byte_at input start)
    (hk : start + countl_one (byte_at input start) ≤ input.length) :
    next_codepoint input start
      = { codepoint := accumulate input (countl_one (byte_at input start) - 1) start
            ((byte_at input start * 2 ^ countl_one (byte_at input start) % 256)
              / 2 ^ countl_one (byte_at input start)),
          first := start,
          last := start + countl_one (byte_at input start) } := by
  have hk2 : 2 ≤ countl_one (byte_at input start) := by
    unfold countl_one; split_ifs <;> omega
  generalize hkk : countl_one (byte_at input start) = k at hk hk2 ⊢
  have hna : ¬ (byte_at input start &&& ascii_end = 0) := by
    rw [and_ascii_end _ (byte_at_lt _ _)]; omega
  unfold next_codepoint
  rw [if_neg (show ¬ start ≥ input.length by omega),
    if_neg (show ¬ start = input.length by omega)]
  simp only []
  rw [if_neg hna, hkk, if_neg (show ¬ ((k : Int) - 1 ≤ 0) by omega)]
  have e : ((k : Int) - 1).toNat = k - 1 := by omega
  rw [e, if_neg (show ¬ start + (k - 1) ≥ input.length by omega)]
  have e2 : k - 1 + 1 = k := by omega
  simp only [e2, chop]
  rw [show start + (k - 1) + 1 = start + k by omega]

theorem byte_at_middle_zero (pre mid suf : List (Fin 256)) (hi : 0 < mid.length) :
    byte_at (pre ++ mid ++ suf) pre.length = byte_at mid 0 :=
  byte_at_middle pre mid suf 0 hi

theorem byte_at_cons_zero (a : Fin 256) (l : List (Fin 256)) : byte_at (a :: l) 0 = a.val := rfl

theorem byte_at_cons_succ (a : Fin 256) (l : List (Fin 256)) (n : Nat) :
    byte_at (a :: l) (n + 1) = byte_at l n := rfl

theorem result_ext (a b c a' b' c' : Nat) (h1 : a = a') (h2 : b = b') (h3 : c = c') :
    CodepointResult.mk a b c = CodepointResult.mk a' b' c' := by
  subst h1 h2 h3; rfl

theorem countl_one_two (b : Nat) (h1 : 0xC0 ≤ b) (h2 : b < 0xE0) : countl_one b = 2 := by
  unfold countl_one; split_ifs <;> omega

theorem countl_one_three (b : Nat) (h1 : 0xE0 ≤ b) (h2 : b < 0xF0) : countl_one b = 3 := by
  unfold countl_one; split_ifs <;> omega

theorem countl_one_four (b : Nat) (h1 : 0xF0 ≤ b) (h2 : b < 0xF8) : countl_one b = 4 := by
  unfold countl_one; split_ifs <;> omega

/-- C3. Decoding undoes encoding: for every scalar value `c` up to `0x10FFFF` (surrogates
included) and every byte string `pre ++ utf8 c ++ suf`, `next_codepoint` at offset
`|pre|` returns codepoint `c` with `first = |pre|` and `last = |pre| + |utf8 c|`; and a
byte `b < 0x80` at offset `|pre|` decodes to `b` with a one-byte span. -/
theorem next_codepoint_utf8 (c : Nat) (hc : c < 0x110000) (pre suf : List (Fin 256)) :
    next_codepoint (pre ++ utf8 c ++ suf) pre.length
        = { codepoint := c, first := pre.length, last := pre.length + (utf8 c).length }
      ∧ ∀ b : Fin 256, b.val < 0x80 →
          next_codepoint (pre ++ [b] ++ suf) pre.length
            = { codepoint := b.val, first := pre.length, last := pre.length + 1 } := by
  have ascii : ∀ b : Fin 256, b.val < 0x80 →
      next_codepoint (pre ++ [b] ++ suf) pre.length
        = { codepoint := b.val, first := pre.length, last := pre.length + 1 } := by
    intro b hb
    have hb0 : byte_at (pre ++ [b] ++ suf) pre.length = b.val :=
      byte_at_middle_zero pre [b] suf (by simp only [List.length_cons, List.length_nil]; omega)
    have hl := length_middle pre [b] suf
    simp only [List.length_singleton] at hl
    rw [next_codepoint_ascii _ _ (by omega) (by rw [hb0]; exact hb), hb0]
  refine ⟨?_, ascii⟩
  unfold utf8
  split_ifs with h1 h2 h3
  · have := ascii (Fin.ofNat c) (by rw [ofNat_val c (by omega)]; exact h1)
    rw [this, ofNat_val c (by omega)]
    rfl
  · have b0 : byte_at (pre ++ [Fin.ofNat (0xC0 + c / 64), Fin.ofNat (0x80 + c % 64)] ++ suf)
        pre.length = 0xC0 + c / 64 := by
      rw [byte_at_middle_zero _ _ _ (by simp only [List.length_cons, List.length_nil]; omega),
        byte_at_cons_zero]
      exact ofNat_val _ (by omega)
    have b1 : byte_at (pre ++ [Fin.ofNat (0xC0 + c / 64), Fin.ofNat (0x80 + c % 64)] ++ suf)
        (pre.length + 1) = 0x80 + c % 64 := by
      rw [byte_at_middle _ _ _ 1 (by simp only [List.length_cons, List.length_nil]; omega),
        byte_at_cons_succ, byte_at_cons_zero]
      exact ofNat_val _ (by omega)
    have hl := length_middle pre [Fin.ofNat (0xC0 + c / 64), Fin.ofNat (0x80 + c % 64)] suf
    have ck : countl_one (0xC0 + c / 64) = 2 := countl_one_two _ (by omega) (by omega)
    rw [next_codepoint_multi _ _ (by rw [b0]; omega)
      (by rw [b0, ck, hl]; simp only [List.length_cons, List.length_nil]; omega)]
    simp only [b0, ck, accumulate_succ, accumulate_zero, b1, List.length_cons, List.length_nil]
    exact result_ext _ _ _ _ _ _ (by omega) rfl (by omega)
  · have b0 : byte_at (pre ++ [Fin.ofNat (0xE0 + c / 4096), Fin.ofNat (0x80 + c / 64 % 64),
        Fin.ofNat (0x80 + c % 64)] ++ suf) pre.length = 0xE0 + c / 4096 := by
      rw [byte_at_middle_zero _ _ _ (by simp only [List.length_cons, List.length_nil]; omega),
        byte_at_cons_zero]
      exact ofNat_val _ (by omega)
    have b1 : byte_at (pre ++ [Fin.ofNat (0xE0 + c / 4096), Fin.ofNat (0x80 + c / 64 % 64),
        Fin.ofNat (0x80 + c % 64)] ++ suf) (pre.length + 1) = 0x80 + c / 64 % 64 := by
      rw [byte_at_middle _ _ _ 1 (by simp only [List.length_cons, List.length_nil]; omega),
        byte_at_cons_succ, byte_at_cons_zero]
      exact ofNat_val _ (by omega)
    have b2 : byte_at (pre ++ [Fin.ofNat (0xE0 + c / 4096), Fin.ofNat (0x80 + c / 64 % 64),
        Fin.ofNat (0x80 + c % 64)] ++ suf) (pre.length + 1 + 1) = 0x80 + c % 64 := by
      rw [Nat.add_assoc,
        byte_at_middle _ _ _ (1 + 1) (by simp only [List.length_cons, List.length_nil]; omega),
        byte_at_cons_succ, byte_at_cons_succ, byte_at_cons_zero]
      exact ofNat_val _ (by omega)
    have hl := length_middle pre [Fin.ofNat (0xE0 + c / 4096), Fin.ofNat (0x80 + c / 64 % 64),
        Fin.ofNat (0x80 + c % 64)] suf
    have ck : countl_one (0xE0 + c / 4096) = 3 := countl_one_three _ (by omega) (by omega)
    rw [next_codepoint_multi _ _ (by rw [b0]; omega)
      (by rw [b0, ck, hl]; simp only [List.length_cons, List.length_nil]; omega)]
    simp only [b0, ck, accumulate_succ, accumulate_zero, b1, b2, List.length_cons,
      List.length_nil]
    exact result_ext _ _ _ _ _ _ (by omega) rfl (by omega)
  · have b0 : byte_at (pre ++ [Fin.ofNat (0xF0 + c / 262144), Fin.ofNat (0x80 + c / 4096 % 64),
        Fin.ofNat (0x80 + c / 64 % 64), Fin.ofNat (0x80 + c % 64)] ++ suf) pre.length
        = 0xF0 + c / 262144 := by
      rw [byte_at_middle_zero _ _ _ (by simp only [List.length_cons, List.length_nil]; omega),
        byte_at_cons_zero]
      exact ofNat_val _ (by omega)
    have b1 : byte_at (pre ++ [Fin.ofNat (0xF0 + c / 262144), Fin.ofNat (0x80 + c / 4096 % 64),
        Fin.ofNat (0x80 + c / 64 % 64), Fin.ofNat (0x80 + c % 64)] ++ suf) (pre.length + 1)
        = 0x80 + c / 4096 % 64 := by
      rw [byte_at_middle _ _ _ 1 (by simp only [List.length_cons, List.length_nil]; omega),
        byte_at_cons_succ, byte_at_cons_zero]
      exact ofNat_val _ (by omega)
    have b2 : byte_at (pre ++ [Fin.ofNat (0xF0 + c / 262144), Fin.ofNat (0x80 + c / 4096 % 64),
        Fin.ofNat (0x80 + c / 64 % 64), Fin.ofNat (0x80 + c % 64)] ++ suf) (pre.length + 1 + 1)
        = 0x80 + c / 64 % 64 := by
      rw [Nat.add_assoc,
        byte_at_middle _ _ _ (1 + 1) (by simp only [List.length_cons, List.length_nil]; omega),
        byte_at_cons_succ, byte_at_cons_succ, byte_at_cons_zero]
      exact ofNat_val _ (by omega)
    have b3 : byte_at (pre ++ [Fin.ofNat (0xF0 + c / 262144), Fin.ofNat (0x80 + c / 4096 % 64),
        Fin.ofNat (0x80 + c / 64 % 64), Fin.ofNat (0x80 + c % 64)] ++ suf)
        (pre.length + 1 + 1 + 1) = 0x80 + c % 64 := by
      rw [Nat.add_assoc, Nat.add_assoc,
        byte_at_middle _ _ _ (1 + (1 + 1))
          (by simp only [List.length_cons, List.length_nil]; omega),
        ← Nat.add_assoc, byte_at_cons_succ, byte_at_cons_succ, byte_at_cons_succ,
        byte_at_cons_zero]
      exact ofNat_val _ (by omega)
    have hl := length_middle pre [Fin.ofNat (0xF0 + c / 262144),
        Fin.ofNat (0x80 + c / 4096 % 64), Fin.ofNat (0x80 + c / 64 % 64),
        Fin.ofNat (0x80 + c % 64)] suf
    have ck : countl_one (0xF0 + c / 262144) = 4 := countl_one_four _ (by omega) (by omega)
    rw [next_codepoint_multi _ _ (by rw [b0]; omega)
      (by rw [b0, ck, hl]; simp only [List.length_cons, List.length_nil]; omega)]
    simp only [b0, ck, accumulate_succ, accumulate_zero, b1, b2, b3, List.length_cons,
      List.length_nil]
    exact result_ext _ _ _ _ _ _ (by omega) rfl (by omega)

/-- C3, at a concrete input: the euro sign `U+20AC` between an `A` and a `B`. -/
theorem next_codepoint_utf8_witness :
    (next_codepoint ([0x41] ++ utf8 0x20AC ++ [0x42]) ([0x41] : List (Fin 256)).length
        = { codepoint := 0x20AC, first := ([0x41] : List (Fin 256)).length,
            last := ([0x41] : List (Fin 256)).length + (utf8 0x20AC).length }
      ∧ ∀ b : Fin 256, b.val < 0x80 →
          next_codepoint ([0x41] ++ [b] ++ [0x42]) ([0x41] : List (Fin 256)).length
            = { codepoint := b.val, first := ([0x41] : List (Fin 256)).length,
                last := ([0x41] : List (Fin 256)).length + 1 }) :=
  next_codepoint_utf8 0x20AC (by decide) [0x41] [0x42]

theorem invalid_last : invalid.last = 0 := rfl

theorem next_codepoint_at_end (input : List (Fin 256)) (start : Nat)
    (h : input.length ≤ start) : next_codepoint input start = invalid := by
  unfold next_codepoint
  rw [if_pos (show start ≥ input.length from h)]

theorem next_codepoint_truncated (input : List (Fin 256)) (start : Nat)
    (hs : start < input.length) (hk : 2 ≤ countl_one (byte_at input start))
    (ht : input.length < start + countl_one (byte_at input start)) :
    next_codepoint input start = invalid := by
  have hb : ¬ byte_at input start < 0x80 := by
    intro hlt
    have : countl_one (byte_at input start) = 0 := by
      unfold countl_one; rw [if_pos hlt]
    omega
  have hna : ¬ (byte_at input start &&& ascii_end = 0) := by
    rw [and_ascii_end _ (byte_at_lt _ _)]; exact hb
  generalize hkk : countl_one (byte_at input start) = k at hk ht
  unfold next_codepoint
  rw [if_neg (show ¬ start ≥ input.length by omega),
    if_neg (show ¬ start = input.length by omega)]
  simp only []
  rw [if_neg hna, hkk, if_neg (show ¬ ((k : Int) - 1 ≤ 0) by omega)]
  have e : ((k : Int) - 1).toNat = k - 1 := by omega
  rw [e, if_pos (show start + (k - 1) ≥ input.length by omega)]

theorem next_codepoint_continuation (input : List (Fin 256)) (start : Nat)
    (hs : start < input.length) (h1 : 0x80 ≤ byte_at input start)
    (h2 : byte_at input start < 0xC0) :
    next_codepoint input start = invalid := by
  have hna : ¬ (byte_at input start &&& ascii_end = 0) := by
    rw [and_ascii_end _ (byte_at_lt _ _)]; omega
  have hk : countl_one (byte_at input start) = 1 := by
    unfold countl_one; rw [if_neg (by omega), if_pos h2]
  unfold next_codepoint
  rw [if_neg (show ¬ start ≥ input.length by omega),
    if_neg (show ¬ start = input.length by omega)]
  simp only []
  rw [if_neg hna, hk, if_pos (show ((1 : Nat) : Int) - 1 ≤ 0 by norm_num)]

/-- C4, as the code has it. `next_codepoint` returns the invalid sentinel when `start` is
at or past the end, when the lead byte has `k ≥ 2` leading one-bits and `start + k`
exceeds the length, and when the lead byte is a bare continuation byte, whatever follows.
The all-ones byte `0xFF` is the lead byte of an eight-byte sequence: the result is
invalid exactly when fewer than seven bytes follow it. -/
theorem next_codepoint_invalid_cases (text : List (Fin 256)) (start : Nat) :
    (text.length ≤ start → next_codepoint text start = invalid)
    ∧ (start < text.length → 2 ≤ countl_one (byte_at text start) →
        text.length < start + countl_one (byte_at text start) →
        next_codepoint text start = invalid)
    ∧ (start < text.length → 0x80 ≤ byte_at text start → byte_at text start < 0xC0 →
        next_codepoint text start = invalid)
    ∧ (start < text.length → byte_at text start = 0xFF →
        (next_codepoint text start = invalid ↔ text.length < start + 8)) := by
  refine ⟨next_codepoint_at_end text start, next_codepoint_truncated text start,
    next_codepoint_continuation text start, ?_⟩
  intro hs hb
  have hk : countl_one (byte_at text start) = 8 := by rw [hb]; rfl
  constructor
  · intro hinv
    by_contra hlen
    have hm := next_codepoint_multi text start (by rw [hb]; norm_num) (by rw [hk]; omega)
    rw [hinv, hk] at hm
    have := congrArg CodepointResult.last hm
    simp only [invalid_last] at this
    omega
  · intro hlen
    exact next_codepoint_truncated text start hs (by rw [hk]; norm_num) (by rw [hk]; exact hlen)

/-- C4 at concrete inputs: past the end; a truncated three-byte sequence; a bare
continuation byte with bytes after it; `0xFF` followed by six bytes. -/
theorem next_codepoint_invalid_cases_witness :
    next_codepoint [0x41] 1 = invalid
    ∧ next_codepoint [0xE2, 0x82] 0 = invalid
    ∧ next_codepoint [0x80, 0x41, 0x42] 0 = invalid
    ∧ (next_codepoint [0xFF, 0, 0, 0, 0, 0, 0] 0 = invalid
        ↔ ([0xFF, 0, 0, 0, 0, 0, 0] : List (Fin 256)).length < 0 + 8) :=
  ⟨(next_codepoint_invalid_cases [0x41] 1).1 (by decide),
   (next_codepoint_invalid_cases [0xE2, 0x82] 0).2.1 (by decide) (by decide) (by decide),
   (next_codepoint_invalid_cases [0x80, 0x41, 0x42] 0).2.2.1 (by decide) (by decide)
     (by decide),
   (next_codepoint_invalid_cases [0xFF, 0, 0, 0, 0, 0, 0] 0).2.2.2 (by decide) (by decide)⟩

/-- C4 as stated fails: the all-ones byte `0xFF` followed by seven bytes does not decode
to the invalid sentinel; it is read as an eight-byte sequence. -/
theorem next_codepoint_all_ones_not_invalid :
    byte_at [0xFF, 0, 0, 0, 0, 0, 0, 0x41] 0 = 0xFF
    ∧ next_codepoint [0xFF, 0, 0, 0, 0, 0, 0, 0x41] 0
        = { codepoint := 1, first := 0, last := 8 }
    ∧ next_codepoint [0xFF, 0, 0, 0, 0, 0, 0, 0x41] 0 ≠ invalid := by
  decide

/-- A decode is either the invalid sentinel or a span that starts at `start`, is at
least one byte long and ends inside the input. -/
theorem next_codepoint_span (input : List (Fin 256)) (start : Nat) :
    next_codepoint input start = invalid
    ∨ ((next_codepoint input start).first = start
        ∧ start < (next_codepoint input start).last
        ∧ (next_codepoint input start).last ≤ input.length) := by
  by_cases hs : input.length ≤ start
  · exact Or.inl (next_codepoint_at_end input start hs)
  by_cases h1 : byte_at input start < 0x80
  · rw [next_codepoint_ascii input start (by omega) h1]
    refine Or.inr ⟨rfl, ?_, ?_⟩
    · show start < start + 1
      omega
    · show start + 1 ≤ input.length
      omega
  by_cases h2 : byte_at input start < 0xC0
  · exact Or.inl (next_codepoint_continuation input start (by omega) (by omega) h2)
  have hk : 2 ≤ countl_one (byte_at input start) := by
    unfold countl_one; split_ifs <;> omega
  by_cases h3 : start + countl_one (byte_at input start) ≤ input.length
  · rw [next_codepoint_multi input start (by omega) h3]
    refine Or.inr ⟨rfl, ?_, h3⟩
    show start < start + countl_one (byte_at input start)
    omega
  · exact Or.inl (next_codepoint_truncated input start (by omega) hk (by omega))

namespace CodepointWalker

theorem next_text (w : CodepointWalker) : (next w).2.text = w.text := by
  unfold next next_result
  simp only []
  split_ifs <;> rfl

/-- One call of `next` inside the text moves the cursor forward, and not past the end. -/
theorem next_current (w : CodepointWalker) (h : w.current < w.text.length) :
    w.current < (next w).2.current ∧ (next w).2.current ≤ w.text.length := by
  unfold next next_result
  simp only []
  split_ifs with hi
  · exact ⟨Nat.lt_succ_self _, h⟩
  · rcases next_codepoint_span w.text w.current with h0 | ⟨_, h1, h2⟩
    · exact absurd h0 hi
    · exact ⟨h1, h2⟩

theorem advance_succ (w : CodepointWalker) (k : Nat) :
    advance w (k + 1) = advance (next w).2 k := rfl

theorem advance_text (w : CodepointWalker) (k : Nat) : (advance w k).text = w.text := by
  induction k generalizing w with
  | zero => rfl
  | succ k ih => rw [advance_succ, ih, next_text]

theorem exhausted_iff (w : CodepointWalker) : w.exhausted = true ↔ w.current = w.text.length := by
  simp [exhausted]

end CodepointWalker

/-- The walk from a cursor at distance `d` from the end: after some `m ≤ d` calls of
`next` the walker is exhausted, not before, and the counting loop returns `count + m`
whenever it is given more than `d` units of fuel. -/
theorem walk_from (d : Nat) : ∀ w : CodepointWalker, w.current ≤ w.text.length →
    w.text.length - w.current = d →
    ∃ m, m ≤ d ∧ (w.advance m).exhausted = true
      ∧ (∀ j, j < m → (w.advance j).exhausted = false)
      ∧ ∀ fuel count, d < fuel → codepoint_count_loop fuel w count = some (count + m) := by
  induction d using Nat.strong_induction_on with
  | _ d ih =>
    intro w hle hd
    by_cases hex : w.exhausted = true
    · refine ⟨0, Nat.zero_le _, hex, fun j hj => absurd hj (Nat.not_lt_zero j), ?_⟩
      intro fuel count hf
      obtain ⟨f, rfl⟩ : ∃ f, fuel = f + 1 := ⟨fuel - 1, by omega⟩
      simp [codepoint_count_loop, hex]
    · have hne : w.current ≠ w.text.length := fun h => hex ((w.exhausted_iff).2 h)
      have hlt : w.current < w.text.length := lt_of_le_of_ne hle hne
      have hn := w.next_current hlt
      have ht := w.next_text
      have hd' : (w.next).2.text.length - (w.next).2.current < d := by
        rw [ht]; omega
      obtain ⟨m, hm, hexh, hbefore, hloop⟩ :=
        ih _ hd' (w.next).2 (by rw [ht]; exact hn.2) rfl
      refine ⟨m + 1, by rw [ht] at hm; omega, hexh, ?_, ?_⟩
      · intro j hj
        cases j with
        | zero => simpa using hex
        | succ j => exact hbefore j (by omega)
      · intro fuel count hf
        obtain ⟨f, rfl⟩ : ∃ f, fuel = f + 1 := ⟨fuel - 1, by omega⟩
        have hex' : w.exhausted = false := by simpa using hex
        rw [codepoint_count_loop, hex']
        simp only [Bool.false_eq_true, if_false]
        rw [hloop f (count + 1) (by rw [ht]; omega)]
        congr 1
        omega

/-- C5. A walker constructed at offset 0 is exhausted after some `n ≤ len(text)` calls
of `next` and not before; every `next` on a non-exhausted walker whose cursor is within
the text moves the cursor forward by at least one byte and not past the end; and
`codepoint_count` returns that `n` for every fuel above `len(text)`. -/
theorem walker_exhausts (text : List (Fin 256)) :
    (∀ w : CodepointWalker, w.current ≤ w.text.length → w.exhausted = false →
        w.current + 1 ≤ (w.next).2.current ∧ (w.next).2.current ≤ w.text.length)
    ∧ ∃ n, n ≤ text.length
        ∧ ((CodepointWalker.create text 0).advance n).exhausted = true
        ∧ (∀ j, j < n → ((CodepointWalker.create text 0).advance j).exhausted = false)
        ∧ ∀ fuel, text.length < fuel → codepoint_count fuel text 0 = some n := by
  constructor
  · intro w hle hex
    have hne : w.current ≠ w.text.length := by
      intro h
      rw [(w.exhausted_iff).2 h] at hex
      exact Bool.noConfusion hex
    exact w.next_current (lt_of_le_of_ne hle hne)
  · obtain ⟨m, hm, hexh, hbefore, hloop⟩ :=
      walk_from text.length (CodepointWalker.create text 0) (Nat.zero_le _) rfl
    refine ⟨m, hm, hexh, hbefore, ?_⟩
    intro fuel hf
    have := hloop fuel 0 hf
    rw [Nat.zero_add] at this
    exact this

/-- C5 at a concrete input: the euro sign followed by `A`; the first `next` moves the
cursor from 0 to 3, within the four bytes of the text. -/
theorem walker_exhausts_witness :
    (CodepointWalker.create [0xE2, 0x82, 0xAC, 0x41] 0).current + 1
        ≤ ((CodepointWalker.create [0xE2, 0x82, 0xAC, 0x41] 0).next).2.current
      ∧ ((CodepointWalker.create [0xE2, 0x82, 0xAC, 0x41] 0).next).2.current
        ≤ (CodepointWalker.create [0xE2, 0x82, 0xAC, 0x41] 0).text.length :=
  (walker_exhausts [0xE2, 0x82, 0xAC, 0x41]).1
    (CodepointWalker.create [0xE2, 0x82, 0xAC, 0x41] 0) (by decide) (by decide)

end UTF8

/-! ## Theorems, part 1, continued: multi-byte sequences, counting and exhaustion -/

namespace UTF8

theorem chop_mod (b k : Nat) (hk : k ≤ 8) : (b * 2 ^ k % 256) / 2 ^ k = b % 2 ^ (8 - k) := by
  have h256 : 256 = 2 ^ (8 - k) * 2 ^ k := by
    rw [← pow_add, Nat.sub_add_cancel hk]
    norm_num
  rw [h256, Nat.mul_mod_mul_right, Nat.mul_div_cancel _ (Nat.two_pow_pos k)]

theorem shift_in_low6_cons (lead b : Nat) (rest : List Nat) :
    shift_in_low6 lead (b :: rest) = shift_in_low6 ((lead * 64) % 2 ^ 32 + b % 64) rest := rfl

theorem shift_in_low6_mod (bytes : List Nat) :
    ∀ lead, shift_in_low6 lead (bytes.map (fun b => b % 64)) = shift_in_low6 lead bytes := by
  induction bytes with
  | nil => intro lead; rfl
  | cons b rest ih =>
    intro lead
    rw [List.map_cons, shift_in_low6_cons, shift_in_low6_cons, Nat.mod_mod, ih]

/-- The loop of `next_codepoint` shifts in the low 6 bits of the bytes that follow. -/
theorem accumulate_eq (input : List (Fin 256)) (n : Nat) :
    ∀ pos r, accumulate input n pos r
      = shift_in_low6 r ((List.range n).map (fun i => byte_at input (pos + 1 + i))) := by
  induction n with
  | zero => intro pos r; rfl
  | succ n ih =>
    intro pos r
    rw [accumulate_succ, ih, List.range_succ_eq_map, List.map_cons, List.map_map,
      shift_in_low6_cons]
    have e : r % 2 ^ 26 * 64 = r * 64 % 2 ^ 32 := by omega
    rw [e]
    congr 1
    apply List.map_congr_left
    intro i _
    show byte_at input (pos + 1 + 1 + i) = byte_at input (pos + 1 + (i + 1))
    congr 1
    omega

theorem countl_one_le (b : Nat) : countl_one b ≤ 8 := by
  unfold countl_one; split_ifs <;> omega

theorem countl_one_lead (b : Nat) (h : 2 ≤ countl_one b) : 0xC0 ≤ b := by
  unfold countl_one at h
  split_ifs at h <;> omega

/-- C26: when the byte at `start` has `k ≥ 2` leading one-bits and `start + k` is within
the text, `next_codepoint` returns a result that is not `invalid`, with `first = start`
and `last = start + k`; its codepoint is the lead byte without its top `k` bits,
followed by the low 6 bits of each of the `k - 1` bytes after it, shifted in 6 bits at
a time modulo `2 ^ 32`. A text that has the same lead byte at `start` and, in the
`k - 1` bytes after it, the same low 6 bits, gives the same result: the top two bits of
the following bytes are not looked at. -/
theorem next_codepoint_multi_byte (text : List (Fin 256)) (start : Nat)
    (hk2 : 2 ≤ countl_one (byte_at text start))
    (hk : start + countl_one (byte_at text start) ≤ text.length) :
    next_codepoint text start
        = { codepoint := shift_in_low6
              (byte_at text start % 2 ^ (8 - countl_one (byte_at text start)))
              ((List.range (countl_one (byte_at text start) - 1)).map
                (fun i => byte_at text (start + 1 + i))),
            first := start,
            last := start + countl_one (byte_at text start) }
      ∧ next_codepoint text start ≠ invalid
      ∧ ∀ other : List (Fin 256),
          start + countl_one (byte_at text start) ≤ other.length →
          byte_at other start = byte_at text start →
          (∀ i, i < countl_one (byte_at text start) - 1 →
            byte_at other (start + 1 + i) % 64 = byte_at text (start + 1 + i) % 64) →
          next_codepoint other start = next_codepoint text start := by
  have key : ∀ t : List (Fin 256), 2 ≤ countl_one (byte_at t start) →
      start + countl_one (byte_at t start) ≤ t.length →
      next_codepoint t start
        = { codepoint := shift_in_low6
              (byte_at t start % 2 ^ (8 - countl_one (byte_at t start)))
              ((List.range (countl_one (byte_at t start) - 1)).map
                (fun i => byte_at t (start + 1 + i))),
            first := start,
            last := start + countl_one (byte_at t start) } := by
    intro t h2 hle
    rw [next_codepoint_multi t start (countl_one_lead _ h2) hle, accumulate_eq,
      chop_mod _ _ (countl_one_le _)]
  refine ⟨key text hk2 hk, ?_, ?_⟩
  · rw [key text hk2 hk]
    intro h
    have := congrArg CodepointResult.last h
    simp only [invalid] at this
    omega
  · intro other hlen hlead hlow
    rw [key text hk2 hk, key other (by rw [hlead]; exact hk2) (by rw [hlead]; exact hlen),
      hlead]
    refine result_ext _ _ _ _ _ _ ?_ rfl rfl
    rw [← shift_in_low6_mod, ← shift_in_low6_mod
      ((List.range (countl_one (byte_at text start) - 1)).map
        (fun i => byte_at text (start + 1 + i))), List.map_map, List.map_map]
    congr 1
    apply List.map_congr_left
    intro i hi
    exact hlow i (List.mem_range.1 hi)

/-- The C26 theorem at the lead byte `0xE2` followed by `0x02` and `0xEC`, which are not
continuation bytes: the result is that of the euro sign `0xE2 0x82 0xAC`, the codepoint
`U+20AC` with a three-byte span. -/
theorem next_codepoint_multi_byte_witness :
    next_codepoint [0xE2, 0x82, 0xAC] 0 = { codepoint := 0x20AC, first := 0, last := 3 }
    ∧ next_codepoint [0xE2, 0x02, 0xEC] 0 = next_codepoint [0xE2, 0x82, 0xAC] 0 :=
  ⟨by decide,
    (next_codepoint_multi_byte [0xE2, 0x82, 0xAC] 0 (by decide) (by decide)).2.2
      [0xE2, 0x02, 0xEC] (by decide) (by decide) (by decide)⟩

/-! ### `codepoint_count` on encoded text -/

/-- The lead byte of an encoding: an ASCII byte that is the whole encoding, or a byte
whose number of leading one-bits is the length of the encoding. -/
theorem utf8_lead (c : Nat) (hc : c < 0x110000) :
    0 < (utf8 c).length
    ∧ ((byte_at (utf8 c) 0 < 0x80 ∧ (utf8 c).length = 1)
      ∨ (0xC0 ≤ byte_at (utf8 c) 0
        ∧ countl_one (byte_at (utf8 c) 0) = (utf8 c).length)) := by
  unfold utf8
  split_ifs with h1 h2 h3
  · refine ⟨Nat.zero_lt_succ _, Or.inl ⟨?_, rfl⟩⟩
    rw [byte_at_cons_zero, ofNat_val c (by omega)]
    exact h1
  · refine ⟨Nat.zero_lt_succ _, Or.inr ?_⟩
    rw [byte_at_cons_zero, ofNat_val _ (by omega)]
    exact ⟨by omega, countl_one_two _ (by omega) (by omega)⟩
  · refine ⟨Nat.zero_lt_succ _, Or.inr ?_⟩
    rw [byte_at_cons_zero, ofNat_val _ (by omega)]
    exact ⟨by omega, countl_one_three _ (by omega) (by omega)⟩
  · refine ⟨Nat.zero_lt_succ _, Or.inr ?_⟩
    rw [byte_at_cons_zero, ofNat_val _ (by omega)]
    exact ⟨by omega, countl_one_four _ (by omega) (by omega)⟩

/-- The span that `next_codepoint` finds at the start of an encoding is the encoding. -/
theorem next_codepoint_encoded_last (c : Nat) (hc : c < 0x110000) (pre suf : List (Fin 256)) :
    (next_codepoint (pre ++ utf8 c ++ suf) pre.length).last = pre.length + (utf8 c).length := by
  obtain ⟨hpos, h⟩ := utf8_lead c hc
  have hb := byte_at_middle_zero pre (utf8 c) suf hpos
  have hl := length_middle pre (utf8 c) suf
  rcases h with ⟨h1, h2⟩ | ⟨h1, h2⟩
  · rw [next_codepoint_ascii _ _ (by omega) (by rw [hb]; exact h1), h2]
  · rw [next_codepoint_multi _ _ (by rw [hb]; exact h1) (by rw [hb, h2]; omega), hb, h2]

/-- One call of `next` at the start of an encoding moves the cursor to its end. -/
theorem next_encoded (c : Nat) (hc : c < 0x110000) (pre suf : List (Fin 256)) :
    (CodepointWalker.next { text := pre ++ utf8 c ++ suf, current := pre.length }).2
      = { text := pre ++ utf8 c ++ suf, current := pre.length + (utf8 c).length } := by
  have hlast := next_codepoint_encoded_last c hc pre suf
  have hpos := (utf8_lead c hc).1
  have hne : next_codepoint (pre ++ utf8 c ++ suf) pre.length ≠ invalid := by
    intro h
    rw [h, invalid_last] at hlast
    omega
  unfold CodepointWalker.next CodepointWalker.next_result
  simp only []
  rw [if_neg hne, hlast]

theorem utf8_string_cons (c : Nat) (cs : List Nat) :
    utf8_string (c :: cs) = utf8 c ++ utf8_string cs := by
  simp [utf8_string]

/-- The counting loop, started at the first byte of an encoded list, counts its
members. -/
theorem count_encoded (cs : List Nat) :
    ∀ (pre : List (Fin 256)) (fuel count : Nat), (∀ c ∈ cs, c < 0x110000) →
      cs.length < fuel →
      codepoint_count_loop fuel { text := pre ++ utf8_string cs, current := pre.length } count
        = some (count + cs.length) := by
  induction cs with
  | nil =>
    intro pre fuel count _ hf
    obtain ⟨f, rfl⟩ : ∃ f, fuel = f + 1 := ⟨fuel - 1, by omega⟩
    have hex : (CodepointWalker.exhausted
        { text := pre ++ utf8_string [], current := pre.length }) = true := by
      rw [CodepointWalker.exhausted_iff]
      simp [utf8_string]
    rw [codepoint_count_loop, if_pos hex]
    rfl
  | cons c rest ih =>
    intro pre fuel count hall hf
    obtain ⟨f, rfl⟩ : ∃ f, fuel = f + 1 := ⟨fuel - 1, by omega⟩
    have hc : c < 0x110000 := hall c (List.mem_cons_self _ _)
    have hpos := (utf8_lead c hc).1
    have htext : pre ++ utf8_string (c :: rest) = pre ++ utf8 c ++ utf8_string rest := by
      rw [utf8_string_cons, List.append_assoc]
    have hex : ¬ (CodepointWalker.exhausted
        { text := pre ++ utf8_string (c :: rest), current := pre.length }) = true := by
      rw [CodepointWalker.exhausted_iff, htext]
      simp only [List.length_append]
      omega
    rw [codepoint_count_loop, if_neg hex, htext, next_encoded c hc pre (utf8_string rest)]
    have hlen : pre.length + (utf8 c).length = (pre ++ utf8 c).length := by
      rw [List.length_append]
    rw [hlen, ih (pre ++ utf8 c) f (count + 1)
      (fun d hd => hall d (List.mem_cons_of_mem _ hd))
      (by simp only [List.length_cons] at hf; omega)]
    simp only [List.length_cons]
    congr 1
    omega

theorem utf8_string_ascii (text : List (Fin 256)) (h : ∀ b ∈ text, b.val < 0x80) :
    utf8_string (text.map (fun b => b.val)) = text := by
  induction text with
  | nil => rfl
  | cons b rest ih =>
    have hb : b.val < 0x80 := h b (List.mem_cons_self _ _)
    rw [List.map_cons, utf8_string_cons, ih (fun d hd => h d (List.mem_cons_of_mem _ hd))]
    have : utf8 b.val = [b] := by
      unfold utf8
      rw [if_pos hb]
      congr 1
      apply Fin.ext
      rw [ofNat_val _ b.isLt]
    rw [this]
    rfl

/-- C29: for every list of scalar values (numbers below `0x110000`), `codepoint_count`
on the UTF-8 encoding of the list, from offset 0, returns the length of the list, for
every fuel above that length; for a text of ASCII bytes it returns the number of
bytes. -/
theorem codepoint_count_encoded (cs : List Nat) (fuel : Nat)
    (hcs : ∀ c ∈ cs, c < 0x110000) (hfuel : cs.length < fuel) :
    codepoint_count fuel (utf8_string cs) 0 = some cs.length
    ∧ ∀ text : List (Fin 256), (∀ b ∈ text, b.val < 0x80) → ∀ fuel, text.length < fuel →
        codepoint_count fuel text 0 = some text.length := by
  have main : ∀ (ds : List Nat) (f : Nat), (∀ c ∈ ds, c < 0x110000) → ds.length < f →
      codepoint_count f (utf8_string ds) 0 = some ds.length := by
    intro ds f hds hf
    have := count_encoded ds [] f 0 hds hf
    simp only [List.nil_append, List.length_nil, Nat.zero_add] at this
    exact this
  refine ⟨main cs fuel hcs hfuel, ?_⟩
  intro text hascii f hf
  have h := main (text.map (fun b => b.val)) f
    (by
      intro c hc
      obtain ⟨b, _, rfl⟩ := List.mem_map.1 hc
      have := b.isLt
      omega)
    (by rw [List.length_map]; exact hf)
  rw [utf8_string_ascii text hascii, List.length_map] at h
  exact h

/-- The C29 theorem at `A`, the euro sign and `U+1F600`: eight bytes, three
codepoints. -/
theorem codepoint_count_encoded_witness :
    utf8_string [0x41, 0x20AC, 0x1F600] = [0x41, 0xE2, 0x82, 0xAC, 0xF0, 0x9F, 0x98, 0x80]
    ∧ codepoint_count 4 (utf8_string [0x41, 0x20AC, 0x1F600]) 0 = some 3 :=
  ⟨by decide,
    (codepoint_count_encoded [0x41, 0x20AC, 0x1F600] 4 (by decide) (by decide)).1⟩

/-! ### Exhaustion of a walker -/

namespace CodepointWalker

/-- A call of `next` at or past the end of the text returns the invalid codepoint and
moves the cursor one further. -/
theorem next_past_end (w : CodepointWalker) (h : w.text.length ≤ w.current) :
    next w = (invalid_codepoint, { w with current := w.current + 1 }) := by
  unfold next next_result
  simp only []
  rw [next_codepoint_at_end w.text w.current h]
  simp [invalid, extend]

theorem advance_past_end (k : Nat) :
    ∀ w : CodepointWalker, w.text.length ≤ w.current →
      advance w k = { w with current := w.current + k } := by
  induction k with
  | zero => intro w _; rfl
  | succ k ih =>
    intro w h
    rw [advance_succ, next_past_end w h, ih _ (by show w.text.length ≤ w.current + 1; omega)]
    show ({ text := w.text, current := w.current + 1 + k } : CodepointWalker)
      = { text := w.text, current := w.current + (k + 1) }
    rw [Nat.add_assoc, Nat.add_comm 1 k]

end CodepointWalker

/-- C30, as the code has it: `exhausted()` holds exactly when the cursor is at the end of
the text. A walker whose cursor is within the text is exhausted after at most
`len - current` calls of `next`, and not before. A call of `next` on an exhausted
walker returns the invalid codepoint and moves the cursor past the end: after `k ≥ 1`
further calls the walker is not exhausted, and every such call returns the invalid
codepoint. A walker constructed past the end is not exhausted after any number of
calls. -/
theorem walker_exhaustion (w : CodepointWalker) :
    (w.exhausted = true ↔ w.current = w.text.length)
    ∧ (w.current ≤ w.text.length →
        ∃ m, m ≤ w.text.length - w.current ∧ (w.advance m).exhausted = true
          ∧ ∀ j, j < m → (w.advance j).exhausted = false)
    ∧ (w.exhausted = true → ∀ k,
        (CodepointWalker.next (w.advance k)).1 = invalid_codepoint
        ∧ (1 ≤ k → (w.advance k).exhausted = false))
    ∧ (w.text.length < w.current → ∀ k, (w.advance k).exhausted = false) := by
  refine ⟨w.exhausted_iff, ?_, ?_, ?_⟩
  · intro hle
    obtain ⟨m, hm, hex, hbefore, _⟩ := walk_from (w.text.length - w.current) w hle rfl
    exact ⟨m, hm, hex, hbefore⟩
  · intro hex k
    have hcur := (w.exhausted_iff).1 hex
    have hadv := CodepointWalker.advance_past_end k w (by omega)
    constructor
    · rw [hadv, CodepointWalker.next_past_end _ (by show w.text.length ≤ w.current + k; omega)]
    · intro hk
      rw [hadv]
      cases hb : (CodepointWalker.exhausted { w with current := w.current + k }) with
      | false => rfl
      | true =>
        have := (CodepointWalker.exhausted_iff _).1 hb
        have : w.current + k = w.text.length := this
        omega
  · intro hlt k
    rw [CodepointWalker.advance_past_end k w (by omega)]
    cases hb : (CodepointWalker.exhausted { w with current := w.current + k }) with
    | false => rfl
    | true =>
      have := (CodepointWalker.exhausted_iff _).1 hb
      have : w.current + k = w.text.length := this
      omega

/-- The C30 theorem at the walker over `AB` started at offset 1: it is exhausted after
one call of `next`. -/
theorem walker_exhaustion_witness :
    ∃ m, m ≤ 1 ∧ ((CodepointWalker.create [0x41, 0x42] 1).advance m).exhausted = true
      ∧ ∀ j, j < m → ((CodepointWalker.create [0x41, 0x42] 1).advance j).exhausted = false :=
  (walker_exhaustion (CodepointWalker.create [0x41, 0x42] 1)).2.1 (by decide)

/-- C30 fails as stated: the walker over `A` is exhausted after one call of `next`, and
not exhausted any more after a second call; a walker over `A` constructed at offset 2
is not exhausted at the start nor after one, two or three calls. -/
theorem walker_exhaustion_not_stable :
    ((CodepointWalker.create [0x41] 0).advance 1).exhausted = true
    ∧ (CodepointWalker.next ((CodepointWalker.create [0x41] 0).advance 1)).1 = invalid_codepoint
    ∧ ((CodepointWalker.create [0x41] 0).advance 2).exhausted = false
    ∧ (CodepointWalker.create [0x41] 2).exhausted = false
    ∧ ((CodepointWalker.create [0x41] 2).advance 1).exhausted = false
    ∧ ((CodepointWalker.create [0x41] 2).advance 2).exhausted = false
    ∧ ((CodepointWalker.create [0x41] 2).advance 3).exhausted = false := by
  decide

end UTF8

/-! ## Single precision: the operations round the exact result -/

namespace Single

/-- The result of `round_even` is an integer nearest to `a / b`: its distance to `a / b`
is at most 1/2, and where two integers are equally near, it is the even one. -/
theorem round_even_nearest (a b : Nat) (hb : 0 < b) :
    2 * (round_even a b * b) ≤ 2 * a + b
    ∧ 2 * a ≤ 2 * (round_even a b * b) + b
    ∧ (2 * (a % b) = b → round_even a b % 2 = 0) := by
  have h := Nat.div_add_mod a b
  have hr := Nat.mod_lt a hb
  have e1 : (a / b + 1) * b = b * (a / b) + b := by ring
  have e0 : a / b * b = b * (a / b) := by ring
  unfold round_even
  split_ifs <;> (first | rw [e0] | rw [e1]) <;> omega

/-- A quotient that is at least `2 ^ 23` and below `2 ^ 24` rounds to an integer from
`2 ^ 23` to `2 ^ 24`. -/
theorem round_even_range (a b : Nat) (hb : 0 < b) (hlo : 2 ^ 23 * b ≤ a)
    (hhi : a < 2 ^ 24 * b) :
    2 ^ 23 ≤ round_even a b ∧ round_even a b ≤ 2 ^ 24 := by
  have h1 : 2 ^ 23 ≤ a / b := (Nat.le_div_iff_mul_le hb).mpr hlo
  have h2 : a / b < 2 ^ 24 := (Nat.div_lt_iff_lt_mul hb).mpr hhi
  unfold round_even
  split_ifs <;> omega

/-- The number that `round_significand` gives is the rounded significand at the given
exponent. -/
theorem round_significand_toRat (a b : Nat) (e : Int) :
    (round_significand a b e).toRat = (round_even a b : ℚ) * (2 : ℚ) ^ e := by
  unfold round_significand
  split_ifs with h
  · simp only [Value.toRat, h]
    rw [zpow_add_one₀ (two_ne_zero)]
    push_cast
    ring
  · rfl

/-- The number that `round_significand` gives is normal. -/
theorem round_significand_normal (a b : Nat) (e : Int) (hb : 0 < b) (hlo : 2 ^ 23 * b ≤ a)
    (hhi : a < 2 ^ 24 * b) : (round_significand a b e).normal := by
  obtain ⟨h1, h2⟩ := round_even_range a b hb hlo hhi
  unfold round_significand
  split_ifs with h
  · exact ⟨le_refl _, by norm_num⟩
  · exact ⟨h1, lt_of_le_of_ne h2 h⟩

/-- The loop of `log2` finds the leading one-bit when the fuel is enough. -/
theorem log2_loop_spec (fuel : Nat) : ∀ n, 0 < n → n < 2 ^ fuel →
    2 ^ log2_loop fuel n ≤ n ∧ n < 2 ^ (log2_loop fuel n + 1) := by
  induction fuel with
  | zero => intro n h0 h; simp at h; omega
  | succ fuel ih =>
    intro n h0 h
    unfold log2_loop
    split_ifs with h2
    · simp; omega
    · have h3 : n / 2 < 2 ^ fuel := by
        rw [pow_succ] at h
        omega
      obtain ⟨l, u⟩ := ih (n / 2) (by omega) h3
      rw [pow_succ, pow_succ]
      rw [pow_succ] at u
      omega

/-- The position of the leading one-bit. -/
theorem log2_spec (n : Nat) (h : 0 < n) : 2 ^ log2 n ≤ n ∧ n < 2 ^ (log2 n + 1) :=
  log2_loop_spec n n h (Nat.lt_two_pow n)

/-- The conversion of a positive integer: the integer is `(a / b) * 2 ^ e` with a
quotient that is at least `2 ^ 23` and below `2 ^ 24`, and the result is the integer
nearest to the quotient, ties to even, at the exponent `e`; it is normal. -/
theorem of_nat_rounds (n : Nat) (h : 0 < n) :
    ∃ (a b : Nat) (e : Int), 0 < b ∧ (n : ℚ) = (a : ℚ) / (b : ℚ) * (2 : ℚ) ^ e
      ∧ 2 ^ 23 * b ≤ a ∧ a < 2 ^ 24 * b
      ∧ (of_nat n).toRat = (round_even a b : ℚ) * (2 : ℚ) ^ e
      ∧ (of_nat n).normal := by
  obtain ⟨l, u⟩ := log2_spec n h
  unfold of_nat
  rw [if_neg (by omega)]
  split_ifs with hk
  · have hp : 2 ^ log2 n * 2 ^ (23 - log2 n) = 2 ^ 23 := by
      rw [← pow_add]
      congr 1
      omega
    have hl : 2 ^ 23 ≤ n * 2 ^ (23 - log2 n) := by
      rw [← hp]
      exact Nat.mul_le_mul_right _ l
    have hu : n * 2 ^ (23 - log2 n) < 2 ^ 24 := by
      have : 2 ^ (log2 n + 1) * 2 ^ (23 - log2 n) = 2 ^ 24 := by
        rw [← pow_add]
        congr 1
        omega
      rw [← this]
      exact Nat.mul_lt_mul_of_pos_right u (by positivity)
    have hz : ((log2 n : Int) - 23) = -((23 - log2 n : Nat) : Int) := by omega
    refine ⟨n * 2 ^ (23 - log2 n), 1, (log2 n : Int) - 23, by norm_num, ?_, by omega, by omega,
      ?_, ⟨hl, hu⟩⟩
    · rw [hz, zpow_neg, zpow_natCast]
      push_cast
      field_simp
    · have e1 : round_even (n * 2 ^ (23 - log2 n)) 1 = n * 2 ^ (23 - log2 n) := by
        simp [round_even, Nat.mod_one]
      rw [e1]
      rfl
  · have hk' : 23 < log2 n := by omega
    have hb : 0 < 2 ^ (log2 n - 23) := by positivity
    have hp : 2 ^ 23 * 2 ^ (log2 n - 23) = 2 ^ log2 n := by
      rw [← pow_add]
      congr 1
      omega
    have hq : 2 ^ 24 * 2 ^ (log2 n - 23) = 2 ^ (log2 n + 1) := by
      rw [← pow_add]
      congr 1
      omega
    have hz : ((log2 n : Int) - 23) = ((log2 n - 23 : Nat) : Int) := by omega
    refine ⟨n, 2 ^ (log2 n - 23), (log2 n : Int) - 23, hb, ?_, by rw [hp]; exact l,
      by rw [hq]; exact u, round_significand_toRat _ _ _,
      round_significand_normal _ _ _ hb (by rw [hp]; exact l) (by rw [hq]; exact u)⟩
    rw [hz, zpow_natCast]
    push_cast
    field_simp

/-- The division of normal numbers: the exact quotient is `(a / b) * 2 ^ e` with a
quotient `a / b` that is at least `2 ^ 23` and below `2 ^ 24`, and the result is the
integer nearest to `a / b`, ties to even, at the exponent `e`; it is normal. -/
theorem div_rounds (x y : Value) (hx : x.normal) (hy : y.normal) :
    ∃ (a b : Nat) (e : Int), 0 < b ∧ x.toRat / y.toRat = (a : ℚ) / (b : ℚ) * (2 : ℚ) ^ e
      ∧ 2 ^ 23 * b ≤ a ∧ a < 2 ^ 24 * b
      ∧ (div x y).toRat = (round_even a b : ℚ) * (2 : ℚ) ^ e
      ∧ (div x y).normal := by
  obtain ⟨hx1, hx2⟩ := hx
  obtain ⟨hy1, hy2⟩ := hy
  have hx0 : x.m ≠ 0 := by
    have : 0 < 2 ^ 23 := by norm_num
    omega
  have hy0 : y.m ≠ 0 := by
    have : 0 < 2 ^ 23 := by norm_num
    omega
  have hyq : (y.m : ℚ) ≠ 0 := by exact_mod_cast hy0
  have h2 : ((2 : ℚ) ^ y.e) ≠ 0 := zpow_ne_zero _ two_ne_zero
  unfold div
  rw [if_neg (by simp [hx0, hy0])]
  split_ifs with hle
  · have hlo : 2 ^ 23 * y.m ≤ x.m * 2 ^ 23 := by omega
    have hhi : x.m * 2 ^ 23 < 2 ^ 24 * y.m := by omega
    refine ⟨x.m * 2 ^ 23, y.m, x.e - y.e - 23, by omega, ?_, hlo, hhi,
      round_significand_toRat _ _ _, round_significand_normal _ _ _ (by omega) hlo hhi⟩
    simp only [Value.toRat]
    rw [zpow_sub₀ two_ne_zero, zpow_sub₀ two_ne_zero]
    push_cast
    field_simp
    norm_num
    ring
  · have hlo : 2 ^ 23 * y.m ≤ x.m * 2 ^ 24 := by omega
    have hhi : x.m * 2 ^ 24 < 2 ^ 24 * y.m := by omega
    refine ⟨x.m * 2 ^ 24, y.m, x.e - y.e - 24, by omega, ?_, hlo, hhi,
      round_significand_toRat _ _ _, round_significand_normal _ _ _ (by omega) hlo hhi⟩
    simp only [Value.toRat]
    rw [zpow_sub₀ two_ne_zero, zpow_sub₀ two_ne_zero]
    push_cast
    field_simp
    norm_num
    ring

/-- The multiplication of normal numbers: the exact product is `(a / b) * 2 ^ e` with a
quotient `a / b` that is at least `2 ^ 23` and below `2 ^ 24`, and the result is the
integer nearest to `a / b`, ties to even, at the exponent `e`; it is normal. -/
theorem mul_rounds (x y : Value) (hx : x.normal) (hy : y.normal) :
    ∃ (a b : Nat) (e : Int), 0 < b ∧ x.toRat * y.toRat = (a : ℚ) / (b : ℚ) * (2 : ℚ) ^ e
      ∧ 2 ^ 23 * b ≤ a ∧ a < 2 ^ 24 * b
      ∧ (mul x y).toRat = (round_even a b : ℚ) * (2 : ℚ) ^ e
      ∧ (mul x y).normal := by
  obtain ⟨hx1, hx2⟩ := hx
  obtain ⟨hy1, hy2⟩ := hy
  have hx0 : x.m ≠ 0 := by
    have : 0 < 2 ^ 23 := by norm_num
    omega
  have hy0 : y.m ≠ 0 := by
    have : 0 < 2 ^ 23 := by norm_num
    omega
  have hlow : 2 ^ 46 ≤ x.m * y.m := by
    calc 2 ^ 46 = 2 ^ 23 * 2 ^ 23 := by norm_num
      _ ≤ x.m * y.m := Nat.mul_le_mul hx1 hy1
  have hupp : x.m * y.m < 2 ^ 48 := by
    calc x.m * y.m < 2 ^ 24 * 2 ^ 24 := Nat.mul_lt_mul'' hx2 hy2
      _ = 2 ^ 48 := by norm_num
  unfold mul
  rw [if_neg (by simp [hx0, hy0])]
  split_ifs with hle
  · have hlo : 2 ^ 23 * 2 ^ 24 ≤ x.m * y.m := by
      calc 2 ^ 23 * 2 ^ 24 = 2 ^ 47 := by norm_num
        _ ≤ x.m * y.m := hle
    have hhi : x.m * y.m < 2 ^ 24 * 2 ^ 24 := by
      calc x.m * y.m < 2 ^ 48 := hupp
        _ = 2 ^ 24 * 2 ^ 24 := by norm_num
    refine ⟨x.m * y.m, 2 ^ 24, x.e + y.e + 24, by norm_num, ?_, hlo, hhi,
      round_significand_toRat _ _ _, round_significand_normal _ _ _ (by norm_num) hlo hhi⟩
    simp only [Value.toRat]
    rw [zpow_add₀ two_ne_zero, zpow_add₀ two_ne_zero]
    push_cast
    norm_num
    ring
  · have hlo : 2 ^ 23 * 2 ^ 23 ≤ x.m * y.m := by
      calc 2 ^ 23 * 2 ^ 23 = 2 ^ 46 := by norm_num
        _ ≤ x.m * y.m := hlow
    have hhi : x.m * y.m < 2 ^ 24 * 2 ^ 23 := by
      calc x.m * y.m < 2 ^ 47 := by omega
        _ = 2 ^ 24 * 2 ^ 23 := by norm_num
    refine ⟨x.m * y.m, 2 ^ 23, x.e + y.e + 23, by norm_num, ?_, hlo, hhi,
      round_significand_toRat _ _ _, round_significand_normal _ _ _ (by norm_num) hlo hhi⟩
    simp only [Value.toRat]
    rw [zpow_add₀ two_ne_zero, zpow_add₀ two_ne_zero]
    push_cast
    norm_num
    ring

/-- The conversion to an unsigned integer is the floor of the number. -/
theorem to_uint_floor (x : Value) : (to_uint x : Int) = ⌊x.toRat⌋ := by
  unfold to_uint Value.toRat
  rcases Int.le_total 0 x.e with h | h
  · obtain ⟨k, hk⟩ := Int.eq_ofNat_of_zero_le h
    rw [hk]
    simp only [Int.toNat_ofNat, zpow_natCast]
    have : (-(k : Int)).toNat = 0 := by omega
    rw [this]
    simp only [pow_zero, Nat.div_one]
    have e : ((x.m : ℚ) * (2 : ℚ) ^ k) = (((x.m * 2 ^ k : Nat) : Int) : ℚ) := by push_cast; ring
    rw [e, Int.floor_intCast]
  · obtain ⟨k, hk⟩ := Int.eq_ofNat_of_zero_le (by omega : 0 ≤ -x.e)
    have hk' : x.e = -(k : Int) := by omega
    rw [hk']
    have t : (-(k : Int)).toNat = 0 := by omega
    simp only [t, pow_zero, mul_one, neg_neg, Int.toNat_ofNat, zpow_neg, zpow_natCast]
    have e : (x.m : ℚ) * ((2 : ℚ) ^ k)⁻¹ = ((x.m : ℚ) / ((2 ^ k : Nat) : ℚ)) := by
      push_cast
      rw [div_eq_mul_inv]
    rw [e, Rat.floor_natCast_div_natCast]
    rfl

/-- The rounding at known values: `1.0f / 10.0f` is `0.1f` and `1.0f / 3.0f` is
`11184811 / 2 ^ 25`; of the two ties, `2 ^ 24 + 1` goes to the even significand below
and `2 ^ 24 + 3` to the even one above; `2 ^ 25 - 1` rounds up to `2 ^ 25`, at the next
exponent; `0.1f * 0.1f` is `10737419 / 2 ^ 30`. The rounding of rationals gives the same
numbers, and `0.1f + 32.0f` is `4207411 / 2 ^ 17`. -/
theorem round_examples :
    div (of_nat 1) (of_nat 10) = ⟨13421773, -27⟩
    ∧ div (of_nat 1) (of_nat 3) = ⟨11184811, -25⟩
    ∧ of_nat 16777217 = ⟨8388608, 1⟩
    ∧ of_nat 16777219 = ⟨8388610, 1⟩
    ∧ of_nat 33554431 = ⟨8388608, 2⟩
    ∧ mul ⟨13421773, -27⟩ ⟨13421773, -27⟩ = ⟨10737419, -30⟩
    ∧ of_nat 1920 = ⟨15728640, -13⟩
    ∧ to_uint ⟨16515071, -18⟩ = 62
    ∧ round (1 / 10) = 13421773 / 2 ^ 27
    ∧ round (-(1 / 3)) = -(11184811 / 2 ^ 25)
    ∧ round 16777217 = 16777216
    ∧ round 16777219 = 16777220
    ∧ times (13421773 / 2 ^ 27) (13421773 / 2 ^ 27) = 10737419 / 2 ^ 30
    ∧ plus (13421773 / 2 ^ 27) 32 = 4207411 / 2 ^ 17
    ∧ over 63 1920 = 8808038 / 2 ^ 28 := by
  decide!

end Single

/-! ## Theorems, part 2: the glyph atlas -/

namespace Glyph

/-- Rasterization either fails and changes nothing, or uploads the bitmap once, copies
the metrics of the slot and sets `rasterized`. -/
theorem rasterize_cached_glyph_cases (ft : FreeType) (data : Data) (font : CachedFont)
    (info : UnicodeGlyphInfo) (glyph : Nat) :
    rasterize_cached_glyph ft data font info glyph = (false, data, info)
    ∨ ∃ face slot, info.face = some face
        ∧ glyph ≠ UTF8.invalid_codepoint
        ∧ ft.load_char face font.font_size glyph = Except.ok slot
        ∧ to_uint (info.info.ty * data.height) + slot.bitmap_rows ≤ data.height
        ∧ rasterize_cached_glyph ft data font info glyph
          = (true, data.submit (upload_of data font glyph info.info slot),
             { info with info := info.info.with_metrics slot, rasterized := true }) := by
  unfold rasterize_cached_glyph
  by_cases h1 : glyph = UTF8.invalid_codepoint
  · left; simp [h1]
  cases h2 : info.face with
  | none => left; simp [h1]
  | some face =>
    by_cases h3 : (resize_font ft face font.font_size).1 = true
    · cases h4 : ft.load_char face font.font_size glyph with
      | error e => left; simp [h1, h3, h4]
      | ok slot =>
        cases h5 : ft.render_glyph face font.font_size glyph with
        | error e => left; simp [h1, h3, h4, h5]
        | ok u =>
          by_cases h6 : to_uint (info.info.ty * data.height) + slot.bitmap_rows > data.height
          · left; simp [h1, h3, h4, h5, h6]
          · right
            refine ⟨face, slot, rfl, h1, h4, by omega, ?_⟩
            simp [h1, h3, h4, h5, h6, Data.submit, upload_of, CharInfo.with_metrics]
    · left; simp [h1, h3]

/-- A request for a codepoint that has an entry: the entry is returned as it is, or the
sticky failure answers, or rasterization is attempted once. -/
theorem request_existing_cases (ft : FreeType) (data : Data) (font : CachedFont) (glyph : Nat)
    (r : Rasterize) (e : UnicodeGlyphInfo) (hg : glyph ≠ UTF8.invalid_codepoint)
    (he : font.cached_glyphs_map glyph = some e) :
    ((e.rasterized = true ∨ r = Rasterize.No)
      ∧ request_cached_glyph ft data font glyph r = (some e, data, font))
    ∨ (e.rasterized = false ∧ r = Rasterize.Yes ∧ e.failed_to_rasterize = true
      ∧ request_cached_glyph ft data font glyph r = (none, data, font))
    ∨ (e.rasterized = false ∧ r = Rasterize.Yes ∧ e.failed_to_rasterize = false
      ∧ rasterize_cached_glyph ft data font e glyph = (false, data, e)
      ∧ request_cached_glyph ft data font glyph r
        = (none, data, font.set_glyph glyph { e with failed_to_rasterize := true }))
    ∨ (e.rasterized = false ∧ r = Rasterize.Yes ∧ e.failed_to_rasterize = false
      ∧ ∃ face slot, e.face = some face
        ∧ ft.load_char face font.font_size glyph = Except.ok slot
        ∧ to_uint (e.info.ty * data.height) + slot.bitmap_rows ≤ data.height
        ∧ request_cached_glyph ft data font glyph r
          = (some { e with info := e.info.with_metrics slot, rasterized := true,
                           failed_to_rasterize := false },
             data.submit (upload_of data font glyph e.info slot),
             font.set_glyph glyph { e with info := e.info.with_metrics slot,
                                            rasterized := true,
                                            failed_to_rasterize := false })) := by
  by_cases hk : e.rasterized = true ∨ r = Rasterize.No
  · left
    refine ⟨hk, ?_⟩
    unfold request_cached_glyph
    have : ¬ (¬ e.rasterized = true ∧ r = Rasterize.Yes) := by
      rintro ⟨h1, h2⟩
      rcases hk with h | h
      · exact h1 h
      · rw [h] at h2; exact Rasterize.noConfusion h2
    simp only [if_neg hg, he, if_neg this]
  · have hr : e.rasterized = false := by
      cases h : e.rasterized
      · rfl
      · exact absurd (Or.inl h) hk
    have hy : r = Rasterize.Yes := by
      cases r
      · exact absurd (Or.inr rfl) hk
      · rfl
    have hc : ¬ e.rasterized = true ∧ r = Rasterize.Yes := ⟨by simp [hr], hy⟩
    right
    by_cases hf : e.failed_to_rasterize = true
    · left
      refine ⟨hr, hy, hf, ?_⟩
      unfold request_cached_glyph
      simp only [if_neg hg, he, if_pos hc, if_pos hf]
    · right
      have hf' : e.failed_to_rasterize = false := by simpa using hf
      rcases rasterize_cached_glyph_cases ft data font e glyph with
        hfail | ⟨face, slot, hface, _, hload, hfit, hok⟩
      · left
        refine ⟨hr, hy, hf', hfail, ?_⟩
        unfold request_cached_glyph
        simp only [if_neg hg, he, if_pos hc, if_neg hf, hfail]
        simp [CachedFont.set_glyph]
      · right
        refine ⟨hr, hy, hf', face, slot, hface, hload, hfit, ?_⟩
        unfold request_cached_glyph
        simp only [if_neg hg, he, if_pos hc, if_neg hf, hok]
        simp [CachedFont.set_glyph]

theorem set_glyph_set_glyph (font : CachedFont) (glyph : Nat) (a b : UnicodeGlyphInfo) :
    (font.set_glyph glyph a).set_glyph glyph b = font.set_glyph glyph b := by
  simp [CachedFont.set_glyph]

/-- A request for a codepoint without an entry: the entry is created; it stays
value-initialised when the face cannot be sized or the glyph cannot be loaded, and
otherwise gets its metrics and atlas position, the cursor advances, and rasterization
is attempted when asked for. -/
theorem request_new_cases (ft : FreeType) (data : Data) (font : CachedFont) (glyph : Nat)
    (r : Rasterize) (hg : glyph ≠ UTF8.invalid_codepoint)
    (he : font.cached_glyphs_map glyph = none) :
    (((resize_font ft (identify_font_face_for_glyph ft data glyph).1 font.font_size).1 = false
        ∨ ∃ log, ft.load_char (identify_font_face_for_glyph ft data glyph).1 font.font_size glyph
            = Except.error log)
      ∧ request_cached_glyph ft data font glyph r
        = (none, (identify_font_face_for_glyph ft data glyph).2, font.set_glyph glyph {}))
    ∨ ∃ slot,
        (resize_font ft (identify_font_face_for_glyph ft data glyph).1 font.font_size).1 = true
        ∧ ft.load_char (identify_font_face_for_glyph ft data glyph).1 font.font_size glyph
          = Except.ok slot
        ∧ ((r = Rasterize.No
            ∧ request_cached_glyph ft data font glyph r
              = (some { info := placed_info (identify_font_face_for_glyph ft data glyph).2 slot
                        face := some (identify_font_face_for_glyph ft data glyph).1 },
                 advance_cursor (identify_font_face_for_glyph ft data glyph).2 slot,
                 font.set_glyph glyph
                   { info := placed_info (identify_font_face_for_glyph ft data glyph).2 slot
                     face := some (identify_font_face_for_glyph ft data glyph).1 }))
          ∨ (r = Rasterize.Yes
            ∧ request_cached_glyph ft data font glyph r
              = (none,
                 advance_cursor (identify_font_face_for_glyph ft data glyph).2 slot,
                 font.set_glyph glyph
                   { info := placed_info (identify_font_face_for_glyph ft data glyph).2 slot
                     face := some (identify_font_face_for_glyph ft data glyph).1
                     failed_to_rasterize := true }))
          ∨ (r = Rasterize.Yes
            ∧ to_uint ((placed_info (identify_font_face_for_glyph ft data glyph).2 slot).ty
                  * (identify_font_face_for_glyph ft data glyph).2.height)
                + slot.bitmap_rows ≤ (identify_font_face_for_glyph ft data glyph).2.height
            ∧ request_cached_glyph ft data font glyph r
              = (some { info := placed_info (identify_font_face_for_glyph ft data glyph).2 slot
                        face := some (identify_font_face_for_glyph ft data glyph).1
                        rasterized := true },
                 (advance_cursor (identify_font_face_for_glyph ft data glyph).2 slot).submit
                   (upload_of (identify_font_face_for_glyph ft data glyph).2 font glyph
                     (placed_info (identify_font_face_for_glyph ft data glyph).2 slot) slot),
                 font.set_glyph glyph
                   { info := placed_info (identify_font_face_for_glyph ft data glyph).2 slot
                     face := some (identify_font_face_for_glyph ft data glyph).1
                     rasterized := true }))) := by
  generalize hid : identify_font_face_for_glyph ft data glyph = fd
  obtain ⟨face, d1⟩ := fd
  simp only []
  have hfs : (font.set_glyph glyph {}).font_size = font.font_size := rfl
  by_cases hrs : (resize_font ft face font.font_size).1 = true
  · cases hl : ft.load_char face font.font_size glyph with
    | error log =>
      left
      refine ⟨Or.inr ⟨log, rfl⟩, ?_⟩
      unfold request_cached_glyph
      simp only [if_neg hg, he, hid, hfs, hrs, not_true_eq_false, if_false, hl]
    | ok slot =>
      right
      refine ⟨slot, hrs, rfl, ?_⟩
      cases r with
      | No =>
        left
        refine ⟨rfl, ?_⟩
        unfold request_cached_glyph
        simp only [if_neg hg, he, hid, hfs, hrs, not_true_eq_false, if_false, hl,
          set_glyph_set_glyph]
        rfl
      | Yes =>
        right
        rcases rasterize_cached_glyph_cases ft (advance_cursor d1 slot)
            (font.set_glyph glyph { info := placed_info d1 slot, face := some face })
            { info := placed_info d1 slot, face := some face } glyph with
          hfail | ⟨face', slot', hface, _, hload, hfit, hok⟩
        · left
          refine ⟨rfl, ?_⟩
          unfold request_cached_glyph
          simp only [if_neg hg, he, hid, hfs, hrs, not_true_eq_false, if_false, hl, if_true,
            hfail, set_glyph_set_glyph]
          rfl
        · right
          have hf : face' = face := by
            simp only [Option.some.injEq] at hface
            exact hface.symm
          subst hf
          have hs : slot' = slot := by
            have h' : ft.load_char face' font.font_size glyph = Except.ok slot' := hload
            rw [hl] at h'
            exact (Except.ok.inj h').symm
          subst hs
          refine ⟨rfl, hfit, ?_⟩
          unfold request_cached_glyph
          simp only [if_neg hg, he, hid, hfs, hrs, not_true_eq_false, if_false, hl, if_true,
            hok, set_glyph_set_glyph]
          rfl
  · left
    refine ⟨Or.inl (by simpa using hrs), ?_⟩
    unfold request_cached_glyph
    simp only [if_neg hg, he, hid, hfs, hrs, if_true]
    simp

/-! ### What a call changes in the data -/

theorem identify_cached_fonts (ft : FreeType) (data : Data) (glyph : Nat) :
    (identify_font_face_for_glyph ft data glyph).2.cached_fonts = data.cached_fonts
    ∧ (identify_font_face_for_glyph ft data glyph).2.texture = data.texture
    ∧ (identify_font_face_for_glyph ft data glyph).2.width = data.width
    ∧ (identify_font_face_for_glyph ft data glyph).2.height = data.height
    ∧ (identify_font_face_for_glyph ft data glyph).2.next_x = data.next_x
    ∧ (identify_font_face_for_glyph ft data glyph).2.next_y = data.next_y
    ∧ (identify_font_face_for_glyph ft data glyph).2.cur_row_max_height
        = data.cur_row_max_height
    ∧ (identify_font_face_for_glyph ft data glyph).2.face = data.face := by
  unfold identify_font_face_for_glyph
  simp only []
  split_ifs <;> (try split) <;> simp

/-- The state part of `extract_glyph_info` is that of `request_cached_glyph` for a
codepoint outside the standard table other than the invalid one, and unchanged
otherwise. -/
theorem extract_glyph_info_state (ft : FreeType) (data : Data) (font : CachedFont)
    (tabstop : Int) (glyph : Nat) (r : Rasterize) (ws : Bool) :
    (extract_glyph_info ft data font tabstop glyph r ws).2
      = if glyph ≥ CharInfoCount ∧ glyph ≠ UTF8.invalid_codepoint then
          (request_cached_glyph ft data font glyph r).2
        else (data, font) := by
  unfold extract_glyph_info
  by_cases h1 : glyph ≥ CharInfoCount
  · by_cases h2 : glyph = UTF8.invalid_codepoint
    · rw [if_pos h1, if_pos h2, if_neg (fun h => h.2 h2)]
    · simp only [h1, h2, if_true, if_false, ne_eq, not_false_eq_true, and_self]
      rcases hreq : request_cached_glyph ft data font glyph r with ⟨res, d', f'⟩
      cases res with
      | none => rfl
      | some info => rfl
  · simp only [h1, if_false, false_and]

@[simp] theorem set_glyph_same (font : CachedFont) (glyph : Nat) (e : UnicodeGlyphInfo) :
    (font.set_glyph glyph e).cached_glyphs_map glyph = some e := by
  simp [CachedFont.set_glyph]

theorem set_glyph_other (font : CachedFont) (glyph cp : Nat) (e : UnicodeGlyphInfo)
    (h : cp ≠ glyph) :
    (font.set_glyph glyph e).cached_glyphs_map cp = font.cached_glyphs_map cp := by
  simp [CachedFont.set_glyph, Function.update_noteq h]

@[simp] theorem set_glyph_font_size (font : CachedFont) (glyph : Nat) (e : UnicodeGlyphInfo) :
    (font.set_glyph glyph e).font_size = font.font_size := rfl

@[simp] theorem set_glyph_infos (font : CachedFont) (glyph : Nat) (e : UnicodeGlyphInfo) :
    (font.set_glyph glyph e).infos = font.infos := rfl

@[simp] theorem submit_cached_fonts (data : Data) (u : GlyphEntry) :
    (data.submit u).cached_fonts = data.cached_fonts := rfl

@[simp] theorem submit_texture (data : Data) (u : GlyphEntry) :
    (data.submit u).texture = data.texture ++ [u] := rfl

@[simp] theorem advance_cursor_cached_fonts (data : Data) (slot : GlyphSlot) :
    (advance_cursor data slot).cached_fonts = data.cached_fonts := rfl

@[simp] theorem advance_cursor_texture (data : Data) (slot : GlyphSlot) :
    (advance_cursor data slot).texture = data.texture := rfl

@[simp] theorem upload_of_owner (data : Data) (font : CachedFont) (glyph : Nat) (c : CharInfo)
    (slot : GlyphSlot) :
    (upload_of data font glyph c slot).owner = GlyphOwner.cached font.font_size glyph := rfl

/-- What one `request_cached_glyph` call changes: nothing in the font table of the
data, in the font only the entry of the codepoint; it uploads at most once, exactly
when the entry goes from not rasterized to rasterized; a failure mark stays. -/
theorem request_summary (ft : FreeType) (data : Data) (font : CachedFont) (glyph : Nat)
    (r : Rasterize) :
    (request_cached_glyph ft data font glyph r).2.1.cached_fonts = data.cached_fonts
    ∧ (request_cached_glyph ft data font glyph r).2.2.font_size = font.font_size
    ∧ (request_cached_glyph ft data font glyph r).2.2.infos = font.infos
    ∧ (∀ cp, cp ≠ glyph →
        (request_cached_glyph ft data font glyph r).2.2.cached_glyphs_map cp
          = font.cached_glyphs_map cp)
    ∧ (((request_cached_glyph ft data font glyph r).2.1.texture = data.texture
          ∧ is_rasterized ((request_cached_glyph ft data font glyph r).2.2.cached_glyphs_map glyph)
              = is_rasterized (font.cached_glyphs_map glyph))
        ∨ (∃ u, u.owner = GlyphOwner.cached font.font_size glyph
          ∧ (request_cached_glyph ft data font glyph r).2.1.texture = data.texture ++ [u]
          ∧ is_rasterized (font.cached_glyphs_map glyph) = false
          ∧ is_rasterized ((request_cached_glyph ft data font glyph r).2.2.cached_glyphs_map glyph)
              = true
          ∧ has_failed ((request_cached_glyph ft data font glyph r).2.2.cached_glyphs_map glyph)
              = false))
    ∧ (has_failed (font.cached_glyphs_map glyph) = true →
        has_failed ((request_cached_glyph ft data font glyph r).2.2.cached_glyphs_map glyph)
          = true)
    ∧ ((has_failed (font.cached_glyphs_map glyph) = true →
          is_rasterized (font.cached_glyphs_map glyph) = false) →
        has_failed ((request_cached_glyph ft data font glyph r).2.2.cached_glyphs_map glyph)
          = true →
        is_rasterized ((request_cached_glyph ft data font glyph r).2.2.cached_glyphs_map glyph)
          = false) := by
  by_cases hg : glyph = UTF8.invalid_codepoint
  · have : request_cached_glyph ft data font glyph r = (none, data, font) := by
      unfold request_cached_glyph; rw [if_pos hg]
    rw [this]
    exact ⟨rfl, rfl, rfl, fun _ _ => rfl, Or.inl ⟨rfl, rfl⟩, id, id⟩
  cases he : font.cached_glyphs_map glyph with
  | some e =>
    rcases request_existing_cases ft data font glyph r e hg he with
      ⟨_, h⟩ | ⟨_, _, _, h⟩ | ⟨hr, _, _, _, h⟩ | ⟨hr, _, _, face, slot, _, _, _, h⟩
    · rw [h]
      simp only [he]
      simp
    · rw [h]
      simp only [he]
      simp
    · rw [h]
      refine ⟨rfl, rfl, rfl, fun cp hcp => set_glyph_other _ _ _ _ hcp, Or.inl ⟨rfl, ?_⟩, ?_, ?_⟩
      · simp [is_rasterized]
      · intro _; simp [has_failed]
      · intro _ _; simp [is_rasterized, hr]
    · rw [h]
      refine ⟨rfl, rfl, rfl, fun cp hcp => set_glyph_other _ _ _ _ hcp,
        Or.inr ⟨_, rfl, rfl, ?_, ?_, ?_⟩, ?_, ?_⟩
      · simp [is_rasterized, hr]
      · simp [is_rasterized]
      · simp [has_failed]
      · intro hf; simp_all [has_failed]
      · intro _ hf; simp [has_failed] at hf
  | none =>
    rcases request_new_cases ft data font glyph r hg he with
      ⟨_, h⟩ | ⟨slot, _, _, ⟨_, h⟩ | ⟨_, h⟩ | ⟨_, _, h⟩⟩
    · rw [h]
      refine ⟨(identify_cached_fonts ft data glyph).1, rfl, rfl,
        fun cp hcp => set_glyph_other _ _ _ _ hcp,
        Or.inl ⟨(identify_cached_fonts ft data glyph).2.1, ?_⟩, ?_, ?_⟩
      · simp [is_rasterized]
      · intro hf; simp [has_failed] at hf
      · intro _ hf; simp [has_failed] at hf
    · rw [h]
      refine ⟨(identify_cached_fonts ft data glyph).1, rfl, rfl,
        fun cp hcp => set_glyph_other _ _ _ _ hcp,
        Or.inl ⟨(identify_cached_fonts ft data glyph).2.1, ?_⟩, ?_, ?_⟩
      · simp [is_rasterized]
      · intro hf; simp [has_failed] at hf
      · intro _ hf; simp [has_failed] at hf
    · rw [h]
      refine ⟨(identify_cached_fonts ft data glyph).1, rfl, rfl,
        fun cp hcp => set_glyph_other _ _ _ _ hcp,
        Or.inl ⟨(identify_cached_fonts ft data glyph).2.1, ?_⟩, ?_, ?_⟩
      · simp [is_rasterized]
      · intro hf; simp [has_failed] at hf
      · intro _ _; simp [is_rasterized]
    · rw [h]
      refine ⟨(identify_cached_fonts ft data glyph).1, rfl, rfl,
        fun cp hcp => set_glyph_other _ _ _ _ hcp,
        Or.inr ⟨upload_of (identify_font_face_for_glyph ft data glyph).2 font glyph
          (placed_info (identify_font_face_for_glyph ft data glyph).2 slot) slot,
          rfl, ?_, ?_, ?_, ?_⟩, ?_, ?_⟩
      · simp [(identify_cached_fonts ft data glyph).2.1]
      · simp [is_rasterized]
      · simp [is_rasterized]
      · simp [has_failed]
      · intro hf; simp [has_failed] at hf
      · intro _ hf; simp [has_failed] at hf

theorem extract_of_none (ft : FreeType) (ctx : RenderFontContext) (data : Data) (cp : Nat)
    (r : Rasterize) (hf : data.cached_fonts ctx.font = none) :
    ctx.extract ft data cp r = (none, data) := by
  simp only [RenderFontContext.extract, hf]

theorem extract_of_some (ft : FreeType) (ctx : RenderFontContext) (data : Data) (cp : Nat)
    (r : Rasterize) (font : CachedFont) (hf : data.cached_fonts ctx.font = some font) :
    ctx.extract ft data cp r
      = (some (extract_glyph_info ft data font ctx.tabs cp r ctx.render_ws).1,
         { (extract_glyph_info ft data font ctx.tabs cp r ctx.render_ws).2.1 with
           cached_fonts := Function.update
             (extract_glyph_info ft data font ctx.tabs cp r ctx.render_ws).2.1.cached_fonts
             ctx.font (some (extract_glyph_info ft data font ctx.tabs cp r ctx.render_ws).2.2) })
    := by
  simp only [RenderFontContext.extract, hf]

/-- The data after a call of `extract_glyph_info` through a context. -/
theorem extract_data (ft : FreeType) (ctx : RenderFontContext) (data : Data) (cp : Nat)
    (r : Rasterize) :
    (data.cached_fonts ctx.font = none ∧ (ctx.extract ft data cp r).2 = data)
    ∨ (∃ font, data.cached_fonts ctx.font = some font
        ∧ ¬ (cp ≥ CharInfoCount ∧ cp ≠ UTF8.invalid_codepoint)
        ∧ (ctx.extract ft data cp r).2 = data)
    ∨ (∃ font, data.cached_fonts ctx.font = some font
        ∧ cp ≥ CharInfoCount ∧ cp ≠ UTF8.invalid_codepoint
        ∧ (ctx.extract ft data cp r).2
          = { (request_cached_glyph ft data font cp r).2.1 with
              cached_fonts := Function.update data.cached_fonts ctx.font
                (some (request_cached_glyph ft data font cp r).2.2) }) := by
  cases hf : data.cached_fonts ctx.font with
  | none => exact Or.inl ⟨rfl, by rw [extract_of_none ft ctx data cp r hf]⟩
  | some font =>
    right
    have hs := extract_glyph_info_state ft data font ctx.tabs cp r ctx.render_ws
    rw [extract_of_some ft ctx data cp r font hf]
    by_cases hc : cp ≥ CharInfoCount ∧ cp ≠ UTF8.invalid_codepoint
    · right
      refine ⟨font, rfl, hc.1, hc.2, ?_⟩
      rw [if_pos hc] at hs
      simp only []
      rw [hs, (request_summary ft data font cp r).1]
    · left
      refine ⟨font, rfl, hc, ?_⟩
      rw [if_neg hc] at hs
      simp only []
      rw [hs]
      simp only []
      rw [← hf, Function.update_eq_self]

theorem upload_count_append (t : List GlyphEntry) (u : GlyphEntry) (o : GlyphOwner) :
    ((t ++ [u]).filter (fun e => e.owner = o)).length
      = (t.filter (fun e => e.owner = o)).length + (if u.owner = o then 1 else 0) := by
  rw [List.filter_append, List.length_append]
  by_cases h : u.owner = o <;> simp [List.filter, h]

theorem cached_entry_update (data : Data) (d1 : Data) (s : Int) (f1 : CachedFont)
    (s' : Int) (cp : Nat) :
    cached_entry { d1 with cached_fonts := Function.update data.cached_fonts s (some f1) } s' cp
      = if s' = s then f1.cached_glyphs_map cp else cached_entry data s' cp := by
  unfold cached_entry
  by_cases h : s' = s
  · subst h; simp
  · simp [h, Function.update_noteq h]

theorem cached_entry_of_font (data : Data) (s : Int) (font : CachedFont) (cp : Nat)
    (h : data.cached_fonts s = some font) :
    cached_entry data s cp = font.cached_glyphs_map cp := by
  simp [cached_entry, h]

/-- A call of `extract_glyph_info` through a context keeps the cache invariant. -/
theorem extract_preserves_cache_invariant (ft : FreeType) (ctx : RenderFontContext)
    (data : Data) (cp : Nat) (r : Rasterize) (hinv : cache_invariant data) :
    cache_invariant (ctx.extract ft data cp r).2 := by
  rcases extract_data ft ctx data cp r with ⟨_, h⟩ | ⟨_, _, _, h⟩ | ⟨font, hf, _, _, h⟩
  · rw [h]; exact hinv
  · rw [h]; exact hinv
  · obtain ⟨hfs, hcnt, hfnr⟩ := hinv
    obtain ⟨_, s2, _, s4, s5, _, s7⟩ := request_summary ft data font cp r
    have hkey : font.font_size = ctx.font := hfs _ _ hf
    rw [h]
    refine ⟨?_, ?_, ?_⟩
    · intro s' font' hs'
      by_cases hss : s' = ctx.font
      · subst hss
        simp only [Function.update_same, Option.some.injEq] at hs'
        rw [← hs', s2, hkey]
      · simp only [Function.update_noteq hss] at hs'
        exact hfs _ _ hs'
    · intro s' cp'
      rw [cached_entry_update]
      have hold := hcnt s' cp'
      unfold upload_count at hold ⊢
      simp only []
      by_cases hss : s' = ctx.font
      · subst hss
        rw [if_pos rfl]
        rw [cached_entry_of_font data _ font cp' hf] at hold
        by_cases hcc : cp' = cp
        · subst hcc
          rcases s5 with ⟨ht, hr⟩ | ⟨u, hu, ht, hr0, hr1, _⟩
          · rw [ht, hr]; exact hold
          · rw [ht, upload_count_append, hold, hr0, hr1, hu, hkey]
            simp
        · rw [s4 cp' hcc]
          rcases s5 with ⟨ht, _⟩ | ⟨u, hu, ht, _, _, _⟩
          · rw [ht]; exact hold
          · rw [ht, upload_count_append, hold, hu, hkey]
            have : ¬ (GlyphOwner.cached ctx.font cp = GlyphOwner.cached ctx.font cp') := by
              intro hh
              injection hh with _ h2
              exact hcc h2.symm
            simp [this]
      · rw [if_neg hss]
        rcases s5 with ⟨ht, _⟩ | ⟨u, hu, ht, _, _, _⟩
        · rw [ht]; exact hold
        · rw [ht, upload_count_append, hold, hu, hkey]
          have : ¬ (GlyphOwner.cached ctx.font cp = GlyphOwner.cached s' cp') := by
            intro hh
            injection hh with h1 _
            exact hss h1.symm
          simp [this]
    · intro s' cp'
      rw [cached_entry_update]
      by_cases hss : s' = ctx.font
      · subst hss
        rw [if_pos rfl]
        have hold := hfnr ctx.font cp'
        rw [cached_entry_of_font data _ font cp' hf] at hold
        by_cases hcc : cp' = cp
        · subst hcc
          exact s7 hold
        · rw [s4 cp' hcc]
          exact hold
      · rw [if_neg hss]
        exact hfnr s' cp'

/-! ### Populating the standard glyphs -/

/-- The loops of `populate_standard_glyphs` submit standard glyphs only: the number of
uploads of any dynamic entry is what it was, whether the loop completes or stops. -/
theorem populate_loop_uploads (ft : FreeType) (face : Nat) (font_size : Int)
    (width height : Nat) (s : Int) (cp : Nat) (todo : List SpecialGlyphEntry) :
    ∀ st : PopulateState,
      (∀ st', populate_loop ft face font_size width height todo st = Except.ok st' →
        (st'.texture.filter (fun e => e.owner = GlyphOwner.cached s cp)).length
          = (st.texture.filter (fun e => e.owner = GlyphOwner.cached s cp)).length)
      ∧ (∀ msg st',
          populate_loop ft face font_size width height todo st = Except.error (msg, st') →
          (st'.texture.filter (fun e => e.owner = GlyphOwner.cached s cp)).length
            = (st.texture.filter (fun e => e.owner = GlyphOwner.cached s cp)).length) := by
  induction todo with
  | nil =>
    intro st
    constructor
    · intro st' h
      simp only [populate_loop, Except.ok.injEq] at h
      rw [← h]
    · intro msg st' h
      simp only [populate_loop] at h
      exact Except.noConfusion h
  | cons e rest ih =>
    intro st
    unfold populate_loop
    cases hl : ft.load_char face font_size e.glyph with
    | error log =>
      simp only []
      constructor
      · intro st' h; exact Except.noConfusion h
      · intro msg st' h
        simp only [Except.error.injEq, Prod.mk.injEq] at h
        rw [← h.2]
    | ok slot =>
      cases hr : ft.render_glyph face font_size e.glyph with
      | error log =>
        simp only []
        constructor
        · intro st' h; exact Except.noConfusion h
        · intro msg st' h
          simp only [Except.error.injEq, Prod.mk.injEq] at h
          rw [← h.2]
      | ok u =>
        simp only []
        have key := ih (populate_step font_size width height st e slot)
        have happ : ((populate_step font_size width height st e slot).texture.filter
              (fun e => e.owner = GlyphOwner.cached s cp)).length
            = (st.texture.filter (fun e => e.owner = GlyphOwner.cached s cp)).length := by
          simp only [populate_step]
          rw [upload_count_append]
          simp
        constructor
        · intro st' h
          rw [← happ]
          exact key.1 st' h
        · intro msg st' h
          rw [← happ]
          exact key.2 msg st' h

/-- What `populate_standard_glyphs` leaves alone, whether it completes or not: the font
table of the data, the uploads of dynamic entries, the size and the dynamic map of the
font. -/
theorem populate_summary (ft : FreeType) (data : Data) (font : CachedFont) :
    (populate_standard_glyphs ft data font).2.2.1.cached_fonts = data.cached_fonts
    ∧ (∀ s cp, upload_count (populate_standard_glyphs ft data font).2.2.1
          (GlyphOwner.cached s cp) = upload_count data (GlyphOwner.cached s cp))
    ∧ (populate_standard_glyphs ft data font).2.2.2.font_size = font.font_size
    ∧ (populate_standard_glyphs ft data font).2.2.2.cached_glyphs_map
        = font.cached_glyphs_map := by
  unfold populate_standard_glyphs
  simp only []
  rcases hrs : resize_font ft data.face font.font_size with ⟨ok, msgs⟩
  cases ok with
  | false => exact ⟨rfl, fun _ _ => rfl, rfl, rfl⟩
  | true =>
    simp only []
    cases h1 : populate_loop ft data.face font.font_size data.width data.height
        standard_glyphs
        { x := data.next_x, y := data.next_y
          max_glyph_height_for_row := data.cur_row_max_height
          infos := font.infos, texture := data.texture } with
    | error p =>
      obtain ⟨msg, st1⟩ := p
      refine ⟨rfl, fun s cp => ?_, rfl, rfl⟩
      exact (populate_loop_uploads ft data.face font.font_size data.width data.height s cp
        standard_glyphs _).2 msg st1 h1
    | ok st1 =>
      have c1 := fun s cp =>
        (populate_loop_uploads ft data.face font.font_size data.width data.height s cp
          standard_glyphs _).1 st1 h1
      simp only []
      cases h2 : populate_loop ft data.face font.font_size data.width data.height
          special_glyph_map st1 with
      | error p =>
        obtain ⟨msg, st2⟩ := p
        refine ⟨rfl, fun s cp => ?_, rfl, rfl⟩
        exact ((populate_loop_uploads ft data.face font.font_size data.width data.height s cp
          special_glyph_map _).2 msg st2 h2).trans (c1 s cp)
      | ok st2 =>
        refine ⟨rfl, fun s cp => ?_, rfl, rfl⟩
        exact ((populate_loop_uploads ft data.face font.font_size data.width data.height s cp
          special_glyph_map _).1 st2 h2).trans (c1 s cp)

/-- The data after `try_set_font_size`: for a resident size only `selected_font`
changes; for a new size a font with that size and an empty dynamic map is entered, and
no dynamic entry is uploaded. -/
theorem try_set_font_size_data (ft : FreeType) (data : Data) (size : Int) :
    ((∃ font, data.cached_fonts size = some font)
      ∧ (try_set_font_size ft data size).2.2 = { data with selected_font := some size })
    ∨ (data.cached_fonts size = none
      ∧ ∃ font, font.font_size = size ∧ font.cached_glyphs_map = (fun _ => none)
        ∧ (try_set_font_size ft data size).2.2.cached_fonts
            = Function.update data.cached_fonts size (some font)
        ∧ ∀ s cp, upload_count (try_set_font_size ft data size).2.2 (GlyphOwner.cached s cp)
            = upload_count data (GlyphOwner.cached s cp)) := by
  unfold try_set_font_size
  cases hf : data.cached_fonts size with
  | some font => exact Or.inl ⟨⟨font, rfl⟩, rfl⟩
  | none =>
    right
    refine ⟨rfl, ?_⟩
    obtain ⟨p1, p2, p3, p4⟩ := populate_summary ft { data with selected_font := some size }
      { font_size := size, cached_glyphs_map := fun _ => none }
    refine ⟨(populate_standard_glyphs ft { data with selected_font := some size }
      { font_size := size, cached_glyphs_map := fun _ => none }).2.2.2, p3, p4, ?_, ?_⟩
    · simp only []
      rw [p1]
    · intro s cp
      exact p2 s cp

/-! ### The cache invariant over every reachable state -/

theorem cached_entry_try_set (ft : FreeType) (data : Data) (size : Int) (s : Int) (cp : Nat) :
    cached_entry (try_set_font_size ft data size).2.2 s cp = cached_entry data s cp := by
  rcases try_set_font_size_data ft data size with ⟨_, h⟩ | ⟨hn, font, _, hm, hc, _⟩
  · rw [h]; rfl
  · unfold cached_entry
    rw [hc]
    by_cases hs : s = size
    · subst hs
      simp [hn, hm]
    · rw [Function.update_noteq hs]

theorem upload_count_try_set (ft : FreeType) (data : Data) (size : Int) (s : Int) (cp : Nat) :
    upload_count (try_set_font_size ft data size).2.2 (GlyphOwner.cached s cp)
      = upload_count data (GlyphOwner.cached s cp) := by
  rcases try_set_font_size_data ft data size with ⟨_, h⟩ | ⟨_, font, _, _, _, hu⟩
  · rw [h]; rfl
  · exact hu s cp

theorem font_keys_try_set (ft : FreeType) (data : Data) (size : Int)
    (h : font_keys_consistent data) :
    font_keys_consistent (try_set_font_size ft data size).2.2 := by
  rcases try_set_font_size_data ft data size with ⟨_, h'⟩ | ⟨_, font, hfs, _, hc, _⟩
  · rw [h']; exact h
  · intro s f hf
    rw [hc] at hf
    by_cases hs : s = size
    · subst hs
      simp only [Function.update_same, Option.some.injEq] at hf
      rw [← hf, hfs]
    · rw [Function.update_noteq hs] at hf
      exact h s f hf

/-- The call `try_set_font_size` keeps the cache invariant. -/
theorem try_set_preserves_cache_invariant (ft : FreeType) (data : Data) (size : Int)
    (hinv : cache_invariant data) :
    cache_invariant (try_set_font_size ft data size).2.2 := by
  obtain ⟨h1, h2, h3⟩ := hinv
  refine ⟨font_keys_try_set ft data size h1, ?_, ?_⟩
  · intro s cp
    rw [upload_count_try_set, cached_entry_try_set]
    exact h2 s cp
  · intro s cp
    rw [cached_entry_try_set]
    exact h3 s cp

theorem apply_render_font_context (ft : FreeType) (data : Data) (size : Int) :
    (AtlasOp.render_font_context size).apply ft data = (try_set_font_size ft data size).2.2 :=
  rfl

theorem apply_glyph (ft : FreeType) (data : Data) (ctx : RenderFontContext) (cp : Nat)
    (r : Rasterize) :
    (AtlasOp.glyph ctx cp r).apply ft data = (ctx.extract ft data cp r).2 := rfl

/-- Every call on the atlas keeps the cache invariant. -/
theorem apply_preserves_cache_invariant (ft : FreeType) (data : Data) (op : AtlasOp)
    (hinv : cache_invariant data) : cache_invariant (op.apply ft data) := by
  cases op with
  | render_font_context size =>
    rw [apply_render_font_context]
    exact try_set_preserves_cache_invariant ft data size hinv
  | glyph ctx cp r =>
    rw [apply_glyph]
    exact extract_preserves_cache_invariant ft ctx data cp r hinv

theorem run_atlas_cache_invariant (ft : FreeType) (ops : List AtlasOp) :
    ∀ data, cache_invariant data → cache_invariant (run_atlas ft data ops) := by
  induction ops with
  | nil => intro data h; exact h
  | cons op ops ih =>
    intro data h
    exact ih _ (apply_preserves_cache_invariant ft data op h)

theorem populated_eq (ft : FreeType) (face : Nat) :
    Data.populated ft face
      = (try_set_font_size ft
          { face := face, width := texture_width, height := texture_height }
          default_font_size).2.2 := rfl

theorem after_init_cache_invariant (face : Nat) :
    cache_invariant { face := face, width := texture_width, height := texture_height } := by
  refine ⟨?_, ?_, ?_⟩
  · intro s f hf
    simp at hf
  · intro s cp
    simp [upload_count, cached_entry, is_rasterized]
  · intro s cp
    simp [cached_entry, has_failed]

theorem populated_cache_invariant (ft : FreeType) (face : Nat) :
    cache_invariant (Data.populated ft face) := by
  rw [populated_eq]
  exact try_set_preserves_cache_invariant ft _ _ (after_init_cache_invariant face)

/-- The entry of another codepoint or font after a call of `extract_glyph_info` through
a context is what it was; the entry of the codepoint is that of the request. -/
theorem cached_entry_extract (ft : FreeType) (ctx : RenderFontContext) (data : Data)
    (cp' : Nat) (r : Rasterize) (s : Int) (cp : Nat) :
    cached_entry (ctx.extract ft data cp' r).2 s cp = cached_entry data s cp
    ∨ (s = ctx.font ∧ cp = cp' ∧ CharInfoCount ≤ cp ∧ cp ≠ UTF8.invalid_codepoint
      ∧ ∃ font, data.cached_fonts s = some font
        ∧ cached_entry (ctx.extract ft data cp' r).2 s cp
          = (request_cached_glyph ft data font cp r).2.2.cached_glyphs_map cp) := by
  rcases extract_data ft ctx data cp' r with ⟨_, h⟩ | ⟨_, _, _, h⟩ | ⟨font, hf, h1, h2, h⟩
  · left; rw [h]
  · left; rw [h]
  · rw [h, cached_entry_update]
    by_cases hs : s = ctx.font
    · rw [if_pos hs]
      by_cases hc : cp = cp'
      · right
        subst hc
        subst hs
        exact ⟨rfl, rfl, h1, h2, font, hf, rfl⟩
      · left
        rw [(request_summary ft data font cp' r).2.2.2.1 cp hc, hs,
          cached_entry_of_font data _ font cp hf]
    · left; rw [if_neg hs]

/-- A failure mark stays over every call on the atlas. -/
theorem apply_keeps_failed (ft : FreeType) (data : Data) (op : AtlasOp) (s : Int) (cp : Nat)
    (h : has_failed (cached_entry data s cp) = true) :
    has_failed (cached_entry (op.apply ft data) s cp) = true := by
  cases op with
  | render_font_context size =>
    rw [apply_render_font_context, cached_entry_try_set]
    exact h
  | glyph ctx cp' r =>
    rw [apply_glyph]
    rcases cached_entry_extract ft ctx data cp' r s cp with he | ⟨_, _, _, _, font, hf, he⟩
    · rw [he]; exact h
    · rw [he]
      rw [cached_entry_of_font data s font cp hf] at h
      exact (request_summary ft data font cp r).2.2.2.2.2.1 h

theorem run_atlas_keeps_failed (ft : FreeType) (ops : List AtlasOp) (s : Int) (cp : Nat) :
    ∀ data, has_failed (cached_entry data s cp) = true →
      has_failed (cached_entry (run_atlas ft data ops) s cp) = true := by
  induction ops with
  | nil => intro data h; exact h
  | cons op ops ih =>
    intro data h
    exact ih _ (apply_keeps_failed ft data op s cp h)

/-- Every call on the atlas keeps the dynamic entries outside the standard table. -/
theorem apply_entries_outside_table (ft : FreeType) (data : Data) (op : AtlasOp)
    (h : entries_outside_table data) : entries_outside_table (op.apply ft data) := by
  intro s cp hne
  cases op with
  | render_font_context size =>
    rw [apply_render_font_context, cached_entry_try_set] at hne
    exact h s cp hne
  | glyph ctx cp' r =>
    rw [apply_glyph] at hne
    rcases cached_entry_extract ft ctx data cp' r s cp with he | ⟨_, _, h1, h2, _⟩
    · rw [he] at hne
      exact h s cp hne
    · exact ⟨h1, h2⟩

theorem run_atlas_entries_outside_table (ft : FreeType) (ops : List AtlasOp) :
    ∀ data, entries_outside_table data → entries_outside_table (run_atlas ft data ops) := by
  induction ops with
  | nil => intro data h; exact h
  | cons op ops ih =>
    intro data h
    exact ih _ (apply_entries_outside_table ft data op h)

theorem populated_entries_outside_table (ft : FreeType) (face : Nat) :
    entries_outside_table (Data.populated ft face) := by
  intro s cp hne
  rw [populated_eq, cached_entry_try_set] at hne
  simp [cached_entry] at hne

theorem run_atlas_append (ft : FreeType) (ops more : List AtlasOp) :
    ∀ data, run_atlas ft data (ops ++ more) = run_atlas ft (run_atlas ft data ops) more := by
  induction ops with
  | nil => intro data; rfl
  | cons op ops ih => intro data; exact ih _

/-- A rasterizing request for an entry that is marked failed and not rasterized returns
no glyph and changes nothing. -/
theorem request_failed (ft : FreeType) (data : Data) (font : CachedFont) (cp : Nat)
    (hf : has_failed (font.cached_glyphs_map cp) = true)
    (hr : is_rasterized (font.cached_glyphs_map cp) = false) :
    request_cached_glyph ft data font cp Rasterize.Yes = (none, data, font) := by
  unfold request_cached_glyph
  by_cases hg : cp = UTF8.invalid_codepoint
  · rw [if_pos hg]
  · cases he : font.cached_glyphs_map cp with
    | none => rw [he] at hf; simp [has_failed] at hf
    | some e =>
      rw [he] at hf hr
      simp only [has_failed] at hf
      simp only [is_rasterized] at hr
      simp [hg, hr, hf]

/-- When the request for a codepoint outside the standard table is refused,
`extract_glyph_info` answers with the question mark. -/
theorem extract_glyph_info_refused (ft : FreeType) (data : Data) (font : CachedFont)
    (tabstop : Int) (cp : Nat) (r : Rasterize) (ws : Bool) (h1 : CharInfoCount ≤ cp)
    (h2 : cp ≠ UTF8.invalid_codepoint)
    (h : request_cached_glyph ft data font cp r = (none, data, font)) :
    extract_glyph_info ft data font tabstop cp r ws = (question_mark font, data, font) := by
  unfold extract_glyph_info
  have h1' : cp ≥ CharInfoCount := h1
  simp only [h1', h2, if_true, if_false, h]
  simp [standard_glyph_info, question_mark, ValidCharStart]

/-- C8: in every state reached from `populate_atlas` by `render_font_context` calls and
glyph requests, the pixels of each (font size, codepoint) cache entry have been uploaded
at most once. Once an entry is marked `failed_to_rasterize`, then after any further
calls it is still marked, its pixels have never been uploaded, and a rasterizing request
for it returns no glyph and leaves data and font as they are, whatever FreeType would
answer (so no rasterization is attempted); `extract_glyph_info` then answers with the
question mark. -/
theorem upload_once_sticky_failure (ft : FreeType) (face : Nat) (ops : List AtlasOp) :
    (∀ s cp, upload_count (run_atlas ft (Data.populated ft face) ops)
        (GlyphOwner.cached s cp) ≤ 1)
    ∧ (∀ s cp,
        has_failed (cached_entry (run_atlas ft (Data.populated ft face) ops) s cp) = true →
        ∀ more : List AtlasOp,
          has_failed (cached_entry
            (run_atlas ft (run_atlas ft (Data.populated ft face) ops) more) s cp) = true
          ∧ upload_count (run_atlas ft (run_atlas ft (Data.populated ft face) ops) more)
              (GlyphOwner.cached s cp) = 0
          ∧ ∃ font,
              (run_atlas ft (run_atlas ft (Data.populated ft face) ops) more).cached_fonts s
                = some font
              ∧ (∀ ft' : FreeType,
                  request_cached_glyph ft'
                    (run_atlas ft (run_atlas ft (Data.populated ft face) ops) more)
                    font cp Rasterize.Yes
                  = (none, run_atlas ft (run_atlas ft (Data.populated ft face) ops) more,
                      font))
              ∧ ∀ (ft' : FreeType) (ctx : RenderFontContext), ctx.font = s →
                  ctx.extract ft'
                    (run_atlas ft (run_atlas ft (Data.populated ft face) ops) more)
                    cp Rasterize.Yes
                  = (some (question_mark font),
                      run_atlas ft (run_atlas ft (Data.populated ft face) ops) more)) := by
  constructor
  · intro s cp
    have h := (run_atlas_cache_invariant ft ops _ (populated_cache_invariant ft face)).2.1 s cp
    rw [h]
    split_ifs <;> omega
  · intro s cp hfail more
    have hf := run_atlas_keeps_failed ft more s cp _ hfail
    rw [← run_atlas_append] at hf ⊢
    obtain ⟨_, hcnt, hnr⟩ :=
      run_atlas_cache_invariant ft (ops ++ more) _ (populated_cache_invariant ft face)
    have hout :=
      run_atlas_entries_outside_table ft (ops ++ more) _ (populated_entries_outside_table ft face)
    have hr := hnr s cp hf
    refine ⟨hf, ?_, ?_⟩
    · rw [hcnt s cp, hr]; rfl
    · cases hfont : (run_atlas ft (Data.populated ft face) (ops ++ more)).cached_fonts s with
      | none =>
        rw [cached_entry, hfont] at hf
        simp [has_failed] at hf
      | some font =>
        have he := cached_entry_of_font _ s font cp hfont
        rw [he] at hf hr
        have hne : cached_entry (run_atlas ft (Data.populated ft face) (ops ++ more)) s cp
            ≠ none := by
          rw [he]
          intro hnone
          rw [hnone] at hf
          simp [has_failed] at hf
        obtain ⟨h1, h2⟩ := hout s cp hne
        refine ⟨font, rfl, fun ft' => request_failed ft' _ font cp hf hr, ?_⟩
        intro ft' ctx hctx
        subst hctx
        rw [extract_of_some ft' ctx _ cp Rasterize.Yes font hfont,
          extract_glyph_info_refused ft' _ font ctx.tabs cp Rasterize.Yes ctx.render_ws h1 h2
            (request_failed ft' _ font cp hf hr)]
        simp only []
        rw [← hfont, Function.update_eq_self]

/-- The C8 theorem at a glyph that cannot be rasterized: after `render_font_context(200)`
with 100 x 200 pixel glyphs the row of U+4E2D lies below the atlas, the first
rasterizing request marks the entry failed, and after a second request there is still
no upload. -/
theorem upload_once_sticky_failure_witness :
    has_failed (cached_entry
      (run_atlas FreeType.proportional (Data.populated FreeType.proportional 1)
        [AtlasOp.render_font_context 200,
         AtlasOp.glyph { font := 200 } 0x4E2D Rasterize.Yes]) 200 0x4E2D) = true
    ∧ upload_count
        (run_atlas FreeType.proportional
          (run_atlas FreeType.proportional (Data.populated FreeType.proportional 1)
            [AtlasOp.render_font_context 200,
             AtlasOp.glyph { font := 200 } 0x4E2D Rasterize.Yes])
          [AtlasOp.glyph { font := 200 } 0x4E2D Rasterize.Yes])
        (GlyphOwner.cached 200 0x4E2D) = 0 :=
  ⟨by decide!,
    ((upload_once_sticky_failure FreeType.proportional 1
      [AtlasOp.render_font_context 200,
       AtlasOp.glyph { font := 200 } 0x4E2D Rasterize.Yes]).2 200 0x4E2D (by decide!)
      [AtlasOp.glyph { font := 200 } 0x4E2D Rasterize.Yes]).2.1⟩

/-! ### Uploads and the height of the atlas -/

/-- Induction over the loops of `populate_standard_glyphs`: a property of the loop state
that every step keeps holds when the loop completes and when it stops. -/
theorem populate_loop_induct (ft : FreeType) (face : Nat) (font_size : Int)
    (width height : Nat) (P : PopulateState → Prop)
    (hstep : ∀ st e slot, ft.load_char face font_size e.glyph = Except.ok slot → P st →
      P (populate_step font_size width height st e slot))
    (todo : List SpecialGlyphEntry) :
    ∀ st : PopulateState, P st →
      (∀ st', populate_loop ft face font_size width height todo st = Except.ok st' → P st')
      ∧ (∀ msg st',
          populate_loop ft face font_size width height todo st = Except.error (msg, st') →
          P st') := by
  induction todo with
  | nil =>
    intro st hst
    constructor
    · intro st' h
      simp only [populate_loop, Except.ok.injEq] at h
      rw [← h]; exact hst
    · intro msg st' h
      simp only [populate_loop] at h
      exact Except.noConfusion h
  | cons e rest ih =>
    intro st hst
    unfold populate_loop
    cases hl : ft.load_char face font_size e.glyph with
    | error log =>
      simp only []
      constructor
      · intro st' h; exact Except.noConfusion h
      · intro msg st' h
        simp only [Except.error.injEq, Prod.mk.injEq] at h
        rw [← h.2]; exact hst
    | ok slot =>
      cases hr : ft.render_glyph face font_size e.glyph with
      | error log =>
        simp only []
        constructor
        · intro st' h; exact Except.noConfusion h
        · intro msg st' h
          simp only [Except.error.injEq, Prod.mk.injEq] at h
          rw [← h.2]; exact hst
      | ok u =>
        simp only []
        exact ih _ (hstep st e slot hl hst)

/-- What `populate_standard_glyphs` does to the data, whether it completes or not: size
and face of the atlas stay, and the texture is that of a loop state reached from the
cursor of the data. -/
theorem populate_data (ft : FreeType) (data : Data) (font : CachedFont)
    (P : PopulateState → Prop)
    (hstep : ∀ st e slot, ft.load_char data.face font.font_size e.glyph = Except.ok slot →
      P st → P (populate_step font.font_size data.width data.height st e slot))
    (h0 : P { x := data.next_x, y := data.next_y
              max_glyph_height_for_row := data.cur_row_max_height
              infos := font.infos, texture := data.texture }) :
    (populate_standard_glyphs ft data font).2.2.1.width = data.width
    ∧ (populate_standard_glyphs ft data font).2.2.1.height = data.height
    ∧ (populate_standard_glyphs ft data font).2.2.1.face = data.face
    ∧ (populate_standard_glyphs ft data font).2.2.1.fallback_fonts = data.fallback_fonts
    ∧ ∃ st, P st
      ∧ (populate_standard_glyphs ft data font).2.2.1.texture = st.texture
      ∧ (populate_standard_glyphs ft data font).2.2.2.infos = st.infos
      ∧ (((populate_standard_glyphs ft data font).1 = false
          ∧ (populate_standard_glyphs ft data font).2.2.1.next_x = data.next_x
          ∧ (populate_standard_glyphs ft data font).2.2.1.next_y = data.next_y
          ∧ (populate_standard_glyphs ft data font).2.2.1.cur_row_max_height
              = data.cur_row_max_height)
        ∨ ((populate_standard_glyphs ft data font).1 = true
          ∧ (populate_standard_glyphs ft data font).2.2.1.next_x = 0
          ∧ (populate_standard_glyphs ft data font).2.2.1.next_y
              = st.y + st.max_glyph_height_for_row
          ∧ (populate_standard_glyphs ft data font).2.2.1.cur_row_max_height = 0)) := by
  unfold populate_standard_glyphs
  simp only []
  rcases hrs : resize_font ft data.face font.font_size with ⟨ok, msgs⟩
  cases ok with
  | false => exact ⟨rfl, rfl, rfl, rfl, _, h0, rfl, rfl, Or.inl ⟨rfl, rfl, rfl, rfl⟩⟩
  | true =>
    simp only []
    have k1 := populate_loop_induct ft data.face font.font_size data.width data.height P hstep
      standard_glyphs _ h0
    cases h1 : populate_loop ft data.face font.font_size data.width data.height
        standard_glyphs
        { x := data.next_x, y := data.next_y
          max_glyph_height_for_row := data.cur_row_max_height
          infos := font.infos, texture := data.texture } with
    | error p =>
      obtain ⟨msg, st1⟩ := p
      exact ⟨rfl, rfl, rfl, rfl, st1, k1.2 msg st1 h1, rfl, rfl, Or.inl ⟨rfl, rfl, rfl, rfl⟩⟩
    | ok st1 =>
      have k2 := populate_loop_induct ft data.face font.font_size data.width data.height P
        hstep special_glyph_map st1 (k1.1 st1 h1)
      simp only []
      cases h2 : populate_loop ft data.face font.font_size data.width data.height
          special_glyph_map st1 with
      | error p =>
        obtain ⟨msg, st2⟩ := p
        exact ⟨rfl, rfl, rfl, rfl, st2, k2.2 msg st2 h2, rfl, rfl,
          Or.inl ⟨rfl, rfl, rfl, rfl⟩⟩
      | ok st2 =>
        exact ⟨rfl, rfl, rfl, rfl, st2, k2.1 st2 h2, rfl, rfl, Or.inr ⟨rfl, rfl, rfl, rfl⟩⟩

theorem try_set_resident (ft : FreeType) (data : Data) (size : Int) (font : CachedFont)
    (h : data.cached_fonts size = some font) :
    try_set_font_size ft data size = (true, [], { data with selected_font := some size }) := by
  unfold try_set_font_size
  rw [h]

/-- What `try_set_font_size` does for a size that is not resident, in terms of a
property of the loop state of `populate_standard_glyphs` that every step keeps. -/
theorem try_set_new (ft : FreeType) (data : Data) (size : Int)
    (hn : data.cached_fonts size = none) (P : PopulateState → Prop)
    (hstep : ∀ st e slot, ft.load_char data.face size e.glyph = Except.ok slot →
      P st → P (populate_step size data.width data.height st e slot))
    (h0 : P { x := data.next_x, y := data.next_y
              max_glyph_height_for_row := data.cur_row_max_height
              infos := fun _ => CharInfo.zero, texture := data.texture }) :
    (try_set_font_size ft data size).2.2.width = data.width
    ∧ (try_set_font_size ft data size).2.2.height = data.height
    ∧ (try_set_font_size ft data size).2.2.face = data.face
    ∧ (try_set_font_size ft data size).2.2.fallback_fonts = data.fallback_fonts
    ∧ ∃ st font, P st
      ∧ (try_set_font_size ft data size).2.2.texture = st.texture
      ∧ (try_set_font_size ft data size).2.2.cached_fonts
          = Function.update data.cached_fonts size (some font)
      ∧ font.infos = st.infos
      ∧ font.font_size = size
      ∧ font.cached_glyphs_map = (fun _ => none)
      ∧ (((try_set_font_size ft data size).1 = false
          ∧ (try_set_font_size ft data size).2.2.next_x = data.next_x
          ∧ (try_set_font_size ft data size).2.2.next_y = data.next_y
          ∧ (try_set_font_size ft data size).2.2.cur_row_max_height
              = data.cur_row_max_height)
        ∨ ((try_set_font_size ft data size).1 = true
          ∧ (try_set_font_size ft data size).2.2.next_x = 0
          ∧ (try_set_font_size ft data size).2.2.next_y
              = st.y + st.max_glyph_height_for_row
          ∧ (try_set_font_size ft data size).2.2.cur_row_max_height = 0)) := by
  obtain ⟨p1, p2, p3, p4, st, hst, p5, p6, p7⟩ :=
    populate_data ft { data with selected_font := some size }
      { font_size := size, cached_glyphs_map := fun _ => none } P hstep h0
  obtain ⟨q1, _, q3, q4⟩ := populate_summary ft { data with selected_font := some size }
    { font_size := size, cached_glyphs_map := fun _ => none }
  unfold try_set_font_size
  simp only [hn]
  refine ⟨p1, p2, p3, p4, st, _, hst, p5, ?_, p6, q3, q4, p7⟩
  rw [q1]

/-- The texture after a `request_cached_glyph` call: as before, or with one more upload,
which is labelled with the font size and the codepoint and ends within the height of
the atlas. -/
theorem request_texture (ft : FreeType) (data : Data) (font : CachedFont) (glyph : Nat)
    (r : Rasterize) :
    (request_cached_glyph ft data font glyph r).2.1.height = data.height
    ∧ (request_cached_glyph ft data font glyph r).2.1.width = data.width
    ∧ ((request_cached_glyph ft data font glyph r).2.1.texture = data.texture
      ∨ ∃ u, (request_cached_glyph ft data font glyph r).2.1.texture = data.texture ++ [u]
          ∧ u.owner = GlyphOwner.cached font.font_size glyph
          ∧ u.offset_y + u.height ≤ data.height) := by
  by_cases hg : glyph = UTF8.invalid_codepoint
  · have : request_cached_glyph ft data font glyph r = (none, data, font) := by
      unfold request_cached_glyph; rw [if_pos hg]
    rw [this]
    exact ⟨rfl, rfl, Or.inl rfl⟩
  obtain ⟨_, i2, i3, i4, _⟩ := identify_cached_fonts ft data glyph
  cases he : font.cached_glyphs_map glyph with
  | some e =>
    rcases request_existing_cases ft data font glyph r e hg he with
      ⟨_, h⟩ | ⟨_, _, _, h⟩ | ⟨_, _, _, _, h⟩ | ⟨_, _, _, face, slot, _, _, hfit, h⟩
    · rw [h]; exact ⟨rfl, rfl, Or.inl rfl⟩
    · rw [h]; exact ⟨rfl, rfl, Or.inl rfl⟩
    · rw [h]; exact ⟨rfl, rfl, Or.inl rfl⟩
    · rw [h]
      exact ⟨rfl, rfl, Or.inr ⟨upload_of data font glyph e.info slot, rfl, rfl, hfit⟩⟩
  | none =>
    rcases request_new_cases ft data font glyph r hg he with
      ⟨_, h⟩ | ⟨slot, _, _, ⟨_, h⟩ | ⟨_, h⟩ | ⟨_, hfit, h⟩⟩
    · rw [h]; exact ⟨i4, i3, Or.inl i2⟩
    · rw [h]; exact ⟨i4, i3, Or.inl i2⟩
    · rw [h]; exact ⟨i4, i3, Or.inl i2⟩
    · rw [h]
      refine ⟨i4, i3, Or.inr ⟨upload_of (identify_font_face_for_glyph ft data glyph).2 font glyph
        (placed_info (identify_font_face_for_glyph ft data glyph).2 slot) slot, ?_, rfl, ?_⟩⟩
      · simp only [submit_texture, advance_cursor_texture, i2]
      · rw [← i4]; exact hfit

/-- The texture after a call of `extract_glyph_info` through a context. -/
theorem extract_texture (ft : FreeType) (ctx : RenderFontContext) (data : Data) (cp : Nat)
    (r : Rasterize) :
    (ctx.extract ft data cp r).2.height = data.height
    ∧ (ctx.extract ft data cp r).2.width = data.width
    ∧ ((ctx.extract ft data cp r).2.texture = data.texture
      ∨ ∃ u s, (ctx.extract ft data cp r).2.texture = data.texture ++ [u]
          ∧ u.owner = GlyphOwner.cached s cp
          ∧ u.offset_y + u.height ≤ data.height) := by
  rcases extract_data ft ctx data cp r with ⟨_, h⟩ | ⟨_, _, _, h⟩ | ⟨font, hf, _, _, h⟩
  · rw [h]; exact ⟨rfl, rfl, Or.inl rfl⟩
  · rw [h]; exact ⟨rfl, rfl, Or.inl rfl⟩
  · rw [h]
    obtain ⟨t1, t2, t3⟩ := request_texture ft data font cp r
    refine ⟨t1, t2, ?_⟩
    rcases t3 with t | ⟨u, t, ho, hb⟩
    · exact Or.inl t
    · exact Or.inr ⟨u, _, t, ho, hb⟩

/-- Every call on the atlas keeps the height of the atlas and the bound on the uploads
of dynamic entries. -/
theorem apply_dynamic_uploads_fit (ft : FreeType) (data : Data) (op : AtlasOp)
    (h : ∀ e ∈ data.texture, (∃ s cp, e.owner = GlyphOwner.cached s cp) →
      e.offset_y + e.height ≤ data.height) :
    (op.apply ft data).height = data.height
    ∧ ∀ e ∈ (op.apply ft data).texture, (∃ s cp, e.owner = GlyphOwner.cached s cp) →
        e.offset_y + e.height ≤ data.height := by
  cases op with
  | render_font_context size =>
    rw [apply_render_font_context]
    cases hf : data.cached_fonts size with
    | some font =>
      rw [try_set_resident ft data size font hf]
      exact ⟨rfl, h⟩
    | none =>
      obtain ⟨_, p2, _, _, st, font, hst, p5, _⟩ := try_set_new ft data size hf
        (fun st => ∀ e ∈ st.texture, (∃ s cp, e.owner = GlyphOwner.cached s cp) →
          e.offset_y + e.height ≤ data.height)
        (by
          intro st e slot _ hst u hu hown
          simp only [populate_step, List.mem_append, List.mem_singleton] at hu
          rcases hu with hu | hu
          · exact hst u hu hown
          · obtain ⟨s, cp, hs⟩ := hown
            rw [hu] at hs
            exact GlyphOwner.noConfusion hs)
        h
      refine ⟨p2, ?_⟩
      rw [p5]
      exact hst
  | glyph ctx cp r =>
    rw [apply_glyph]
    obtain ⟨t1, _, t3⟩ := extract_texture ft ctx data cp r
    refine ⟨t1, ?_⟩
    rcases t3 with t | ⟨u, s, t, _, hb⟩
    · rw [t]; exact h
    · rw [t]
      intro e he hown
      simp only [List.mem_append, List.mem_singleton] at he
      rcases he with he | he
      · exact h e he hown
      · rw [he]; exact hb

theorem run_atlas_dynamic_uploads_fit (ft : FreeType) (ops : List AtlasOp) :
    ∀ data : Data,
      (∀ e ∈ data.texture, (∃ s cp, e.owner = GlyphOwner.cached s cp) →
        e.offset_y + e.height ≤ data.height) →
      (run_atlas ft data ops).height = data.height
      ∧ ∀ e ∈ (run_atlas ft data ops).texture, (∃ s cp, e.owner = GlyphOwner.cached s cp) →
          e.offset_y + e.height ≤ data.height := by
  induction ops with
  | nil => intro data h; exact ⟨rfl, h⟩
  | cons op ops ih =>
    intro data h
    obtain ⟨a1, a2⟩ := apply_dynamic_uploads_fit ft data op h
    have := ih (op.apply ft data) (by rw [a1]; exact a2)
    rw [a1] at this
    exact this

theorem populated_dynamic_uploads_fit (ft : FreeType) (face : Nat) :
    (Data.populated ft face).height = texture_height
    ∧ ∀ e ∈ (Data.populated ft face).texture, (∃ s cp, e.owner = GlyphOwner.cached s cp) →
        e.offset_y + e.height ≤ texture_height := by
  have h := apply_dynamic_uploads_fit ft
    { face := face, width := texture_width, height := texture_height }
    (AtlasOp.render_font_context default_font_size)
    (by intro e he; simp at he)
  rw [apply_render_font_context, ← populated_eq] at h
  exact h

/-- C9: pixels of a dynamically cached glyph are never submitted below the atlas: in
every state reached from `populate_atlas`, each upload labelled with a dynamic entry
ends within the 1088 rows. The standard glyphs are not checked: with 100 x 200 pixel
bitmaps, `render_font_context(200)` right after `populate_atlas` submits the standard
glyph `l` (index 108) of size 200 at row 928, which ends at row 1128. -/
theorem standard_glyph_below_atlas :
    (∀ (ft : FreeType) (face : Nat) (ops : List AtlasOp),
      ∀ e ∈ (run_atlas ft (Data.populated ft face) ops).texture,
        (∃ s cp, e.owner = GlyphOwner.cached s cp) → e.offset_y + e.height ≤ texture_height)
    ∧ ({ offset_x := 0, offset_y := 928, width := 100, height := 200,
         owner := GlyphOwner.standard 200 108 } : GlyphEntry)
        ∈ (run_atlas FreeType.proportional (Data.populated FreeType.proportional 1)
            [AtlasOp.render_font_context 200]).texture
    ∧ 928 + 200 > texture_height := by
  refine ⟨?_, by decide!, by decide⟩
  intro ft face ops
  obtain ⟨h1, h2⟩ := populated_dynamic_uploads_fit ft face
  have h := (run_atlas_dynamic_uploads_fit ft ops (Data.populated ft face)
    (by rw [h1]; exact h2)).2
  rw [h1] at h
  exact h

/-- The C9 theorem at a dynamic glyph that is rasterized: U+4E2D at the default size is
uploaded at row 128 and ends at row 192. -/
theorem standard_glyph_below_atlas_witness :
    ({ offset_x := 0, offset_y := 128, width := 32, height := 64,
       owner := GlyphOwner.cached 64 0x4E2D } : GlyphEntry)
      ∈ (run_atlas FreeType.proportional (Data.populated FreeType.proportional 1)
          [AtlasOp.glyph { font := 64 } 0x4E2D Rasterize.Yes]).texture
    ∧ 128 + 64 ≤ texture_height :=
  ⟨by decide!,
    standard_glyph_below_atlas.1 FreeType.proportional 1
      [AtlasOp.glyph { font := 64 } 0x4E2D Rasterize.Yes]
      { offset_x := 0, offset_y := 128, width := 32, height := 64,
        owner := GlyphOwner.cached 64 0x4E2D }
      (by decide!) ⟨64, 0x4E2D, rfl⟩⟩

end Glyph

/-! ## Theorems, part 3: measuring and rendering text -/

namespace Glyph

theorem placed_info_identify (ft : FreeType) (data : Data) (glyph : Nat) (slot : GlyphSlot) :
    placed_info (identify_font_face_for_glyph ft data glyph).2 slot = placed_info data slot := by
  obtain ⟨_, _, i3, i4, i5, i6, i7, _⟩ := identify_cached_fonts ft data glyph
  simp only [placed_info, assigned_x, assigned_y, fits_row, i3, i4, i5, i6, i7]

/-- The entry of the codepoint after a `request_cached_glyph` call: an entry that was
there keeps its face, and its metrics are as before or reloaded from that face; a new
entry is value-initialised, or placed at the cursor, which then advances. -/
theorem request_entry (ft : FreeType) (data : Data) (font : CachedFont) (glyph : Nat)
    (r : Rasterize) (hg : glyph ≠ UTF8.invalid_codepoint) :
    (∃ e e', font.cached_glyphs_map glyph = some e
      ∧ (request_cached_glyph ft data font glyph r).2.2.cached_glyphs_map glyph = some e'
      ∧ e'.face = e.face
      ∧ (e'.info = e.info
        ∨ ∃ face slot, e.face = some face
            ∧ ft.load_char face font.font_size glyph = Except.ok slot
            ∧ e'.info = e.info.with_metrics slot)
      ∧ (request_cached_glyph ft data font glyph r).2.1.next_x = data.next_x
      ∧ (request_cached_glyph ft data font glyph r).2.1.next_y = data.next_y
      ∧ (request_cached_glyph ft data font glyph r).2.1.cur_row_max_height
          = data.cur_row_max_height)
    ∨ (font.cached_glyphs_map glyph = none
      ∧ (request_cached_glyph ft data font glyph r).2.2.cached_glyphs_map glyph = some {}
      ∧ (request_cached_glyph ft data font glyph r).2.1.next_x = data.next_x
      ∧ (request_cached_glyph ft data font glyph r).2.1.next_y = data.next_y
      ∧ (request_cached_glyph ft data font glyph r).2.1.cur_row_max_height
          = data.cur_row_max_height)
    ∨ (font.cached_glyphs_map glyph = none
      ∧ ∃ slot e',
          ft.load_char (identify_font_face_for_glyph ft data glyph).1 font.font_size glyph
            = Except.ok slot
          ∧ (request_cached_glyph ft data font glyph r).2.2.cached_glyphs_map glyph = some e'
          ∧ e'.info = placed_info data slot
          ∧ e'.face = some (identify_font_face_for_glyph ft data glyph).1
          ∧ (request_cached_glyph ft data font glyph r).2.1.next_x
              = (advance_cursor data slot).next_x
          ∧ (request_cached_glyph ft data font glyph r).2.1.next_y
              = (advance_cursor data slot).next_y
          ∧ (request_cached_glyph ft data font glyph r).2.1.cur_row_max_height
              = (advance_cursor data slot).cur_row_max_height) := by
  obtain ⟨_, _, i3, i4, i5, i6, i7, _⟩ := identify_cached_fonts ft data glyph
  have hp := placed_info_identify ft data glyph
  have hc : ∀ slot,
      (advance_cursor (identify_font_face_for_glyph ft data glyph).2 slot).next_x
          = (advance_cursor data slot).next_x
      ∧ (advance_cursor (identify_font_face_for_glyph ft data glyph).2 slot).next_y
          = (advance_cursor data slot).next_y
      ∧ (advance_cursor (identify_font_face_for_glyph ft data glyph).2 slot).cur_row_max_height
          = (advance_cursor data slot).cur_row_max_height := by
    intro slot
    simp only [advance_cursor, assigned_x, assigned_y, fits_row, i3, i4, i5, i6, i7]
    exact ⟨trivial, trivial, trivial⟩
  cases he : font.cached_glyphs_map glyph with
  | some e =>
    left
    rcases request_existing_cases ft data font glyph r e hg he with
      ⟨_, h⟩ | ⟨_, _, _, h⟩ | ⟨_, _, _, _, h⟩ | ⟨_, _, _, face, slot, hface, hload, _, h⟩
    · rw [h]; exact ⟨e, e, rfl, he, rfl, Or.inl rfl, rfl, rfl, rfl⟩
    · rw [h]; exact ⟨e, e, rfl, he, rfl, Or.inl rfl, rfl, rfl, rfl⟩
    · rw [h]; exact ⟨e, _, rfl, set_glyph_same _ _ _, rfl, Or.inl rfl, rfl, rfl, rfl⟩
    · rw [h]
      exact ⟨e, _, rfl, set_glyph_same _ _ _, rfl, Or.inr ⟨face, slot, hface, hload, rfl⟩,
        rfl, rfl, rfl⟩
  | none =>
    right
    rcases request_new_cases ft data font glyph r hg he with
      ⟨_, h⟩ | ⟨slot, _, hload, ⟨_, h⟩ | ⟨_, h⟩ | ⟨_, _, h⟩⟩
    · left; rw [h]; exact ⟨rfl, set_glyph_same _ _ _, i5, i6, i7⟩
    · right; rw [h]
      exact ⟨rfl, slot, _, hload, set_glyph_same _ _ _, hp slot, rfl, (hc slot).1, (hc slot).2.1,
        (hc slot).2.2⟩
    · right; rw [h]
      exact ⟨rfl, slot, _, hload, set_glyph_same _ _ _, hp slot, rfl, (hc slot).1, (hc slot).2.1,
        (hc slot).2.2⟩
    · right; rw [h]
      exact ⟨rfl, slot, _, hload, set_glyph_same _ _ _, hp slot, rfl, (hc slot).1, (hc slot).2.1,
        (hc slot).2.2⟩

/-- The call `try_set_font_size` keeps the stored metrics consistent with FreeType. -/
theorem try_set_metrics_consistent (ft : FreeType) (data : Data) (size : Int)
    (h : metrics_consistent ft data) :
    metrics_consistent ft (try_set_font_size ft data size).2.2 := by
  rcases try_set_font_size_data ft data size with ⟨_, h'⟩ | ⟨_, font, _, hm, hc, _⟩
  · rw [h']; exact h
  · intro s f cp e face hf he hface
    rw [hc] at hf
    by_cases hs : s = size
    · subst hs
      simp only [Function.update_same, Option.some.injEq] at hf
      rw [← hf, hm] at he
      exact Option.noConfusion he
    · rw [Function.update_noteq hs] at hf
      exact h s f cp e face hf he hface

/-- A call of `extract_glyph_info` through a context keeps the stored metrics consistent
with FreeType. -/
theorem extract_metrics_consistent (ft : FreeType) (ctx : RenderFontContext) (data : Data)
    (cp : Nat) (r : Rasterize) (hkey : font_keys_consistent data)
    (h : metrics_consistent ft data) :
    metrics_consistent ft (ctx.extract ft data cp r).2 := by
  rcases extract_data ft ctx data cp r with ⟨_, hd⟩ | ⟨_, _, _, hd⟩ | ⟨font, hf, _, hg, hd⟩
  · rw [hd]; exact h
  · rw [hd]; exact h
  · rw [hd]
    have hsize : font.font_size = ctx.font := hkey _ _ hf
    intro s f cp' e face hf' he hface
    have hf' : Function.update data.cached_fonts ctx.font
        (some (request_cached_glyph ft data font cp r).2.2) s = some f := hf'
    by_cases hs : s = ctx.font
    · subst hs
      simp only [Function.update_same, Option.some.injEq] at hf'
      rw [← hf'] at he
      by_cases hcp : cp' = cp
      · subst hcp
        rcases request_entry ft data font cp' r hg with
          ⟨e0, e1, h0, h1, hfc, hinfo, _⟩ | ⟨_, h1, _⟩ | ⟨_, slot, e1, hload, h1, hi, hfc, _⟩
        · rw [h1] at he
          simp only [Option.some.injEq] at he
          subst he
          rw [hfc] at hface
          obtain ⟨slot, hl, hm⟩ := h ctx.font font cp' e0 face hf h0 hface
          refine ⟨slot, hl, ?_⟩
          rcases hinfo with hi | ⟨face', slot', hf0, hl', hi⟩
          · rw [hi]; exact hm
          · rw [hface] at hf0
            simp only [Option.some.injEq] at hf0
            subst hf0
            rw [hsize, hl] at hl'
            simp only [Except.ok.injEq] at hl'
            subst hl'
            rw [hi]
            rfl
        · rw [h1] at he
          simp only [Option.some.injEq] at he
          subst he
          exact Option.noConfusion hface
        · rw [h1] at he
          simp only [Option.some.injEq] at he
          subst he
          rw [hfc] at hface
          simp only [Option.some.injEq] at hface
          subst hface
          rw [hsize] at hload
          exact ⟨slot, hload, by rw [hi]; rfl⟩
      · rw [(request_summary ft data font cp r).2.2.2.1 cp' hcp] at he
        exact h ctx.font font cp' e face hf he hface
    · rw [Function.update_noteq hs] at hf'
      exact h s f cp' e face hf' he hface

theorem apply_metrics_consistent (ft : FreeType) (data : Data) (op : AtlasOp)
    (hkey : font_keys_consistent data) (h : metrics_consistent ft data) :
    metrics_consistent ft (op.apply ft data) := by
  cases op with
  | render_font_context size =>
    rw [apply_render_font_context]
    exact try_set_metrics_consistent ft data size h
  | glyph ctx cp r =>
    rw [apply_glyph]
    exact extract_metrics_consistent ft ctx data cp r hkey h

theorem run_atlas_metrics_consistent (ft : FreeType) (ops : List AtlasOp) :
    ∀ data, cache_invariant data → metrics_consistent ft data →
      metrics_consistent ft (run_atlas ft data ops) := by
  induction ops with
  | nil => intro data _ h; exact h
  | cons op ops ih =>
    intro data hinv h
    exact ih _ (apply_preserves_cache_invariant ft data op hinv)
      (apply_metrics_consistent ft data op hinv.1 h)

theorem populated_metrics_consistent (ft : FreeType) (face : Nat) :
    metrics_consistent ft (Data.populated ft face) := by
  rw [populated_eq]
  apply try_set_metrics_consistent
  intro s f cp e face' hf
  simp at hf

/-! ### Measuring and rendering make the same requests -/

/-- The result of `extract_glyph_info` when the request is answered. -/
theorem extract_glyph_info_answered (ft : FreeType) (data : Data) (font : CachedFont)
    (tabstop : Int) (cp : Nat) (r : Rasterize) (ws : Bool) (h1 : CharInfoCount ≤ cp)
    (h2 : cp ≠ UTF8.invalid_codepoint) (i : UnicodeGlyphInfo)
    (h : (request_cached_glyph ft data font cp r).1 = some i) :
    extract_glyph_info ft data font tabstop cp r ws
      = ({ info := i.info, x_advance := i.info.ax, color_filter := ColorFilter.default_color },
          (request_cached_glyph ft data font cp r).2.1,
          (request_cached_glyph ft data font cp r).2.2) := by
  rcases hreq : request_cached_glyph ft data font cp r with ⟨res, d', f'⟩
  rw [hreq] at h
  simp only at h
  subst h
  unfold extract_glyph_info
  have h1' : cp ≥ CharInfoCount := h1
  simp only [h1', h2, if_true, if_false, hreq]

/-- The result of `standard_glyph_info` depends on the font through the table `infos`
only. -/
theorem standard_glyph_info_congr (fa fb : CachedFont) (tabstop : Int) (cp : Nat) (ws : Bool)
    (hi : fa.infos = fb.infos) :
    standard_glyph_info fa tabstop cp ws = standard_glyph_info fb tabstop cp ws := by
  unfold standard_glyph_info
  rw [hi]

/-- The result of `extract_glyph_info` for a codepoint of the standard table, or the
invalid one, depends on the font through the table `infos` only. -/
theorem extract_glyph_info_standard (ft ft' : FreeType) (a b : Data) (fa fb : CachedFont)
    (tabstop : Int) (cp : Nat) (r r' : Rasterize) (ws : Bool)
    (hc : ¬ (cp ≥ CharInfoCount ∧ cp ≠ UTF8.invalid_codepoint)) (hi : fa.infos = fb.infos) :
    (extract_glyph_info ft a fa tabstop cp r ws).1
      = (extract_glyph_info ft' b fb tabstop cp r' ws).1 := by
  unfold extract_glyph_info
  by_cases h1 : cp ≥ CharInfoCount
  · have h2 : cp = UTF8.invalid_codepoint := by
      by_contra h2
      exact hc ⟨h1, h2⟩
    simp only [h1, h2, if_true]
    exact standard_glyph_info_congr fa fb tabstop 63 ws hi
  · simp only [h1, if_false]
    exact standard_glyph_info_congr fa fb tabstop cp ws hi

end Glyph

/-! ## Theorems, part 4: packing the atlas -/

namespace Glyph

theorem to_uint_div_mul (x W : Nat) (hW : 0 < W) : to_uint ((x : ℚ) / W * W) = x := by
  have hne : (W : ℚ) ≠ 0 := by exact_mod_cast hW.ne'
  rw [div_mul_cancel₀ _ hne]
  show (Int.floor (x : ℚ)).toNat = x
  rw [Int.floor_natCast]
  simp

theorem to_uint_zero_mul (W : Nat) : to_uint (CharInfo.zero.tx * W) = 0 := by
  show (Int.floor ((0 : ℚ) * W)).toNat = 0
  simp

theorem to_uint_zero_mul_y (H : Nat) : to_uint (CharInfo.zero.ty * H) = 0 := by
  show (Int.floor ((0 : ℚ) * H)).toNat = 0
  simp

/-- Placing a rectangle at the cursor, or at the start of the next row when it does not
fit the rest of the current one: what was behind the cursor stays behind the new cursor
and does not overlap the new rectangle. -/
theorem behind_cursor_place (X Y M W w h nx ny nM cx cy bw bh : Nat)
    (hplace : (X + w ≤ W ∧ nx = X ∧ ny = Y ∧ nM = max M h)
      ∨ (W < X + w ∧ nx = 0 ∧ ny = Y + M ∧ nM = max 0 h))
    (hb : behind_cursor X Y M cx cy bw bh) :
    behind_cursor (nx + w) ny nM cx cy bw bh
    ∧ ¬ rects_overlap cx cy bw bh nx ny w h
    ∧ ¬ rects_overlap nx ny w h cx cy bw bh := by
  unfold behind_cursor at *
  unfold rects_overlap
  omega

theorem behind_cursor_new (X Y M W w h nx ny nM : Nat)
    (hplace : (X + w ≤ W ∧ nx = X ∧ ny = Y ∧ nM = max M h)
      ∨ (W < X + w ∧ nx = 0 ∧ ny = Y + M ∧ nM = max 0 h)) :
    behind_cursor (nx + w) ny nM nx ny w h := by
  unfold behind_cursor
  omega

/-- Adding a glyph at the place the packing cursor assigns keeps a family of entries
packed, with the cursor advanced. -/
theorem packed_entries_place (W H : Nat) (hW : 0 < W) (hH : 0 < H)
    (E E' : GlyphOwner → Option CharInfo) (X Y M w h nx ny nM : Nat)
    (hplace : (X + w ≤ W ∧ nx = X ∧ ny = Y ∧ nM = max M h)
      ∨ (W < X + w ∧ nx = 0 ∧ ny = Y + M ∧ nM = max 0 h))
    (o0 : GlyphOwner) (c' : CharInfo)
    (hx : c'.tx = (nx : ℚ) / W) (hy : c'.ty = (ny : ℚ) / H) (hbw : c'.bw = w) (hbh : c'.bh = h)
    (hE' : ∀ o c, E' o = some c → (o = o0 ∧ c = c') ∨ (o ≠ o0 ∧ E o = some c))
    (hp : packed_entries W H E X Y M) :
    packed_entries W H E' (nx + w) ny nM := by
  have hcx : to_uint (c'.tx * W) = nx := by rw [hx]; exact to_uint_div_mul nx W hW
  have hcy : to_uint (c'.ty * H) = ny := by rw [hy]; exact to_uint_div_mul ny H hH
  constructor
  · intro o c hoc
    rcases hE' o c hoc with ⟨_, hc⟩ | ⟨_, hold⟩
    · rw [hc, hcx, hcy, hbw, hbh]
      exact behind_cursor_new X Y M W w h nx ny nM hplace
    · exact (behind_cursor_place X Y M W w h nx ny nM _ _ _ _ hplace (hp.1 o c hold)).1
  · intro o1 o2 c1 c2 hne h1 h2
    rcases hE' o1 c1 h1 with ⟨ho1, hc1⟩ | ⟨ho1, hold1⟩
    · rcases hE' o2 c2 h2 with ⟨ho2, _⟩ | ⟨_, hold2⟩
      · exact absurd (ho1.trans ho2.symm) hne
      · rw [hc1, hcx, hcy, hbw, hbh]
        exact (behind_cursor_place X Y M W w h nx ny nM _ _ _ _ hplace (hp.1 o2 c2 hold2)).2.2
    · rcases hE' o2 c2 h2 with ⟨_, hc2⟩ | ⟨_, hold2⟩
      · rw [hc2, hcx, hcy, hbw, hbh]
        exact (behind_cursor_place X Y M W w h nx ny nM _ _ _ _ hplace (hp.1 o1 c1 hold1)).2.1
      · exact hp.2 o1 o2 c1 c2 hne hold1 hold2

/-- Dropping entries, and adding value-initialised ones, keeps a family of entries
packed. -/
theorem packed_entries_sub (W H : Nat) (E E' : GlyphOwner → Option CharInfo) (X Y M : Nat)
    (hE' : ∀ o c, E' o = some c → E o = some c ∨ c = CharInfo.zero)
    (hp : packed_entries W H E X Y M) :
    packed_entries W H E' X Y M := by
  have hz : ∀ x y bw bh : Nat, ¬ rects_overlap x y bw bh
      (to_uint (CharInfo.zero.tx * W)) (to_uint (CharInfo.zero.ty * H))
      CharInfo.zero.bw CharInfo.zero.bh := by
    intro x y bw bh
    rw [to_uint_zero_mul, to_uint_zero_mul_y]
    show ¬ rects_overlap x y bw bh 0 0 0 0
    unfold rects_overlap
    omega
  have hz' : ∀ x y bw bh : Nat, ¬ rects_overlap
      (to_uint (CharInfo.zero.tx * W)) (to_uint (CharInfo.zero.ty * H))
      CharInfo.zero.bw CharInfo.zero.bh x y bw bh := by
    intro x y bw bh
    rw [to_uint_zero_mul, to_uint_zero_mul_y]
    show ¬ rects_overlap 0 0 0 0 x y bw bh
    unfold rects_overlap
    omega
  constructor
  · intro o c hoc
    rcases hE' o c hoc with hold | hc
    · exact hp.1 o c hold
    · rw [hc, to_uint_zero_mul, to_uint_zero_mul_y]
      show behind_cursor X Y M 0 0 0 0
      unfold behind_cursor
      omega
  · intro o1 o2 c1 c2 hne h1 h2
    rcases hE' o1 c1 h1 with hold1 | hc1
    · rcases hE' o2 c2 h2 with hold2 | hc2
      · exact hp.2 o1 o2 c1 c2 hne hold1 hold2
      · rw [hc2]; exact hz _ _ _ _
    · rw [hc1]; exact hz' _ _ _ _

/-- Moving the cursor to the start of the row below the current one keeps a family of
entries packed. -/
theorem packed_entries_row_end (W H : Nat) (E : GlyphOwner → Option CharInfo) (X Y M : Nat)
    (hp : packed_entries W H E X Y M) :
    packed_entries W H E 0 (Y + M) 0 := by
  refine ⟨?_, hp.2⟩
  intro o c hoc
  have := hp.1 o c hoc
  unfold behind_cursor at *
  omega

/-! ### Populating a font keeps the atlas packed -/

theorem populate_entries_zero (data : Data) (size : Int) (o : GlyphOwner) (c : CharInfo)
    (h : populate_entries data size (fun _ => CharInfo.zero) o = some c) :
    entry_info data o = some c ∨ c = CharInfo.zero := by
  cases o with
  | standard s i =>
    by_cases hs : s = size
    · right
      simp only [populate_entries, if_pos hs, Option.some.injEq] at h
      exact h.symm
    · left
      simp only [populate_entries, if_neg hs] at h
      exact h
  | cached s cp => exact Or.inl h
  | blank => exact Or.inl h

theorem populate_entries_update (data : Data) (size : Int) (infos : Nat → CharInfo)
    (index : Nat) (info : CharInfo) (o : GlyphOwner) (c : CharInfo)
    (h : populate_entries data size (Function.update infos index info) o = some c) :
    (o = GlyphOwner.standard size index ∧ c = info)
    ∨ (o ≠ GlyphOwner.standard size index ∧ populate_entries data size infos o = some c) := by
  cases o with
  | standard s i =>
    by_cases hs : s = size
    · by_cases hi : i = index
      · left
        subst hs; subst hi
        simp only [populate_entries, if_true, Function.update_same, Option.some.injEq] at h
        exact ⟨rfl, h.symm⟩
      · right
        simp only [populate_entries, if_pos hs, Function.update_noteq hi] at h
        refine ⟨?_, ?_⟩
        · intro heq
          injection heq with _ h2
          exact hi h2
        · simp only [populate_entries, if_pos hs]
          exact h
    · right
      refine ⟨?_, ?_⟩
      · intro heq
        injection heq with h1 _
        exact hs h1
      · simp only [populate_entries, if_neg hs] at h ⊢
        exact h
  | cached s cp =>
    right
    exact ⟨fun heq => GlyphOwner.noConfusion heq, h⟩
  | blank =>
    right
    exact ⟨fun heq => GlyphOwner.noConfusion heq, h⟩

/-- One step of the loops of `populate_standard_glyphs` keeps the entries packed. -/
theorem populate_step_packed (data : Data) (size : Int) (hW : 0 < data.width)
    (hH : 0 < data.height) (st : PopulateState) (e : SpecialGlyphEntry) (slot : GlyphSlot)
    (hp : packed_entries data.width data.height (populate_entries data size st.infos)
      st.x st.y st.max_glyph_height_for_row) :
    packed_entries data.width data.height
      (populate_entries data size (populate_step size data.width data.height st e slot).infos)
      (populate_step size data.width data.height st e slot).x
      (populate_step size data.width data.height st e slot).y
      (populate_step size data.width data.height st e slot).max_glyph_height_for_row := by
  by_cases hwrap : st.x + slot.bitmap_width > data.width
  · have hd : decide (st.x + slot.bitmap_width > data.width) = true := decide_eq_true hwrap
    simp only [populate_step, hd, if_true]
    exact packed_entries_place data.width data.height hW hH _ _ st.x st.y
      st.max_glyph_height_for_row slot.bitmap_width slot.bitmap_rows 0
      (st.y + st.max_glyph_height_for_row) (max 0 slot.bitmap_rows)
      (Or.inr ⟨hwrap, rfl, rfl, rfl⟩) (GlyphOwner.standard size e.index) _
      rfl rfl rfl rfl
      (fun o c h => populate_entries_update data size st.infos e.index _ o c h) hp
  · have hd : decide (st.x + slot.bitmap_width > data.width) = false := decide_eq_false hwrap
    simp only [populate_step, hd, Bool.false_eq_true, if_false]
    exact packed_entries_place data.width data.height hW hH _ _ st.x st.y
      st.max_glyph_height_for_row slot.bitmap_width slot.bitmap_rows st.x st.y
      (max st.max_glyph_height_for_row slot.bitmap_rows)
      (Or.inl ⟨by omega, rfl, rfl, rfl⟩) (GlyphOwner.standard size e.index) _
      rfl rfl rfl rfl
      (fun o c h => populate_entries_update data size st.infos e.index _ o c h) hp

theorem entry_info_selected (data : Data) (size : Int) (o : GlyphOwner) :
    entry_info { data with selected_font := some size } o = entry_info data o := by
  cases o <;> rfl

/-- The entries after a font of a new size has entered the font table are among those
of the loop state that `populate_standard_glyphs` ended in. -/
theorem entry_info_new_font (data d1 : Data) (size : Int) (font : CachedFont)
    (infos : Nat → CharInfo) (hi : font.infos = infos)
    (hm : font.cached_glyphs_map = (fun _ => none))
    (hc : d1.cached_fonts = Function.update data.cached_fonts size (some font))
    (o : GlyphOwner) (c : CharInfo) (h : entry_info d1 o = some c) :
    populate_entries data size infos o = some c := by
  cases o with
  | standard s i =>
    by_cases hs : s = size
    · subst hs
      simp only [entry_info, hc, Function.update_same] at h
      simp only [populate_entries, if_true]
      by_cases hlt : i < TotalCharInfoCount
      · rw [if_pos hlt, hi] at h
        exact h
      · rw [if_neg hlt] at h
        exact Option.noConfusion h
    · simp only [entry_info, hc, Function.update_noteq hs] at h
      simp only [populate_entries, if_neg hs, entry_info]
      exact h
  | cached s cp =>
    by_cases hs : s = size
    · subst hs
      simp only [entry_info, hc, Function.update_same, hm] at h
      exact Option.noConfusion h
    · simp only [entry_info, hc, Function.update_noteq hs] at h
      simp only [populate_entries, entry_info]
      exact h
  | blank => exact Option.noConfusion h

/-- A `try_set_font_size` call that returns `true` keeps the atlas packed. -/
theorem try_set_packed (ft : FreeType) (data : Data) (size : Int) (hp : packed data)
    (hok : (try_set_font_size ft data size).1 = true) :
    packed (try_set_font_size ft data size).2.2 := by
  obtain ⟨hW, hH, hpe⟩ := hp
  cases hf : data.cached_fonts size with
  | some font =>
    rw [try_set_resident ft data size font hf]
    refine ⟨hW, hH, ?_⟩
    exact packed_entries_sub _ _ _ _ _ _ _
      (fun o c h => Or.inl (by rw [entry_info_selected] at h; exact h)) hpe
  | none =>
    obtain ⟨p1, p2, _, _, st, font, hst, _, p6, p7, _, p9, p10⟩ := try_set_new ft data size hf
      (fun st => packed_entries data.width data.height (populate_entries data size st.infos)
        st.x st.y st.max_glyph_height_for_row)
      (fun st e slot _ h => populate_step_packed data size hW hH st e slot h)
      (packed_entries_sub _ _ _ _ _ _ _ (populate_entries_zero data size) hpe)
    rcases p10 with ⟨hfalse, _⟩ | ⟨_, c1, c2, c3⟩
    · rw [hok] at hfalse; exact Bool.noConfusion hfalse
    · refine ⟨by rw [p1]; exact hW, by rw [p2]; exact hH, ?_⟩
      rw [p1, p2, c1, c2, c3]
      exact packed_entries_sub _ _ _ _ _ _ _
        (fun o c h => Or.inl (entry_info_new_font data _ size font st.infos p7 p9 p6 o c h))
        (packed_entries_row_end _ _ _ _ _ _ hst)

/-! ### Requesting a glyph keeps the atlas packed -/

/-- The entries after the font of size `s` has been written back with a changed dynamic
entry for `cp`: that entry, or an entry that was there before. -/
theorem entry_info_update (data d1 : Data) (s : Int) (cp : Nat) (font f' : CachedFont)
    (hf : data.cached_fonts s = some font) (hinfos : f'.infos = font.infos)
    (hother : ∀ cp', cp' ≠ cp → f'.cached_glyphs_map cp' = font.cached_glyphs_map cp')
    (hc : d1.cached_fonts = Function.update data.cached_fonts s (some f'))
    (o : GlyphOwner) (c : CharInfo) (h : entry_info d1 o = some c) :
    (o = GlyphOwner.cached s cp ∧ ∃ e', f'.cached_glyphs_map cp = some e' ∧ c = e'.info)
    ∨ (o ≠ GlyphOwner.cached s cp ∧ entry_info data o = some c) := by
  cases o with
  | standard s' i =>
    right
    refine ⟨fun heq => GlyphOwner.noConfusion heq, ?_⟩
    by_cases hs : s' = s
    · subst hs
      simp only [entry_info, hc, Function.update_same, hinfos] at h
      simp only [entry_info, hf]
      exact h
    · simp only [entry_info, hc, Function.update_noteq hs] at h
      simp only [entry_info]
      exact h
  | cached s' cp' =>
    by_cases hs : s' = s
    · subst hs
      by_cases hcp : cp' = cp
      · subst hcp
        left
        refine ⟨rfl, ?_⟩
        simp only [entry_info, hc, Function.update_same] at h
        cases he : f'.cached_glyphs_map cp' with
        | none => rw [he] at h; exact Option.noConfusion h
        | some e' =>
          rw [he] at h
          simp only [Option.some.injEq] at h
          exact ⟨e', rfl, h.symm⟩
      · right
        refine ⟨?_, ?_⟩
        · intro heq
          injection heq with _ h2
          exact hcp h2
        · simp only [entry_info, hc, Function.update_same, hother cp' hcp] at h
          simp only [entry_info, hf]
          exact h
    · right
      refine ⟨?_, ?_⟩
      · intro heq
        injection heq with h1 _
        exact hs h1
      · simp only [entry_info, hc, Function.update_noteq hs] at h
        simp only [entry_info]
        exact h
  | blank => exact Option.noConfusion h

theorem advance_cursor_place (data : Data) (slot : GlyphSlot) :
    (data.next_x + slot.bitmap_width ≤ data.width
      ∧ assigned_x data slot = data.next_x ∧ assigned_y data slot = data.next_y
      ∧ (advance_cursor data slot).cur_row_max_height
          = max data.cur_row_max_height slot.bitmap_rows)
    ∨ (data.width < data.next_x + slot.bitmap_width
      ∧ assigned_x data slot = 0
      ∧ assigned_y data slot = data.next_y + data.cur_row_max_height
      ∧ (advance_cursor data slot).cur_row_max_height = max 0 slot.bitmap_rows) := by
  by_cases hfit : fits_row data slot
  · left
    have h := hfit
    simp only [fits_row, sdf_width_addition] at h
    refine ⟨by omega, ?_, ?_, ?_⟩
    · unfold assigned_x; rw [if_pos hfit]
    · unfold assigned_y; rw [if_pos hfit]
    · unfold advance_cursor; simp only [if_pos hfit, sdf_height_addition, Nat.add_zero]
  · right
    have h := hfit
    simp only [fits_row, sdf_width_addition, not_not] at h
    refine ⟨by omega, ?_, ?_, ?_⟩
    · unfold assigned_x; rw [if_neg hfit]
    · unfold assigned_y; rw [if_neg hfit]
    · unfold advance_cursor; simp only [if_neg hfit, sdf_height_addition, Nat.add_zero]

/-- A call of `extract_glyph_info` through a context keeps the atlas packed. -/
theorem extract_packed (ft : FreeType) (ctx : RenderFontContext) (data : Data) (cp : Nat)
    (r : Rasterize) (hkey : font_keys_consistent data) (hcons : metrics_consistent ft data)
    (hp : packed data) :
    packed (ctx.extract ft data cp r).2 := by
  rcases extract_data ft ctx data cp r with ⟨_, h⟩ | ⟨_, _, _, h⟩ | ⟨font, hf, _, hg, h⟩
  · rw [h]; exact hp
  · rw [h]; exact hp
  · obtain ⟨hW, hH, hpe⟩ := hp
    obtain ⟨t1, t2, _⟩ := request_texture ft data font cp r
    obtain ⟨_, _, s3, s4, _⟩ := request_summary ft data font cp r
    have hsize : font.font_size = ctx.font := hkey _ _ hf
    rw [h]
    have hE := fun o c hoc => entry_info_update data
      { (request_cached_glyph ft data font cp r).2.1 with
        cached_fonts := Function.update data.cached_fonts ctx.font
          (some (request_cached_glyph ft data font cp r).2.2) }
      ctx.font cp font (request_cached_glyph ft data font cp r).2.2 hf s3 s4 rfl o c hoc
    refine ⟨by show 0 < (request_cached_glyph ft data font cp r).2.1.width; rw [t2]; exact hW,
      by show 0 < (request_cached_glyph ft data font cp r).2.1.height; rw [t1]; exact hH, ?_⟩
    show packed_entries (request_cached_glyph ft data font cp r).2.1.width
      (request_cached_glyph ft data font cp r).2.1.height _
      (request_cached_glyph ft data font cp r).2.1.next_x
      (request_cached_glyph ft data font cp r).2.1.next_y
      (request_cached_glyph ft data font cp r).2.1.cur_row_max_height
    rw [t1, t2]
    rcases request_entry ft data font cp r hg with
      ⟨e, e', h0, h1, hfc, hinfo, c1, c2, c3⟩ | ⟨h0, h1, c1, c2, c3⟩
        | ⟨h0, slot, e', hload, h1, hi, hfc, c1, c2, c3⟩
    · rw [c1, c2, c3]
      have hinfo' : e'.info = e.info := by
        rcases hinfo with hi | ⟨face, slot, hface, hload, hi⟩
        · exact hi
        · obtain ⟨slot', hl', hm⟩ := hcons ctx.font font cp e face hf h0 hface
          rw [hsize, hl'] at hload
          simp only [Except.ok.injEq] at hload
          subst hload
          rw [hi, hm]
      refine packed_entries_sub _ _ _ _ _ _ _ ?_ hpe
      intro o c hoc
      left
      rcases hE o c hoc with ⟨ho, e'', he'', hc⟩ | ⟨_, hold⟩
      · rw [h1] at he''
        simp only [Option.some.injEq] at he''
        subst he''
        rw [ho, hc, hinfo']
        simp only [entry_info, hf, h0]
      · exact hold
    · rw [c1, c2, c3]
      refine packed_entries_sub _ _ _ _ _ _ _ ?_ hpe
      intro o c hoc
      rcases hE o c hoc with ⟨ho, e'', he'', hc⟩ | ⟨_, hold⟩
      · right
        rw [h1] at he''
        simp only [Option.some.injEq] at he''
        subst he''
        rw [hc]
      · exact Or.inl hold
    · rw [c1, c2, c3]
      refine packed_entries_place data.width data.height hW hH (entry_info data) _
        data.next_x data.next_y data.cur_row_max_height slot.bitmap_width slot.bitmap_rows
        (assigned_x data slot) (assigned_y data slot)
        (advance_cursor data slot).cur_row_max_height ?_
        (GlyphOwner.cached ctx.font cp) (placed_info data slot) rfl rfl rfl rfl ?_ hpe
      · rcases advance_cursor_place data slot with ⟨a1, a2, a3, a4⟩ | ⟨a1, a2, a3, a4⟩
        · exact Or.inl ⟨a1, a2, a3, a4⟩
        · exact Or.inr ⟨a1, a2, a3, a4⟩
      · intro o c hoc
        rcases hE o c hoc with ⟨ho, e'', he'', hc⟩ | ⟨hne, hold⟩
        · left
          rw [h1] at he''
          simp only [Option.some.injEq] at he''
          subst he''
          exact ⟨ho, by rw [hc, hi]⟩
        · exact Or.inr ⟨hne, hold⟩

/-! ### Every reachable state is packed when every populate run completes -/

theorem run_atlas_packed (ft : FreeType) (ops : List AtlasOp) :
    ∀ data, cache_invariant data → metrics_consistent ft data → packed data →
      populates_complete ft data ops = true → packed (run_atlas ft data ops) := by
  induction ops with
  | nil => intro data _ _ hp _; exact hp
  | cons op ops ih =>
    intro data hinv hcons hp hcomplete
    have hinv' := apply_preserves_cache_invariant ft data op hinv
    have hcons' := apply_metrics_consistent ft data op hinv.1 hcons
    cases op with
    | render_font_context size =>
      simp only [populates_complete, Bool.and_eq_true] at hcomplete
      exact ih _ hinv' hcons' (try_set_packed ft data size hp hcomplete.1) hcomplete.2
    | glyph ctx cp r =>
      simp only [populates_complete] at hcomplete
      exact ih _ hinv' hcons' (extract_packed ft ctx data cp r hinv.1 hcons hp) hcomplete

theorem populated_packed (ft : FreeType) (face : Nat)
    (h : (populate_atlas ft (Data.after_init face)).1 = true) :
    packed (Data.populated ft face) := by
  rw [populated_eq]
  apply try_set_packed
  · refine ⟨by show 0 < texture_width; decide, by show 0 < texture_height; decide, ?_, ?_⟩
    · intro o c hoc
      cases o <;> exact Option.noConfusion hoc
    · intro o1 o2 c1 c2 _ hoc
      cases o1 <;> exact Option.noConfusion hoc
  · exact h

/-- C1: when `populate_atlas` and every later `populate_standard_glyphs` run complete,
then in every state reached by `render_font_context` calls and glyph requests the atlas
rectangles of two distinct glyph entries (standard or dynamic, of one font size or of
two) do not overlap. A run that stops part-way breaks this: when loading `B` at size 10
fails, `populate_standard_glyphs` returns early without writing the cursor back, and
`render_font_context(12)` then places its first standard glyph on the rectangle of the
first standard glyph of size 10. -/
theorem atlas_packing :
    (∀ (ft : FreeType) (face : Nat) (ops : List AtlasOp),
      (populate_atlas ft (Data.after_init face)).1 = true →
      populates_complete ft (Data.populated ft face) ops = true →
      ∀ o1 o2 c1 c2, o1 ≠ o2 →
        entry_info (run_atlas ft (Data.populated ft face) ops) o1 = some c1 →
        entry_info (run_atlas ft (Data.populated ft face) ops) o2 = some c2 →
        ¬ glyphs_overlap (run_atlas ft (Data.populated ft face) ops) c1 c2)
    ∧ (entry_info
          (run_atlas FreeType.failing_at_B (Data.populated FreeType.failing_at_B 1)
            [AtlasOp.render_font_context 10, AtlasOp.render_font_context 12])
          (GlyphOwner.standard 10 32)
        = some { ax := 5, ay := 0, bw := 5, bh := 10, bl := 0, bt := 10, tx := 0,
                 ty := 128 / 1088 }
      ∧ entry_info
          (run_atlas FreeType.failing_at_B (Data.populated FreeType.failing_at_B 1)
            [AtlasOp.render_font_context 10, AtlasOp.render_font_context 12])
          (GlyphOwner.standard 12 32)
        = some { ax := 6, ay := 0, bw := 6, bh := 12, bl := 0, bt := 12, tx := 0,
                 ty := 128 / 1088 }
      ∧ glyphs_overlap
          (run_atlas FreeType.failing_at_B (Data.populated FreeType.failing_at_B 1)
            [AtlasOp.render_font_context 10, AtlasOp.render_font_context 12])
          { ax := 5, ay := 0, bw := 5, bh := 10, bl := 0, bt := 10, tx := 0, ty := 128 / 1088 }
          { ax := 6, ay := 0, bw := 6, bh := 12, bl := 0, bt := 12, tx := 0,
            ty := 128 / 1088 }) := by
  refine ⟨?_, by decide!, by decide!, by decide!⟩
  intro ft face ops h0 hcomplete o1 o2 c1 c2 hne h1 h2
  have hp := run_atlas_packed ft ops _ (populated_cache_invariant ft face)
    (populated_metrics_consistent ft face) (populated_packed ft face h0) hcomplete
  exact hp.2.2.2 o1 o2 c1 c2 hne h1 h2

/-- The C1 theorem at the standard glyph `A` and the dynamic glyph U+4E2D of the default
font, after a second font size has been populated. -/
theorem atlas_packing_witness :
    entry_info
        (run_atlas FreeType.proportional (Data.populated FreeType.proportional 1)
          [AtlasOp.render_font_context 12, AtlasOp.glyph { font := 64 } 0x4E2D Rasterize.Yes])
        (GlyphOwner.standard 64 65)
      = some { ax := 32, ay := 0, bw := 32, bh := 64, bl := 0, bt := 64, tx := 1056 / 1920,
               ty := 0 }
    ∧ entry_info
        (run_atlas FreeType.proportional (Data.populated FreeType.proportional 1)
          [AtlasOp.render_font_context 12, AtlasOp.glyph { font := 64 } 0x4E2D Rasterize.Yes])
        (GlyphOwner.cached 64 0x4E2D)
      = some { ax := 64, ay := 0, bw := 32, bh := 64, bl := 0, bt := 64, tx := 0,
               ty := 140 / 1088 }
    ∧ ¬ glyphs_overlap
        (run_atlas FreeType.proportional (Data.populated FreeType.proportional 1)
          [AtlasOp.render_font_context 12, AtlasOp.glyph { font := 64 } 0x4E2D Rasterize.Yes])
        { ax := 32, ay := 0, bw := 32, bh := 64, bl := 0, bt := 64, tx := 1056 / 1920, ty := 0 }
        { ax := 64, ay := 0, bw := 32, bh := 64, bl := 0, bt := 64, tx := 0,
          ty := 140 / 1088 } :=
  ⟨by decide!, by decide!,
    atlas_packing.1 FreeType.proportional 1
      [AtlasOp.render_font_context 12, AtlasOp.glyph { font := 64 } 0x4E2D Rasterize.Yes]
      (by decide!) (by decide!) (GlyphOwner.standard 64 65) (GlyphOwner.cached 64 0x4E2D) _ _
      (by decide) (by decide!) (by decide!)⟩

end Glyph

/-! ## Theorems, part 5: changing the font face, fallback faces -/

namespace Glyph

theorem report_errors_eq (feed : Feed.MessageFeed) (msgs : List String) :
    report_errors feed msgs
      = feed ++ msgs.map (fun m => { severity := Feed.Severity.error, text := m }) := by
  unfold report_errors
  induction msgs generalizing feed with
  | nil => simp
  | cons m ms ih =>
    simp only [List.foldl_cons, List.map_cons]
    rw [ih]
    simp [Feed.queue_error]

/-- The four ways through `try_load_font_face`. -/
theorem try_load_font_face_cases (ft : FreeType) (data : Data) (path : String)
    (feed : Feed.MessageFeed) :
    (∃ log, ft.new_face path = Except.error log
      ∧ try_load_font_face ft data path feed
        = (data, feed ++ [{ severity := Feed.Severity.error
                            text := "Failed to load font file '" ++ path ++ "': " ++ log }]))
    ∨ (∃ face log, ft.new_face path = Except.ok face
      ∧ ft.set_pixel_sizes face default_font_size = Except.error log
      ∧ try_load_font_face ft data path feed
        = (data, feed ++ [{ severity := Feed.Severity.error
                            text := "Failed to set font size: " ++ log }]))
    ∨ (∃ face, ft.new_face path = Except.ok face
      ∧ ft.set_pixel_sizes face default_font_size = Except.ok ()
      ∧ (try_set_font_size ft (data.reset_for_face face) default_font_size).1 = false
      ∧ try_load_font_face ft data path feed
        = ((try_set_font_size ft (data.reset_for_face face) default_font_size).2.2,
           feed ++ (try_set_font_size ft (data.reset_for_face face) default_font_size).2.1.map
             (fun m => { severity := Feed.Severity.error, text := m })))
    ∨ (∃ face, ft.new_face path = Except.ok face
      ∧ ft.set_pixel_sizes face default_font_size = Except.ok ()
      ∧ (try_set_font_size ft (data.reset_for_face face) default_font_size).1 = true
      ∧ try_load_font_face ft data path feed
        = ((try_set_font_size ft (data.reset_for_face face) default_font_size).2.2,
           (feed ++ (try_set_font_size ft (data.reset_for_face face) default_font_size).2.1.map
             (fun m => { severity := Feed.Severity.error, text := m }))
            ++ [{ severity := Feed.Severity.info, text := "Font loaded." }])) := by
  unfold try_load_font_face
  cases hn : ft.new_face path with
  | error log => exact Or.inl ⟨log, rfl, rfl⟩
  | ok face =>
    right
    cases hs : ft.set_pixel_sizes face default_font_size with
    | error log =>
      left
      refine ⟨face, log, rfl, hs, ?_⟩
      simp [resize_font, hs, report_errors, Feed.queue_error]
    | ok u =>
      right
      have hr : resize_font ft face default_font_size = (true, []) := by
        simp [resize_font, hs]
      simp only [hr, report_errors_eq, List.map_nil, List.append_nil, not_true_eq_false,
        if_false]
      cases hok : (try_set_font_size ft (data.reset_for_face face) default_font_size).1 with
      | false =>
        left
        refine ⟨face, rfl, hs, hok, ?_⟩
        have hok' : (try_set_font_size ft (data.reset_for_face face) default_font_size).1
            = false := hok
        simp only [Data.reset_for_face] at hok' ⊢
        simp only [hok', Bool.false_eq_true, if_false]
      | true =>
        right
        refine ⟨face, rfl, hs, hok, ?_⟩
        have hok' : (try_set_font_size ft (data.reset_for_face face) default_font_size).1
            = true := hok
        simp only [Data.reset_for_face] at hok' ⊢
        simp only [hok', if_true, Feed.queue_info]

/-- The messages of `populate_standard_glyphs`: none when it completes, one when it
stops. -/
theorem populate_messages (ft : FreeType) (data : Data) (font : CachedFont) :
    ((populate_standard_glyphs ft data font).1 = true
      ∧ (populate_standard_glyphs ft data font).2.1 = [])
    ∨ ((populate_standard_glyphs ft data font).1 = false
      ∧ ∃ m, (populate_standard_glyphs ft data font).2.1 = [m]) := by
  unfold populate_standard_glyphs
  simp only []
  cases hs : ft.set_pixel_sizes data.face font.font_size with
  | error log =>
    right
    simp [resize_font, hs]
  | ok u =>
    have hr : resize_font ft data.face font.font_size = (true, []) := by
      simp [resize_font, hs]
    rw [hr]
    simp only []
    cases h1 : populate_loop ft data.face font.font_size data.width data.height
        standard_glyphs
        { x := data.next_x, y := data.next_y
          max_glyph_height_for_row := data.cur_row_max_height
          infos := font.infos, texture := data.texture } with
    | error p =>
      obtain ⟨msg, st1⟩ := p
      exact Or.inr ⟨rfl, msg, rfl⟩
    | ok st1 =>
      simp only []
      cases h2 : populate_loop ft data.face font.font_size data.width data.height
          special_glyph_map st1 with
      | error p =>
        obtain ⟨msg, st2⟩ := p
        exact Or.inr ⟨rfl, msg, rfl⟩
      | ok st2 => exact Or.inl ⟨rfl, rfl⟩

/-- The messages of `try_set_font_size`: none when it returns `true`, one when it
returns `false`. -/
theorem try_set_messages (ft : FreeType) (data : Data) (size : Int) :
    ((try_set_font_size ft data size).1 = true ∧ (try_set_font_size ft data size).2.1 = [])
    ∨ ((try_set_font_size ft data size).1 = false
      ∧ ∃ m, (try_set_font_size ft data size).2.1 = [m]) := by
  unfold try_set_font_size
  cases hf : data.cached_fonts size with
  | some font => exact Or.inl ⟨rfl, rfl⟩
  | none =>
    simp only []
    exact populate_messages ft { data with selected_font := some size }
      { font_size := size, cached_glyphs_map := fun _ => none }

theorem populate_step_texture (font_size : Int) (width height : Nat) (st : PopulateState)
    (e : SpecialGlyphEntry) (slot : GlyphSlot) :
    ∃ u, u.owner = GlyphOwner.standard font_size e.index
      ∧ (populate_step font_size width height st e slot).texture = st.texture ++ [u] := by
  simp only [populate_step]
  exact ⟨_, rfl, rfl⟩

/-- A `populate_standard_glyphs` that stops leaves the packing cursor as it was. -/
theorem populate_failed_cursor (ft : FreeType) (data : Data) (font : CachedFont)
    (h : (populate_standard_glyphs ft data font).1 = false) :
    (populate_standard_glyphs ft data font).2.2.1.next_x = data.next_x
    ∧ (populate_standard_glyphs ft data font).2.2.1.next_y = data.next_y
    ∧ (populate_standard_glyphs ft data font).2.2.1.cur_row_max_height
        = data.cur_row_max_height
    ∧ (populate_standard_glyphs ft data font).2.2.1.unicode_row_start
        = data.unicode_row_start
    ∧ (populate_standard_glyphs ft data font).2.2.1.selected_font = data.selected_font := by
  unfold populate_standard_glyphs at h ⊢
  simp only [] at h ⊢
  cases hs : ft.set_pixel_sizes data.face font.font_size with
  | error log => simp [resize_font, hs]
  | ok u =>
    have hr : resize_font ft data.face font.font_size = (true, []) := by
      simp [resize_font, hs]
    rw [hr] at h ⊢
    simp only [] at h ⊢
    cases h1 : populate_loop ft data.face font.font_size data.width data.height
        standard_glyphs
        { x := data.next_x, y := data.next_y
          max_glyph_height_for_row := data.cur_row_max_height
          infos := font.infos, texture := data.texture } with
    | error p =>
      obtain ⟨msg, st1⟩ := p
      exact ⟨rfl, rfl, rfl, rfl, rfl⟩
    | ok st1 =>
      rw [h1] at h
      simp only [] at h ⊢
      cases h2 : populate_loop ft data.face font.font_size data.width data.height
          special_glyph_map st1 with
      | error p =>
        obtain ⟨msg, st2⟩ := p
        exact ⟨rfl, rfl, rfl, rfl, rfl⟩
      | ok st2 =>
        rw [h2] at h
        exact Bool.noConfusion h

/-- A `try_set_font_size` that fails leaves the packing cursor as it was and has selected
the entry of the size. -/
theorem try_set_failed_cursor (ft : FreeType) (data : Data) (size : Int)
    (h : (try_set_font_size ft data size).1 = false) :
    (try_set_font_size ft data size).2.2.next_x = data.next_x
    ∧ (try_set_font_size ft data size).2.2.next_y = data.next_y
    ∧ (try_set_font_size ft data size).2.2.cur_row_max_height = data.cur_row_max_height
    ∧ (try_set_font_size ft data size).2.2.unicode_row_start = data.unicode_row_start
    ∧ (try_set_font_size ft data size).2.2.selected_font = some size := by
  unfold try_set_font_size at h ⊢
  cases hf : data.cached_fonts size with
  | some font =>
    rw [hf] at h
    exact Bool.noConfusion h
  | none =>
    rw [hf] at h
    simp only [] at h ⊢
    exact populate_failed_cursor ft { data with selected_font := some size }
      { font_size := size, cached_glyphs_map := fun _ => none } h

/-- What `try_set_font_size` leaves of the data after `try_load_font_face` has set the
new face and cleared the caches: the face, the size of the atlas, the fallback faces, and
no font of another size; the texture has the zeroed blocks behind what it had, and behind
them uploads of standard glyphs of the default size only. -/
theorem try_set_after_reset (ft : FreeType) (data : Data) (face : Nat) :
    (try_set_font_size ft (data.reset_for_face face) default_font_size).2.2.face = face
    ∧ (∀ s, s ≠ default_font_size →
        (try_set_font_size ft (data.reset_for_face face) default_font_size).2.2.cached_fonts s
          = none)
    ∧ (∃ extra,
        (try_set_font_size ft (data.reset_for_face face) default_font_size).2.2.texture
          = data.texture ++ clear_blocks ++ extra
        ∧ ∀ u ∈ extra, ∃ index, u.owner = GlyphOwner.standard default_font_size index)
    ∧ (try_set_font_size ft (data.reset_for_face face) default_font_size).2.2.width
        = data.width
    ∧ (try_set_font_size ft (data.reset_for_face face) default_font_size).2.2.height
        = data.height
    ∧ (try_set_font_size ft (data.reset_for_face face) default_font_size).2.2.fallback_fonts
        = data.fallback_fonts := by
  obtain ⟨p1, p2, p3, p4, st, font, hst, p5, p6, _⟩ :=
    try_set_new ft (data.reset_for_face face) default_font_size rfl
      (fun st => ∃ extra, st.texture = data.texture ++ clear_blocks ++ extra
        ∧ ∀ u ∈ extra, ∃ index, u.owner = GlyphOwner.standard default_font_size index)
      (by
        rintro st e slot _ ⟨extra, hx, ho⟩
        obtain ⟨u, hu1, hu⟩ := populate_step_texture default_font_size
          (data.reset_for_face face).width (data.reset_for_face face).height st e slot
        refine ⟨extra ++ [u], ?_, ?_⟩
        · rw [hu, hx, List.append_assoc]
        · intro v hv
          rcases List.mem_append.mp hv with hv | hv
          · exact ho v hv
          · rw [List.mem_singleton] at hv
            subst hv
            exact ⟨_, hu1⟩)
      ⟨[], by simp [Data.reset_for_face], by simp⟩
  refine ⟨p3, ?_, ?_, p1, p2, p4⟩
  · intro s hs
    rw [p6, Function.update_noteq hs]
    rfl
  · rw [p5]
    exact hst

/-- The zeroed blocks that `try_load_font_face` uploads: 510 blocks of 64 x 64 pixels,
which cover every pixel of the atlas. -/
theorem clear_blocks_cover :
    clear_blocks.length = 510
    ∧ (∀ e ∈ clear_blocks, e.width = 64 ∧ e.height = 64 ∧ e.owner = GlyphOwner.blank)
    ∧ ∀ x y, x < texture_width → y < texture_height →
        ∃ e ∈ clear_blocks, e.offset_x ≤ x ∧ x < e.offset_x + e.width
          ∧ e.offset_y ≤ y ∧ y < e.offset_y + e.height := by
  refine ⟨by decide!, ?_, ?_⟩
  · intro e he
    simp only [clear_blocks, List.mem_flatMap, List.mem_map, List.mem_range] at he
    obtain ⟨_, _, _, _, rfl⟩ := he
    exact ⟨rfl, rfl, rfl⟩
  · intro x y hx hy
    have hx' : x < 1920 := hx
    have hy' : y < 1088 := hy
    refine ⟨{ offset_x := x / 64 * 64, offset_y := y / 64 * 64, width := 64, height := 64
              owner := GlyphOwner.blank }, ?_, ?_⟩
    · simp only [clear_blocks, List.mem_flatMap, List.mem_map, List.mem_range]
      refine ⟨x / 64, ?_, y / 64, ?_, rfl⟩
      · show x / 64 < 1920 / 64
        omega
      · show y / 64 < 1088 / 64
        omega
    · simp only []
      omega

/-- C11: when the font file cannot be loaded, or the new face cannot be sized,
`try_load_font_face` leaves the atlas exactly as it was and queues exactly one error.
But once the new face loads and can be sized it is installed before the default size is
populated: the face is the new one, no font of another size is left, and all 510 zeroed
blocks, which cover the atlas, have been uploaded, with nothing but standard glyphs of
the default size behind them. That holds whether populating then succeeds (the one
message queued is the info "Font loaded.") or fails; when it fails the one message queued
is an error, the packing cursor is left at its reset value, all zero, and the selected
font is the new entry of the default size. So a failure after the installation does not
leave the atlas as it was: with a font file `broken.ttf` that loads and can be sized, but
whose `B` cannot be loaded, the call queues one error and no "Font loaded.", the primary
face has changed from 1 to 2, the font of size 12 is gone, the cursor has gone from
(0, 140, 0, 140) to (0, 0, 0, 0), and the 198 uploads made so far are followed by 544
more, the 510 zeroed blocks and the 34 glyphs before `B`. -/
theorem try_load_font_face_failure :
    (∀ (ft : FreeType) (data : Data) (path : String) (feed : Feed.MessageFeed),
      ((∃ log, ft.new_face path = Except.error log)
        ∨ ∃ face log, ft.new_face path = Except.ok face
            ∧ ft.set_pixel_sizes face default_font_size = Except.error log) →
      (try_load_font_face ft data path feed).1 = data
      ∧ ∃ text, (try_load_font_face ft data path feed).2
          = feed ++ [{ severity := Feed.Severity.error, text := text }])
    ∧ (∀ (ft : FreeType) (data : Data) (path : String) (feed : Feed.MessageFeed) (face : Nat),
        ft.new_face path = Except.ok face →
        ft.set_pixel_sizes face default_font_size = Except.ok () →
        (try_load_font_face ft data path feed).1.face = face
        ∧ (∀ s, s ≠ default_font_size →
            (try_load_font_face ft data path feed).1.cached_fonts s = none)
        ∧ (∃ extra, (try_load_font_face ft data path feed).1.texture
            = data.texture ++ clear_blocks ++ extra
            ∧ ∀ u ∈ extra, ∃ index, u.owner = GlyphOwner.standard default_font_size index)
        ∧ (try_load_font_face ft data path feed).1.width = data.width
        ∧ (try_load_font_face ft data path feed).1.height = data.height
        ∧ (try_load_font_face ft data path feed).1.fallback_fonts = data.fallback_fonts
        ∧ (((try_set_font_size ft (data.reset_for_face face) default_font_size).1 = true
            ∧ (try_load_font_face ft data path feed).2
              = feed ++ [{ severity := Feed.Severity.info, text := "Font loaded." }])
          ∨ ((try_set_font_size ft (data.reset_for_face face) default_font_size).1 = false
            ∧ (∃ text, (try_load_font_face ft data path feed).2
                = feed ++ [{ severity := Feed.Severity.error, text := text }])
            ∧ (try_load_font_face ft data path feed).1.next_x = 0
            ∧ (try_load_font_face ft data path feed).1.next_y = 0
            ∧ (try_load_font_face ft data path feed).1.cur_row_max_height = 0
            ∧ (try_load_font_face ft data path feed).1.unicode_row_start = 0
            ∧ (try_load_font_face ft data path feed).1.selected_font
                = some default_font_size)))
    ∧ (clear_blocks.length = 510
      ∧ (∀ e ∈ clear_blocks, e.width = 64 ∧ e.height = 64 ∧ e.owner = GlyphOwner.blank)
      ∧ ∀ x y, x < texture_width → y < texture_height →
          ∃ e ∈ clear_blocks, e.offset_x ≤ x ∧ x < e.offset_x + e.width
            ∧ e.offset_y ≤ y ∧ y < e.offset_y + e.height)
    ∧ ((try_load_font_face FreeType.second_face_failing
          (run_atlas FreeType.second_face_failing (Data.populated FreeType.second_face_failing 1)
            [AtlasOp.render_font_context 12]) "broken.ttf" []).2
        = [{ severity := Feed.Severity.error, text := "Failed to load the glyph: invalid opcode" }]
      ∧ (fun d : Data => (d.face, d.next_x, d.next_y, d.cur_row_max_height,
            d.unicode_row_start, d.texture.length, (d.cached_fonts 12).isSome))
          (run_atlas FreeType.second_face_failing (Data.populated FreeType.second_face_failing 1)
            [AtlasOp.render_font_context 12])
        = (1, 0, 140, 0, 140, 198, true)
      ∧ (fun d : Data => (d.face, d.next_x, d.next_y, d.cur_row_max_height,
            d.unicode_row_start, d.texture.length, (d.cached_fonts 12).isSome))
          (try_load_font_face FreeType.second_face_failing
            (run_atlas FreeType.second_face_failing
              (Data.populated FreeType.second_face_failing 1)
              [AtlasOp.render_font_context 12]) "broken.ttf" []).1
        = (2, 0, 0, 0, 0, 742, false)) := by
  refine ⟨?_, ?_, clear_blocks_cover, by decide!, by decide!, by decide!⟩
  · intro ft data path feed hfail
    rcases try_load_font_face_cases ft data path feed with
      ⟨log, _, h⟩ | ⟨face, log, _, _, h⟩ | ⟨face, hn, hs, _, _⟩ | ⟨face, hn, hs, _, _⟩
    · rw [h]; exact ⟨rfl, _, rfl⟩
    · rw [h]; exact ⟨rfl, _, rfl⟩
    · rcases hfail with ⟨log, hl⟩ | ⟨face', log, hn', hs'⟩
      · rw [hn] at hl; exact Except.noConfusion hl
      · rw [hn] at hn'
        simp only [Except.ok.injEq] at hn'
        subst hn'
        rw [hs] at hs'; exact Except.noConfusion hs'
    · rcases hfail with ⟨log, hl⟩ | ⟨face', log, hn', hs'⟩
      · rw [hn] at hl; exact Except.noConfusion hl
      · rw [hn] at hn'
        simp only [Except.ok.injEq] at hn'
        subst hn'
        rw [hs] at hs'; exact Except.noConfusion hs'
  · intro ft data path feed face hn hs
    obtain ⟨r1, r2, r3, r4, r5, r6⟩ := try_set_after_reset ft data face
    rcases try_load_font_face_cases ft data path feed with
      ⟨log, hn', _⟩ | ⟨face', log, hn', hs', _⟩ | ⟨face', hn', _, hok, h⟩
        | ⟨face', hn', _, hok, h⟩
    · rw [hn] at hn'; exact Except.noConfusion hn'
    · rw [hn] at hn'
      simp only [Except.ok.injEq] at hn'
      subst hn'
      rw [hs] at hs'; exact Except.noConfusion hs'
    · rw [hn] at hn'
      simp only [Except.ok.injEq] at hn'
      subst hn'
      rw [h]
      obtain ⟨c1, c2, c3, c4, c5⟩ :=
        try_set_failed_cursor ft (data.reset_for_face face) default_font_size hok
      refine ⟨r1, r2, r3, r4, r5, r6, Or.inr ⟨hok, ?_, c1, c2, c3, c4, c5⟩⟩
      rcases try_set_messages ft (data.reset_for_face face) default_font_size with
        ⟨ht, _⟩ | ⟨_, m, hm⟩
      · rw [hok] at ht; exact Bool.noConfusion ht
      · exact ⟨m, by simp only [hm, List.map_cons, List.map_nil]⟩
    · rw [hn] at hn'
      simp only [Except.ok.injEq] at hn'
      subst hn'
      rw [h]
      refine ⟨r1, r2, r3, r4, r5, r6, Or.inl ⟨hok, ?_⟩⟩
      rcases try_set_messages ft (data.reset_for_face face) default_font_size with
        ⟨_, hm⟩ | ⟨hf, _⟩
      · simp only [hm, List.map_nil, List.append_nil]
      · rw [hok] at hf; exact Bool.noConfusion hf

/-- The C11 theorem at a font file that cannot be opened: the atlas is as it was and one
error is queued. -/
theorem try_load_font_face_failure_witness :
    (try_load_font_face FreeType.second_face_failing
        (Data.populated FreeType.second_face_failing 1) "missing.ttf" []).1
      = Data.populated FreeType.second_face_failing 1
    ∧ ∃ text, (try_load_font_face FreeType.second_face_failing
        (Data.populated FreeType.second_face_failing 1) "missing.ttf" []).2
          = [] ++ [{ severity := Feed.Severity.error, text := text }] :=
  try_load_font_face_failure.1 FreeType.second_face_failing
    (Data.populated FreeType.second_face_failing 1) "missing.ttf" []
    (Or.inl ⟨"cannot open resource", rfl⟩)

/-! ### The state after a successful `try_load_font_face` -/

theorem populate_loop_cons_ok (ft : FreeType) (face : Nat) (font_size : Int)
    (width height : Nat) (e : SpecialGlyphEntry) (rest : List SpecialGlyphEntry)
    (st st' : PopulateState)
    (h : populate_loop ft face font_size width height (e :: rest) st = Except.ok st') :
    ∃ slot, ft.load_char face font_size e.glyph = Except.ok slot
      ∧ populate_loop ft face font_size width height rest
          (populate_step font_size width height st e slot) = Except.ok st' := by
  unfold populate_loop at h
  cases hl : ft.load_char face font_size e.glyph with
  | error log => rw [hl] at h; exact Except.noConfusion h
  | ok slot =>
    rw [hl] at h
    cases hr : ft.render_glyph face font_size e.glyph with
    | error log => rw [hr] at h; exact Except.noConfusion h
    | ok u =>
      rw [hr] at h
      exact ⟨slot, rfl, h⟩

/-- The loops of `populate_standard_glyphs` write the table `infos` only at the indices
of the glyphs they load. -/
theorem populate_loop_frame (ft : FreeType) (face : Nat) (font_size : Int)
    (width height : Nat) (todo : List SpecialGlyphEntry) :
    ∀ st st', populate_loop ft face font_size width height todo st = Except.ok st' →
      ∀ i, i ∉ todo.map (fun e => e.index) → st'.infos i = st.infos i := by
  induction todo with
  | nil =>
    intro st st' h i _
    simp only [populate_loop, Except.ok.injEq] at h
    rw [h]
  | cons e rest ih =>
    intro st st' h i hi
    obtain ⟨slot, _, hrest⟩ := populate_loop_cons_ok ft face font_size width height e rest st st' h
    simp only [List.map_cons, List.mem_cons, not_or] at hi
    rw [ih _ st' hrest i hi.2]
    simp only [populate_step]
    exact Function.update_noteq hi.1 _ _

/-- A loop that starts at the origin of the atlas with an empty row places its first
glyph at the origin. -/
theorem populate_loop_origin (ft : FreeType) (face : Nat) (font_size : Int)
    (width height : Nat) (e : SpecialGlyphEntry) (rest : List SpecialGlyphEntry)
    (st st' : PopulateState)
    (h : populate_loop ft face font_size width height (e :: rest) st = Except.ok st')
    (hx : st.x = 0) (hy : st.y = 0) (hm : st.max_glyph_height_for_row = 0)
    (hi : e.index ∉ rest.map (fun e => e.index)) :
    (st'.infos e.index).tx = 0 ∧ (st'.infos e.index).ty = 0 := by
  obtain ⟨slot, _, hrest⟩ := populate_loop_cons_ok ft face font_size width height e rest st st' h
  rw [populate_loop_frame ft face font_size width height rest _ st' hrest e.index hi]
  simp only [populate_step, Function.update_same, hx, hy, hm]
  constructor <;> split_ifs <;> simp

/-- The row of the cursor has a glyph as tall as the row: glyph `i` lies in the row at
`st.y` and its bitmap has `st.max_glyph_height_for_row` rows. -/
theorem populate_loop_tight (ft : FreeType) (face : Nat) (font_size : Int)
    (width height : Nat) (todo : List SpecialGlyphEntry) :
    ∀ st st', (todo.map (fun e => e.index)).Nodup →
      populate_loop ft face font_size width height todo st = Except.ok st' →
      (∀ w, w ∉ todo.map (fun e => e.index) →
        (st.infos w).ty = (st.y : ℚ) / (height : ℚ) →
        (st.infos w).bh = st.max_glyph_height_for_row →
        ∃ i, (i = w ∨ i ∈ todo.map (fun e => e.index))
          ∧ (st'.infos i).ty = (st'.y : ℚ) / (height : ℚ)
          ∧ (st'.infos i).bh = st'.max_glyph_height_for_row)
      ∧ (st.max_glyph_height_for_row = 0 → todo ≠ [] →
        ∃ i, i ∈ todo.map (fun e => e.index)
          ∧ (st'.infos i).ty = (st'.y : ℚ) / (height : ℚ)
          ∧ (st'.infos i).bh = st'.max_glyph_height_for_row) := by
  induction todo with
  | nil =>
    intro st st' _ h
    simp only [populate_loop, Except.ok.injEq] at h
    subst h
    exact ⟨fun w _ h1 h2 => ⟨w, Or.inl rfl, h1, h2⟩, fun _ hne => absurd rfl hne⟩
  | cons e rest ih =>
    intro st st' hnd h
    obtain ⟨slot, _, hrest⟩ := populate_loop_cons_ok ft face font_size width height e rest st st' h
    simp only [List.map_cons, List.nodup_cons] at hnd
    obtain ⟨ih1, _⟩ := ih _ st' hnd.2 hrest
    -- the glyph just placed is as tall as the row
    have hnew : (populate_step font_size width height st e slot).max_glyph_height_for_row
        = slot.bitmap_rows →
        ∃ i, i ∈ (e :: rest).map (fun e => e.index)
          ∧ (st'.infos i).ty = (st'.y : ℚ) / (height : ℚ)
          ∧ (st'.infos i).bh = st'.max_glyph_height_for_row := by
      intro hmax
      obtain ⟨i, hi, t1, t2⟩ := ih1 e.index hnd.1
        (by simp only [populate_step, Function.update_same])
        (by rw [hmax]; simp only [populate_step, Function.update_same])
      refine ⟨i, ?_, t1, t2⟩
      simp only [List.map_cons, List.mem_cons]
      rcases hi with hi | hi
      · exact Or.inl hi
      · exact Or.inr hi
    constructor
    · intro w hw h1 h2
      simp only [List.map_cons, List.mem_cons, not_or] at hw
      by_cases hmax : (populate_step font_size width height st e slot).max_glyph_height_for_row
          = slot.bitmap_rows
      · obtain ⟨i, hi, t⟩ := hnew hmax
        exact ⟨i, Or.inr hi, t⟩
      · -- the row goes on and stays as tall as the glyph `w`
        have hstep : (populate_step font_size width height st e slot).y = st.y
            ∧ (populate_step font_size width height st e slot).max_glyph_height_for_row
                = st.max_glyph_height_for_row := by
          simp only [populate_step] at hmax ⊢
          by_cases hwrap : st.x + slot.bitmap_width > width
          · have hd : decide (st.x + slot.bitmap_width > width) = true := decide_eq_true hwrap
            simp only [hd, if_true] at hmax
            exact absurd (Nat.max_eq_right (Nat.zero_le _)) hmax
          · have hd : decide (st.x + slot.bitmap_width > width) = false :=
              decide_eq_false hwrap
            simp only [hd, Bool.false_eq_true, if_false] at hmax ⊢
            refine ⟨trivial, ?_⟩
            rcases Nat.le_total st.max_glyph_height_for_row slot.bitmap_rows with hle | hle
            · exact absurd (Nat.max_eq_right hle) hmax
            · exact Nat.max_eq_left hle
        obtain ⟨i, hi, t1, t2⟩ := ih1 w hw.2
          (by
            rw [hstep.1]
            simp only [populate_step]
            rw [Function.update_noteq hw.1]
            exact h1)
          (by
            rw [hstep.2]
            simp only [populate_step]
            rw [Function.update_noteq hw.1]
            exact h2)
        refine ⟨i, ?_, t1, t2⟩
        rcases hi with hi | hi
        · exact Or.inl hi
        · exact Or.inr (by simp only [List.map_cons, List.mem_cons]; exact Or.inr hi)
    · intro hm _
      apply hnew
      simp only [populate_step, hm]
      split_ifs <;> exact Nat.max_eq_right (Nat.zero_le _)

theorem populate_loop_cons (ft : FreeType) (face : Nat) (font_size : Int)
    (width height : Nat) (e : SpecialGlyphEntry) (rest : List SpecialGlyphEntry)
    (st : PopulateState) :
    populate_loop ft face font_size width height (e :: rest) st
      = match ft.load_char face font_size e.glyph with
        | Except.error log => Except.error ("Failed to load the glyph: " ++ log, st)
        | Except.ok slot =>
          match ft.render_glyph face font_size e.glyph with
          | Except.error log => Except.error ("Failed to render the glyph: " ++ log, st)
          | Except.ok _ =>
            populate_loop ft face font_size width height rest
              (populate_step font_size width height st e slot) := rfl

theorem populate_loop_append_eq (ft : FreeType) (face : Nat) (font_size : Int)
    (width height : Nat) (a b : List SpecialGlyphEntry) :
    ∀ st, populate_loop ft face font_size width height (a ++ b) st
      = match populate_loop ft face font_size width height a st with
        | Except.ok st1 => populate_loop ft face font_size width height b st1
        | Except.error p => Except.error p := by
  induction a with
  | nil => intro st; rfl
  | cons e rest ih =>
    intro st
    rw [List.cons_append, populate_loop_cons, populate_loop_cons]
    cases hl : ft.load_char face font_size e.glyph with
    | error log => rfl
    | ok slot =>
      cases hr : ft.render_glyph face font_size e.glyph with
      | error log => rfl
      | ok u => exact ih _

/-- The function `populate_standard_glyphs` once the face is sized, with its two loops
read as one loop over all the glyphs. -/
theorem populate_eq (ft : FreeType) (data : Data) (font : CachedFont)
    (hs : ft.set_pixel_sizes data.face font.font_size = Except.ok ()) :
    populate_standard_glyphs ft data font
      = match populate_loop ft data.face font.font_size data.width data.height
          (standard_glyphs ++ special_glyph_map)
          { x := data.next_x, y := data.next_y
            max_glyph_height_for_row := data.cur_row_max_height
            infos := font.infos, texture := data.texture } with
        | Except.ok st =>
          (true, [],
            { data with
              texture := st.texture
              unicode_row_start := st.y + st.max_glyph_height_for_row
              next_y := st.y + st.max_glyph_height_for_row
              next_x := 0
              cur_row_max_height := 0 },
            { font with infos := st.infos })
        | Except.error (msg, st) =>
          (false, [msg], { data with texture := st.texture }, { font with infos := st.infos })
    := by
  have hr : resize_font ft data.face font.font_size = (true, []) := by
    simp [resize_font, hs]
  rw [populate_loop_append_eq]
  unfold populate_standard_glyphs
  simp only [hr]
  cases h1 : populate_loop ft data.face font.font_size data.width data.height
      standard_glyphs
      { x := data.next_x, y := data.next_y
        max_glyph_height_for_row := data.cur_row_max_height
        infos := font.infos, texture := data.texture } with
  | error p => rfl
  | ok st1 =>
    simp only []
    cases h2 : populate_loop ft data.face font.font_size data.width data.height
        special_glyph_map st1 with
    | error p => rfl
    | ok st2 => rfl

/-- A `populate_standard_glyphs` run that completes has sized the face. -/
theorem populate_sized (ft : FreeType) (data : Data) (font : CachedFont)
    (h : (populate_standard_glyphs ft data font).1 = true) :
    ft.set_pixel_sizes data.face font.font_size = Except.ok () := by
  cases hs : ft.set_pixel_sizes data.face font.font_size with
  | ok u => rfl
  | error log =>
    have hr : resize_font ft data.face font.font_size
        = (false, ["Failed to set font size: " ++ log]) := by
      simp [resize_font, hs]
    unfold populate_standard_glyphs at h
    simp only [hr] at h
    exact Bool.noConfusion h

/-- A `populate_standard_glyphs` run that completes: the loop over all the glyphs ends in
a state that gives the table `infos` and the cursor. -/
theorem populate_ok (ft : FreeType) (data : Data) (font : CachedFont)
    (h : (populate_standard_glyphs ft data font).1 = true) :
    ∃ st, populate_loop ft data.face font.font_size data.width data.height
        (standard_glyphs ++ special_glyph_map)
        { x := data.next_x, y := data.next_y
          max_glyph_height_for_row := data.cur_row_max_height
          infos := font.infos, texture := data.texture } = Except.ok st
      ∧ populate_standard_glyphs ft data font
        = (true, [],
            { data with
              texture := st.texture
              unicode_row_start := st.y + st.max_glyph_height_for_row
              next_y := st.y + st.max_glyph_height_for_row
              next_x := 0
              cur_row_max_height := 0 },
            { font with infos := st.infos }) := by
  have he := populate_eq ft data font (populate_sized ft data font h)
  cases hl : populate_loop ft data.face font.font_size data.width data.height
      (standard_glyphs ++ special_glyph_map)
      { x := data.next_x, y := data.next_y
        max_glyph_height_for_row := data.cur_row_max_height
        infos := font.infos, texture := data.texture } with
  | error p =>
    obtain ⟨msg, st⟩ := p
    rw [hl] at he
    rw [he] at h
    exact Bool.noConfusion h
  | ok st =>
    rw [hl] at he
    exact ⟨st, rfl, he⟩

/-- The layout that the loops of `populate_standard_glyphs` compute does not depend on
the texture they append to. -/
theorem populate_loop_layout (ft : FreeType) (face : Nat) (font_size : Int)
    (width height : Nat) (todo : List SpecialGlyphEntry) :
    ∀ st st2 r, st.x = st2.x → st.y = st2.y →
      st.max_glyph_height_for_row = st2.max_glyph_height_for_row → st.infos = st2.infos →
      populate_loop ft face font_size width height todo st = Except.ok r →
      ∃ r2, populate_loop ft face font_size width height todo st2 = Except.ok r2
        ∧ r.x = r2.x ∧ r.y = r2.y
        ∧ r.max_glyph_height_for_row = r2.max_glyph_height_for_row ∧ r.infos = r2.infos := by
  induction todo with
  | nil =>
    intro st st2 r hx hy hm hi h
    simp only [populate_loop, Except.ok.injEq] at h
    subst h
    exact ⟨st2, rfl, hx, hy, hm, hi⟩
  | cons e rest ih =>
    intro st st2 r hx hy hm hi h
    obtain ⟨slot, hl, hrest⟩ := populate_loop_cons_ok ft face font_size width height e rest st r h
    obtain ⟨r2, hr2, q⟩ := ih (populate_step font_size width height st e slot)
      (populate_step font_size width height st2 e slot) r
      (by simp only [populate_step, hx, hy, hm])
      (by simp only [populate_step, hx, hy, hm])
      (by simp only [populate_step, hx, hy, hm])
      (by simp only [populate_step, hx, hy, hm, hi])
      hrest
    refine ⟨r2, ?_, q⟩
    unfold populate_loop at h ⊢
    rw [hl] at h ⊢
    cases hr : ft.render_glyph face font_size e.glyph with
    | error log => rw [hr] at h; exact Except.noConfusion h
    | ok u => exact hr2

/-- A `populate_standard_glyphs` run that completes gives the same font and the same
cursor from two states that agree on face, atlas size and cursor. -/
theorem populate_layout (ft : FreeType) (a b : Data) (font : CachedFont)
    (hface : a.face = b.face) (hw : a.width = b.width) (hh : a.height = b.height)
    (hx : a.next_x = b.next_x) (hy : a.next_y = b.next_y)
    (hm : a.cur_row_max_height = b.cur_row_max_height)
    (hok : (populate_standard_glyphs ft a font).1 = true) :
    (populate_standard_glyphs ft b font).1 = true
    ∧ (populate_standard_glyphs ft a font).2.2.2 = (populate_standard_glyphs ft b font).2.2.2
    ∧ (populate_standard_glyphs ft a font).2.2.1.next_x
        = (populate_standard_glyphs ft b font).2.2.1.next_x
    ∧ (populate_standard_glyphs ft a font).2.2.1.next_y
        = (populate_standard_glyphs ft b font).2.2.1.next_y
    ∧ (populate_standard_glyphs ft a font).2.2.1.unicode_row_start
        = (populate_standard_glyphs ft b font).2.2.1.unicode_row_start
    ∧ (populate_standard_glyphs ft a font).2.2.1.cur_row_max_height
        = (populate_standard_glyphs ft b font).2.2.1.cur_row_max_height := by
  obtain ⟨st, hloop, ha⟩ := populate_ok ft a font hok
  have hsa := populate_sized ft a font hok
  obtain ⟨r2, hr2, q1, q2, q3, q4⟩ := populate_loop_layout ft a.face font.font_size a.width
    a.height (standard_glyphs ++ special_glyph_map)
    { x := a.next_x, y := a.next_y, max_glyph_height_for_row := a.cur_row_max_height
      infos := font.infos, texture := a.texture }
    { x := b.next_x, y := b.next_y, max_glyph_height_for_row := b.cur_row_max_height
      infos := font.infos, texture := b.texture } st hx hy hm rfl hloop
  have hb := populate_eq ft b font (by rw [← hface]; exact hsa)
  rw [← hface, ← hw, ← hh, hr2] at hb
  rw [ha, hb]
  simp only [q2, q3, q4]
  exact ⟨trivial, trivial, trivial, trivial, trivial, trivial⟩

theorem try_set_none (ft : FreeType) (data : Data) (size : Int)
    (hn : data.cached_fonts size = none) :
    try_set_font_size ft data size
      = ((populate_standard_glyphs ft { data with selected_font := some size }
            { font_size := size, cached_glyphs_map := fun _ => none }).1,
         (populate_standard_glyphs ft { data with selected_font := some size }
            { font_size := size, cached_glyphs_map := fun _ => none }).2.1,
         { (populate_standard_glyphs ft { data with selected_font := some size }
            { font_size := size, cached_glyphs_map := fun _ => none }).2.2.1 with
           cached_fonts := Function.update data.cached_fonts size
             (some (populate_standard_glyphs ft { data with selected_font := some size }
               { font_size := size, cached_glyphs_map := fun _ => none }).2.2.2) }) := by
  unfold try_set_font_size
  simp only [hn]
  rw [(populate_summary ft { data with selected_font := some size }
    { font_size := size, cached_glyphs_map := fun _ => none }).1]

theorem cached_font_ext (a b : CachedFont) (h1 : a.font_size = b.font_size)
    (h2 : a.cached_glyphs_map = b.cached_glyphs_map) (h3 : a.infos = b.infos) : a = b := by
  cases a
  cases b
  simp only [CachedFont.mk.injEq]
  exact ⟨h1, h2, h3⟩

/-- A `try_set_font_size` call for a new size that returns `true` gives the same font
and the same cursor from two states that agree on face, atlas size and cursor. -/
theorem try_set_layout (ft : FreeType) (a b : Data) (size : Int)
    (ha : a.cached_fonts size = none) (hb : b.cached_fonts size = none)
    (hface : a.face = b.face) (hw : a.width = b.width) (hh : a.height = b.height)
    (hx : a.next_x = b.next_x) (hy : a.next_y = b.next_y)
    (hm : a.cur_row_max_height = b.cur_row_max_height)
    (hok : (try_set_font_size ft a size).1 = true) :
    (try_set_font_size ft b size).1 = true
    ∧ (try_set_font_size ft a size).2.2.cached_fonts size
        = (try_set_font_size ft b size).2.2.cached_fonts size
    ∧ (try_set_font_size ft a size).2.2.next_x = (try_set_font_size ft b size).2.2.next_x
    ∧ (try_set_font_size ft a size).2.2.next_y = (try_set_font_size ft b size).2.2.next_y
    ∧ (try_set_font_size ft a size).2.2.unicode_row_start
        = (try_set_font_size ft b size).2.2.unicode_row_start
    ∧ (try_set_font_size ft a size).2.2.cur_row_max_height
        = (try_set_font_size ft b size).2.2.cur_row_max_height := by
  rw [try_set_none ft a size ha] at hok ⊢
  rw [try_set_none ft b size hb]
  simp only [] at hok ⊢
  obtain ⟨p1, p2, p3, p4, p5, p6⟩ := populate_layout ft { a with selected_font := some size }
    { b with selected_font := some size }
    { font_size := size, cached_glyphs_map := fun _ => none } hface hw hh hx hy hm hok
  refine ⟨p1, ?_, p3, p4, p5, p6⟩
  simp only [Function.update_same, p2]

theorem all_glyphs_cons :
    standard_glyphs ++ special_glyph_map
      = { index := ValidCharStart, glyph := ValidCharStart }
          :: (standard_glyphs ++ special_glyph_map).tail := by
  decide

theorem all_glyphs_first_once :
    ({ index := ValidCharStart, glyph := ValidCharStart } : SpecialGlyphEntry).index
      ∉ ((standard_glyphs ++ special_glyph_map).tail).map (fun e => e.index) := by
  decide

theorem all_glyphs_nodup :
    ((standard_glyphs ++ special_glyph_map).map (fun e => e.index)).Nodup := by
  decide

theorem all_glyphs_range :
    ∀ i ∈ (standard_glyphs ++ special_glyph_map).map (fun e => e.index),
      ValidCharStart ≤ i ∧ i < TotalCharInfoCount := by
  decide

/-- The call ends by queuing "Font loaded." only on the path where the new face loads,
can be sized and the default size is populated. -/
theorem try_load_font_face_loaded (ft : FreeType) (data : Data) (path : String)
    (feed : Feed.MessageFeed)
    (h : (try_load_font_face ft data path feed).2
      = feed ++ [{ severity := Feed.Severity.info, text := "Font loaded." }]) :
    ∃ face, ft.new_face path = Except.ok face
      ∧ (try_set_font_size ft (data.reset_for_face face) default_font_size).1 = true
      ∧ (try_load_font_face ft data path feed).1
        = (try_set_font_size ft (data.reset_for_face face) default_font_size).2.2 := by
  rcases try_load_font_face_cases ft data path feed with
    ⟨log, _, h'⟩ | ⟨face, log, _, _, h'⟩ | ⟨face, _, _, hok, h'⟩ | ⟨face, hn, _, hok, h'⟩
  · rw [h'] at h
    have := List.append_cancel_left h
    simp at this
  · rw [h'] at h
    have := List.append_cancel_left h
    simp at this
  · rw [h'] at h
    have h2 := List.append_cancel_left h
    rcases try_set_messages ft (data.reset_for_face face) default_font_size with
      ⟨ht, _⟩ | ⟨_, m, hm⟩
    · rw [hok] at ht; exact Bool.noConfusion ht
    · rw [hm] at h2
      simp at h2
  · exact ⟨face, hn, hok, by rw [h']⟩

theorem entry_info_reset (data : Data) (face : Nat) (o : GlyphOwner) :
    entry_info (data.reset_for_face face) o = none := by
  cases o <;> rfl

theorem try_set_cached_other (ft : FreeType) (data : Data) (size s : Int)
    (hs : s ≠ size) :
    (try_set_font_size ft data size).2.2.cached_fonts s = data.cached_fonts s := by
  rcases try_set_font_size_data ft data size with ⟨_, h⟩ | ⟨_, font, _, _, hc, _⟩
  · rw [h]
  · rw [hc, Function.update_noteq hs]

/-- C19: when `try_load_font_face` ends by queuing "Font loaded." (on an atlas of the
texture size), the new face is installed and the state is the base state for it: the font
table, the cursor and `unicode_row_start` are those of an atlas initialised with the new
face and populated. The only resident font is the default size, with an empty dynamic
map; its first standard glyph lies at the atlas origin; the atlas is packed;
`next_x = 0`, `cur_row_max_height = 0`, and `next_y = unicode_row_start` is the bottom of
the last row of standard glyphs: no standard glyph ends below it and one ends on it. -/
theorem try_load_font_face_success (ft : FreeType) (data : Data) (path : String)
    (feed : Feed.MessageFeed) (hw : data.width = texture_width)
    (hh : data.height = texture_height)
    (hloaded : (try_load_font_face ft data path feed).2
      = feed ++ [{ severity := Feed.Severity.info, text := "Font loaded." }]) :
    ∃ face font, ft.new_face path = Except.ok face
      ∧ (try_load_font_face ft data path feed).1.face = face
      ∧ (try_load_font_face ft data path feed).1.cached_fonts default_font_size = some font
      ∧ (∀ s, s ≠ default_font_size →
          (try_load_font_face ft data path feed).1.cached_fonts s = none)
      ∧ font.font_size = default_font_size
      ∧ font.cached_glyphs_map = (fun _ => none)
      ∧ (font.infos ValidCharStart).tx = 0 ∧ (font.infos ValidCharStart).ty = 0
      ∧ (try_load_font_face ft data path feed).1.next_x = 0
      ∧ (try_load_font_face ft data path feed).1.cur_row_max_height = 0
      ∧ (try_load_font_face ft data path feed).1.next_y
          = (try_load_font_face ft data path feed).1.unicode_row_start
      ∧ (∀ i, i < TotalCharInfoCount →
          (font.infos i).atlas_y (try_load_font_face ft data path feed).1 + (font.infos i).bh
            ≤ (try_load_font_face ft data path feed).1.next_y)
      ∧ (∃ i, ValidCharStart ≤ i ∧ i < TotalCharInfoCount
          ∧ (font.infos i).atlas_y (try_load_font_face ft data path feed).1 + (font.infos i).bh
            = (try_load_font_face ft data path feed).1.next_y)
      ∧ packed (try_load_font_face ft data path feed).1
      ∧ (∀ s, (try_load_font_face ft data path feed).1.cached_fonts s
          = (Data.populated ft face).cached_fonts s)
      ∧ (try_load_font_face ft data path feed).1.next_y = (Data.populated ft face).next_y
      ∧ (try_load_font_face ft data path feed).1.unicode_row_start
          = (Data.populated ft face).unicode_row_start := by
  obtain ⟨face, hn, hok, hd⟩ := try_load_font_face_loaded ft data path feed hloaded
  rw [hd]
  have hH : 0 < data.height := by rw [hh]; decide
  have hW : 0 < data.width := by rw [hw]; decide
  -- the populate run behind the call
  have hnone : (data.reset_for_face face).cached_fonts default_font_size = none := rfl
  have hT := try_set_none ft (data.reset_for_face face) default_font_size hnone
  have hokP : (populate_standard_glyphs ft
      { data.reset_for_face face with selected_font := some default_font_size }
      { font_size := default_font_size, cached_glyphs_map := fun _ => none }).1 = true := by
    rw [hT] at hok
    exact hok
  obtain ⟨st, hloop, hP⟩ := populate_ok ft _ _ hokP
  rw [hP] at hT
  simp only [] at hT hloop
  -- packing
  have hpacked : packed (try_set_font_size ft (data.reset_for_face face) default_font_size).2.2 :=
    try_set_packed ft _ _
      ⟨hW, hH, fun o c hoc => by rw [entry_info_reset] at hoc; exact Option.noConfusion hoc,
        fun o1 o2 c1 c2 _ hoc => by rw [entry_info_reset] at hoc; exact Option.noConfusion hoc⟩
      hok
  -- origin
  have horigin : (st.infos ValidCharStart).tx = 0 ∧ (st.infos ValidCharStart).ty = 0 := by
    have hl := hloop
    rw [all_glyphs_cons] at hl
    exact populate_loop_origin ft _ _ _ _ _ _ _ st hl rfl rfl rfl all_glyphs_first_once
  -- the last row
  obtain ⟨i, hi, t1, t2⟩ := (populate_loop_tight ft _ _ _ _ _ _ st all_glyphs_nodup hloop).2 rfl
    (by decide)
  have hrange := all_glyphs_range i hi
  -- the base state
  obtain ⟨_, b2, _, b4, b5, _⟩ := try_set_layout ft (data.reset_for_face face)
    { face := face, width := texture_width, height := texture_height } default_font_size
    rfl rfl rfl hw hh rfl rfl rfl hok
  rw [← populated_eq] at b2 b4 b5
  refine ⟨face, { font_size := default_font_size, cached_glyphs_map := fun _ => none
                  infos := st.infos }, hn, ?_, ?_, ?_, rfl, rfl, horigin.1, horigin.2, ?_, ?_, ?_,
    ?_, ?_, hpacked, ?_, b4, b5⟩
  · exact (try_set_after_reset ft data face).1
  · rw [hT]
    simp only [Function.update_same]
  · exact (try_set_after_reset ft data face).2.1
  · rw [hT]
  · rw [hT]
  · rw [hT]
  · intro j hj
    have hb := hpacked.2.2.1 (GlyphOwner.standard default_font_size j)
      (st.infos j) (by
        rw [hT]
        simp only [entry_info, Function.update_same, if_pos hj])
    rw [hT] at hb ⊢
    simp only [behind_cursor, CharInfo.atlas_y] at hb ⊢
    omega
  · refine ⟨i, hrange.1, hrange.2, ?_⟩
    rw [hT]
    simp only [CharInfo.atlas_y]
    rw [t1, t2]
    show to_uint ((st.y : ℚ) / (data.height : ℚ) * (data.height : ℚ)) + _ = _
    rw [to_uint_div_mul st.y data.height hH]
  · intro s
    by_cases hs : s = default_font_size
    · rw [hs]; exact b2
    · rw [(try_set_after_reset ft data face).2.1 s hs, populated_eq,
        try_set_cached_other ft _ _ s hs]

/-- The C19 theorem at a second font file that loads: the cursor is back in the first
column with an empty row. -/
theorem try_load_font_face_success_witness :
    (try_load_font_face FreeType.two_faces
        (run_atlas FreeType.two_faces (Data.populated FreeType.two_faces 1)
          [AtlasOp.render_font_context 12,
           AtlasOp.glyph { font := 64 } 0x4E2D Rasterize.Yes]) "other.ttf" []).1.next_x = 0
    ∧ (try_load_font_face FreeType.two_faces
        (run_atlas FreeType.two_faces (Data.populated FreeType.two_faces 1)
          [AtlasOp.render_font_context 12,
           AtlasOp.glyph { font := 64 } 0x4E2D Rasterize.Yes]) "other.ttf" []).1.next_y = 128 := by
  obtain ⟨face, font, h⟩ := try_load_font_face_success FreeType.two_faces
    (run_atlas FreeType.two_faces (Data.populated FreeType.two_faces 1)
      [AtlasOp.render_font_context 12, AtlasOp.glyph { font := 64 } 0x4E2D Rasterize.Yes])
    "other.ttf" [] (by decide!) (by decide!) (by decide!)
  exact ⟨h.2.2.2.2.2.2.2.2.1, by decide!⟩

/-! ### Fallback faces -/

theorem find_fallback_face_eq (ft : FreeType) (glyph : Nat) (faces : List (Option Nat)) :
    find_fallback_face ft glyph faces = first_fallback_with_glyph ft glyph faces := by
  unfold first_fallback_with_glyph
  induction faces with
  | nil => rfl
  | cons f rest ih =>
    cases f with
    | none =>
      simp only [find_fallback_face, List.filterMap_cons_none, id_eq]
      exact ih
    | some face =>
      by_cases h : ft.get_char_index face glyph ≠ 0
      · simp [find_fallback_face, h]
      · have h0 : ft.get_char_index face glyph = 0 := by
          by_contra hne
          exact h hne
        simp only [find_fallback_face, if_neg h]
        rw [ih]
        simp [h0]

theorem identify_hit (ft : FreeType) (data : Data) (glyph : Nat)
    (h : ft.get_char_index data.face glyph ≠ 0) :
    identify_font_face_for_glyph ft data glyph = (data.face, data) := by
  unfold identify_font_face_for_glyph
  simp only []
  rw [if_pos h]

theorem identify_miss_empty (ft : FreeType) (data : Data) (glyph : Nat)
    (h : ft.get_char_index data.face glyph = 0) (he : data.fallback_fonts = []) :
    identify_font_face_for_glyph ft data glyph
      = ((find_fallback_face ft glyph
            (none :: load_fallback_fonts ft ft.files_in_dir)).getD data.face,
          { data with
            fallback_fonts := none :: load_fallback_fonts ft ft.files_in_dir
            dir_scans := data.dir_scans + 1 }) := by
  unfold identify_font_face_for_glyph
  simp only []
  rw [if_neg (fun hne => hne h)]
  simp only [he, List.isEmpty_nil, if_true]
  cases find_fallback_face ft glyph (none :: load_fallback_fonts ft ft.files_in_dir) with
  | none => rfl
  | some face => rfl

theorem identify_miss_loaded (ft : FreeType) (data : Data) (glyph : Nat)
    (h : ft.get_char_index data.face glyph = 0) (he : data.fallback_fonts ≠ []) :
    identify_font_face_for_glyph ft data glyph
      = ((find_fallback_face ft glyph data.fallback_fonts).getD data.face, data) := by
  unfold identify_font_face_for_glyph
  simp only []
  rw [if_neg (fun hne => hne h)]
  have hne : data.fallback_fonts.isEmpty = false := by
    cases hf : data.fallback_fonts with
    | nil => exact absurd hf he
    | cons a b => rfl
  simp only [hne, Bool.false_eq_true, if_false]
  cases find_fallback_face ft glyph data.fallback_fonts with
  | none => rfl
  | some face => rfl

/-- The folder has been enumerated once and the list of fallback faces is not empty, or
it has not been enumerated and the list is empty. -/
theorem identify_scans (ft : FreeType) (data : Data) (glyph : Nat)
    (h : (data.dir_scans = 0 ∧ data.fallback_fonts = [])
      ∨ (data.dir_scans = 1 ∧ data.fallback_fonts ≠ [])) :
    ((identify_font_face_for_glyph ft data glyph).2.dir_scans = 0
      ∧ (identify_font_face_for_glyph ft data glyph).2.fallback_fonts = [])
    ∨ ((identify_font_face_for_glyph ft data glyph).2.dir_scans = 1
      ∧ (identify_font_face_for_glyph ft data glyph).2.fallback_fonts ≠ []) := by
  by_cases hi : ft.get_char_index data.face glyph ≠ 0
  · rw [identify_hit ft data glyph hi]; exact h
  · have h0 : ft.get_char_index data.face glyph = 0 := by
      by_contra hne
      exact hi hne
    rcases h with ⟨h1, h2⟩ | ⟨h1, h2⟩
    · right
      rw [identify_miss_empty ft data glyph h0 h2]
      refine ⟨?_, ?_⟩
      · show data.dir_scans + 1 = 1
        rw [h1]
      · exact List.cons_ne_nil _ _
    · right
      rw [identify_miss_loaded ft data glyph h0 h2]
      exact ⟨h1, h2⟩

theorem populate_scans (ft : FreeType) (data : Data) (font : CachedFont) :
    (populate_standard_glyphs ft data font).2.2.1.dir_scans = data.dir_scans
    ∧ (populate_standard_glyphs ft data font).2.2.1.fallback_fonts = data.fallback_fonts := by
  unfold populate_standard_glyphs
  simp only []
  rcases hrs : resize_font ft data.face font.font_size with ⟨ok, msgs⟩
  cases ok with
  | false => exact ⟨rfl, rfl⟩
  | true =>
    simp only []
    cases h1 : populate_loop ft data.face font.font_size data.width data.height
        standard_glyphs
        { x := data.next_x, y := data.next_y
          max_glyph_height_for_row := data.cur_row_max_height
          infos := font.infos, texture := data.texture } with
    | error p => exact ⟨rfl, rfl⟩
    | ok st1 =>
      simp only []
      cases h2 : populate_loop ft data.face font.font_size data.width data.height
          special_glyph_map st1 with
      | error p => exact ⟨rfl, rfl⟩
      | ok st2 => exact ⟨rfl, rfl⟩

theorem try_set_scans (ft : FreeType) (data : Data) (size : Int) :
    (try_set_font_size ft data size).2.2.dir_scans = data.dir_scans
    ∧ (try_set_font_size ft data size).2.2.fallback_fonts = data.fallback_fonts := by
  cases hf : data.cached_fonts size with
  | some font =>
    rw [try_set_resident ft data size font hf]
    exact ⟨rfl, rfl⟩
  | none =>
    rw [try_set_none ft data size hf]
    exact populate_scans ft _ _

theorem request_scans (ft : FreeType) (data : Data) (font : CachedFont) (glyph : Nat)
    (r : Rasterize) :
    ((request_cached_glyph ft data font glyph r).2.1.dir_scans = data.dir_scans
      ∧ (request_cached_glyph ft data font glyph r).2.1.fallback_fonts = data.fallback_fonts)
    ∨ ((request_cached_glyph ft data font glyph r).2.1.dir_scans
        = (identify_font_face_for_glyph ft data glyph).2.dir_scans
      ∧ (request_cached_glyph ft data font glyph r).2.1.fallback_fonts
        = (identify_font_face_for_glyph ft data glyph).2.fallback_fonts) := by
  by_cases hg : glyph = UTF8.invalid_codepoint
  · have : request_cached_glyph ft data font glyph r = (none, data, font) := by
      unfold request_cached_glyph; rw [if_pos hg]
    rw [this]
    exact Or.inl ⟨rfl, rfl⟩
  cases he : font.cached_glyphs_map glyph with
  | some e =>
    left
    rcases request_existing_cases ft data font glyph r e hg he with
      ⟨_, h⟩ | ⟨_, _, _, h⟩ | ⟨_, _, _, _, h⟩ | ⟨_, _, _, face, slot, _, _, _, h⟩
    all_goals (rw [h]; exact ⟨rfl, rfl⟩)
  | none =>
    right
    rcases request_new_cases ft data font glyph r hg he with
      ⟨_, h⟩ | ⟨slot, _, _, ⟨_, h⟩ | ⟨_, h⟩ | ⟨_, _, h⟩⟩
    all_goals (rw [h]; exact ⟨rfl, rfl⟩)

theorem scans_transfer (a b : Data) (h1 : b.dir_scans = a.dir_scans)
    (h2 : b.fallback_fonts = a.fallback_fonts)
    (h : (a.dir_scans = 0 ∧ a.fallback_fonts = [])
      ∨ (a.dir_scans = 1 ∧ a.fallback_fonts ≠ [])) :
    (b.dir_scans = 0 ∧ b.fallback_fonts = []) ∨ (b.dir_scans = 1 ∧ b.fallback_fonts ≠ []) := by
  rw [h1, h2]
  exact h

/-- Every call on the atlas keeps the count of folder enumerations at most one, together
with the list of fallback faces that records the enumeration. -/
theorem apply_scans (ft : FreeType) (data : Data) (c : AtlasCall)
    (h : (data.dir_scans = 0 ∧ data.fallback_fonts = [])
      ∨ (data.dir_scans = 1 ∧ data.fallback_fonts ≠ [])) :
    ((c.apply ft data).dir_scans = 0 ∧ (c.apply ft data).fallback_fonts = [])
    ∨ ((c.apply ft data).dir_scans = 1 ∧ (c.apply ft data).fallback_fonts ≠ []) := by
  cases c with
  | populate_atlas =>
    exact scans_transfer data (AtlasCall.apply ft data AtlasCall.populate_atlas)
      (try_set_scans ft _ _).1 (try_set_scans ft _ _).2 h
  | op o =>
    cases o with
    | render_font_context size =>
      exact scans_transfer data _ (try_set_scans ft data size).1 (try_set_scans ft data size).2 h
    | glyph ctx cp r =>
      have e : AtlasCall.apply ft data (AtlasCall.op (AtlasOp.glyph ctx cp r))
          = (ctx.extract ft data cp r).2 := rfl
      rw [e]
      rcases extract_data ft ctx data cp r with ⟨_, hd⟩ | ⟨_, _, _, hd⟩ | ⟨font, _, _, _, hd⟩
      · rw [hd]; exact h
      · rw [hd]; exact h
      · rw [hd]
        rcases request_scans ft data font cp r with ⟨t1, t2⟩ | ⟨t1, t2⟩
        · exact scans_transfer data _ t1 t2 h
        · exact scans_transfer _ _ t1 t2 (identify_scans ft data cp h)
  | try_load_font_face path =>
    have e : AtlasCall.apply ft data (AtlasCall.try_load_font_face path)
        = (try_load_font_face ft data path []).1 := rfl
    rw [e]
    rcases try_load_font_face_cases ft data path [] with
      ⟨log, _, hd⟩ | ⟨face, log, _, _, hd⟩ | ⟨face, _, _, _, hd⟩ | ⟨face, _, _, _, hd⟩
    · rw [hd]; exact h
    · rw [hd]; exact h
    · rw [hd]
      exact scans_transfer data _
        (try_set_scans ft (data.reset_for_face face) default_font_size).1
        (try_set_scans ft (data.reset_for_face face) default_font_size).2 h
    · rw [hd]
      exact scans_transfer data _
        (try_set_scans ft (data.reset_for_face face) default_font_size).1
        (try_set_scans ft (data.reset_for_face face) default_font_size).2 h

theorem run_calls_scans (ft : FreeType) (calls : List AtlasCall) :
    ∀ data, ((data.dir_scans = 0 ∧ data.fallback_fonts = [])
        ∨ (data.dir_scans = 1 ∧ data.fallback_fonts ≠ [])) →
      ((run_calls ft data calls).dir_scans = 0 ∧ (run_calls ft data calls).fallback_fonts = [])
      ∨ ((run_calls ft data calls).dir_scans = 1
        ∧ (run_calls ft data calls).fallback_fonts ≠ []) := by
  induction calls with
  | nil => intro data h; exact h
  | cons c cs ih =>
    intro data h
    exact ih _ (apply_scans ft data c h)

/-- C12: `identify_font_face_for_glyph` returns the primary face when it has a glyph
index for the codepoint, and leaves the data alone; otherwise it returns the first face
with a glyph index among the loaded fallback faces, in list order, and the primary face
when there is none. The fallback faces are loaded when the list is empty, and then the
list is not empty any more, whatever was loaded; a miss with a non-empty list changes
nothing. Over any sequence of calls on an atlas (`populate_atlas`,
`render_font_context`, glyph requests, `try_load_font_face`) the folder is enumerated at
most once. -/
theorem identify_font_face_spec (ft : FreeType) (data : Data) (glyph : Nat) :
    (ft.get_char_index data.face glyph ≠ 0 →
      identify_font_face_for_glyph ft data glyph = (data.face, data))
    ∧ (ft.get_char_index data.face glyph = 0 →
      (identify_font_face_for_glyph ft data glyph).1
        = (first_fallback_with_glyph ft glyph
            (identify_font_face_for_glyph ft data glyph).2.fallback_fonts).getD data.face
      ∧ (identify_font_face_for_glyph ft data glyph).2.fallback_fonts ≠ []
      ∧ (data.fallback_fonts = [] →
          (identify_font_face_for_glyph ft data glyph).2.fallback_fonts
            = none :: load_fallback_fonts ft ft.files_in_dir
          ∧ (identify_font_face_for_glyph ft data glyph).2.dir_scans = data.dir_scans + 1)
      ∧ (data.fallback_fonts ≠ [] → (identify_font_face_for_glyph ft data glyph).2 = data))
    ∧ (∀ (face : Nat) (calls : List AtlasCall),
        (run_calls ft (Data.after_init face) calls).dir_scans ≤ 1) := by
  refine ⟨identify_hit ft data glyph, ?_, ?_⟩
  · intro h
    by_cases hl : data.fallback_fonts = []
    · rw [identify_miss_empty ft data glyph h hl]
      refine ⟨?_, List.cons_ne_nil _ _, fun _ => ⟨rfl, rfl⟩, fun hne => absurd hl hne⟩
      show (find_fallback_face ft glyph _).getD data.face = _
      rw [find_fallback_face_eq]
    · rw [identify_miss_loaded ft data glyph h hl]
      refine ⟨?_, hl, fun he => absurd he hl, fun _ => rfl⟩
      show (find_fallback_face ft glyph _).getD data.face = _
      rw [find_fallback_face_eq]
  · intro face calls
    rcases run_calls_scans ft calls (Data.after_init face) (Or.inl ⟨rfl, rfl⟩) with
      ⟨h, _⟩ | ⟨h, _⟩
    · rw [h]; exact Nat.zero_le _
    · rw [h]

/-- The C12 theorem at a codepoint that the primary face and the first fallback face do
not have: the face returned is face 12, loaded from the third file. -/
theorem identify_font_face_spec_witness :
    (identify_font_face_for_glyph FreeType.with_fallbacks
        (Data.populated FreeType.with_fallbacks 1) 0x4E2D).1
      = (first_fallback_with_glyph FreeType.with_fallbacks 0x4E2D
          (identify_font_face_for_glyph FreeType.with_fallbacks
            (Data.populated FreeType.with_fallbacks 1) 0x4E2D).2.fallback_fonts).getD
          (Data.populated FreeType.with_fallbacks 1).face
    ∧ (identify_font_face_for_glyph FreeType.with_fallbacks
        (Data.populated FreeType.with_fallbacks 1) 0x4E2D).1 = 12 :=
  ⟨((identify_font_face_spec FreeType.with_fallbacks
      (Data.populated FreeType.with_fallbacks 1) 0x4E2D).2.1 (by decide!)).1, by decide!⟩

end Glyph

namespace Glyph

/-! ### The substitution table of `extract_glyph_info` -/

theorem standard_glyph_info_space_on (font : CachedFont) (t : Int) :
    standard_glyph_info font t 32 true
      = { info := font.infos SpecialGlyph.Whitespace
          x_advance := (font.infos SpecialGlyph.Whitespace).ax
          color_filter := ColorFilter.whitespace } := by
  simp [standard_glyph_info, SpecialGlyph.Whitespace, CharInfoCount, ValidCharStart]

theorem standard_glyph_info_carriage_return (font : CachedFont) (t : Int) (w : Bool) :
    standard_glyph_info font t 13 w
      = { info := font.infos SpecialGlyph.CarriageReturn
          x_advance := (font.infos SpecialGlyph.CarriageReturn).ax
          color_filter := ColorFilter.carriage_return } := by
  simp [standard_glyph_info, SpecialGlyph.CarriageReturn, CharInfoCount, ValidCharStart]

theorem standard_glyph_info_tab_on (font : CachedFont) (t : Int) :
    standard_glyph_info font t 9 true
      = { info := font.infos SpecialGlyph.Tab
          x_advance := (font.infos SpecialGlyph.Tab).ax * t
          color_filter := ColorFilter.whitespace } := by
  simp [standard_glyph_info]

theorem standard_glyph_info_tab_off (font : CachedFont) (t : Int) :
    standard_glyph_info font t 9 false
      = { info := font.infos 32, x_advance := (font.infos 32).ax * t
          color_filter := ColorFilter.default_color } := by
  simp [standard_glyph_info]

theorem standard_glyph_info_control (font : CachedFont) (t : Int) (cp : Nat) (w : Bool)
    (h : cp < 32) (h9 : cp ≠ 9) (h13 : cp ≠ 13) :
    standard_glyph_info font t cp w = question_mark font := by
  have h32 : cp ≠ 32 := by omega
  simp [standard_glyph_info, question_mark, ValidCharStart, h32, h9, h13, h]

/-- A codepoint of the standard table that is not the space with whitespace rendering
on is looked up at its own index. -/
theorem standard_glyph_info_own (font : CachedFont) (t : Int) (cp : Nat) (w : Bool)
    (h : 32 ≤ cp) (hw : cp = 32 → w = false) :
    standard_glyph_info font t cp w
      = { info := font.infos cp, x_advance := (font.infos cp).ax
          color_filter := ColorFilter.default_color } := by
  have h9 : cp ≠ 9 := by omega
  have h13 : cp ≠ 13 := by omega
  have hlt : ¬ cp < 32 := by omega
  by_cases h32 : cp = 32
  · have hw' := hw h32
    subst h32
    subst hw'
    simp [standard_glyph_info, ValidCharStart]
  · simp [standard_glyph_info, ValidCharStart, h32, h9, h13, hlt]

theorem standard_glyph_info_question_mark (font : CachedFont) (t : Int) (w : Bool) :
    standard_glyph_info font t 63 w = question_mark font := by
  rw [standard_glyph_info_own font t 63 w (by decide) (fun h => absurd h (by decide))]
  rfl

theorem extract_glyph_info_low (ft : FreeType) (data : Data) (font : CachedFont) (t : Int)
    (cp : Nat) (r : Rasterize) (w : Bool) (h : cp < CharInfoCount) :
    extract_glyph_info ft data font t cp r w = (standard_glyph_info font t cp w, data, font) := by
  unfold extract_glyph_info
  rw [if_neg (by omega)]

theorem invalid_codepoint_high : CharInfoCount ≤ UTF8.invalid_codepoint := by decide

theorem extract_glyph_info_unresolved (ft : FreeType) (data : Data) (font : CachedFont)
    (t : Int) (cp : Nat) (r : Rasterize) (w : Bool) (h1 : CharInfoCount ≤ cp)
    (h2 : cp ≠ UTF8.invalid_codepoint) (h : (request_cached_glyph ft data font cp r).1 = none) :
    (extract_glyph_info ft data font t cp r w).1 = question_mark font := by
  have hi := (request_summary ft data font cp r).2.2.1
  rcases hreq : request_cached_glyph ft data font cp r with ⟨res, d1, f1⟩
  rw [hreq] at h hi
  simp only at h hi
  subst h
  unfold extract_glyph_info
  have h1' : cp ≥ CharInfoCount := h1
  simp only [h1', h2, if_true, if_false, hreq]
  rw [standard_glyph_info_question_mark]
  unfold question_mark
  rw [hi]

/-- C13: the substitution table of `extract_glyph_info`, for every codepoint, whitespace
flag and tabstop. The invalid codepoint and a codepoint of 128 or more that
`request_cached_glyph` does not resolve give the entry of the question mark; a resolved
one gives its own cached metrics; the space gives the whitespace marker with the
whitespace filter when whitespace rendering is on and the plain space otherwise; the
carriage return gives its marker with the carriage-return filter; the tab gives the tab
marker with the whitespace filter when whitespace rendering is on and the plain space
with the default filter otherwise, its advance multiplied by the tabstop; every other
control character gives the question mark; every other codepoint below 128 gives its own
entry. The default filter returns the colour of the caller, the whitespace filter the
whitespace colour of the context and the carriage-return filter its carriage-return
colour. The index into the table `infos` is at least 32 and below 131, and for all
glyphs but the tab the advance is the advance of the entry used. -/
theorem extract_glyph_info_table (ft : FreeType) (data : Data) (font : CachedFont) (t : Int)
    (cp : Nat) (r : Rasterize) (w : Bool) :
    (cp = UTF8.invalid_codepoint →
      (extract_glyph_info ft data font t cp r w).1 = question_mark font)
    ∧ (CharInfoCount ≤ cp → cp ≠ UTF8.invalid_codepoint →
        (request_cached_glyph ft data font cp r).1 = none →
        (extract_glyph_info ft data font t cp r w).1 = question_mark font)
    ∧ (CharInfoCount ≤ cp → cp ≠ UTF8.invalid_codepoint →
        ∀ i, (request_cached_glyph ft data font cp r).1 = some i →
          (extract_glyph_info ft data font t cp r w).1
            = { info := i.info, x_advance := i.info.ax
                color_filter := ColorFilter.default_color })
    ∧ (cp = 32 → w = true →
        (extract_glyph_info ft data font t cp r w).1
          = { info := font.infos SpecialGlyph.Whitespace
              x_advance := (font.infos SpecialGlyph.Whitespace).ax
              color_filter := ColorFilter.whitespace })
    ∧ (cp = 32 → w = false →
        (extract_glyph_info ft data font t cp r w).1
          = { info := font.infos 32, x_advance := (font.infos 32).ax
              color_filter := ColorFilter.default_color })
    ∧ (cp = 13 →
        (extract_glyph_info ft data font t cp r w).1
          = { info := font.infos SpecialGlyph.CarriageReturn
              x_advance := (font.infos SpecialGlyph.CarriageReturn).ax
              color_filter := ColorFilter.carriage_return })
    ∧ (cp = 9 → w = true →
        (extract_glyph_info ft data font t cp r w).1
          = { info := font.infos SpecialGlyph.Tab
              x_advance := (font.infos SpecialGlyph.Tab).ax * t
              color_filter := ColorFilter.whitespace })
    ∧ (cp = 9 → w = false →
        (extract_glyph_info ft data font t cp r w).1
          = { info := font.infos 32, x_advance := (font.infos 32).ax * t
              color_filter := ColorFilter.default_color })
    ∧ (cp < 32 → cp ≠ 9 → cp ≠ 13 →
        (extract_glyph_info ft data font t cp r w).1 = question_mark font)
    ∧ (32 < cp → cp < CharInfoCount →
        (extract_glyph_info ft data font t cp r w).1
          = { info := font.infos cp, x_advance := (font.infos cp).ax
              color_filter := ColorFilter.default_color })
    ∧ (∀ color colors,
        ColorFilter.default_color.apply color colors = color
        ∧ ColorFilter.whitespace.apply color colors = colors.whitespace
        ∧ ColorFilter.carriage_return.apply color colors = colors.carriage_return)
    ∧ ((CharInfoCount ≤ cp ∧ cp ≠ UTF8.invalid_codepoint
          ∧ ∃ i, (request_cached_glyph ft data font cp r).1 = some i)
      ∨ ∃ k, 32 ≤ k ∧ k < 131
          ∧ (extract_glyph_info ft data font t cp r w).1.info = font.infos k
          ∧ ((extract_glyph_info ft data font t cp r w).1.x_advance = (font.infos k).ax
            ∨ (cp = 9
              ∧ (extract_glyph_info ft data font t cp r w).1.x_advance
                  = (font.infos k).ax * t))) := by
  have hinv : (extract_glyph_info ft data font t UTF8.invalid_codepoint r w).1
      = question_mark font := by
    unfold extract_glyph_info
    rw [if_pos invalid_codepoint_high, if_pos rfl]
    exact standard_glyph_info_question_mark font t w
  have c4 : cp = 32 → w = true → (extract_glyph_info ft data font t cp r w).1
      = { info := font.infos SpecialGlyph.Whitespace
          x_advance := (font.infos SpecialGlyph.Whitespace).ax
          color_filter := ColorFilter.whitespace } := by
    intro h hw
    subst h; subst hw
    rw [extract_glyph_info_low ft data font t 32 r true (by decide)]
    exact standard_glyph_info_space_on font t
  have c5 : cp = 32 → w = false → (extract_glyph_info ft data font t cp r w).1
      = { info := font.infos 32, x_advance := (font.infos 32).ax
          color_filter := ColorFilter.default_color } := by
    intro h hw
    subst h; subst hw
    rw [extract_glyph_info_low ft data font t 32 r false (by decide)]
    exact standard_glyph_info_own font t 32 false (by decide) (fun _ => rfl)
  have c6 : cp = 13 → (extract_glyph_info ft data font t cp r w).1
      = { info := font.infos SpecialGlyph.CarriageReturn
          x_advance := (font.infos SpecialGlyph.CarriageReturn).ax
          color_filter := ColorFilter.carriage_return } := by
    intro h
    subst h
    rw [extract_glyph_info_low ft data font t 13 r w (by decide)]
    exact standard_glyph_info_carriage_return font t w
  have c7 : cp = 9 → w = true → (extract_glyph_info ft data font t cp r w).1
      = { info := font.infos SpecialGlyph.Tab
          x_advance := (font.infos SpecialGlyph.Tab).ax * t
          color_filter := ColorFilter.whitespace } := by
    intro h hw
    subst h; subst hw
    rw [extract_glyph_info_low ft data font t 9 r true (by decide)]
    exact standard_glyph_info_tab_on font t
  have c8 : cp = 9 → w = false → (extract_glyph_info ft data font t cp r w).1
      = { info := font.infos 32, x_advance := (font.infos 32).ax * t
          color_filter := ColorFilter.default_color } := by
    intro h hw
    subst h; subst hw
    rw [extract_glyph_info_low ft data font t 9 r false (by decide)]
    exact standard_glyph_info_tab_off font t
  have c9 : cp < 32 → cp ≠ 9 → cp ≠ 13 →
      (extract_glyph_info ft data font t cp r w).1 = question_mark font := by
    intro h h9 h13
    rw [extract_glyph_info_low ft data font t cp r w (by unfold CharInfoCount; omega)]
    exact standard_glyph_info_control font t cp w h h9 h13
  have c10 : 32 < cp → cp < CharInfoCount → (extract_glyph_info ft data font t cp r w).1
      = { info := font.infos cp, x_advance := (font.infos cp).ax
          color_filter := ColorFilter.default_color } := by
    intro h h'
    rw [extract_glyph_info_low ft data font t cp r w h']
    exact standard_glyph_info_own font t cp w (by omega) (fun h32 => by omega)
  refine ⟨fun h => by rw [h]; exact hinv,
    extract_glyph_info_unresolved ft data font t cp r w,
    fun h1 h2 i hi => by rw [extract_glyph_info_answered ft data font t cp r w h1 h2 i hi],
    c4, c5, c6, c7, c8, c9, c10, fun _ _ => ⟨rfl, rfl, rfl⟩, ?_⟩
  by_cases hhigh : CharInfoCount ≤ cp
  · by_cases hi : cp = UTF8.invalid_codepoint
    · right
      refine ⟨63, by decide, by decide, ?_, Or.inl ?_⟩
      · rw [hi, hinv]; rfl
      · rw [hi, hinv]; rfl
    · cases hreq : (request_cached_glyph ft data font cp r).1 with
      | some i => exact Or.inl ⟨hhigh, hi, i, rfl⟩
      | none =>
        right
        have := extract_glyph_info_unresolved ft data font t cp r w hhigh hi hreq
        refine ⟨63, by decide, by decide, ?_, Or.inl ?_⟩
        · rw [this]; rfl
        · rw [this]; rfl
  · right
    have hlow : cp < CharInfoCount := by omega
    have h128 : cp < 128 := hlow
    by_cases h32 : cp = 32
    · by_cases hw : w = true
      · refine ⟨128, by decide, by decide, ?_, Or.inl ?_⟩
        · rw [c4 h32 hw]; rfl
        · rw [c4 h32 hw]; rfl
      · have hw' : w = false := by simpa using hw
        refine ⟨32, by decide, by decide, ?_, Or.inl ?_⟩
        · rw [c5 h32 hw']
        · rw [c5 h32 hw']
    by_cases h13 : cp = 13
    · refine ⟨129, by decide, by decide, ?_, Or.inl ?_⟩
      · rw [c6 h13]; rfl
      · rw [c6 h13]; rfl
    by_cases h9 : cp = 9
    · by_cases hw : w = true
      · refine ⟨130, by decide, by decide, ?_, Or.inr ⟨h9, ?_⟩⟩
        · rw [c7 h9 hw]; rfl
        · rw [c7 h9 hw]; rfl
      · have hw' : w = false := by simpa using hw
        refine ⟨32, by decide, by decide, ?_, Or.inr ⟨h9, ?_⟩⟩
        · rw [c8 h9 hw']
        · rw [c8 h9 hw']
    by_cases hc : cp < 32
    · refine ⟨63, by decide, by decide, ?_, Or.inl ?_⟩
      · rw [c9 hc h9 h13]; rfl
      · rw [c9 hc h9 h13]; rfl
    · refine ⟨cp, by omega, by omega, ?_, Or.inl ?_⟩
      · rw [c10 (by omega) hlow]
      · rw [c10 (by omega) hlow]

/-- The C13 theorem at the tab with whitespace rendering on and tabstop 4, in the atlas
after `populate_atlas`: the tab marker, whose own advance is 64, advances by 256. -/
theorem extract_glyph_info_table_witness :
    (({ font := 64, tabs := 4, render_ws := true } : RenderFontContext).extract
        FreeType.proportional (Data.populated FreeType.proportional 1) 9 Rasterize.No).1.map
      (fun res => (res.x_advance, res.color_filter)) = some (256, ColorFilter.whitespace)
    ∧ (extract_glyph_info FreeType.proportional (Data.populated FreeType.proportional 1)
        {} 4 9 Rasterize.No true).1
      = { info := ({} : CachedFont).infos SpecialGlyph.Tab
          x_advance := (({} : CachedFont).infos SpecialGlyph.Tab).ax * 4
          color_filter := ColorFilter.whitespace } :=
  ⟨by decide!,
    (extract_glyph_info_table FreeType.proportional (Data.populated FreeType.proportional 1)
      {} 4 9 Rasterize.No true).2.2.2.2.2.2.1 rfl rfl⟩

/-- The colour of the whitespace marker is not the colour of the caller: a space drawn
in white with whitespace rendering on, in a context that has the two custom colours of
a new context, gets the colour `sentinel_color`. -/
theorem whitespace_marker_colour_not_callers :
    (({ font := 64, render_ws := true } : RenderFontContext).extract
        FreeType.proportional (Data.populated FreeType.proportional 1) 32 Rasterize.No).1.map
      (fun res => res.color_filter.apply ⟨1, 1, 1, 1⟩
        { whitespace := sentinel_color, carriage_return := sentinel_color })
      = some ⟨0, 0, 0, 0⟩
    ∧ (⟨0, 0, 0, 0⟩ : Vec4f) ≠ ⟨1, 1, 1, 1⟩ := by
  constructor
  · decide!
  · decide

/-! ### Stability of the metrics lookups -/

theorem extract_result (ft : FreeType) (ctx : RenderFontContext) (data : Data) (cp : Nat)
    (r : Rasterize) (font : CachedFont) (hf : data.cached_fonts ctx.font = some font) :
    (ctx.extract ft data cp r).1
      = some (extract_glyph_info ft data font ctx.tabs cp r ctx.render_ws).1 := by
  rw [extract_of_some ft ctx data cp r font hf]

/-- A lookup of a codepoint of the standard table, or of the invalid codepoint, leaves
the data as it is. -/
theorem extract_standard_data (ft : FreeType) (ctx : RenderFontContext) (data : Data)
    (cp : Nat) (r : Rasterize) (hc : ¬ (cp ≥ CharInfoCount ∧ cp ≠ UTF8.invalid_codepoint)) :
    (ctx.extract ft data cp r).2 = data := by
  rcases extract_data ft ctx data cp r with ⟨_, h⟩ | ⟨_, _, _, h⟩ | ⟨_, _, h1, h2, _⟩
  · exact h
  · exact h
  · exact absurd ⟨h1, h2⟩ hc

/-- A call on the atlas keeps every resident font resident, with the same table
`infos`. -/
theorem apply_infos (ft : FreeType) (data : Data) (op : AtlasOp) (s : Int) (font : CachedFont)
    (hf : data.cached_fonts s = some font) :
    ∃ font', (op.apply ft data).cached_fonts s = some font' ∧ font'.infos = font.infos := by
  cases op with
  | render_font_context size =>
    rw [apply_render_font_context]
    rcases try_set_font_size_data ft data size with ⟨_, h⟩ | ⟨hn, f, _, _, hc, _⟩
    · rw [h]; exact ⟨font, hf, rfl⟩
    · rw [hc]
      have hs : s ≠ size := by
        intro hs
        rw [hs, hn] at hf
        exact Option.noConfusion hf
      rw [Function.update_noteq hs]
      exact ⟨font, hf, rfl⟩
  | glyph ctx cp r =>
    rw [apply_glyph]
    rcases extract_data ft ctx data cp r with ⟨_, h⟩ | ⟨_, _, _, h⟩ | ⟨f, hf', _, _, h⟩
    · rw [h]; exact ⟨font, hf, rfl⟩
    · rw [h]; exact ⟨font, hf, rfl⟩
    · rw [h]
      show ∃ font', Function.update data.cached_fonts ctx.font
          (some (request_cached_glyph ft data f cp r).2.2) s = some font' ∧ _
      by_cases hs : s = ctx.font
      · subst hs
        rw [hf] at hf'
        simp only [Option.some.injEq] at hf'
        subst hf'
        rw [Function.update_same]
        exact ⟨_, rfl, (request_summary ft data font cp r).2.2.1⟩
      · rw [Function.update_noteq hs]
        exact ⟨font, hf, rfl⟩

theorem run_atlas_infos (ft : FreeType) (ops : List AtlasOp) (s : Int) :
    ∀ (data : Data) (font : CachedFont), data.cached_fonts s = some font →
      ∃ font', (run_atlas ft data ops).cached_fonts s = some font'
        ∧ font'.infos = font.infos := by
  induction ops with
  | nil => intro data font hf; exact ⟨font, hf, rfl⟩
  | cons op ops ih =>
    intro data font hf
    obtain ⟨f1, h1, h2⟩ := apply_infos ft data op s font hf
    obtain ⟨f2, h3, h4⟩ := ih _ f1 h1
    exact ⟨f2, h3, h4.trans h2⟩

/-- After `render_font_context(size)` the font of that size is resident. -/
theorem render_font_context_resident (ft : FreeType) (data : Data) (size : Int) :
    ∃ font, (render_font_context ft data size).2.cached_fonts size = some font := by
  show ∃ font, (try_set_font_size ft data size).2.2.cached_fonts size = some font
  rcases try_set_font_size_data ft data size with ⟨⟨f, hf⟩, h⟩ | ⟨_, f, _, _, hc, _⟩
  · rw [h]; exact ⟨f, hf⟩
  · rw [hc, Function.update_same]; exact ⟨f, rfl⟩

/-- A lookup of a codepoint of the standard table gives the same result after any calls
on the atlas. -/
theorem standard_lookup_after (ft : FreeType) (ctx : RenderFontContext) (data : Data)
    (cp : Nat) (r r' : Rasterize) (ops : List AtlasOp) (font : CachedFont)
    (hf : data.cached_fonts ctx.font = some font)
    (hc : ¬ (cp ≥ CharInfoCount ∧ cp ≠ UTF8.invalid_codepoint)) :
    (ctx.extract ft (run_atlas ft data ops) cp r').1 = (ctx.extract ft data cp r).1 := by
  obtain ⟨f2, h2, hi⟩ := run_atlas_infos ft ops ctx.font data font hf
  rw [extract_result ft ctx _ cp r' f2 h2, extract_result ft ctx data cp r font hf]
  exact congrArg some
    (extract_glyph_info_standard ft ft _ data f2 font ctx.tabs cp r' r ctx.render_ws hc hi)

/-- C16: for every font size, tabstop and whitespace flag, and every codepoint of the
standard table (every codepoint below 128, the printable ASCII ones among them), a
lookup through a context of `render_font_context(size)` returns a result and leaves the
atlas unchanged, and a lookup made after any further `render_font_context` calls and
glyph requests, rasterizing or not, returns the same result. -/
theorem standard_lookup_stable (ft : FreeType) (data : Data) (size tabs : Int) (ws : Bool)
    (cp : Nat) (r r' : Rasterize) (ops : List AtlasOp) (hcp : cp < CharInfoCount) :
    ∃ res,
      ({ font := size, tabs := tabs, render_ws := ws } : RenderFontContext).extract ft
          (render_font_context ft data size).2 cp r
        = (some res, (render_font_context ft data size).2)
      ∧ (({ font := size, tabs := tabs, render_ws := ws } : RenderFontContext).extract ft
          (run_atlas ft (render_font_context ft data size).2 ops) cp r').1 = some res := by
  obtain ⟨font, hf⟩ := render_font_context_resident ft data size
  have hc : ¬ (cp ≥ CharInfoCount ∧ cp ≠ UTF8.invalid_codepoint) := fun h => by
    have := h.1
    omega
  have h1 := extract_result ft { font := size, tabs := tabs, render_ws := ws }
    (render_font_context ft data size).2 cp r font hf
  have h2 := extract_standard_data ft { font := size, tabs := tabs, render_ws := ws }
    (render_font_context ft data size).2 cp r hc
  refine ⟨_, Prod.ext h1 h2, ?_⟩
  exact (standard_lookup_after ft { font := size, tabs := tabs, render_ws := ws }
    (render_font_context ft data size).2 cp r r' ops font hf hc).trans h1

/-- The C16 theorem at the letter `A` and size 32: the lookup gives advance 16, also
after a font of size 10 has been created and U+4E2D has been rasterized at size 32. -/
theorem standard_lookup_stable_witness :
    ∃ res,
      ({ font := 32, tabs := 1, render_ws := false } : RenderFontContext).extract
          FreeType.proportional
          (render_font_context FreeType.proportional
            (Data.populated FreeType.proportional 1) 32).2 65 Rasterize.No
        = (some res,
            (render_font_context FreeType.proportional
              (Data.populated FreeType.proportional 1) 32).2)
      ∧ (({ font := 32, tabs := 1, render_ws := false } : RenderFontContext).extract
          FreeType.proportional
          (run_atlas FreeType.proportional
            (render_font_context FreeType.proportional
              (Data.populated FreeType.proportional 1) 32).2
            [AtlasOp.render_font_context 10,
              AtlasOp.glyph { font := 32 } 0x4E2D Rasterize.Yes]) 65 Rasterize.Yes).1
        = some res :=
  standard_lookup_stable FreeType.proportional (Data.populated FreeType.proportional 1) 32 1
    false 65 Rasterize.No Rasterize.Yes
    [AtlasOp.render_font_context 10, AtlasOp.glyph { font := 32 } 0x4E2D Rasterize.Yes]
    (by decide)

/-- The glyph that `request_cached_glyph` returns is the entry of the map. -/
theorem request_returns_entry (ft : FreeType) (data : Data) (font : CachedFont) (cp : Nat)
    (r : Rasterize) (i : UnicodeGlyphInfo)
    (h : (request_cached_glyph ft data font cp r).1 = some i) :
    (request_cached_glyph ft data font cp r).2.2.cached_glyphs_map cp = some i := by
  by_cases hg : cp = UTF8.invalid_codepoint
  · have : request_cached_glyph ft data font cp r = (none, data, font) := by
      unfold request_cached_glyph; rw [if_pos hg]
    rw [this] at h
    exact Option.noConfusion h
  cases he : font.cached_glyphs_map cp with
  | some e =>
    rcases request_existing_cases ft data font cp r e hg he with
      ⟨_, q⟩ | ⟨_, _, _, q⟩ | ⟨_, _, _, _, q⟩ | ⟨_, _, _, face, slot, _, _, _, q⟩
    · rw [q] at h ⊢
      simp only [Option.some.injEq] at h
      rw [← h]
      exact he
    · rw [q] at h; exact Option.noConfusion h
    · rw [q] at h; exact Option.noConfusion h
    · rw [q] at h ⊢
      simp only [Option.some.injEq] at h
      rw [← h]
      exact set_glyph_same _ _ _
  | none =>
    rcases request_new_cases ft data font cp r hg he with
      ⟨_, q⟩ | ⟨slot, _, _, ⟨_, q⟩ | ⟨_, q⟩ | ⟨_, _, q⟩⟩
    · rw [q] at h; exact Option.noConfusion h
    · rw [q] at h ⊢
      simp only [Option.some.injEq] at h
      rw [← h]
      exact set_glyph_same _ _ _
    · rw [q] at h; exact Option.noConfusion h
    · rw [q] at h ⊢
      simp only [Option.some.injEq] at h
      rw [← h]
      exact set_glyph_same _ _ _

/-- A call on the atlas keeps every dynamic entry, with its metrics and its face. -/
theorem apply_entry (ft : FreeType) (data : Data) (op : AtlasOp) (s : Int) (cp : Nat)
    (e : UnicodeGlyphInfo) (hkey : font_keys_consistent data)
    (hcons : metrics_consistent ft data) (he : cached_entry data s cp = some e) :
    ∃ e', cached_entry (op.apply ft data) s cp = some e' ∧ e'.info = e.info
      ∧ e'.face = e.face := by
  cases op with
  | render_font_context size =>
    rw [apply_render_font_context, cached_entry_try_set]
    exact ⟨e, he, rfl, rfl⟩
  | glyph ctx cp' r =>
    rw [apply_glyph]
    rcases cached_entry_extract ft ctx data cp' r s cp with h | ⟨hs, hcp, _, hg, font, hf, h⟩
    · rw [h]; exact ⟨e, he, rfl, rfl⟩
    · rw [h]
      rw [cached_entry_of_font data s font cp hf] at he
      rcases request_entry ft data font cp r hg with
        ⟨e0, e1, h0, h1, hface, hinfo, _⟩ | ⟨h0, _⟩ | ⟨h0, _⟩
      · rw [he] at h0
        simp only [Option.some.injEq] at h0
        subst h0
        refine ⟨e1, h1, ?_, hface⟩
        rcases hinfo with hi | ⟨face, slot, hfc, hload, hi⟩
        · exact hi
        · obtain ⟨slot', hl', hm⟩ := hcons s font cp e face hf he hfc
          rw [hkey s font hf] at hload
          rw [hl'] at hload
          simp only [Except.ok.injEq] at hload
          rw [hi, ← hload, hm]
      · rw [he] at h0; exact Option.noConfusion h0
      · rw [he] at h0; exact Option.noConfusion h0

theorem run_atlas_entry (ft : FreeType) (ops : List AtlasOp) (s : Int) (cp : Nat) :
    ∀ (data : Data) (e : UnicodeGlyphInfo), cache_invariant data →
      metrics_consistent ft data → cached_entry data s cp = some e →
      ∃ e', cached_entry (run_atlas ft data ops) s cp = some e' ∧ e'.info = e.info
        ∧ e'.face = e.face := by
  induction ops with
  | nil => intro data e _ _ he; exact ⟨e, he, rfl, rfl⟩
  | cons op ops ih =>
    intro data e hinv hcons he
    obtain ⟨e1, h1, h2, h3⟩ := apply_entry ft data op s cp e hinv.1 hcons he
    obtain ⟨e2, h4, h5, h6⟩ := ih _ e1 (apply_preserves_cache_invariant ft data op hinv)
      (apply_metrics_consistent ft data op hinv.1 hcons) h1
    exact ⟨e2, h4, h5.trans h2, h6.trans h3⟩

/-- A metrics-only lookup that finds an entry in the map returns that entry. -/
theorem extract_of_entry (ft : FreeType) (ctx : RenderFontContext) (data : Data) (cp : Nat)
    (e : UnicodeGlyphInfo) (h1 : CharInfoCount ≤ cp) (h2 : cp ≠ UTF8.invalid_codepoint)
    (he : cached_entry data ctx.font cp = some e) :
    (ctx.extract ft data cp Rasterize.No).1
      = some { info := e.info, x_advance := e.info.ax
               color_filter := ColorFilter.default_color } := by
  cases hf : data.cached_fonts ctx.font with
  | none =>
    simp only [cached_entry, hf] at he
    exact Option.noConfusion he
  | some font =>
    rw [cached_entry_of_font data ctx.font font cp hf] at he
    rw [extract_result ft ctx data cp Rasterize.No font hf]
    have hreq : request_cached_glyph ft data font cp Rasterize.No = (some e, data, font) := by
      rcases request_existing_cases ft data font cp Rasterize.No e h2 he with
        ⟨_, q⟩ | ⟨_, q, _⟩ | ⟨_, q, _⟩ | ⟨_, q, _⟩
      · exact q
      · exact Rasterize.noConfusion q
      · exact Rasterize.noConfusion q
      · exact Rasterize.noConfusion q
    rw [extract_glyph_info_answered ft data font ctx.tabs cp Rasterize.No ctx.render_ws h1 h2 e
      (by rw [hreq])]

/-- An answered metrics-only lookup gives the same result after any calls on the
atlas. -/
theorem answered_lookup_after (ft : FreeType) (ctx : RenderFontContext) (data : Data)
    (cp : Nat) (ops : List AtlasOp) (hinv : cache_invariant data)
    (hcons : metrics_consistent ft data) (hres : data.cached_fonts ctx.font ≠ none)
    (hans : request_answered ft ctx data cp Rasterize.No = true) :
    (ctx.extract ft (run_atlas ft (ctx.extract ft data cp Rasterize.No).2 ops) cp
        Rasterize.No).1
      = (ctx.extract ft data cp Rasterize.No).1 := by
  cases hf : data.cached_fonts ctx.font with
  | none => exact absurd hf hres
  | some font =>
    by_cases hc : cp ≥ CharInfoCount ∧ cp ≠ UTF8.invalid_codepoint
    · have hsome : (request_cached_glyph ft data font cp Rasterize.No).1.isSome = true := by
        simp only [request_answered, if_pos hc, hf] at hans
        exact hans
      obtain ⟨i, hi⟩ := Option.isSome_iff_exists.1 hsome
      have hentry := request_returns_entry ft data font cp Rasterize.No i hi
      have h1 : (ctx.extract ft data cp Rasterize.No).1
          = some { info := i.info, x_advance := i.info.ax
                   color_filter := ColorFilter.default_color } := by
        rw [extract_result ft ctx data cp Rasterize.No font hf,
          extract_glyph_info_answered ft data font ctx.tabs cp Rasterize.No ctx.render_ws
            hc.1 hc.2 i hi]
      have hce : cached_entry (ctx.extract ft data cp Rasterize.No).2 ctx.font cp = some i := by
        rcases extract_data ft ctx data cp Rasterize.No with
          ⟨hn, _⟩ | ⟨_, _, hn, _⟩ | ⟨f, hf', _, _, h⟩
        · rw [hf] at hn; exact Option.noConfusion hn
        · exact absurd hc hn
        · rw [hf] at hf'
          simp only [Option.some.injEq] at hf'
          subst hf'
          rw [h, cached_entry_update, if_pos rfl]
          exact hentry
      have hinv1 : cache_invariant (ctx.extract ft data cp Rasterize.No).2 :=
        apply_preserves_cache_invariant ft data (AtlasOp.glyph ctx cp Rasterize.No) hinv
      have hcons1 : metrics_consistent ft (ctx.extract ft data cp Rasterize.No).2 :=
        apply_metrics_consistent ft data (AtlasOp.glyph ctx cp Rasterize.No) hinv.1 hcons
      obtain ⟨e2, h2, h3, _⟩ := run_atlas_entry ft ops ctx.font cp _ i hinv1 hcons1 hce
      rw [extract_of_entry ft ctx _ cp e2 hc.1 hc.2 h2, h1, h3]
    · rw [extract_standard_data ft ctx data cp Rasterize.No hc]
      exact standard_lookup_after ft ctx data cp Rasterize.No Rasterize.No ops font hf hc

/-- C17: in every state reached from `populate_atlas` and for every context whose font
is resident, a metrics-only lookup that is answered (the codepoint is below 128 or invalid, or `request_cached_glyph` returns a
glyph) gives the same result again after any further `render_font_context` calls and
glyph requests, rasterizing or not. A first request that fails is not repeated but not
remembered as failed either: with a FreeType that cannot load U+4E2D, the first lookup
of U+4E2D at size 64 falls back to the question mark, with advance 32, and the second
returns the value-initialised entry the first left in the map, with advance 0. -/
theorem metrics_lookup_stable :
    (∀ (ft : FreeType) (face : Nat) (ops0 ops : List AtlasOp) (ctx : RenderFontContext)
        (cp : Nat),
      ((run_atlas ft (Data.populated ft face) ops0).cached_fonts ctx.font).isSome = true →
      request_answered ft ctx (run_atlas ft (Data.populated ft face) ops0) cp Rasterize.No
        = true →
      (ctx.extract ft
          (run_atlas ft
            (ctx.extract ft (run_atlas ft (Data.populated ft face) ops0) cp Rasterize.No).2
            ops) cp Rasterize.No).1
        = (ctx.extract ft (run_atlas ft (Data.populated ft face) ops0) cp Rasterize.No).1)
    ∧ (({ font := 64 } : RenderFontContext).extract FreeType.without_4E2D
          (Data.populated FreeType.without_4E2D 1) 0x4E2D Rasterize.No).1.map
        (fun res => res.x_advance) = some 32
    ∧ (({ font := 64 } : RenderFontContext).extract FreeType.without_4E2D
          (({ font := 64 } : RenderFontContext).extract FreeType.without_4E2D
            (Data.populated FreeType.without_4E2D 1) 0x4E2D Rasterize.No).2
          0x4E2D Rasterize.No).1.map
        (fun res => res.x_advance) = some 0 := by
  refine ⟨?_, by decide!, by decide!⟩
  intro ft face ops0 ops ctx cp hres hans
  exact answered_lookup_after ft ctx _ cp ops
    (run_atlas_cache_invariant ft ops0 _ (populated_cache_invariant ft face))
    (run_atlas_metrics_consistent ft ops0 _ (populated_cache_invariant ft face)
      (populated_metrics_consistent ft face))
    (fun h => by rw [h] at hres; exact Bool.noConfusion hres) hans

/-- The C17 theorem at U+4E2D and size 64 with a FreeType that loads it: the lookup made
after the glyph has been rasterized and a font of size 10 has been created gives the
result of the first lookup, with advance 64. -/
theorem metrics_lookup_stable_witness :
    (({ font := 64 } : RenderFontContext).extract FreeType.proportional
        (run_atlas FreeType.proportional
          (({ font := 64 } : RenderFontContext).extract FreeType.proportional
            (run_atlas FreeType.proportional (Data.populated FreeType.proportional 1) [])
            0x4E2D Rasterize.No).2
          [AtlasOp.glyph { font := 64 } 0x4E2D Rasterize.Yes, AtlasOp.render_font_context 10])
        0x4E2D Rasterize.No).1
      = (({ font := 64 } : RenderFontContext).extract FreeType.proportional
          (run_atlas FreeType.proportional (Data.populated FreeType.proportional 1) [])
          0x4E2D Rasterize.No).1
    ∧ (({ font := 64 } : RenderFontContext).extract FreeType.proportional
          (run_atlas FreeType.proportional (Data.populated FreeType.proportional 1) [])
          0x4E2D Rasterize.No).1.map (fun res => res.x_advance) = some 64 :=
  ⟨metrics_lookup_stable.1 FreeType.proportional 1 []
      [AtlasOp.glyph { font := 64 } 0x4E2D Rasterize.Yes, AtlasOp.render_font_context 10]
      { font := 64 } 0x4E2D (by decide!) (by decide!),
    by decide!⟩

/-! ### `measure_text` on ASCII text -/

end Glyph

namespace Glyph

/-! ### `glyph_count_to_point` -/

theorem extract_resident (ft : FreeType) (ctx : RenderFontContext) (data : Data) (cp : Nat)
    (r : Rasterize) (h : (data.cached_fonts ctx.font).isSome = true) :
    ∃ res, (ctx.extract ft data cp r).1 = some res
      ∧ ((ctx.extract ft data cp r).2.cached_fonts ctx.font).isSome = true := by
  obtain ⟨font, hf⟩ := Option.isSome_iff_exists.1 h
  obtain ⟨f1, h1, _⟩ := apply_infos ft data (AtlasOp.glyph ctx cp r) ctx.font font hf
  rw [apply_glyph] at h1
  exact ⟨_, extract_result ft ctx data cp r font hf, by rw [h1]; rfl⟩

namespace RenderFontContext

/-- One iteration of the loop of `glyph_count_to_point`. -/
theorem glyph_count_loop_step (ft : FreeType) (ctx : RenderFontContext) (x : ℚ) (fuel : Nat)
    (w : UTF8.CodepointWalker) (data : Data) (count : Nat) (run : ℚ)
    (hex : w.exhausted = false) (res : GlyphExtractResult) (d : Data)
    (he : ctx.extract ft data w.next.1 Rasterize.No = (some res, d)) :
    glyph_count_loop ft ctx x (fuel + 1) w data count run
      = if run + res.x_advance ≥ x ∧ (run + res.x_advance - res.info.ax) + (res.x_advance : ℚ) / 2 ≥ x
        then some (count, d)
        else glyph_count_loop ft ctx x fuel w.next.2 d (count + 1) (run + res.x_advance) := by
  rw [glyph_count_loop, hex]
  simp only [Bool.false_eq_true, if_false, he]
  by_cases h1 : run + res.x_advance ≥ x
  · by_cases h2 : (run + res.x_advance - res.info.ax) + (res.x_advance : ℚ) / 2 ≥ x
    · rw [if_pos h1, if_pos h2, if_pos ⟨h1, h2⟩]
    · rw [if_pos h1, if_neg h2, if_neg (fun h => h2 h.2)]
  · rw [if_neg h1, if_neg (fun h => h1 h.1)]

theorem glyph_count_loop_done (ft : FreeType) (ctx : RenderFontContext) (x : ℚ) (fuel : Nat)
    (w : UTF8.CodepointWalker) (data : Data) (count : Nat) (run : ℚ)
    (hex : w.exhausted = true) :
    glyph_count_loop ft ctx x (fuel + 1) w data count run = some (count, data) := by
  rw [glyph_count_loop, hex]
  simp

/-- The loop of `glyph_count_to_point` returns when the font of the context is resident
and the fuel is above the number of bytes left, with a count between the count so far
and the count that `codepoint_count` reaches. -/
theorem glyph_count_loop_returns (ft : FreeType) (ctx : RenderFontContext) (x : ℚ) :
    ∀ (fuel : Nat) (w : UTF8.CodepointWalker) (data : Data) (count : Nat) (run : ℚ),
      w.current ≤ w.text.length → w.text.length - w.current < fuel →
      (data.cached_fonts ctx.font).isSome = true →
      ∃ n d N, glyph_count_loop ft ctx x fuel w data count run = some (n, d)
        ∧ UTF8.codepoint_count_loop fuel w count = some N ∧ count ≤ n ∧ n ≤ N := by
  intro fuel
  induction fuel with
  | zero => intro w data count run _ h; exact absurd h (Nat.not_lt_zero _)
  | succ fuel ih =>
    intro w data count run hle hfuel hres
    by_cases hex : w.exhausted = true
    · refine ⟨count, data, count, glyph_count_loop_done ft ctx x fuel w data count run hex, ?_,
        le_refl _, le_refl _⟩
      rw [UTF8.codepoint_count_loop, if_pos hex]
    · have hex' : w.exhausted = false := by simpa using hex
      have hne : w.current ≠ w.text.length := fun h => hex ((w.exhausted_iff).2 h)
      have hlt : w.current < w.text.length := lt_of_le_of_ne hle hne
      have hn := w.next_current hlt
      have ht := w.next_text
      obtain ⟨res, h1, h2⟩ := extract_resident ft ctx data w.next.1 Rasterize.No hres
      have he : ctx.extract ft data w.next.1 Rasterize.No
          = (some res, (ctx.extract ft data w.next.1 Rasterize.No).2) := Prod.ext h1 rfl
      obtain ⟨n, d, N, q1, q2, q3, q4⟩ := ih w.next.2 (ctx.extract ft data w.next.1 Rasterize.No).2
        (count + 1) (run + res.x_advance) (by rw [ht]; exact hn.2) (by rw [ht]; omega) h2
      have hN : UTF8.codepoint_count_loop (fuel + 1) w count = some N := by
        rw [UTF8.codepoint_count_loop, hex']
        simp only [Bool.false_eq_true, if_false]
        exact q2
      rw [glyph_count_loop_step ft ctx x fuel w data count run hex' res _ he]
      by_cases hstop : run + res.x_advance ≥ x
          ∧ (run + res.x_advance - res.info.ax) + (res.x_advance : ℚ) / 2 ≥ x
      · rw [if_pos hstop]
        exact ⟨count, _, N, rfl, hN, le_refl _, by omega⟩
      · rw [if_neg hstop]
        exact ⟨n, d, N, q1, hN, by omega, q4⟩

/-- The loop of `glyph_count_to_point` is monotonic in the point. -/
theorem glyph_count_loop_mono (ft : FreeType) (ctx : RenderFontContext) (x1 x2 : ℚ)
    (hx : x1 ≤ x2) :
    ∀ (fuel : Nat) (w : UTF8.CodepointWalker) (data : Data) (count : Nat) (run : ℚ)
      (n1 n2 : Nat) (d1 d2 : Data),
      w.current ≤ w.text.length → w.text.length - w.current < fuel →
      (data.cached_fonts ctx.font).isSome = true →
      glyph_count_loop ft ctx x1 fuel w data count run = some (n1, d1) →
      glyph_count_loop ft ctx x2 fuel w data count run = some (n2, d2) → n1 ≤ n2 := by
  intro fuel
  induction fuel with
  | zero => intro w data count run _ _ _ _ _ h; exact absurd h (Nat.not_lt_zero _)
  | succ fuel ih =>
    intro w data count run n1 n2 d1 d2 hle hfuel hres h1 h2
    by_cases hex : w.exhausted = true
    · rw [glyph_count_loop_done ft ctx x1 fuel w data count run hex] at h1
      rw [glyph_count_loop_done ft ctx x2 fuel w data count run hex] at h2
      simp only [Option.some.injEq, Prod.mk.injEq] at h1 h2
      omega
    · have hex' : w.exhausted = false := by simpa using hex
      have hne : w.current ≠ w.text.length := fun h => hex ((w.exhausted_iff).2 h)
      have hlt : w.current < w.text.length := lt_of_le_of_ne hle hne
      have hn := w.next_current hlt
      have ht := w.next_text
      obtain ⟨res, e1, e2⟩ := extract_resident ft ctx data w.next.1 Rasterize.No hres
      have he : ctx.extract ft data w.next.1 Rasterize.No
          = (some res, (ctx.extract ft data w.next.1 Rasterize.No).2) := Prod.ext e1 rfl
      rw [glyph_count_loop_step ft ctx x1 fuel w data count run hex' res _ he] at h1
      rw [glyph_count_loop_step ft ctx x2 fuel w data count run hex' res _ he] at h2
      by_cases s2 : run + res.x_advance ≥ x2
          ∧ (run + res.x_advance - res.info.ax) + (res.x_advance : ℚ) / 2 ≥ x2
      · have s1 : run + res.x_advance ≥ x1
            ∧ (run + res.x_advance - res.info.ax) + (res.x_advance : ℚ) / 2 ≥ x1 :=
          ⟨le_trans hx s2.1, le_trans hx s2.2⟩
        rw [if_pos s1] at h1
        rw [if_pos s2] at h2
        simp only [Option.some.injEq, Prod.mk.injEq] at h1 h2
        omega
      · rw [if_neg s2] at h2
        obtain ⟨n, d, N, q1, _, q3, _⟩ := glyph_count_loop_returns ft ctx x2 fuel w.next.2
          (ctx.extract ft data w.next.1 Rasterize.No).2 (count + 1) (run + res.x_advance)
          (by rw [ht]; exact hn.2) (by rw [ht]; omega) e2
        rw [q1] at h2
        simp only [Option.some.injEq, Prod.mk.injEq] at h2
        by_cases s1 : run + res.x_advance ≥ x1
            ∧ (run + res.x_advance - res.info.ax) + (res.x_advance : ℚ) / 2 ≥ x1
        · rw [if_pos s1] at h1
          simp only [Option.some.injEq, Prod.mk.injEq] at h1
          omega
        · rw [if_neg s1] at h1
          exact ih w.next.2 _ (count + 1) (run + res.x_advance) n1 n2 d1 d2
            (by rw [ht]; exact hn.2) (by rw [ht]; omega) e2 h1 (by rw [q1, h2.1, h2.2])

end RenderFontContext

/-- C14: for every text, every context whose font is resident and every atlas state,
`glyph_count_to_point` returns for every fuel above the length of the text, it is
monotonic non-decreasing in the point, and its result is at most the number of
codepoints that `codepoint_count` gives for the text. -/
theorem glyph_count_to_point_monotone (ft : FreeType) (ctx : RenderFontContext) (data : Data)
    (text : List (Fin 256)) (fuel : Nat) (x1 x2 : ℚ)
    (hres : (data.cached_fonts ctx.font).isSome = true) (hfuel : text.length < fuel)
    (hx : x1 ≤ x2) :
    ∃ n1 d1 n2 d2 N,
      ctx.glyph_count_to_point ft fuel data text x1 = some (n1, d1)
      ∧ ctx.glyph_count_to_point ft fuel data text x2 = some (n2, d2)
      ∧ UTF8.codepoint_count fuel text 0 = some N
      ∧ n1 ≤ n2 ∧ n2 ≤ N := by
  obtain ⟨n1, d1, _, p1, _, _, _⟩ := RenderFontContext.glyph_count_loop_returns ft ctx x1 fuel
    (UTF8.CodepointWalker.create text 0) data 0 0 (Nat.zero_le _) (by
      show text.length - 0 < fuel
      omega) hres
  obtain ⟨n2, d2, N, p2, p3, _, p5⟩ := RenderFontContext.glyph_count_loop_returns ft ctx x2 fuel
    (UTF8.CodepointWalker.create text 0) data 0 0 (Nat.zero_le _) (by
      show text.length - 0 < fuel
      omega) hres
  refine ⟨n1, d1, n2, d2, N, p1, p2, p3, ?_, p5⟩
  exact RenderFontContext.glyph_count_loop_mono ft ctx x1 x2 hx fuel
    (UTF8.CodepointWalker.create text 0) data 0 0 n1 n2 d1 d2 (Nat.zero_le _) (by
      show text.length - 0 < fuel
      omega) hres p1 p2

/-- The C14 theorem at the text `AB` with the points 10 and 40: the counts are 0 and 1,
of 2 codepoints. -/
theorem glyph_count_to_point_monotone_witness :
    (∃ n1 d1 n2 d2 N,
      ({ font := 64 } : RenderFontContext).glyph_count_to_point FreeType.proportional 3
          (Data.populated FreeType.proportional 1) [65, 66] 10 = some (n1, d1)
      ∧ ({ font := 64 } : RenderFontContext).glyph_count_to_point FreeType.proportional 3
          (Data.populated FreeType.proportional 1) [65, 66] 40 = some (n2, d2)
      ∧ UTF8.codepoint_count 3 [65, 66] 0 = some N
      ∧ n1 ≤ n2 ∧ n2 ≤ N)
    ∧ (({ font := 64 } : RenderFontContext).glyph_count_to_point FreeType.proportional 3
          (Data.populated FreeType.proportional 1) [65, 66] 10).map (fun r => r.1) = some 0
    ∧ (({ font := 64 } : RenderFontContext).glyph_count_to_point FreeType.proportional 3
          (Data.populated FreeType.proportional 1) [65, 66] 40).map (fun r => r.1) = some 1 :=
  ⟨glyph_count_to_point_monotone FreeType.proportional { font := 64 }
      (Data.populated FreeType.proportional 1) [65, 66] 3 10 40 (by decide!) (by decide)
      (by decide!),
    by decide!, by decide!⟩

namespace RenderFontContext

/-- The lookups of a metrics-only loop all return when the font of the context is
resident and the fuel is above the number of bytes left. -/
theorem lookup_loop_returns (ft : FreeType) (ctx : RenderFontContext) :
    ∀ (fuel : Nat) (w : UTF8.CodepointWalker) (data : Data),
      w.current ≤ w.text.length → w.text.length - w.current < fuel →
      (data.cached_fonts ctx.font).isSome = true →
      ∃ rs, lookup_loop ft ctx fuel w data = some rs := by
  intro fuel
  induction fuel with
  | zero => intro w data _ h; exact absurd h (Nat.not_lt_zero _)
  | succ fuel ih =>
    intro w data hle hfuel hres
    by_cases hex : w.exhausted = true
    · exact ⟨[], by rw [lookup_loop, if_pos hex]⟩
    · have hne : w.current ≠ w.text.length := fun h => hex ((w.exhausted_iff).2 h)
      have hlt : w.current < w.text.length := lt_of_le_of_ne hle hne
      have hn := w.next_current hlt
      have ht := w.next_text
      obtain ⟨res, e1, e2⟩ := extract_resident ft ctx data w.next.1 Rasterize.No hres
      have he : ctx.extract ft data w.next.1 Rasterize.No
          = (some res, (ctx.extract ft data w.next.1 Rasterize.No).2) := Prod.ext e1 rfl
      obtain ⟨rs, hrs⟩ := ih w.next.2 (ctx.extract ft data w.next.1 Rasterize.No).2
        (by rw [ht]; exact hn.2) (by rw [ht]; omega) e2
      refine ⟨res :: rs, ?_⟩
      rw [lookup_loop, if_neg hex, he]
      simp only []
      rw [hrs]

/-- The midpoint rule of the loop of `glyph_count_to_point`, when every advance is
non-negative and is the advance `info.ax` of the glyph looked up. -/
theorem glyph_count_loop_midpoints (ft : FreeType) (ctx : RenderFontContext) (x : ℚ) :
    ∀ (fuel : Nat) (w : UTF8.CodepointWalker) (data : Data) (count : Nat) (run : ℚ)
      (rs : List GlyphExtractResult),
      lookup_loop ft ctx fuel w data = some rs →
      (∀ r ∈ rs, 0 ≤ r.x_advance ∧ r.x_advance = r.info.ax) →
      ∃ d, glyph_count_loop ft ctx x fuel w data count run
        = some (count + midpoints_before x (rs.map (fun r => (r.x_advance : ℚ))) run, d) := by
  intro fuel
  induction fuel with
  | zero => intro w data count run rs h; exact Option.noConfusion h
  | succ fuel ih =>
    intro w data count run rs hrs hall
    by_cases hex : w.exhausted = true
    · rw [lookup_loop, if_pos hex] at hrs
      simp only [Option.some.injEq] at hrs
      subst hrs
      exact ⟨data, by rw [glyph_count_loop_done ft ctx x fuel w data count run hex]; rfl⟩
    · have hex' : w.exhausted = false := by simpa using hex
      rw [lookup_loop, if_neg hex] at hrs
      rcases he : ctx.extract ft data w.next.1 Rasterize.No with ⟨res, d1⟩
      rw [he] at hrs
      cases res with
      | none => exact Option.noConfusion hrs
      | some res =>
        simp only [] at hrs
        cases hrest : lookup_loop ft ctx fuel w.next.2 d1 with
        | none => rw [hrest] at hrs; exact Option.noConfusion hrs
        | some rest =>
          rw [hrest] at hrs
          simp only [Option.some.injEq] at hrs
          subst hrs
          have hr := hall res (List.mem_cons_self _ _)
          obtain ⟨d, hd⟩ := ih w.next.2 d1 (count + 1) (run + res.x_advance) rest hrest
            (fun r hm => hall r (List.mem_cons_of_mem _ hm))
          rw [glyph_count_loop_step ft ctx x fuel w data count run hex' res d1 he]
          have hax : ((res.info.ax : Int) : ℚ) = (res.x_advance : ℚ) := by rw [hr.2]
          have hnn : (0 : ℚ) ≤ (res.x_advance : ℚ) := by exact_mod_cast hr.1
          simp only [List.map_cons, midpoints_before]
          by_cases hmid : run + (res.x_advance : ℚ) / 2 < x
          · rw [if_pos hmid, if_neg (by
              rintro ⟨_, h2⟩
              rw [hax] at h2
              linarith)]
            exact ⟨d, by rw [hd]; congr 2; omega⟩
          · rw [if_neg hmid, if_pos (by
              rw [hax]
              constructor <;> linarith)]
            exact ⟨d1, rfl⟩

end RenderFontContext

/-- C15: for every text, every context whose font is resident and every point, the
lookups of the loop return; if every advance is non-negative and is the advance
`info.ax` of the glyph looked up, `glyph_count_to_point` returns the number of leading
glyphs whose midpoint (pen position before the glyph plus half its advance) lies before
the point. The advance of a tab is `info.ax` times the tabstop, but the loop computes
the pen position before the glyph by subtracting `info.ax`: for a single tab with
tabstop 4, 128 wide with its midpoint at 64, and the point 100, the result is 0 where
the midpoint rule gives 1. -/
theorem glyph_count_to_point_midpoints :
    (∀ (ft : FreeType) (ctx : RenderFontContext) (data : Data) (text : List (Fin 256))
        (fuel : Nat) (x : ℚ),
      (data.cached_fonts ctx.font).isSome = true → text.length < fuel →
      ∃ rs, RenderFontContext.lookup_loop ft ctx fuel (UTF8.CodepointWalker.create text 0) data
            = some rs
        ∧ ((∀ r ∈ rs, 0 ≤ r.x_advance ∧ r.x_advance = r.info.ax) →
          ∃ d, ctx.glyph_count_to_point ft fuel data text x
            = some (midpoints_before x (rs.map (fun r => (r.x_advance : ℚ))) 0, d)))
    ∧ (RenderFontContext.lookup_loop FreeType.proportional { font := 64, tabs := 4 } 2
          (UTF8.CodepointWalker.create [9] 0) (Data.populated FreeType.proportional 1)).map
        (fun rs => rs.map (fun r => (r.x_advance : ℚ))) = some [128]
    ∧ (({ font := 64, tabs := 4 } : RenderFontContext).glyph_count_to_point
          FreeType.proportional 2 (Data.populated FreeType.proportional 1) [9] 100).map
        (fun r => r.1) = some 0
    ∧ midpoints_before 100 [128] 0 = 1 := by
  refine ⟨?_, by decide!, by decide!, by decide!⟩
  intro ft ctx data text fuel x hres hfuel
  obtain ⟨rs, hrs⟩ := RenderFontContext.lookup_loop_returns ft ctx fuel
    (UTF8.CodepointWalker.create text 0) data (Nat.zero_le _) (by
      show text.length - 0 < fuel
      omega) hres
  refine ⟨rs, hrs, fun hall => ?_⟩
  obtain ⟨d, hd⟩ := RenderFontContext.glyph_count_loop_midpoints ft ctx x fuel
    (UTF8.CodepointWalker.create text 0) data 0 0 rs hrs hall
  rw [Nat.zero_add] at hd
  exact ⟨d, hd⟩

/-- The C15 theorem at the text `AB` with the point 40: the advances are 32 and 32, the
midpoints lie at 16 and 48, and the count is 1. -/
theorem glyph_count_to_point_midpoints_witness :
    (∃ rs, RenderFontContext.lookup_loop FreeType.proportional { font := 64 } 3
            (UTF8.CodepointWalker.create [65, 66] 0) (Data.populated FreeType.proportional 1)
          = some rs
        ∧ ((∀ r ∈ rs, 0 ≤ r.x_advance ∧ r.x_advance = r.info.ax) →
          ∃ d, ({ font := 64 } : RenderFontContext).glyph_count_to_point FreeType.proportional
              3 (Data.populated FreeType.proportional 1) [65, 66] 40
            = some (midpoints_before 40 (rs.map (fun r => (r.x_advance : ℚ))) 0, d)))
    ∧ (RenderFontContext.lookup_loop FreeType.proportional { font := 64 } 3
          (UTF8.CodepointWalker.create [65, 66] 0)
          (Data.populated FreeType.proportional 1)).map
        (fun rs => rs.map (fun r => (r.x_advance, r.info.ax))) = some [(32, 32), (32, 32)]
    ∧ (({ font := 64 } : RenderFontContext).glyph_count_to_point FreeType.proportional 3
          (Data.populated FreeType.proportional 1) [65, 66] 40).map (fun r => r.1) = some 1 :=
  ⟨glyph_count_to_point_midpoints.1 FreeType.proportional { font := 64 }
      (Data.populated FreeType.proportional 1) [65, 66] 3 40 (by decide!) (by decide),
    by decide!, by decide!⟩

end Glyph

namespace Glyph

/-! ### `render_font_context` -/

theorem populate_selected (ft : FreeType) (data : Data) (font : CachedFont) :
    (populate_standard_glyphs ft data font).2.2.1.selected_font = data.selected_font := by
  unfold populate_standard_glyphs
  simp only []
  rcases hrs : resize_font ft data.face font.font_size with ⟨ok, msgs⟩
  cases ok with
  | false => rfl
  | true =>
    simp only []
    cases h1 : populate_loop ft data.face font.font_size data.width data.height
        standard_glyphs
        { x := data.next_x, y := data.next_y
          max_glyph_height_for_row := data.cur_row_max_height
          infos := font.infos, texture := data.texture } with
    | error p => rfl
    | ok st1 =>
      simp only []
      cases h2 : populate_loop ft data.face font.font_size data.width data.height
          special_glyph_map st1 with
      | error p => rfl
      | ok st2 => rfl

theorem try_set_selected (ft : FreeType) (data : Data) (size : Int) :
    (try_set_font_size ft data size).2.2.selected_font = some size := by
  cases hf : data.cached_fonts size with
  | some font => rw [try_set_resident ft data size font hf]
  | none =>
    rw [try_set_none ft data size hf]
    exact populate_selected ft _ _

theorem selected_eta (data : Data) (size : Int) (h : data.selected_font = some size) :
    { data with selected_font := some size } = data := by
  cases data
  simp only [] at h
  subst h
  rfl

/-- A call of `extract_glyph_info` through a context keeps the font sizes equal to the
keys. -/
theorem extract_font_keys (ft : FreeType) (ctx : RenderFontContext) (data : Data) (cp : Nat)
    (r : Rasterize) (h : font_keys_consistent data) :
    font_keys_consistent (ctx.extract ft data cp r).2 := by
  rcases extract_data ft ctx data cp r with ⟨_, hd⟩ | ⟨_, _, _, hd⟩ | ⟨font, hf, _, _, hd⟩
  · rw [hd]; exact h
  · rw [hd]; exact h
  · rw [hd]
    intro s f hs
    have hs' : Function.update data.cached_fonts ctx.font
        (some (request_cached_glyph ft data font cp r).2.2) s = some f := hs
    by_cases hc : s = ctx.font
    · subst hc
      rw [Function.update_same] at hs'
      simp only [Option.some.injEq] at hs'
      rw [← hs', (request_summary ft data font cp r).2.1]
      exact h _ font hf
    · rw [Function.update_noteq hc] at hs'
      exact h s f hs'

theorem apply_font_keys (ft : FreeType) (data : Data) (c : AtlasCall)
    (h : font_keys_consistent data) : font_keys_consistent (c.apply ft data) := by
  cases c with
  | populate_atlas =>
    exact font_keys_try_set ft
      { { data with width := texture_width } with height := texture_height }
      default_font_size h
  | op o =>
    cases o with
    | render_font_context size => exact font_keys_try_set ft data size h
    | glyph ctx cp r => exact extract_font_keys ft ctx data cp r h
  | try_load_font_face path =>
    have e : AtlasCall.apply ft data (AtlasCall.try_load_font_face path)
        = (try_load_font_face ft data path []).1 := rfl
    rw [e]
    have hreset : ∀ face, font_keys_consistent (data.reset_for_face face) := by
      intro face s f hs
      exact Option.noConfusion hs
    rcases try_load_font_face_cases ft data path [] with
      ⟨log, _, hd⟩ | ⟨face, log, _, _, hd⟩ | ⟨face, _, _, _, hd⟩ | ⟨face, _, _, _, hd⟩
    · rw [hd]; exact h
    · rw [hd]; exact h
    · rw [hd]; exact font_keys_try_set ft _ default_font_size (hreset face)
    · rw [hd]; exact font_keys_try_set ft _ default_font_size (hreset face)

theorem run_calls_font_keys (ft : FreeType) (calls : List AtlasCall) :
    ∀ data, font_keys_consistent data → font_keys_consistent (run_calls ft data calls) := by
  induction calls with
  | nil => intro data h; exact h
  | cons c cs ih =>
    intro data h
    exact ih _ (apply_font_keys ft data c h)

/-- C23: `render_font_context(size)` returns a context bound to the entry of `size` in
the font table, which exists after the call. An entry that the call creates has
`font_size = size` and an empty dynamic glyph map; an entry that was there is fetched,
and nothing of the atlas changes but `selected_font`. A second call with the same size
returns the same context and leaves the atlas data exactly as it is. In every state
reached from `init` by `populate_atlas`, `render_font_context`, glyph requests and
`try_load_font_face`, every font of the table has `font_size` equal to its key. -/
theorem render_font_context_creates_or_fetches (ft : FreeType) (data : Data) (size : Int) :
    (render_font_context ft data size).1.font = size
    ∧ (∃ font, (render_font_context ft data size).2.cached_fonts size = some font
        ∧ (font_keys_consistent data → font.font_size = size)
        ∧ (data.cached_fonts size = none →
            font.font_size = size ∧ font.cached_glyphs_map = fun _ => none))
    ∧ (∀ font, data.cached_fonts size = some font →
        (render_font_context ft data size).2 = { data with selected_font := some size })
    ∧ render_font_context ft (render_font_context ft data size).2 size
        = ((render_font_context ft data size).1, (render_font_context ft data size).2)
    ∧ ∀ (face : Nat) (calls : List AtlasCall),
        font_keys_consistent (run_calls ft (Data.after_init face) calls) := by
  have hctx : ∀ d, render_font_context ft d size
      = ({ font := size }, (try_set_font_size ft d size).2.2) := fun d => rfl
  refine ⟨rfl, ?_, ?_, ?_, ?_⟩
  · obtain ⟨font, hf⟩ := render_font_context_resident ft data size
    refine ⟨font, hf, ?_, ?_⟩
    · intro hkeys
      exact font_keys_try_set ft data size hkeys size font hf
    · intro hn
      rcases try_set_font_size_data ft data size with ⟨⟨f, hf'⟩, _⟩ | ⟨_, f, hfs, hm, hc, _⟩
      · rw [hn] at hf'; exact Option.noConfusion hf'
      · have hf2 : (try_set_font_size ft data size).2.2.cached_fonts size = some font := hf
        rw [hc, Function.update_same] at hf2
        simp only [Option.some.injEq] at hf2
        rw [← hf2]
        exact ⟨hfs, hm⟩
  · intro font hf
    rw [hctx, try_set_resident ft data size font hf]
  · obtain ⟨font, hf⟩ := render_font_context_resident ft data size
    rw [hctx (render_font_context ft data size).2, try_set_resident ft _ size font hf]
    refine Prod.ext rfl ?_
    exact selected_eta _ size (try_set_selected ft data size)
  · intro face calls
    exact run_calls_font_keys ft calls _ (fun s f hs => Option.noConfusion hs)

/-- The C23 theorem at size 32 in the atlas after `populate_atlas`: the font of size 32
is created with `font_size = 32`. -/
theorem render_font_context_creates_or_fetches_witness :
    ∃ font, (render_font_context FreeType.proportional
          (Data.populated FreeType.proportional 1) 32).2.cached_fonts 32 = some font
      ∧ font.font_size = 32 ∧ font.cached_glyphs_map = fun _ => none := by
  obtain ⟨font, hf, _, hnew⟩ := (render_font_context_creates_or_fetches FreeType.proportional
    (Data.populated FreeType.proportional 1) 32).2.1
  have hn : ((Data.populated FreeType.proportional 1).cached_fonts 32).isSome = false := by
    decide!
  have hnone : (Data.populated FreeType.proportional 1).cached_fonts 32 = none := by
    cases h : (Data.populated FreeType.proportional 1).cached_fonts 32 with
    | none => rfl
    | some f => rw [h] at hn; exact Bool.noConfusion hn
  exact ⟨font, hf, (hnew hnone).1, (hnew hnone).2⟩

/-! ### The atlas position in single precision -/

/-- The rows from 0 to 127 come back as themselves. -/
theorem round_trip_rows_0 :
    ∀ y, y < 128 →
      atlas_position_single (texture_coordinate_single (y + 0) texture_height) texture_height
        = y + 0 := by
  decide!

/-- The rows from 128 to 255 come back as themselves. -/
theorem round_trip_rows_1 :
    ∀ y, y < 128 →
      atlas_position_single (texture_coordinate_single (y + 128) texture_height) texture_height
        = y + 128 := by
  decide!

/-- The rows from 256 to 383 come back as themselves. -/
theorem round_trip_rows_2 :
    ∀ y, y < 128 →
      atlas_position_single (texture_coordinate_single (y + 256) texture_height) texture_height
        = y + 256 := by
  decide!

/-- The rows from 384 to 511 come back as themselves. -/
theorem round_trip_rows_3 :
    ∀ y, y < 128 →
      atlas_position_single (texture_coordinate_single (y + 384) texture_height) texture_height
        = y + 384 := by
  decide!

/-- The rows from 512 to 639 come back as themselves. -/
theorem round_trip_rows_4 :
    ∀ y, y < 128 →
      atlas_position_single (texture_coordinate_single (y + 512) texture_height) texture_height
        = y + 512 := by
  decide!

/-- The rows from 640 to 767 come back as themselves. -/
theorem round_trip_rows_5 :
    ∀ y, y < 128 →
      atlas_position_single (texture_coordinate_single (y + 640) texture_height) texture_height
        = y + 640 := by
  decide!

/-- The rows from 768 to 895 come back as themselves. -/
theorem round_trip_rows_6 :
    ∀ y, y < 128 →
      atlas_position_single (texture_coordinate_single (y + 768) texture_height) texture_height
        = y + 768 := by
  decide!

/-- The rows from 896 to 1023 come back as themselves. -/
theorem round_trip_rows_7 :
    ∀ y, y < 128 →
      atlas_position_single (texture_coordinate_single (y + 896) texture_height) texture_height
        = y + 896 := by
  decide!

/-- The rows from 1024 to 1087 come back as themselves. -/
theorem round_trip_rows_8 :
    ∀ y, y < 64 →
      atlas_position_single (texture_coordinate_single (y + 1024) texture_height) texture_height
        = y + 1024 := by
  decide!

/-- The rows: each of the 1088 comes back as itself. -/
theorem round_trip_rows :
    ∀ y, y < texture_height →
      atlas_position_single (texture_coordinate_single y texture_height) texture_height = y := by
  intro y hy
  have hy' : y < 1088 := hy
  obtain ⟨k, r, hk, hr⟩ : ∃ k r, y = r + 128 * k ∧ r < 128 :=
    ⟨y / 128, y % 128, by omega, by omega⟩
  have hk9 : k < 9 := by omega
  subst hk
  interval_cases k
  · exact round_trip_rows_0 r (by omega)
  · exact round_trip_rows_1 r (by omega)
  · exact round_trip_rows_2 r (by omega)
  · exact round_trip_rows_3 r (by omega)
  · exact round_trip_rows_4 r (by omega)
  · exact round_trip_rows_5 r (by omega)
  · exact round_trip_rows_6 r (by omega)
  · exact round_trip_rows_7 r (by omega)
  · exact round_trip_rows_8 r (by omega)

/-- The columns from 0 to 127. -/
theorem round_trip_columns_0 :
    ∀ x, x < 128 →
      atlas_position_single (texture_coordinate_single (x + 0) texture_width) texture_width
        = if x + 0 ∈ [63, 125, 126, 127, 250, 252, 254, 485, 489, 493, 500, 504, 508, 963, 970,
                  971, 978, 985, 986, 993, 1000, 1001, 1008, 1015, 1016, 1023]
          then x + 0 - 1 else x + 0 := by
  decide!

/-- The columns from 128 to 255. -/
theorem round_trip_columns_1 :
    ∀ x, x < 128 →
      atlas_position_single (texture_coordinate_single (x + 128) texture_width) texture_width
        = if x + 128 ∈ [63, 125, 126, 127, 250, 252, 254, 485, 489, 493, 500, 504, 508, 963, 970,
                  971, 978, 985, 986, 993, 1000, 1001, 1008, 1015, 1016, 1023]
          then x + 128 - 1 else x + 128 := by
  decide!

/-- The columns from 256 to 383. -/
theorem round_trip_columns_2 :
    ∀ x, x < 128 →
      atlas_position_single (texture_coordinate_single (x + 256) texture_width) texture_width
        = if x + 256 ∈ [63, 125, 126, 127, 250, 252, 254, 485, 489, 493, 500, 504, 508, 963, 970,
                  971, 978, 985, 986, 993, 1000, 1001, 1008, 1015, 1016, 1023]
          then x + 256 - 1 else x + 256 := by
  decide!

/-- The columns from 384 to 511. -/
theorem round_trip_columns_3 :
    ∀ x, x < 128 →
      atlas_position_single (texture_coordinate_single (x + 384) texture_width) texture_width
        = if x + 384 ∈ [63, 125, 126, 127, 250, 252, 254, 485, 489, 493, 500, 504, 508, 963, 970,
                  971, 978, 985, 986, 993, 1000, 1001, 1008, 1015, 1016, 1023]
          then x + 384 - 1 else x + 384 := by
  decide!

/-- The columns from 512 to 639. -/
theorem round_trip_columns_4 :
    ∀ x, x < 128 →
      atlas_position_single (texture_coordinate_single (x + 512) texture_width) texture_width
        = if x + 512 ∈ [63, 125, 126, 127, 250, 252, 254, 485, 489, 493, 500, 504, 508, 963, 970,
                  971, 978, 985, 986, 993, 1000, 1001, 1008, 1015, 1016, 1023]
          then x + 512 - 1 else x + 512 := by
  decide!

/-- The columns from 640 to 767. -/
theorem round_trip_columns_5 :
    ∀ x, x < 128 →
      atlas_position_single (texture_coordinate_single (x + 640) texture_width) texture_width
        = if x + 640 ∈ [63, 125, 126, 127, 250, 252, 254, 485, 489, 493, 500, 504, 508, 963, 970,
                  971, 978, 985, 986, 993, 1000, 1001, 1008, 1015, 1016, 1023]
          then x + 640 - 1 else x + 640 := by
  decide!

/-- The columns from 768 to 895. -/
theorem round_trip_columns_6 :
    ∀ x, x < 128 →
      atlas_position_single (texture_coordinate_single (x + 768) texture_width) texture_width
        = if x + 768 ∈ [63, 125, 126, 127, 250, 252, 254, 485, 489, 493, 500, 504, 508, 963, 970,
                  971, 978, 985, 986, 993, 1000, 1001, 1008, 1015, 1016, 1023]
          then x + 768 - 1 else x + 768 := by
  decide!

/-- The columns from 896 to 1023. -/
theorem round_trip_columns_7 :
    ∀ x, x < 128 →
      atlas_position_single (texture_coordinate_single (x + 896) texture_width) texture_width
        = if x + 896 ∈ [63, 125, 126, 127, 250, 252, 254, 485, 489, 493, 500, 504, 508, 963, 970,
                  971, 978, 985, 986, 993, 1000, 1001, 1008, 1015, 1016, 1023]
          then x + 896 - 1 else x + 896 := by
  decide!

/-- The columns from 1024 to 1151. -/
theorem round_trip_columns_8 :
    ∀ x, x < 128 →
      atlas_position_single (texture_coordinate_single (x + 1024) texture_width) texture_width
        = if x + 1024 ∈ [63, 125, 126, 127, 250, 252, 254, 485, 489, 493, 500, 504, 508, 963, 970,
                  971, 978, 985, 986, 993, 1000, 1001, 1008, 1015, 1016, 1023]
          then x + 1024 - 1 else x + 1024 := by
  decide!

/-- The columns from 1152 to 1279. -/
theorem round_trip_columns_9 :
    ∀ x, x < 128 →
      atlas_position_single (texture_coordinate_single (x + 1152) texture_width) texture_width
        = if x + 1152 ∈ [63, 125, 126, 127, 250, 252, 254, 485, 489, 493, 500, 504, 508, 963, 970,
                  971, 978, 985, 986, 993, 1000, 1001, 1008, 1015, 1016, 1023]
          then x + 1152 - 1 else x + 1152 := by
  decide!

/-- The columns from 1280 to 1407. -/
theorem round_trip_columns_10 :
    ∀ x, x < 128 →
      atlas_position_single (texture_coordinate_single (x + 1280) texture_width) texture_width
        = if x + 1280 ∈ [63, 125, 126, 127, 250, 252, 254, 485, 489, 493, 500, 504, 508, 963, 970,
                  971, 978, 985, 986, 993, 1000, 1001, 1008, 1015, 1016, 1023]
          then x + 1280 - 1 else x + 1280 := by
  decide!

/-- The columns from 1408 to 1535. -/
theorem round_trip_columns_11 :
    ∀ x, x < 128 →
      atlas_position_single (texture_coordinate_single (x + 1408) texture_width) texture_width
        = if x + 1408 ∈ [63, 125, 126, 127, 250, 252, 254, 485, 489, 493, 500, 504, 508, 963, 970,
                  971, 978, 985, 986, 993, 1000, 1001, 1008, 1015, 1016, 1023]
          then x + 1408 - 1 else x + 1408 := by
  decide!

/-- The columns from 1536 to 1663. -/
theorem round_trip_columns_12 :
    ∀ x, x < 128 →
      atlas_position_single (texture_coordinate_single (x + 1536) texture_width) texture_width
        = if x + 1536 ∈ [63, 125, 126, 127, 250, 252, 254, 485, 489, 493, 500, 504, 508, 963, 970,
                  971, 978, 985, 986, 993, 1000, 1001, 1008, 1015, 1016, 1023]
          then x + 1536 - 1 else x + 1536 := by
  decide!

/-- The columns from 1664 to 1791. -/
theorem round_trip_columns_13 :
    ∀ x, x < 128 →
      atlas_position_single (texture_coordinate_single (x + 1664) texture_width) texture_width
        = if x + 1664 ∈ [63, 125, 126, 127, 250, 252, 254, 485, 489, 493, 500, 504, 508, 963, 970,
                  971, 978, 985, 986, 993, 1000, 1001, 1008, 1015, 1016, 1023]
          then x + 1664 - 1 else x + 1664 := by
  decide!

/-- The columns from 1792 to 1919. -/
theorem round_trip_columns_14 :
    ∀ x, x < 128 →
      atlas_position_single (texture_coordinate_single (x + 1792) texture_width) texture_width
        = if x + 1792 ∈ [63, 125, 126, 127, 250, 252, 254, 485, 489, 493, 500, 504, 508, 963, 970,
                  971, 978, 985, 986, 993, 1000, 1001, 1008, 1015, 1016, 1023]
          then x + 1792 - 1 else x + 1792 := by
  decide!

/-- The columns: each of the 1920 comes back as itself, but for 26 that come back as
the column to their left. -/
theorem round_trip_columns :
    ∀ x, x < texture_width →
      atlas_position_single (texture_coordinate_single x texture_width) texture_width
        = if x ∈ [63, 125, 126, 127, 250, 252, 254, 485, 489, 493, 500, 504, 508, 963, 970,
                  971, 978, 985, 986, 993, 1000, 1001, 1008, 1015, 1016, 1023]
          then x - 1 else x := by
  intro x hx
  have hx' : x < 1920 := hx
  obtain ⟨k, r, hk, hr⟩ : ∃ k r, x = r + 128 * k ∧ r < 128 :=
    ⟨x / 128, x % 128, by omega, by omega⟩
  have hk15 : k < 15 := by omega
  subst hk
  interval_cases k
  · exact round_trip_columns_0 r hr
  · exact round_trip_columns_1 r hr
  · exact round_trip_columns_2 r hr
  · exact round_trip_columns_3 r hr
  · exact round_trip_columns_4 r hr
  · exact round_trip_columns_5 r hr
  · exact round_trip_columns_6 r hr
  · exact round_trip_columns_7 r hr
  · exact round_trip_columns_8 r hr
  · exact round_trip_columns_9 r hr
  · exact round_trip_columns_10 r hr
  · exact round_trip_columns_11 r hr
  · exact round_trip_columns_12 r hr
  · exact round_trip_columns_13 r hr
  · exact round_trip_columns_14 r hr

/-- The column 63: the texture coordinate is `8808038 / 2 ^ 28`, just below `63 / 1920`;
its product with 1920 rounds to `16515071 / 2 ^ 18`, just below 63, and the conversion
to an unsigned integer cuts it to 62. -/
theorem round_trip_63 :
    texture_coordinate_single 63 texture_width = ⟨8808038, -28⟩
    ∧ Single.mul ⟨8808038, -28⟩ (Single.of_nat texture_width) = ⟨16515071, -18⟩
    ∧ Single.to_uint ⟨16515071, -18⟩ = 62
    ∧ atlas_position_single (texture_coordinate_single 63 texture_width) texture_width = 62 := by
  decide!

/-- The two numbers of the column 63 as rationals. -/
theorem round_trip_63_rational :
    Single.Value.toRat ⟨8808038, -28⟩ = 8808038 / 2 ^ 28
    ∧ Single.Value.toRat ⟨8808038, -28⟩ < 63 / 1920
    ∧ Single.Value.toRat ⟨16515071, -18⟩ = 16515071 / 2 ^ 18
    ∧ Single.Value.toRat ⟨16515071, -18⟩ < 63 := by
  simp only [Single.Value.toRat]
  norm_num [zpow_neg]

/-- C28: in single precision the row of an atlas position survives the conversion to a
texture coordinate and back, for every row of the 1088. The column does not: of the
1920 columns, 26 come back as the column to their left; column 63 gives the texture
coordinate `8808038 / 2 ^ 28`, whose product with 1920 rounds to
`16515071 / 2 ^ 18 < 63`, cut to 62. Every other column comes back as itself. -/
theorem texture_coordinate_round_trip :
    (∀ y, y < texture_height →
      atlas_position_single (texture_coordinate_single y texture_height) texture_height = y)
    ∧ (∀ x, x < texture_width →
      atlas_position_single (texture_coordinate_single x texture_width) texture_width
        = if x ∈ [63, 125, 126, 127, 250, 252, 254, 485, 489, 493, 500, 504, 508, 963, 970,
                  971, 978, 985, 986, 993, 1000, 1001, 1008, 1015, 1016, 1023]
          then x - 1 else x)
    ∧ texture_coordinate_single 63 texture_width = ⟨8808038, -28⟩
    ∧ Single.mul ⟨8808038, -28⟩ (Single.of_nat texture_width) = ⟨16515071, -18⟩
    ∧ Single.Value.toRat ⟨16515071, -18⟩ < 63
    ∧ atlas_position_single (texture_coordinate_single 63 texture_width) texture_width = 62 :=
  ⟨round_trip_rows, round_trip_columns, round_trip_63.1, round_trip_63.2.1,
    round_trip_63_rational.2.2.2, round_trip_63.2.2.2⟩

/-- The C28 theorem at row 500 and column 500: the row comes back, the column comes back
as 499. -/
theorem texture_coordinate_round_trip_witness :
    atlas_position_single (texture_coordinate_single 500 texture_height) texture_height = 500
    ∧ atlas_position_single (texture_coordinate_single 500 texture_width) texture_width
      = 499 :=
  ⟨texture_coordinate_round_trip.1 500 (by decide),
    (texture_coordinate_round_trip.2.1 500 (by decide)).trans (by decide)⟩

end Glyph

/-! ## Theorems, part 3: the vertex buffer -/

namespace Render

theorem vertex_cap_eq : vertex_cap = 75000 := rfl

theorem flush_count_append (g : Globals) (d : DrawCall) :
    (List.filter (fun d => decide (d.mode = Primitive.Triangles)) (g.draw_calls ++ [d])).length
      = flush_count g + (if d.mode = Primitive.Triangles then 1 else 0) := by
  unfold flush_count
  rw [List.filter_append, List.length_append]
  by_cases h : d.mode = Primitive.Triangles <;> simp [List.filter, h]

theorem flush_vertices_flush_count (g : Globals) : (flush g).vertices_flush_count = 0 := rfl

theorem flush_current_renderer (g : Globals) : (flush g).current_renderer = none := rfl

theorem flush_count_flush (g : Globals) : flush_count (flush g) = flush_count g + 1 := by
  have := flush_count_append (populate_buffer g)
    { mode := Primitive.Triangles, count := g.vertices_flush_count,
      data := (List.range g.vertices_flush_count).map (populate_buffer g).vbo }
  simp only [flush, draw, draw_arrays] at this ⊢
  exact this

/-- One vertex emission below capacity succeeds; it flushes exactly when the count
reaches the capacity. -/
theorem render_vertex_ok (g : Globals) (target : RenderVertex)
    (h : g.vertices_flush_count < vertex_cap) :
    ∃ g', render_vertex g target = Except.ok g'
      ∧ (g.vertices_flush_count + 1 = vertex_cap →
          g'.vertices_flush_count = 0 ∧ flush_count g' = flush_count g + 1
            ∧ g'.current_renderer = none)
      ∧ (g.vertices_flush_count + 1 ≠ vertex_cap →
          g'.vertices_flush_count = g.vertices_flush_count + 1
            ∧ g'.draw_calls = g.draw_calls ∧ g'.current_renderer = g.current_renderer) := by
  unfold render_vertex
  rw [if_neg (not_not.2 h)]
  refine ⟨_, rfl, ?_, ?_⟩
  · intro hc
    have hm : (g.vertices_flush_count + 1) % vertex_cap = 0 := by
      rw [hc, Nat.mod_self]
    simp only [hm, ne_eq, not_true_eq_false, decide_False, cullers, Bool.false_eq_true,
      if_false, cull_vertices]
    refine ⟨rfl, ?_, rfl⟩
    rw [flush_count_flush]
    rfl
  · intro hc
    have hm : (g.vertices_flush_count + 1) % vertex_cap ≠ 0 := by
      rw [vertex_cap_eq] at h hc ⊢; omega
    simp only [ne_eq, hm, not_false_eq_true, decide_True, cullers, if_true, dummy_cull]
    trivial

theorem render_vertex_emitted (g : Globals) (target : RenderVertex)
    (h : g.vertices_flush_count < vertex_cap) :
    ∃ g', render_vertex g target = Except.ok g'
      ∧ g'.vertices_flush_count < vertex_cap
      ∧ emitted g' = emitted g + 1
      ∧ (g'.current_renderer = g.current_renderer ∨ g'.current_renderer = none) := by
  obtain ⟨g', e, hcap, hno⟩ := render_vertex_ok g target h
  refine ⟨g', e, ?_, ?_, ?_⟩
  · by_cases hc : g.vertices_flush_count + 1 = vertex_cap
    · rw [(hcap hc).1, vertex_cap_eq]; norm_num
    · rw [(hno hc).1]; omega
  · by_cases hc : g.vertices_flush_count + 1 = vertex_cap
    · unfold emitted
      rw [(hcap hc).1, (hcap hc).2.1, ← hc]
      ring
    · unfold emitted
      have : flush_count g' = flush_count g := by
        unfold flush_count; rw [(hno hc).2.1]
      rw [(hno hc).1, this]
      ring
  · by_cases hc : g.vertices_flush_count + 1 = vertex_cap
    · exact Or.inr (hcap hc).2.2
    · exact Or.inl (hno hc).2.2

theorem owner_trans {a b c : Option Nat} (h1 : b = a ∨ b = none) (h2 : c = b ∨ c = none) :
    c = a ∨ c = none := by
  rcases h2 with h2 | h2
  · rw [h2]; exact h1
  · exact Or.inr h2

theorem render_triangle_emitted (g : Globals) (p0 p1 p2 : Vec2f) (c0 c1 c2 : Vec4f)
    (uv0 uv1 uv2 : Vec2f) (h : g.vertices_flush_count < vertex_cap) :
    ∃ g', render_triangle g p0 p1 p2 c0 c1 c2 uv0 uv1 uv2 = Except.ok g'
      ∧ g'.vertices_flush_count < vertex_cap
      ∧ emitted g' = emitted g + 3
      ∧ (g'.current_renderer = g.current_renderer ∨ g'.current_renderer = none) := by
  obtain ⟨g1, e1, k1, m1, o1⟩ := render_vertex_emitted g ⟨p0, c0, uv0⟩ h
  obtain ⟨g2, e2, k2, m2, o2⟩ := render_vertex_emitted g1 ⟨p1, c1, uv1⟩ k1
  obtain ⟨g3, e3, k3, m3, o3⟩ := render_vertex_emitted g2 ⟨p2, c2, uv2⟩ k2
  refine ⟨g3, ?_, k3, by omega, owner_trans (owner_trans o1 o2) o3⟩
  simp only [render_triangle, e1, e2, e3, bind, Except.bind]

theorem render_quad_emitted (g : Globals) (p0 p1 p2 p3 : Vec2f) (c0 c1 c2 c3 : Vec4f)
    (uv0 uv1 uv2 uv3 : Vec2f) (h : g.vertices_flush_count < vertex_cap) :
    ∃ g', render_quad g p0 p1 p2 p3 c0 c1 c2 c3 uv0 uv1 uv2 uv3 = Except.ok g'
      ∧ g'.vertices_flush_count < vertex_cap
      ∧ emitted g' = emitted g + 6
      ∧ (g'.current_renderer = g.current_renderer ∨ g'.current_renderer = none) := by
  obtain ⟨g1, e1, k1, m1, o1⟩ := render_triangle_emitted g p0 p1 p2 c0 c1 c2 uv0 uv1 uv2 h
  obtain ⟨g2, e2, k2, m2, o2⟩ := render_triangle_emitted g1 p1 p2 p3 c1 c2 c3 uv1 uv2 uv3 k1
  refine ⟨g2, ?_, k2, by omega, owner_trans o1 o2⟩
  simp only [render_quad, e1, e2, bind, Except.bind]

/-- A renderer may draw when nobody, or it itself, has vertices staged. -/
theorem claim_buffer_ok (g : Globals) (this : Nat)
    (ho : g.current_renderer = none ∨ g.current_renderer = some this) :
    claim_buffer g this = Except.ok { g with current_renderer := some this } := by
  unfold claim_buffer
  rw [if_pos ho]

theorem claim_buffer_error (g : Globals) (this : Nat) (e : AssertFailure) (g' : Globals) :
    (claim_buffer g this = Except.error e → e = AssertFailure.ownership)
    ∧ (claim_buffer g this = Except.ok g' →
        g'.vertices_flush_count = g.vertices_flush_count ∧ emitted g' = emitted g
          ∧ g'.current_renderer = some this) := by
  unfold claim_buffer
  split_ifs with h
  · refine ⟨fun h' => False.elim h', fun h' => ?_⟩
    cases h'
    exact ⟨rfl, rfl, rfl⟩
  · refine ⟨fun h' => ?_, fun h' => False.elim h'⟩
    cases h'
    rfl

theorem capacity_respected_bind (r : Except AssertFailure Globals)
    (f : Globals → Except AssertFailure Globals) (hr : capacity_respected r)
    (hf : ∀ g, g.vertices_flush_count < vertex_cap → capacity_respected (f g)) :
    capacity_respected (r >>= f) := by
  cases r with
  | error e => exact hr
  | ok g => exact hf g hr

theorem solid_rect_ok (g : Globals) (this : Nat) (top_left size : Vec2f) (color : Vec4f)
    (h : g.vertices_flush_count < vertex_cap)
    (ho : g.current_renderer = none ∨ g.current_renderer = some this) :
    ∃ g', solid_rect g this top_left size color = Except.ok g'
      ∧ g'.vertices_flush_count < vertex_cap
      ∧ emitted g' = emitted g + 6
      ∧ (g'.current_renderer = none ∨ g'.current_renderer = some this) := by
  obtain ⟨g', e, k, m, o⟩ := render_quad_emitted { g with current_renderer := some this }
    top_left (top_left + ⟨size.x, 0⟩) (top_left + ⟨0, size.y⟩) (top_left + size)
    color color color color ⟨-1, 1⟩ ⟨1, 1⟩ ⟨-1, -1⟩ ⟨1, -1⟩ h
  refine ⟨g', ?_, k, m, o.symm⟩
  simp only [solid_rect, claim_buffer_ok g this ho, bind, Except.bind]
  exact e

theorem solid_rect_respects (g : Globals) (this : Nat) (top_left size : Vec2f) (color : Vec4f)
    (h : g.vertices_flush_count < vertex_cap) :
    capacity_respected (solid_rect g this top_left size color) := by
  by_cases ho : g.current_renderer = none ∨ g.current_renderer = some this
  · obtain ⟨g', e, k, _, _⟩ := solid_rect_ok g this top_left size color h ho
    rw [e]; exact k
  · have : solid_rect g this top_left size color = Except.error AssertFailure.ownership := by
      simp only [solid_rect, claim_buffer, if_neg ho, bind, Except.bind]
    rw [this]; rfl

theorem render_image_ok (g : Globals) (this : Nat) (pos size uv_pos uv_size : Vec2f)
    (color : Vec4f) (h : g.vertices_flush_count < vertex_cap)
    (ho : g.current_renderer = none ∨ g.current_renderer = some this) :
    ∃ g', render_image g this pos size uv_pos uv_size color = Except.ok g'
      ∧ g'.vertices_flush_count < vertex_cap
      ∧ emitted g' = emitted g + 6
      ∧ (g'.current_renderer = none ∨ g'.current_renderer = some this) := by
  obtain ⟨g', e, k, m, o⟩ := render_quad_emitted { g with current_renderer := some this }
    pos (pos + ⟨size.x, 0⟩) (pos + ⟨0, size.y⟩) (pos + size)
    color color color color
    uv_pos (uv_pos + ⟨uv_size.x, 0⟩) (uv_pos + ⟨0, uv_size.y⟩) (uv_pos + uv_size) h
  refine ⟨g', ?_, k, m, o.symm⟩
  simp only [render_image, claim_buffer_ok g this ho, bind, Except.bind]
  exact e

theorem render_image_respects (g : Globals) (this : Nat) (pos size uv_pos uv_size : Vec2f)
    (color : Vec4f) (h : g.vertices_flush_count < vertex_cap) :
    capacity_respected (render_image g this pos size uv_pos uv_size color) := by
  by_cases ho : g.current_renderer = none ∨ g.current_renderer = some this
  · obtain ⟨g', e, k, _, _⟩ := render_image_ok g this pos size uv_pos uv_size color h ho
    rw [e]; exact k
  · have : render_image g this pos size uv_pos uv_size color
        = Except.error AssertFailure.ownership := by
      simp only [render_image, claim_buffer, if_neg ho, bind, Except.bind]
    rw [this]; rfl

theorem strike_rect_respects (g : Globals) (this : Nat) (top_left size : Vec2f)
    (thickness : ℚ) (color : Vec4f) (h : g.vertices_flush_count < vertex_cap) :
    capacity_respected (strike_rect g this top_left size thickness color) := by
  unfold strike_rect
  refine capacity_respected_bind _ _ (solid_rect_respects g this _ _ color h) ?_
  intro g1 h1
  refine capacity_respected_bind _ _ (solid_rect_respects g1 this _ _ color h1) ?_
  intro g2 h2
  refine capacity_respected_bind _ _ (solid_rect_respects g2 this _ _ color h2) ?_
  intro g3 h3
  exact solid_rect_respects g3 this _ _ color h3

theorem strike_rect_ok (g : Globals) (this : Nat) (top_left size : Vec2f)
    (thickness : ℚ) (color : Vec4f) (h : g.vertices_flush_count < vertex_cap)
    (ho : g.current_renderer = none ∨ g.current_renderer = some this) :
    ∃ g', strike_rect g this top_left size thickness color = Except.ok g'
      ∧ g'.vertices_flush_count < vertex_cap
      ∧ emitted g' = emitted g + 24
      ∧ (g'.current_renderer = none ∨ g'.current_renderer = some this) := by
  obtain ⟨g1, e1, k1, m1, o1⟩ := solid_rect_ok g this top_left
    { size with y := thickness } color h ho
  obtain ⟨g2, e2, k2, m2, o2⟩ := solid_rect_ok g1 this
    { top_left with y := top_left.y + size.y - thickness } { size with y := thickness }
    color k1 o1
  obtain ⟨g3, e3, k3, m3, o3⟩ := solid_rect_ok g2 this
    { x := top_left.x, y := top_left.y + thickness }
    { x := thickness, y := size.y - thickness * 2 } color k2 o2
  obtain ⟨g4, e4, k4, m4, o4⟩ := solid_rect_ok g3 this
    { x := top_left.x + size.x - thickness, y := top_left.y + thickness }
    { x := thickness, y := size.y - thickness * 2 } color k3 o3
  refine ⟨g4, ?_, k4, by omega, o4⟩
  simp only [strike_rect, e1, e2, e3, e4, bind, Except.bind]

theorem line_ok (g : Globals) (a b : Vec2f) (color : Vec4f)
    (h : g.vertices_flush_count < vertex_cap) :
    ∃ g', line g a b color = Except.ok g'
      ∧ g'.vertices_flush_count = 0 ∧ g'.current_renderer = none := by
  obtain ⟨g1, e1, k1, _, _⟩ := render_vertex_emitted g ⟨a, color, ⟨0, 0⟩⟩ h
  obtain ⟨g2, e2, _, _, _⟩ := render_vertex_emitted g1 ⟨b, color, ⟨0, 0⟩⟩ k1
  refine ⟨{ draw_arrays Primitive.LineStrip (populate_buffer g2) with
      vertices_flush_count := 0, current_renderer := none }, ?_, rfl, rfl⟩
  simp only [line, e1, e2, bind, Except.bind, pure, Except.pure]

theorem apply_respects (op : DrawOp) (g : Globals) (h : g.vertices_flush_count < vertex_cap) :
    capacity_respected (op.apply g) := by
  cases op with
  | solid_rect this top_left size color => exact solid_rect_respects g this top_left size color h
  | render_image this pos size uv_pos uv_size color =>
    exact render_image_respects g this pos size uv_pos uv_size color h
  | strike_rect this top_left size thickness color =>
    exact strike_rect_respects g this top_left size thickness color h
  | solid_circle this center radius color => exact solid_rect_respects g this _ _ color h
  | line this a b thickness color =>
    obtain ⟨g', e, k, _⟩ := line_ok g a b color h
    show capacity_respected (line g a b color)
    rw [e]
    show g'.vertices_flush_count < vertex_cap
    rw [k, vertex_cap_eq]; norm_num
  | flush this =>
    show (0 : Nat) < vertex_cap
    rw [vertex_cap_eq]; norm_num

theorem run_ops_respects (ops : List DrawOp) :
    ∀ g : Globals, g.vertices_flush_count < vertex_cap → capacity_respected (run_ops g ops) := by
  induction ops with
  | nil => intro g h; exact h
  | cons op rest ih =>
    intro g h
    have ha := apply_respects op g h
    unfold run_ops
    cases hop : op.apply g with
    | error e => rw [hop] at ha; exact ha
    | ok g' => rw [hop] at ha; exact ih g' ha

theorem apply_ok (op : DrawOp) (g : Globals) (h : g.vertices_flush_count < vertex_cap)
    (ho : g.current_renderer = none ∨ g.current_renderer = some op.renderer) :
    ∃ g', op.apply g = Except.ok g' ∧ g'.vertices_flush_count < vertex_cap
      ∧ (g'.current_renderer = none ∨ g'.current_renderer = some op.renderer) := by
  cases op with
  | solid_rect this top_left size color =>
    obtain ⟨g', e, k, _, o⟩ := solid_rect_ok g this top_left size color h ho
    exact ⟨g', e, k, o⟩
  | render_image this pos size uv_pos uv_size color =>
    obtain ⟨g', e, k, _, o⟩ := render_image_ok g this pos size uv_pos uv_size color h ho
    exact ⟨g', e, k, o⟩
  | strike_rect this top_left size thickness color =>
    obtain ⟨g', e, k, _, o⟩ := strike_rect_ok g this top_left size thickness color h ho
    exact ⟨g', e, k, o⟩
  | solid_circle this center radius color =>
    obtain ⟨g', e, k, _, o⟩ := solid_rect_ok g this (center - Vec2f.splat radius)
      (Vec2f.splat (radius * 2)) color h ho
    exact ⟨g', e, k, o⟩
  | line this a b thickness color =>
    obtain ⟨g', e, k, o⟩ := line_ok g a b color h
    exact ⟨g', e, by rw [k, vertex_cap_eq]; norm_num, Or.inl o⟩
  | flush this =>
    exact ⟨flush g, rfl, by rw [flush_vertices_flush_count, vertex_cap_eq]; norm_num,
      Or.inl rfl⟩

theorem run_ops_ok (this : Nat) (ops : List DrawOp) (hall : ∀ op ∈ ops, op.renderer = this) :
    ∀ g : Globals, g.vertices_flush_count < vertex_cap →
      (g.current_renderer = none ∨ g.current_renderer = some this) →
      ∃ g', run_ops g ops = Except.ok g' ∧ g'.vertices_flush_count < vertex_cap := by
  induction ops with
  | nil => intro g h _; exact ⟨g, rfl, h⟩
  | cons op rest ih =>
    intro g h ho
    have hr : op.renderer = this := hall op (List.mem_cons_self _ _)
    obtain ⟨g1, e1, k1, o1⟩ := apply_ok op g h (by rw [hr]; exact ho)
    rw [hr] at o1
    obtain ⟨g2, e2, k2⟩ := ih (fun o hmem => hall o (List.mem_cons_of_mem _ hmem)) g1 k1 o1
    refine ⟨g2, ?_, k2⟩
    unfold run_ops
    rw [e1]
    exact e2

/-- C6. Along every sequence of `solid_rect`, `render_image`, `strike_rect`,
`solid_circle`, `line` and `flush` calls from the initial state the capacity assertion
of `render_vertex` never fails (a run ends in a state, or at the ownership assertion),
every state reached has fewer than `vertex_cap` staged vertices, and a sequence drawn by
one renderer instance runs to its end. An emission below capacity flushes exactly when
the count reaches `vertex_cap`: then one draw call is added and the count is 0;
otherwise no draw call is issued and the count grows by one. -/
theorem vertex_count_below_cap (ops : List DrawOp) :
    capacity_respected (run_ops Globals.initial ops)
    ∧ (∀ g, run_ops Globals.initial ops = Except.ok g → g.vertices_flush_count < vertex_cap)
    ∧ (∀ this, (∀ op ∈ ops, op.renderer = this) →
        ∃ g, run_ops Globals.initial ops = Except.ok g ∧ g.vertices_flush_count < vertex_cap)
    ∧ (∀ (g : Globals) (target : RenderVertex), g.vertices_flush_count < vertex_cap →
        ∃ g', render_vertex g target = Except.ok g'
          ∧ g'.vertices_flush_count < vertex_cap
          ∧ (flush_count g' = flush_count g + 1 ↔ g.vertices_flush_count + 1 = vertex_cap)
          ∧ (g.vertices_flush_count + 1 = vertex_cap → g'.vertices_flush_count = 0)
          ∧ (g.vertices_flush_count + 1 ≠ vertex_cap →
              g'.draw_calls = g.draw_calls
                ∧ g'.vertices_flush_count = g.vertices_flush_count + 1)) := by
  have h0 : Globals.initial.vertices_flush_count < vertex_cap := by
    show (0 : Nat) < vertex_cap
    rw [vertex_cap_eq]; norm_num
  have hr := run_ops_respects ops Globals.initial h0
  refine ⟨hr, ?_, ?_, ?_⟩
  · intro g hg
    rw [hg] at hr
    exact hr
  · intro this hall
    exact run_ops_ok this ops hall Globals.initial h0 (Or.inl rfl)
  · intro g target h
    obtain ⟨g', e, hcap, hno⟩ := render_vertex_ok g target h
    obtain ⟨g'', e', k, _, _⟩ := render_vertex_emitted g target h
    have hgg : g'' = g' := by
      rw [e] at e'
      exact (Except.ok.inj e').symm
    subst hgg
    refine ⟨g'', e, k, ?_, fun hc => (hcap hc).1, fun hc => ⟨(hno hc).2.1, (hno hc).1⟩⟩
    constructor
    · intro hf
      by_contra hc
      have : flush_count g'' = flush_count g := by
        unfold flush_count; rw [(hno hc).2.1]
      omega
    · intro hc
      exact (hcap hc).2.1

/-- C6 at a concrete sequence: renderer 0 draws a rect, a line and flushes. -/
theorem vertex_count_below_cap_witness :
    ∃ g, run_ops Globals.initial
        [DrawOp.solid_rect 0 ⟨0, 0⟩ ⟨1, 1⟩ ⟨1, 1, 1, 1⟩,
         DrawOp.line 0 ⟨0, 0⟩ ⟨1, 1⟩ 1 ⟨1, 1, 1, 1⟩,
         DrawOp.flush 0] = Except.ok g
      ∧ g.vertices_flush_count < vertex_cap :=
  (vertex_count_below_cap
      [DrawOp.solid_rect 0 ⟨0, 0⟩ ⟨1, 1⟩ ⟨1, 1, 1, 1⟩,
       DrawOp.line 0 ⟨0, 0⟩ ⟨1, 1⟩ 1 ⟨1, 1, 1, 1⟩,
       DrawOp.flush 0]).2.2.1 0
    (by
      intro op hop
      simp only [List.mem_cons, List.mem_singleton, List.not_mem_nil, or_false] at hop
      rcases hop with h | h | h <;> rw [h] <;> rfl)

theorem solid_rects_emitted (g : Globals) (this : Nat) (args : Nat → Vec2f × Vec2f × Vec4f)
    (h : g.vertices_flush_count < vertex_cap)
    (ho : g.current_renderer = none ∨ g.current_renderer = some this) (n : Nat) :
    ∃ g', solid_rects g this args n = Except.ok g'
      ∧ g'.vertices_flush_count < vertex_cap
      ∧ emitted g' = emitted g + 6 * n
      ∧ (g'.current_renderer = none ∨ g'.current_renderer = some this) := by
  induction n with
  | zero => exact ⟨g, rfl, h, by omega, ho⟩
  | succ n ih =>
    obtain ⟨g1, e1, k1, m1, o1⟩ := ih
    obtain ⟨g2, e2, k2, m2, o2⟩ := solid_rect_ok g1 this (args n).1 (args n).2.1 (args n).2.2 k1 o1
    refine ⟨g2, ?_, k2, by omega, o2⟩
    unfold solid_rects
    rw [e1]
    exact e2

/-- C7. From an empty vertex buffer owned by nobody or by the drawing renderer, after
`n` consecutive `solid_rect` calls the staged count is `6 n mod 75000` and
`⌊6 n / 75000⌋` implicit flushes have occurred, none before the 12500th rect and one
when it completes; every `solid_rect` below capacity stages six vertices; the staged
count is 0 right after `flush` and right after an emission that flushed. -/
theorem solid_rect_flush_schedule (g : Globals) (this : Nat)
    (args : Nat → Vec2f × Vec2f × Vec4f)
    (h0 : g.vertices_flush_count = 0)
    (ho : g.current_renderer = none ∨ g.current_renderer = some this) :
    (∀ n, ∃ g', solid_rects g this args n = Except.ok g'
        ∧ g'.vertices_flush_count = 6 * n % 75000
        ∧ flush_count g' = flush_count g + 6 * n / 75000
        ∧ (flush_count g' = flush_count g ↔ n < 12500)
        ∧ (n = 12500 → flush_count g' = flush_count g + 1 ∧ g'.vertices_flush_count = 0))
    ∧ (∀ (g1 : Globals) (top_left size : Vec2f) (color : Vec4f),
        g1.vertices_flush_count < vertex_cap →
        (g1.current_renderer = none ∨ g1.current_renderer = some this) →
        ∃ g2, solid_rect g1 this top_left size color = Except.ok g2
          ∧ g2.vertices_flush_count = (g1.vertices_flush_count + 6) % 75000
          ∧ flush_count g2 = flush_count g1 + (g1.vertices_flush_count + 6) / 75000)
    ∧ (∀ g1 : Globals, (flush g1).vertices_flush_count = 0)
    ∧ (∀ (g1 g2 : Globals) (target : RenderVertex), render_vertex g1 target = Except.ok g2 →
        flush_count g2 ≠ flush_count g1 → g2.vertices_flush_count = 0) := by
  refine ⟨?_, ?_, fun g1 => rfl, ?_⟩
  · intro n
    obtain ⟨g', e, k, m, _⟩ := solid_rects_emitted g this args
      (by rw [h0, vertex_cap_eq]; norm_num) ho n
    unfold emitted at m
    rw [vertex_cap_eq] at k m
    rw [h0] at m
    refine ⟨g', e, by omega, by omega, by omega, ?_⟩
    intro hn
    omega
  · intro g1 top_left size color h1 ho1
    obtain ⟨g2, e, k, m, _⟩ := solid_rect_ok g1 this top_left size color h1 ho1
    unfold emitted at m
    rw [vertex_cap_eq] at k m h1
    exact ⟨g2, e, by omega, by omega⟩
  · intro g1 g2 target e hne
    by_cases h1 : g1.vertices_flush_count < vertex_cap
    · obtain ⟨g', e', hcap, hno⟩ := render_vertex_ok g1 target h1
      rw [e] at e'
      have hgg : g2 = g' := Except.ok.inj e'
      subst hgg
      by_cases hc : g1.vertices_flush_count + 1 = vertex_cap
      · exact (hcap hc).1
      · exfalso
        apply hne
        unfold flush_count
        rw [(hno hc).2.1]
    · exfalso
      unfold render_vertex at e
      rw [if_pos h1] at e
      exact Except.noConfusion e

/-- C7 from the initial state, drawn by renderer 0. -/
theorem solid_rect_flush_schedule_witness :
    ∃ g', solid_rects Globals.initial 0 (fun _ => (⟨0, 0⟩, ⟨1, 1⟩, ⟨1, 1, 1, 1⟩)) 12500
        = Except.ok g'
      ∧ g'.vertices_flush_count = 6 * 12500 % 75000
      ∧ flush_count g' = flush_count Globals.initial + 6 * 12500 / 75000
      ∧ (flush_count g' = flush_count Globals.initial ↔ 12500 < 12500)
      ∧ (12500 = 12500 → flush_count g' = flush_count Globals.initial + 1
          ∧ g'.vertices_flush_count = 0) :=
  (solid_rect_flush_schedule Globals.initial 0 (fun _ => (⟨0, 0⟩, ⟨1, 1⟩, ⟨1, 1, 1, 1⟩))
    rfl (Or.inl rfl)).1 12500

end Render

namespace Render

/-! ### Ownership of the staged vertices -/

/-- A quad staged on a buffer that holds whole quads: the six vertices are added and the
owner stays, or the buffer becomes full with the sixth, is flushed and has no owner. -/
theorem render_quad_staged (g : Globals) (p0 p1 p2 p3 : Vec2f) (c0 c1 c2 c3 : Vec4f)
    (uv0 uv1 uv2 uv3 : Vec2f) (h : g.vertices_flush_count < vertex_cap)
    (h6 : g.vertices_flush_count % 6 = 0) :
    ∃ g', render_quad g p0 p1 p2 p3 c0 c1 c2 c3 uv0 uv1 uv2 uv3 = Except.ok g'
      ∧ ((g'.vertices_flush_count = 0 ∧ g'.current_renderer = none)
        ∨ (g'.vertices_flush_count = g.vertices_flush_count + 6
          ∧ g'.vertices_flush_count < vertex_cap
          ∧ g'.current_renderer = g.current_renderer)) := by
  rw [vertex_cap_eq] at h
  obtain ⟨g1, e1, _, n1⟩ := render_vertex_ok g ⟨p0, c0, uv0⟩ (by rw [vertex_cap_eq]; exact h)
  obtain ⟨k1, _, o1⟩ := n1 (by rw [vertex_cap_eq]; omega)
  obtain ⟨g2, e2, _, n2⟩ := render_vertex_ok g1 ⟨p1, c1, uv1⟩ (by rw [vertex_cap_eq]; omega)
  obtain ⟨k2, _, o2⟩ := n2 (by rw [vertex_cap_eq]; omega)
  obtain ⟨g3, e3, _, n3⟩ := render_vertex_ok g2 ⟨p2, c2, uv2⟩ (by rw [vertex_cap_eq]; omega)
  obtain ⟨k3, _, o3⟩ := n3 (by rw [vertex_cap_eq]; omega)
  obtain ⟨g4, e4, _, n4⟩ := render_vertex_ok g3 ⟨p1, c1, uv1⟩ (by rw [vertex_cap_eq]; omega)
  obtain ⟨k4, _, o4⟩ := n4 (by rw [vertex_cap_eq]; omega)
  obtain ⟨g5, e5, _, n5⟩ := render_vertex_ok g4 ⟨p2, c2, uv2⟩ (by rw [vertex_cap_eq]; omega)
  obtain ⟨k5, _, o5⟩ := n5 (by rw [vertex_cap_eq]; omega)
  obtain ⟨g6, e6, c6, n6⟩ := render_vertex_ok g5 ⟨p3, c3, uv3⟩ (by rw [vertex_cap_eq]; omega)
  refine ⟨g6, ?_, ?_⟩
  · simp only [render_quad, render_triangle, e1, e2, e3, e4, e5, e6, bind, Except.bind]
  · by_cases hc : g5.vertices_flush_count + 1 = vertex_cap
    · exact Or.inl ⟨(c6 hc).1, (c6 hc).2.2⟩
    · obtain ⟨k6, _, o6⟩ := n6 hc
      right
      rw [vertex_cap_eq] at hc ⊢
      refine ⟨by omega, by omega, ?_⟩
      rw [o6, o5, o4, o3, o2, o1]

/-- The buffer holds whole quads, below the capacity, and has an owner when it is not
empty. -/
theorem solid_rect_staged (g : Globals) (this : Nat) (top_left size : Vec2f) (color : Vec4f)
    (g' : Globals) (h : g.vertices_flush_count < vertex_cap)
    (h6 : g.vertices_flush_count % 6 = 0)
    (he : solid_rect g this top_left size color = Except.ok g') :
    g'.vertices_flush_count < vertex_cap ∧ g'.vertices_flush_count % 6 = 0
      ∧ (0 < g'.vertices_flush_count → g'.current_renderer = some this) := by
  unfold solid_rect at he
  cases hc : claim_buffer g this with
  | error e =>
    rw [hc] at he
    exact Except.noConfusion he
  | ok g1 =>
    rw [hc] at he
    obtain ⟨q1, _, q3⟩ := (claim_buffer_error g this AssertFailure.ownership g1).2 hc
    obtain ⟨g2, e2, hcase⟩ := render_quad_staged g1
      top_left (top_left + ⟨size.x, 0⟩) (top_left + ⟨0, size.y⟩) (top_left + size)
      color color color color ⟨-1, 1⟩ ⟨1, 1⟩ ⟨-1, -1⟩ ⟨1, -1⟩ (by rw [q1]; exact h)
      (by rw [q1]; exact h6)
    simp only [bind, Except.bind] at he
    rw [e2] at he
    cases he
    rcases hcase with ⟨z, _⟩ | ⟨k, hk, o⟩
    · rw [z, vertex_cap_eq]
      exact ⟨by norm_num, rfl, fun hpos => absurd hpos (lt_irrefl 0)⟩
    · exact ⟨hk, by rw [k, q1]; omega, fun _ => by rw [o, q3]⟩

theorem render_image_staged (g : Globals) (this : Nat) (pos size uv_pos uv_size : Vec2f)
    (color : Vec4f) (g' : Globals) (h : g.vertices_flush_count < vertex_cap)
    (h6 : g.vertices_flush_count % 6 = 0)
    (he : render_image g this pos size uv_pos uv_size color = Except.ok g') :
    g'.vertices_flush_count < vertex_cap ∧ g'.vertices_flush_count % 6 = 0
      ∧ (0 < g'.vertices_flush_count → g'.current_renderer = some this) := by
  unfold render_image at he
  cases hc : claim_buffer g this with
  | error e =>
    rw [hc] at he
    exact Except.noConfusion he
  | ok g1 =>
    rw [hc] at he
    obtain ⟨q1, _, q3⟩ := (claim_buffer_error g this AssertFailure.ownership g1).2 hc
    obtain ⟨g2, e2, hcase⟩ := render_quad_staged g1
      pos (pos + ⟨size.x, 0⟩) (pos + ⟨0, size.y⟩) (pos + size)
      color color color color
      uv_pos (uv_pos + ⟨uv_size.x, 0⟩) (uv_pos + ⟨0, uv_size.y⟩) (uv_pos + uv_size)
      (by rw [q1]; exact h) (by rw [q1]; exact h6)
    simp only [bind, Except.bind] at he
    rw [e2] at he
    cases he
    rcases hcase with ⟨z, _⟩ | ⟨k, hk, o⟩
    · rw [z, vertex_cap_eq]
      exact ⟨by norm_num, rfl, fun hpos => absurd hpos (lt_irrefl 0)⟩
    · exact ⟨hk, by rw [k, q1]; omega, fun _ => by rw [o, q3]⟩

theorem strike_rect_staged (g : Globals) (this : Nat) (top_left size : Vec2f) (thickness : ℚ)
    (color : Vec4f) (g' : Globals) (h : g.vertices_flush_count < vertex_cap)
    (h6 : g.vertices_flush_count % 6 = 0)
    (he : strike_rect g this top_left size thickness color = Except.ok g') :
    g'.vertices_flush_count < vertex_cap ∧ g'.vertices_flush_count % 6 = 0
      ∧ (0 < g'.vertices_flush_count → g'.current_renderer = some this) := by
  unfold strike_rect at he
  simp only [bind, Except.bind] at he
  cases e1 : solid_rect g this top_left { size with y := thickness } color with
  | error e => rw [e1] at he; exact Except.noConfusion he
  | ok g1 =>
    rw [e1] at he
    obtain ⟨a1, b1, _⟩ := solid_rect_staged g this _ _ color g1 h h6 e1
    simp only [] at he
    cases e2 : solid_rect g1 this { top_left with y := top_left.y + size.y - thickness }
        { size with y := thickness } color with
    | error e => rw [e2] at he; exact Except.noConfusion he
    | ok g2 =>
      rw [e2] at he
      obtain ⟨a2, b2, _⟩ := solid_rect_staged g1 this _ _ color g2 a1 b1 e2
      simp only [] at he
      cases e3 : solid_rect g2 this { x := top_left.x, y := top_left.y + thickness }
          { x := thickness, y := size.y - thickness * 2 } color with
      | error e => rw [e3] at he; exact Except.noConfusion he
      | ok g3 =>
        rw [e3] at he
        obtain ⟨a3, b3, _⟩ := solid_rect_staged g2 this _ _ color g3 a2 b2 e3
        simp only [] at he
        exact solid_rect_staged g3 this _ _ color g' a3 b3 he

/-- Every drawing operation keeps the buffer at whole quads below the capacity, with an
owner when it is not empty. -/
theorem apply_staged (op : DrawOp) (g g' : Globals) (h : g.vertices_flush_count < vertex_cap)
    (h6 : g.vertices_flush_count % 6 = 0) (he : op.apply g = Except.ok g') :
    g'.vertices_flush_count < vertex_cap ∧ g'.vertices_flush_count % 6 = 0
      ∧ (0 < g'.vertices_flush_count → g'.current_renderer = some op.renderer) := by
  cases op with
  | solid_rect this top_left size color =>
    exact solid_rect_staged g this top_left size color g' h h6 he
  | render_image this pos size uv_pos uv_size color =>
    exact render_image_staged g this pos size uv_pos uv_size color g' h h6 he
  | strike_rect this top_left size thickness color =>
    exact strike_rect_staged g this top_left size thickness color g' h h6 he
  | solid_circle this center radius color =>
    exact solid_rect_staged g this _ _ color g' h h6 he
  | line this a b thickness color =>
    obtain ⟨g1, e, k, _⟩ := line_ok g a b color h
    have he' : line g a b color = Except.ok g' := he
    rw [e] at he'
    cases he'
    rw [k, vertex_cap_eq]
    exact ⟨by norm_num, rfl, fun hpos => absurd hpos (lt_irrefl 0)⟩
  | flush this =>
    have he' : Except.ok (flush g) = (Except.ok g' : Except AssertFailure Globals) := he
    cases he'
    rw [flush_vertices_flush_count, vertex_cap_eq]
    exact ⟨by norm_num, rfl, fun hpos => absurd hpos (lt_irrefl 0)⟩

theorem run_ops_staged (ops : List DrawOp) :
    ∀ g g' : Globals, g.vertices_flush_count < vertex_cap → g.vertices_flush_count % 6 = 0 →
      (0 < g.vertices_flush_count → ∃ owner, g.current_renderer = some owner) →
      run_ops g ops = Except.ok g' →
      g'.vertices_flush_count < vertex_cap ∧ g'.vertices_flush_count % 6 = 0
        ∧ (0 < g'.vertices_flush_count → ∃ owner, g'.current_renderer = some owner) := by
  induction ops with
  | nil =>
    intro g g' h h6 ho he
    cases he
    exact ⟨h, h6, ho⟩
  | cons op rest ih =>
    intro g g' h h6 ho he
    unfold run_ops at he
    cases e1 : op.apply g with
    | error e => rw [e1] at he; exact Except.noConfusion he
    | ok g1 =>
      rw [e1] at he
      obtain ⟨a1, b1, c1⟩ := apply_staged op g g1 h h6 e1
      exact ih g1 g' a1 b1 (fun hpos => ⟨_, c1 hpos⟩) he

theorem solid_rect_refused (g : Globals) (a b : Nat) (top_left size : Vec2f) (color : Vec4f)
    (ho : g.current_renderer = some a) (hne : b ≠ a) :
    solid_rect g b top_left size color = Except.error AssertFailure.ownership := by
  have : ¬ (g.current_renderer = none ∨ g.current_renderer = some b) := by
    rw [ho]
    rintro (h | h)
    · exact Option.noConfusion h
    · exact hne (Option.some.inj h).symm
  simp only [solid_rect, claim_buffer, if_neg this, bind, Except.bind]

/-- C20: in every state reached from the initial state by drawing calls, a buffer that
is not empty has an owner in `current_renderer`. When instance `a` owns the buffer, a
call of `solid_rect`, `render_image`, `strike_rect` or `solid_circle` by another
instance stops at the ownership assertion. After `flush` the buffer is empty and has no
owner, and every drawing call of every instance runs to its end. The method `line` has
no ownership assertion: called by instance 2 after a `solid_rect` of instance 1, it
returns, and the six vertices of instance 1 are drawn with its two as one line strip of
eight vertices and discarded. -/
theorem ownership_assertion :
    (∀ (ops : List DrawOp) (g : Globals), run_ops Globals.initial ops = Except.ok g →
      0 < g.vertices_flush_count → ∃ owner, g.current_renderer = some owner)
    ∧ (∀ (g : Globals) (a b : Nat), g.current_renderer = some a → b ≠ a →
      (∀ top_left size color,
        solid_rect g b top_left size color = Except.error AssertFailure.ownership)
      ∧ (∀ pos size uv_pos uv_size color,
        render_image g b pos size uv_pos uv_size color = Except.error AssertFailure.ownership)
      ∧ (∀ top_left size thickness color,
        strike_rect g b top_left size thickness color = Except.error AssertFailure.ownership)
      ∧ (∀ center radius color,
        solid_circle g b center radius color = Except.error AssertFailure.ownership))
    ∧ (∀ (g : Globals) (op : DrawOp), g.vertices_flush_count < vertex_cap →
      (flush g).vertices_flush_count = 0 ∧ (flush g).current_renderer = none
      ∧ ∃ g', op.apply (flush g) = Except.ok g')
    ∧ (run_ops Globals.initial
          [DrawOp.solid_rect 1 ⟨0, 0⟩ ⟨1, 1⟩ ⟨1, 1, 1, 1⟩,
            DrawOp.line 2 ⟨0, 0⟩ ⟨1, 1⟩ 1 ⟨1, 1, 1, 1⟩]).toOption.map
        (fun g => (g.vertices_flush_count, g.current_renderer,
          g.draw_calls.map (fun d => (d.mode, d.count))))
      = some (0, none, [(Primitive.LineStrip, 8)]) := by
  refine ⟨?_, ?_, ?_, by decide!⟩
  · intro ops g he hpos
    exact (run_ops_staged ops Globals.initial g (by rw [vertex_cap_eq]; exact Nat.zero_lt_succ _)
      rfl (fun h => absurd h (lt_irrefl 0)) he).2.2 hpos
  · intro g a b ho hne
    refine ⟨fun tl size color => solid_rect_refused g a b tl size color ho hne, ?_, ?_,
      fun center radius color => solid_rect_refused g a b _ _ color ho hne⟩
    · intro pos size uv_pos uv_size color
      have : ¬ (g.current_renderer = none ∨ g.current_renderer = some b) := by
        rw [ho]
        rintro (h | h)
        · exact Option.noConfusion h
        · exact hne (Option.some.inj h).symm
      simp only [render_image, claim_buffer, if_neg this, bind, Except.bind]
    · intro tl size thickness color
      unfold strike_rect
      simp only [bind, Except.bind]
      rw [solid_rect_refused g a b _ _ color ho hne]
  · intro g op _
    obtain ⟨g', e, _⟩ := apply_ok op (flush g)
      (by rw [flush_vertices_flush_count, vertex_cap_eq]; norm_num) (Or.inl rfl)
    exact ⟨rfl, rfl, g', e⟩

/-- The C20 theorem at a `solid_rect` of instance 2 after a `solid_rect` of instance 1:
the run stops at the ownership assertion. -/
theorem ownership_assertion_witness :
    (∃ g, run_ops Globals.initial [DrawOp.solid_rect 1 ⟨0, 0⟩ ⟨1, 1⟩ ⟨1, 1, 1, 1⟩]
        = Except.ok g
      ∧ g.current_renderer = some 1
      ∧ solid_rect g 2 ⟨0, 0⟩ ⟨1, 1⟩ ⟨1, 1, 1, 1⟩ = Except.error AssertFailure.ownership) := by
  obtain ⟨g, e, _⟩ := run_ops_ok 1 [DrawOp.solid_rect 1 ⟨0, 0⟩ ⟨1, 1⟩ ⟨1, 1, 1, 1⟩]
    (by simp [DrawOp.renderer]) Globals.initial (by decide) (Or.inl rfl)
  have ho : g.current_renderer = some 1 := by
    have h : (run_ops Globals.initial
        [DrawOp.solid_rect 1 ⟨0, 0⟩ ⟨1, 1⟩ ⟨1, 1, 1, 1⟩]).toOption.map
          (fun g => g.current_renderer) = some (some 1) := by decide!
    rw [e] at h
    exact Option.some.inj h
  exact ⟨g, e, ho,
    (ownership_assertion.2.1 g 1 2 ho (by decide)).1 ⟨0, 0⟩ ⟨1, 1⟩ ⟨1, 1, 1, 1⟩⟩

end Render

namespace Render

/-! ### What the drawing calls stage and draw -/

theorem bind_ok {α β : Type} (r : Except AssertFailure α) (f : α → Except AssertFailure β)
    (b : β) (h : (r >>= f) = Except.ok b) : ∃ a, r = Except.ok a ∧ f a = Except.ok b := by
  cases r with
  | error e => exact Except.noConfusion h
  | ok a => exact ⟨a, rfl, h⟩

/-- The function `render_vertex` below the capacity: the vertex is stored and counted,
and the buffer is flushed when the count has reached the capacity. -/
theorem render_vertex_eq (g : Globals) (target : RenderVertex)
    (h : g.vertices_flush_count < vertex_cap) :
    render_vertex g target
      = Except.ok
          (if g.vertices_flush_count + 1 = vertex_cap then
            flush { g with vertices := Function.update g.vertices g.vertices_flush_count target
                           vertices_flush_count := g.vertices_flush_count + 1 }
          else
            { g with vertices := Function.update g.vertices g.vertices_flush_count target
                     vertices_flush_count := g.vertices_flush_count + 1 }) := by
  unfold render_vertex
  rw [if_neg (not_not.2 h)]
  by_cases hc : g.vertices_flush_count + 1 = vertex_cap
  · have hm : (g.vertices_flush_count + 1) % vertex_cap = 0 := by rw [hc, Nat.mod_self]
    rw [if_pos hc]
    simp only [hm, ne_eq, not_true_eq_false, decide_False, cullers, Bool.false_eq_true,
      if_false, cull_vertices]
  · have hm : (g.vertices_flush_count + 1) % vertex_cap ≠ 0 := by
      rw [vertex_cap_eq] at h hc ⊢; omega
    rw [if_neg hc]
    simp only [ne_eq, hm, not_false_eq_true, decide_True, cullers, if_true, dummy_cull]

theorem staged_push (g : Globals) (target : RenderVertex) :
    staged { g with vertices := Function.update g.vertices g.vertices_flush_count target
                    vertices_flush_count := g.vertices_flush_count + 1 }
      = staged g ++ [target] := by
  unfold staged
  simp only [List.range_succ, List.map_append, List.map_cons, List.map_nil,
    Function.update_same]
  congr 1
  apply List.map_congr_left
  intro i hi
  have : i ≠ g.vertices_flush_count := by
    have := List.mem_range.1 hi
    omega
  rw [Function.update_noteq this]

/-- A vertex staged with room to spare. -/
theorem render_vertex_room (g : Globals) (target : RenderVertex)
    (h : g.vertices_flush_count + 1 < vertex_cap) :
    ∃ g', render_vertex g target = Except.ok g'
      ∧ staged g' = staged g ++ [target]
      ∧ g'.vertices_flush_count = g.vertices_flush_count + 1
      ∧ g'.draw_calls = g.draw_calls ∧ g'.current_renderer = g.current_renderer
      ∧ g'.vbo = g.vbo := by
  rw [render_vertex_eq g target (by omega), if_neg (by omega)]
  exact ⟨_, rfl, staged_push g target, rfl, rfl, rfl, rfl⟩

theorem mem_draw_arrays (mode : Primitive) (g : Globals) (d : DrawCall) :
    d ∈ (draw_arrays mode g).draw_calls
      ↔ d ∈ g.draw_calls
        ∨ d = { mode := mode, count := g.vertices_flush_count,
                data := (List.range g.vertices_flush_count).map g.vbo } := by
  unfold draw_arrays
  simp only [List.mem_append, List.mem_singleton]

theorem render_vertex_whole (g g' : Globals) (target : RenderVertex)
    (he : render_vertex g target = Except.ok g') (hw : whole_quads_drawn g) :
    whole_quads_drawn g' := by
  by_cases h : g.vertices_flush_count < vertex_cap
  · rw [render_vertex_eq g target h] at he
    simp only [Except.ok.injEq] at he
    by_cases hc : g.vertices_flush_count + 1 = vertex_cap
    · rw [if_pos hc] at he
      rw [← he]
      intro d hd hm
      have hd' : d ∈ (draw_arrays Primitive.Triangles (populate_buffer
          { g with vertices := Function.update g.vertices g.vertices_flush_count target,
                   vertices_flush_count := g.vertices_flush_count + 1 })).draw_calls := hd
      rcases (mem_draw_arrays _ _ _).1 hd' with h1 | h1
      · exact hw d h1 hm
      · rw [h1]
        show (g.vertices_flush_count + 1) % 6 = 0
        rw [hc, vertex_cap_eq]
    · rw [if_neg hc] at he
      rw [← he]
      exact hw
  · unfold render_vertex at he
    rw [if_pos h] at he
    exact Except.noConfusion he

theorem render_quad_whole (g g' : Globals) (p0 p1 p2 p3 : Vec2f) (c0 c1 c2 c3 : Vec4f)
    (uv0 uv1 uv2 uv3 : Vec2f)
    (he : render_quad g p0 p1 p2 p3 c0 c1 c2 c3 uv0 uv1 uv2 uv3 = Except.ok g')
    (hw : whole_quads_drawn g) : whole_quads_drawn g' := by
  unfold render_quad render_triangle at he
  obtain ⟨g3, e3, he⟩ := bind_ok _ _ _ he
  obtain ⟨g1, e1, e3⟩ := bind_ok _ _ _ e3
  obtain ⟨g2, e2, e3⟩ := bind_ok _ _ _ e3
  obtain ⟨g4, e4, he⟩ := bind_ok _ _ _ he
  obtain ⟨g5, e5, he⟩ := bind_ok _ _ _ he
  exact render_vertex_whole _ _ _ he (render_vertex_whole _ _ _ e5
    (render_vertex_whole _ _ _ e4 (render_vertex_whole _ _ _ e3
      (render_vertex_whole _ _ _ e2 (render_vertex_whole _ _ _ e1 hw)))))

theorem claim_buffer_whole (g g' : Globals) (this : Nat)
    (he : claim_buffer g this = Except.ok g') (hw : whole_quads_drawn g) :
    whole_quads_drawn g' := by
  unfold claim_buffer at he
  split_ifs at he
  cases he
  exact hw

theorem solid_rect_whole (g g' : Globals) (this : Nat) (top_left size : Vec2f) (color : Vec4f)
    (he : solid_rect g this top_left size color = Except.ok g') (hw : whole_quads_drawn g) :
    whole_quads_drawn g' := by
  unfold solid_rect at he
  obtain ⟨g1, e1, he⟩ := bind_ok _ _ _ he
  exact render_quad_whole _ _ _ _ _ _ _ _ _ _ _ _ _ _ he (claim_buffer_whole g g1 this e1 hw)

theorem render_image_whole (g g' : Globals) (this : Nat) (pos size uv_pos uv_size : Vec2f)
    (color : Vec4f) (he : render_image g this pos size uv_pos uv_size color = Except.ok g')
    (hw : whole_quads_drawn g) : whole_quads_drawn g' := by
  unfold render_image at he
  obtain ⟨g1, e1, he⟩ := bind_ok _ _ _ he
  exact render_quad_whole _ _ _ _ _ _ _ _ _ _ _ _ _ _ he (claim_buffer_whole g g1 this e1 hw)

theorem strike_rect_whole (g g' : Globals) (this : Nat) (top_left size : Vec2f)
    (thickness : ℚ) (color : Vec4f)
    (he : strike_rect g this top_left size thickness color = Except.ok g')
    (hw : whole_quads_drawn g) : whole_quads_drawn g' := by
  unfold strike_rect at he
  obtain ⟨g1, e1, he⟩ := bind_ok _ _ _ he
  obtain ⟨g2, e2, he⟩ := bind_ok _ _ _ he
  obtain ⟨g3, e3, he⟩ := bind_ok _ _ _ he
  exact solid_rect_whole _ _ _ _ _ _ he (solid_rect_whole _ _ _ _ _ _ e3
    (solid_rect_whole _ _ _ _ _ _ e2 (solid_rect_whole _ _ _ _ _ _ e1 hw)))

theorem line_whole (g g' : Globals) (a b : Vec2f) (color : Vec4f)
    (he : line g a b color = Except.ok g') (hw : whole_quads_drawn g) :
    whole_quads_drawn g' := by
  unfold line at he
  obtain ⟨g1, e1, he⟩ := bind_ok _ _ _ he
  obtain ⟨g2, e2, he⟩ := bind_ok _ _ _ he
  have h2 := render_vertex_whole _ _ _ e2 (render_vertex_whole _ _ _ e1 hw)
  simp only [pure, Except.pure, Except.ok.injEq] at he
  rw [← he]
  intro d hd hm
  have hd' : d ∈ (draw_arrays Primitive.LineStrip (populate_buffer g2)).draw_calls := hd
  rcases (mem_draw_arrays _ _ _).1 hd' with h1 | h1
  · exact h2 d h1 hm
  · rw [h1] at hm
    exact Primitive.noConfusion hm

theorem flush_whole (g : Globals) (h6 : g.vertices_flush_count % 6 = 0)
    (hw : whole_quads_drawn g) : whole_quads_drawn (flush g) := by
  intro d hd hm
  have hd' : d ∈ (draw_arrays Primitive.Triangles (populate_buffer g)).draw_calls := hd
  rcases (mem_draw_arrays _ _ _).1 hd' with h1 | h1
  · exact hw d h1 hm
  · rw [h1]
    exact h6

theorem apply_whole (op : DrawOp) (g g' : Globals) (h6 : g.vertices_flush_count % 6 = 0)
    (he : op.apply g = Except.ok g') (hw : whole_quads_drawn g) : whole_quads_drawn g' := by
  cases op with
  | solid_rect this top_left size color => exact solid_rect_whole _ _ _ _ _ _ he hw
  | render_image this pos size uv_pos uv_size color =>
    exact render_image_whole _ _ _ _ _ _ _ _ he hw
  | strike_rect this top_left size thickness color =>
    exact strike_rect_whole _ _ _ _ _ _ _ he hw
  | solid_circle this center radius color => exact solid_rect_whole _ _ _ _ _ _ he hw
  | line this a b thickness color => exact line_whole _ _ _ _ _ he hw
  | flush this =>
    have he' : Except.ok (flush g) = (Except.ok g' : Except AssertFailure Globals) := he
    cases he'
    exact flush_whole g h6 hw

theorem run_ops_whole (ops : List DrawOp) :
    ∀ g g' : Globals, g.vertices_flush_count < vertex_cap → g.vertices_flush_count % 6 = 0 →
      whole_quads_drawn g → run_ops g ops = Except.ok g' → whole_quads_drawn g' := by
  induction ops with
  | nil =>
    intro g g' _ _ hw he
    cases he
    exact hw
  | cons op rest ih =>
    intro g g' h h6 hw he
    unfold run_ops at he
    cases e1 : op.apply g with
    | error e => rw [e1] at he; exact Except.noConfusion he
    | ok g1 =>
      rw [e1] at he
      obtain ⟨a1, b1, _⟩ := apply_staged op g g1 h h6 e1
      exact ih g1 g' a1 b1 (apply_whole op g g1 h6 e1 hw) he

/-- C27: along every sequence of `solid_rect`, `render_image`, `strike_rect`,
`solid_circle`, `line` and `flush` calls from the initial state, every triangle-list
draw call, whether issued by an explicit `flush` or by the flush at capacity, submits a
vertex count divisible by 6, hence by 3; between the calls the buffer holds a number of
vertices divisible by 6, so whole quads; and a flush at capacity submits `vertex_cap`
vertices, which is divisible by 6. -/
theorem triangle_draws_whole (ops : List DrawOp) (g : Globals)
    (h : run_ops Globals.initial ops = Except.ok g) :
    (∀ d ∈ g.draw_calls, d.mode = Primitive.Triangles → d.count % 6 = 0 ∧ d.count % 3 = 0)
    ∧ g.vertices_flush_count % 6 = 0
    ∧ vertex_cap % 6 = 0
    ∧ ∀ (target : RenderVertex) (g' : Globals),
        g.vertices_flush_count + 1 = vertex_cap → render_vertex g target = Except.ok g' →
        g'.draw_calls.map (fun d => (d.mode, d.count))
          = g.draw_calls.map (fun d => (d.mode, d.count)) ++ [(Primitive.Triangles, vertex_cap)] := by
  have h0 : Globals.initial.vertices_flush_count < vertex_cap := by
    rw [vertex_cap_eq]; exact Nat.zero_lt_succ _
  have hw := run_ops_whole ops Globals.initial g h0 rfl
    (fun d hd => absurd hd (List.not_mem_nil d)) h
  obtain ⟨_, h6, _⟩ := run_ops_staged ops Globals.initial g h0 rfl
    (fun hp => absurd hp (lt_irrefl 0)) h
  refine ⟨fun d hd hm => ⟨hw d hd hm, ?_⟩, h6, by rw [vertex_cap_eq], ?_⟩
  · have := hw d hd hm
    omega
  · intro target g' hc he
    rw [render_vertex_eq g target (by omega), if_pos hc] at he
    simp only [Except.ok.injEq] at he
    rw [← he]
    show List.map (fun d => (d.mode, d.count))
        (draw_arrays Primitive.Triangles (populate_buffer
          { g with vertices := Function.update g.vertices g.vertices_flush_count target,
                   vertices_flush_count := g.vertices_flush_count + 1 })).draw_calls = _
    unfold draw_arrays
    simp only []
    rw [List.map_append, hc]
    rfl

/-- The C27 theorem at a `solid_rect`, an explicit `flush`, a `line` and a
`strike_rect`: the one triangle-list draw call has 6 vertices. -/
theorem triangle_draws_whole_witness :
    ∃ g, run_ops Globals.initial
          [DrawOp.solid_rect 1 ⟨0, 0⟩ ⟨1, 1⟩ ⟨1, 1, 1, 1⟩, DrawOp.flush 1,
            DrawOp.line 1 ⟨0, 0⟩ ⟨1, 1⟩ 1 ⟨1, 1, 1, 1⟩,
            DrawOp.strike_rect 1 ⟨0, 0⟩ ⟨4, 4⟩ 1 ⟨1, 1, 1, 1⟩] = Except.ok g
      ∧ g.draw_calls.map (fun d => (d.mode, d.count))
          = [(Primitive.Triangles, 6), (Primitive.LineStrip, 2)]
      ∧ ∀ d ∈ g.draw_calls, d.mode = Primitive.Triangles → d.count % 6 = 0 ∧ d.count % 3 = 0 := by
  obtain ⟨g, e, _⟩ := run_ops_ok 1
    [DrawOp.solid_rect 1 ⟨0, 0⟩ ⟨1, 1⟩ ⟨1, 1, 1, 1⟩, DrawOp.flush 1,
      DrawOp.line 1 ⟨0, 0⟩ ⟨1, 1⟩ 1 ⟨1, 1, 1, 1⟩,
      DrawOp.strike_rect 1 ⟨0, 0⟩ ⟨4, 4⟩ 1 ⟨1, 1, 1, 1⟩]
    (by simp [DrawOp.renderer]) Globals.initial (by decide) (Or.inl rfl)
  have hcalls : (run_ops Globals.initial
      [DrawOp.solid_rect 1 ⟨0, 0⟩ ⟨1, 1⟩ ⟨1, 1, 1, 1⟩, DrawOp.flush 1,
        DrawOp.line 1 ⟨0, 0⟩ ⟨1, 1⟩ 1 ⟨1, 1, 1, 1⟩,
        DrawOp.strike_rect 1 ⟨0, 0⟩ ⟨4, 4⟩ 1 ⟨1, 1, 1, 1⟩]).toOption.map
        (fun g => g.draw_calls.map (fun d => (d.mode, d.count)))
      = some [(Primitive.Triangles, 6), (Primitive.LineStrip, 2)] := by decide!
  rw [e] at hcalls
  exact ⟨g, e, Option.some.inj hcalls, (triangle_draws_whole _ g e).1⟩

/-! ### The draw call of `line` -/

theorem populate_buffer_data (g : Globals) :
    (List.range g.vertices_flush_count).map (populate_buffer g).vbo = staged g := by
  unfold staged populate_buffer
  apply List.map_congr_left
  intro i hi
  simp only [List.mem_range.1 hi, if_true]

/-- The method `line` with room for its two vertices: they are staged behind the
vertices already in the buffer, and the whole buffer is drawn as one line strip. -/
theorem line_room (g : Globals) (a b : Vec2f) (color : Vec4f)
    (h : g.vertices_flush_count + 2 < vertex_cap) :
    ∃ g', line g a b color = Except.ok g'
      ∧ g'.draw_calls
        = g.draw_calls ++
          [{ mode := Primitive.LineStrip, count := g.vertices_flush_count + 2,
             data := staged g ++ [⟨a, color, ⟨0, 0⟩⟩, ⟨b, color, ⟨0, 0⟩⟩] }]
      ∧ g'.vertices_flush_count = 0 ∧ g'.current_renderer = none := by
  obtain ⟨g1, e1, s1, k1, d1, _, _⟩ := render_vertex_room g ⟨a, color, ⟨0, 0⟩⟩ (by omega)
  obtain ⟨g2, e2, s2, k2, d2, _, _⟩ := render_vertex_room g1 ⟨b, color, ⟨0, 0⟩⟩ (by omega)
  refine ⟨{ draw_arrays Primitive.LineStrip (populate_buffer g2) with
      vertices_flush_count := 0, current_renderer := none }, ?_, ?_, rfl, rfl⟩
  · simp only [line, e1, e2, bind, Except.bind, pure, Except.pure]
  · show g2.draw_calls ++
        [{ mode := Primitive.LineStrip, count := g2.vertices_flush_count,
           data := (List.range g2.vertices_flush_count).map (populate_buffer g2).vbo }] = _
    rw [populate_buffer_data, s2, s1, d2, d1, k2, k1, List.append_assoc]
    rfl

/-- C21: with room for two vertices, `line` returns, has staged `a` and `b` with the
given colour behind the vertices that were in the buffer, has issued exactly one draw
call, a line strip over the whole buffer, and leaves the buffer empty and without
owner; on an empty buffer the line strip covers exactly the 2 vertices `a` and `b`.
On a buffer that is not empty the line strip covers the staged vertices too: after a
`solid_rect`, the `line` of the same renderer draws one line strip of 8 vertices, the
six of the rectangle first, and no triangle-list draw call is ever issued for them. -/
theorem line_draw_call :
    (∀ (g : Globals) (a b : Vec2f) (color : Vec4f), g.vertices_flush_count + 2 < vertex_cap →
      ∃ g', line g a b color = Except.ok g'
        ∧ g'.draw_calls
          = g.draw_calls ++
            [{ mode := Primitive.LineStrip, count := g.vertices_flush_count + 2,
               data := staged g ++ [⟨a, color, ⟨0, 0⟩⟩, ⟨b, color, ⟨0, 0⟩⟩] }]
        ∧ g'.vertices_flush_count = 0 ∧ g'.current_renderer = none)
    ∧ (∀ (g : Globals) (a b : Vec2f) (color : Vec4f), g.vertices_flush_count = 0 →
      ∃ g', line g a b color = Except.ok g'
        ∧ g'.draw_calls
          = g.draw_calls ++
            [{ mode := Primitive.LineStrip, count := 2,
               data := [⟨a, color, ⟨0, 0⟩⟩, ⟨b, color, ⟨0, 0⟩⟩] }]
        ∧ g'.vertices_flush_count = 0)
    ∧ (run_ops Globals.initial
          [DrawOp.solid_rect 1 ⟨0, 0⟩ ⟨1, 1⟩ ⟨1, 1, 1, 1⟩,
            DrawOp.line 1 ⟨5, 5⟩ ⟨7, 7⟩ 1 ⟨1, 1, 1, 1⟩]).toOption.map
        (fun g => (g.vertices_flush_count,
          g.draw_calls.map (fun d => (d.mode, d.count, d.data.map (fun v => v.pos)))))
      = some (0, [(Primitive.LineStrip, 8,
          [⟨0, 0⟩, ⟨1, 0⟩, ⟨0, 1⟩, ⟨1, 0⟩, ⟨0, 1⟩, ⟨1, 1⟩, ⟨5, 5⟩, ⟨7, 7⟩])]) := by
  refine ⟨line_room, ?_, by decide!⟩
  intro g a b color h0
  obtain ⟨g', e, d, k, _⟩ := line_room g a b color (by rw [h0, vertex_cap_eq]; norm_num)
  refine ⟨g', e, ?_, k⟩
  rw [d, h0]
  have : staged g = [] := by
    unfold staged
    rw [h0]
    rfl
  rw [this]
  rfl

/-- The C21 theorem at the initial state: the line from (5, 5) to (7, 7) gives one line
strip of two vertices. -/
theorem line_draw_call_witness :
    ∃ g', line Globals.initial ⟨5, 5⟩ ⟨7, 7⟩ ⟨1, 1, 1, 1⟩ = Except.ok g'
      ∧ g'.draw_calls
        = Globals.initial.draw_calls ++
          [{ mode := Primitive.LineStrip, count := 2,
             data := [⟨⟨5, 5⟩, ⟨1, 1, 1, 1⟩, ⟨0, 0⟩⟩, ⟨⟨7, 7⟩, ⟨1, 1, 1, 1⟩, ⟨0, 0⟩⟩] }]
      ∧ g'.vertices_flush_count = 0 :=
  line_draw_call.2.1 Globals.initial ⟨5, 5⟩ ⟨7, 7⟩ ⟨1, 1, 1, 1⟩ rfl

/-! ### The outline of `strike_rect` -/

/-- A `solid_rect` with room for its six vertices stages the quad of the rectangle. -/
theorem solid_rect_room (g : Globals) (this : Nat) (top_left size : Vec2f) (color : Vec4f)
    (h : g.vertices_flush_count + 6 < vertex_cap)
    (ho : g.current_renderer = none ∨ g.current_renderer = some this) :
    ∃ g', solid_rect g this top_left size color = Except.ok g'
      ∧ staged g' = staged g ++
          [⟨top_left, color, ⟨-1, 1⟩⟩, ⟨top_left + ⟨size.x, 0⟩, color, ⟨1, 1⟩⟩,
           ⟨top_left + ⟨0, size.y⟩, color, ⟨-1, -1⟩⟩, ⟨top_left + ⟨size.x, 0⟩, color, ⟨1, 1⟩⟩,
           ⟨top_left + ⟨0, size.y⟩, color, ⟨-1, -1⟩⟩, ⟨top_left + size, color, ⟨1, -1⟩⟩]
      ∧ g'.vertices_flush_count = g.vertices_flush_count + 6
      ∧ g'.draw_calls = g.draw_calls ∧ g'.current_renderer = some this := by
  have hs : staged { g with current_renderer := some this } = staged g := rfl
  obtain ⟨g1, e1, s1, k1, d1, o1, _⟩ := render_vertex_room { g with current_renderer := some this }
    ⟨top_left, color, ⟨-1, 1⟩⟩ (by show g.vertices_flush_count + 1 < vertex_cap; omega)
  have k1' : g1.vertices_flush_count = g.vertices_flush_count + 1 := k1
  obtain ⟨g2, e2, s2, k2, d2, o2, _⟩ := render_vertex_room g1
    ⟨top_left + ⟨size.x, 0⟩, color, ⟨1, 1⟩⟩ (by omega)
  obtain ⟨g3, e3, s3, k3, d3, o3, _⟩ := render_vertex_room g2
    ⟨top_left + ⟨0, size.y⟩, color, ⟨-1, -1⟩⟩ (by omega)
  obtain ⟨g4, e4, s4, k4, d4, o4, _⟩ := render_vertex_room g3
    ⟨top_left + ⟨size.x, 0⟩, color, ⟨1, 1⟩⟩ (by omega)
  obtain ⟨g5, e5, s5, k5, d5, o5, _⟩ := render_vertex_room g4
    ⟨top_left + ⟨0, size.y⟩, color, ⟨-1, -1⟩⟩ (by omega)
  obtain ⟨g6, e6, s6, k6, d6, o6, _⟩ := render_vertex_room g5
    ⟨top_left + size, color, ⟨1, -1⟩⟩ (by omega)
  refine ⟨g6, ?_, ?_, by omega, ?_, ?_⟩
  · simp only [solid_rect, claim_buffer_ok g this ho, render_quad, render_triangle, bind,
      Except.bind, e1, e2, e3, e4, e5, e6]
  · rw [s6, s5, s4, s3, s2, s1, hs]
    simp only [List.append_assoc, List.cons_append, List.nil_append]
  · rw [d6, d5, d4, d3, d2, d1]
  · rw [o6, o5, o4, o3, o2, o1]

theorem quad_positions (top_left size : Vec2f) (color : Vec4f) :
    List.map (fun v : RenderVertex => v.pos)
        [⟨top_left, color, ⟨-1, 1⟩⟩, ⟨top_left + ⟨size.x, 0⟩, color, ⟨1, 1⟩⟩,
         ⟨top_left + ⟨0, size.y⟩, color, ⟨-1, -1⟩⟩, ⟨top_left + ⟨size.x, 0⟩, color, ⟨1, 1⟩⟩,
         ⟨top_left + ⟨0, size.y⟩, color, ⟨-1, -1⟩⟩, ⟨top_left + size, color, ⟨1, -1⟩⟩]
      = Rect.quad { top_left := top_left, size := size } := rfl

/-- The four rectangles of an outline have pairwise disjoint interiors, and their union
is the rectangle without the interior of the rectangle inset by the thickness. -/
theorem outline_geometry (top_left size : Vec2f) (thickness : ℚ) (h0 : 0 ≤ 2 * thickness)
    (hx : 2 * thickness ≤ size.x) (hy : 2 * thickness ≤ size.y) :
    (outline_rects top_left size thickness).Pairwise
        (fun r s => ∀ p, ¬ (r.interior p ∧ s.interior p))
    ∧ ∀ p : Vec2f,
        (∃ r ∈ outline_rects top_left size thickness, r.mem p)
          ↔ (Rect.mem { top_left := top_left, size := size } p
            ∧ ¬ Rect.interior
                { top_left := ⟨top_left.x + thickness, top_left.y + thickness⟩
                  size := ⟨size.x - 2 * thickness, size.y - 2 * thickness⟩ } p) := by
  constructor
  · simp only [outline_rects, List.pairwise_cons, List.mem_cons, List.mem_singleton,
      List.not_mem_nil, forall_eq_or_imp, forall_eq, Rect.interior, List.Pairwise.nil,
      and_true, false_imp_iff, implies_true]
    refine ⟨⟨?_, ?_, ?_⟩, ⟨?_, ?_⟩, ?_⟩ <;>
    · rintro p ⟨⟨a1, a2, a3, a4⟩, b1, b2, b3, b4⟩
      linarith
  · intro p
    simp only [outline_rects, List.mem_cons, List.mem_singleton, List.not_mem_nil, or_false,
      exists_eq_or_imp, exists_eq_left, Rect.mem, Rect.interior]
    constructor
    · rintro (⟨a1, a2, a3, a4⟩ | ⟨a1, a2, a3, a4⟩ | ⟨a1, a2, a3, a4⟩ | ⟨a1, a2, a3, a4⟩)
      · exact ⟨⟨a1, a2, a3, by linarith⟩, fun ⟨_, _, b3, _⟩ => by linarith⟩
      · exact ⟨⟨a1, a2, by linarith, by linarith⟩, fun ⟨_, _, _, b4⟩ => by linarith⟩
      · exact ⟨⟨a1, by linarith, by linarith, by linarith⟩, fun ⟨b1, _, _, _⟩ => by linarith⟩
      · exact ⟨⟨by linarith, by linarith, by linarith, by linarith⟩,
          fun ⟨_, b2, _, _⟩ => by linarith⟩
    · rintro ⟨⟨a1, a2, a3, a4⟩, hn⟩
      by_cases c1 : p.y ≤ top_left.y + thickness
      · exact Or.inl ⟨a1, a2, a3, c1⟩
      by_cases c2 : top_left.y + size.y - thickness ≤ p.y
      · exact Or.inr (Or.inl ⟨a1, a2, c2, by linarith⟩)
      by_cases c3 : p.x ≤ top_left.x + thickness
      · exact Or.inr (Or.inr (Or.inl ⟨a1, c3, by linarith, by linarith⟩))
      by_cases c4 : top_left.x + size.x - thickness ≤ p.x
      · exact Or.inr (Or.inr (Or.inr ⟨c4, by linarith, by linarith, by linarith⟩))
      · exact absurd ⟨by linarith, by linarith, by linarith, by linarith⟩ hn

/-- A `strike_rect` with room for its 24 vertices stages the quads of the four
rectangles of the outline. -/
theorem strike_rect_room (g : Globals) (this : Nat) (top_left size : Vec2f)
    (thickness : ℚ) (color : Vec4f)
    (hroom : g.vertices_flush_count + 24 < vertex_cap)
    (ho : g.current_renderer = none ∨ g.current_renderer = some this) :
    ∃ g', strike_rect g this top_left size thickness color = Except.ok g'
      ∧ g'.vertices_flush_count = g.vertices_flush_count + 24
      ∧ g'.draw_calls = g.draw_calls
      ∧ (staged g').map (fun v => v.pos)
          = (staged g).map (fun v => v.pos)
            ++ (outline_rects top_left size thickness).flatMap Rect.quad
      ∧ (staged g').map (fun v => v.color)
          = (staged g).map (fun v => v.color) ++ List.replicate 24 color := by
  obtain ⟨g1, e1, s1, k1, d1, o1⟩ := solid_rect_room g this top_left
    { size with y := thickness } color (by omega) ho
  obtain ⟨g2, e2, s2, k2, d2, o2⟩ := solid_rect_room g1 this
    { top_left with y := top_left.y + size.y - thickness } { size with y := thickness }
    color (by omega) (Or.inr o1)
  obtain ⟨g3, e3, s3, k3, d3, o3⟩ := solid_rect_room g2 this
    { x := top_left.x, y := top_left.y + thickness }
    { x := thickness, y := size.y - thickness * 2 } color (by omega) (Or.inr o2)
  obtain ⟨g4, e4, s4, k4, d4, o4⟩ := solid_rect_room g3 this
    { x := top_left.x + size.x - thickness, y := top_left.y + thickness }
    { x := thickness, y := size.y - thickness * 2 } color (by omega) (Or.inr o3)
  refine ⟨g4, ?_, by omega, by rw [d4, d3, d2, d1], ?_, ?_⟩
  · simp only [strike_rect, e1, e2, e3, e4, bind, Except.bind]
  · rw [s4, s3, s2, s1]
    simp only [List.map_append, quad_positions, List.append_assoc]
    rfl
  · rw [s4, s3, s2, s1]
    simp only [List.map_append, List.append_assoc]
    rfl

/-- C25: in exact arithmetic, for every `top_left`, `size` and `thickness` with
`0 ≤ 2 * thickness ≤ min(size.x, size.y)`, `strike_rect` returns and has emitted exactly
24 vertices; with room for them in the buffer they are staged behind the vertices
already there, all of the given colour, and they are the quads of four rectangles.
The interiors of the four rectangles are pairwise disjoint, and their union is the
rectangle `[top_left, top_left + size]` without the interior of the rectangle inset by
`thickness` on every side. -/
theorem strike_rect_outline (g : Globals) (this : Nat) (top_left size : Vec2f)
    (thickness : ℚ) (color : Vec4f)
    (hcap : g.vertices_flush_count < vertex_cap)
    (ho : g.current_renderer = none ∨ g.current_renderer = some this)
    (h0 : 0 ≤ 2 * thickness) (hmin : 2 * thickness ≤ min size.x size.y) :
    ∃ g', strike_rect g this top_left size thickness color = Except.ok g'
      ∧ emitted g' = emitted g + 24
      ∧ (g.vertices_flush_count + 24 < vertex_cap →
          g'.vertices_flush_count = g.vertices_flush_count + 24
          ∧ g'.draw_calls = g.draw_calls
          ∧ (staged g').map (fun v => v.pos)
              = (staged g).map (fun v => v.pos)
                ++ (outline_rects top_left size thickness).flatMap Rect.quad
          ∧ (staged g').map (fun v => v.color)
              = (staged g).map (fun v => v.color) ++ List.replicate 24 color)
      ∧ (outline_rects top_left size thickness).length = 4
      ∧ (outline_rects top_left size thickness).Pairwise
          (fun r s => ∀ p, ¬ (r.interior p ∧ s.interior p))
      ∧ ∀ p : Vec2f,
          (∃ r ∈ outline_rects top_left size thickness, r.mem p)
            ↔ (Rect.mem { top_left := top_left, size := size } p
              ∧ ¬ Rect.interior
                  { top_left := ⟨top_left.x + thickness, top_left.y + thickness⟩
                    size := ⟨size.x - 2 * thickness, size.y - 2 * thickness⟩ } p) := by
  obtain ⟨g', e, _, m, _⟩ := strike_rect_ok g this top_left size thickness color hcap ho
  obtain ⟨geo1, geo2⟩ := outline_geometry top_left size thickness h0
    (le_trans hmin (min_le_left _ _)) (le_trans hmin (min_le_right _ _))
  refine ⟨g', e, m, ?_, rfl, geo1, geo2⟩
  intro hroom
  obtain ⟨g'', e', k, d, sp, sc⟩ := strike_rect_room g this top_left size thickness color
    hroom ho
  rw [e] at e'
  simp only [Except.ok.injEq] at e'
  rw [e']
  exact ⟨k, d, sp, sc⟩

/-- The C25 theorem at the rectangle (0, 0), (10, 6) with thickness 1 on the empty
buffer: the four rectangles are the strips (0, 0) + (10, 1), (0, 5) + (10, 1),
(0, 1) + (1, 4) and (9, 1) + (1, 4). -/
theorem strike_rect_outline_witness :
    outline_rects ⟨0, 0⟩ ⟨10, 6⟩ 1
      = [⟨⟨0, 0⟩, ⟨10, 1⟩⟩, ⟨⟨0, 5⟩, ⟨10, 1⟩⟩, ⟨⟨0, 1⟩, ⟨1, 4⟩⟩, ⟨⟨9, 1⟩, ⟨1, 4⟩⟩]
    ∧ ∃ g', strike_rect Globals.initial 1 ⟨0, 0⟩ ⟨10, 6⟩ 1 ⟨1, 1, 1, 1⟩ = Except.ok g'
      ∧ g'.vertices_flush_count = Globals.initial.vertices_flush_count + 24
      ∧ (staged g').map (fun v => v.pos)
          = (staged Globals.initial).map (fun v => v.pos)
            ++ (outline_rects ⟨0, 0⟩ ⟨10, 6⟩ 1).flatMap Rect.quad := by
  refine ⟨by decide!, ?_⟩
  obtain ⟨g', e, _, hroom, _⟩ := strike_rect_outline Globals.initial 1 ⟨0, 0⟩ ⟨10, 6⟩ 1
    ⟨1, 1, 1, 1⟩ (by decide) (Or.inl rfl) (by decide!) (by decide!)
  obtain ⟨k, _, s, _⟩ := hroom (by decide)
  exact ⟨g', e, k, s⟩

end Render

namespace Render

/-! ### The camera easing -/

theorem vec_add_eq (a b : Vec2f) : a + b = ⟨a.x + b.x, a.y + b.y⟩ := rfl

theorem vec_sub_eq (a b : Vec2f) : a - b = ⟨a.x - b.x, a.y - b.y⟩ := rfl

/-- The function `cursor_camera_transform` in terms of the target position and the
target scale that it eases towards. -/
theorem cursor_camera_transform_eq (camera : Camera) (target : Vec2f)
    (target_scale_x zoom_factor_x delta_time : ℚ) (T : Vec2f) (S : ℚ)
    (hS : S = min target_scale_x max_camera_zoom)
    (hT : T = if target_scale_x ≤ max_camera_zoom ∧ camera.scale.x ≠ 0 then
                ⟨max target.x (zoom_factor_x / camera.scale.x), target.y⟩
              else target) :
    cursor_camera_transform camera target target_scale_x zoom_factor_x delta_time
      = { pos := ⟨camera.pos.x + (T.x - camera.pos.x) * 15 * delta_time,
                  camera.pos.y + (T.y - camera.pos.y) * 15 * delta_time⟩
          scale := ⟨camera.scale.x + (S - camera.scale.x) * 10 * delta_time,
                    camera.scale.y + camera.scale_velocity.y * delta_time⟩
          scale_velocity := ⟨(S - camera.scale.x) * 10, camera.scale_velocity.y⟩
          velocity := ⟨(T.x - camera.pos.x) * 15, (T.y - camera.pos.y) * 15⟩ } := by
  unfold cursor_camera_transform
  by_cases h1 : target_scale_x > max_camera_zoom
  · have hS' : S = max_camera_zoom := by rw [hS]; exact min_eq_right (le_of_lt h1)
    have hT' : T = target := by rw [hT, if_neg (fun h => absurd h.1 (not_le.2 h1))]
    simp only [h1, if_true, vec2_mul, Vec2f.splat, vec_add_eq, vec_sub_eq, hS', hT']
  · have hle : target_scale_x ≤ max_camera_zoom := not_lt.1 h1
    have hS' : S = target_scale_x := by rw [hS]; exact min_eq_left hle
    by_cases h2 : camera.scale.x ≠ 0
    · by_cases h3 : target.x - zoom_factor_x / camera.scale.x < 0
      · have hT' : T = ⟨zoom_factor_x / camera.scale.x, target.y⟩ := by
          rw [hT, if_pos ⟨hle, h2⟩, max_eq_right (by linarith)]
        simp only [h1, h2, h3, if_true, if_false, ne_eq, not_false_eq_true, vec2_mul,
          Vec2f.splat, vec_add_eq, vec_sub_eq, hS', hT', add_zero]
      · have hT' : T = ⟨target.x, target.y⟩ := by
          rw [hT, if_pos ⟨hle, h2⟩, max_eq_left (by linarith)]
        have e : zoom_factor_x / camera.scale.x + (target.x - zoom_factor_x / camera.scale.x)
            = target.x := by ring
        simp only [h1, h2, h3, if_true, if_false, ne_eq, not_false_eq_true, vec2_mul,
          Vec2f.splat, vec_add_eq, vec_sub_eq, hS', hT', e]
    · have hT' : T = target := by rw [hT, if_neg (fun h => h2 h.2)]
      simp only [h1, h2, if_false, vec2_mul, Vec2f.splat, vec_add_eq, vec_sub_eq, hS', hT']

/-- C24, as the code has it: in exact arithmetic `cursor_camera_transform` returns the
camera with `velocity = (T - pos) * 15`, `pos + velocity * dt`,
`scale_velocity.x = (S - scale.x) * 10` and `scale + scale_velocity * dt`, where
`S = min(target_scale_x, max_camera_zoom)` and the target `T` is anchored,
`T.x = max(target.x, zoom_factor_x / scale.x)`, only when the zoom target is not
clamped and the current `scale.x` is not zero; `T = target` when `target_scale_x`
exceeds `max_camera_zoom` or `scale.x` is zero. -/
theorem cursor_camera_transform_eased (camera : Camera) (target : Vec2f)
    (target_scale_x zoom_factor_x delta_time : ℚ) :
    ∃ (T : Vec2f) (S : ℚ),
      S = min target_scale_x max_camera_zoom
      ∧ max_camera_zoom = 3
      ∧ (target_scale_x ≤ max_camera_zoom ∧ camera.scale.x ≠ 0 →
          T = ⟨max target.x (zoom_factor_x / camera.scale.x), target.y⟩)
      ∧ (max_camera_zoom < target_scale_x ∨ camera.scale.x = 0 → T = target)
      ∧ cursor_camera_transform camera target target_scale_x zoom_factor_x delta_time
        = { pos := ⟨camera.pos.x + (T.x - camera.pos.x) * 15 * delta_time,
                    camera.pos.y + (T.y - camera.pos.y) * 15 * delta_time⟩
            scale := ⟨camera.scale.x + (S - camera.scale.x) * 10 * delta_time,
                      camera.scale.y + camera.scale_velocity.y * delta_time⟩
            scale_velocity := ⟨(S - camera.scale.x) * 10, camera.scale_velocity.y⟩
            velocity := ⟨(T.x - camera.pos.x) * 15, (T.y - camera.pos.y) * 15⟩ } := by
  refine ⟨if target_scale_x ≤ max_camera_zoom ∧ camera.scale.x ≠ 0 then
      ⟨max target.x (zoom_factor_x / camera.scale.x), target.y⟩ else target,
    min target_scale_x max_camera_zoom, rfl, rfl, ?_, ?_,
    cursor_camera_transform_eq camera target target_scale_x zoom_factor_x delta_time _ _ rfl
      rfl⟩
  · intro h
    rw [if_pos h]
  · intro h
    rw [if_neg]
    rintro ⟨h1, h2⟩
    rcases h with h | h
    · exact absurd h1 (not_le.2 h)
    · exact h2 h

/-- The C24 theorem at a camera at the origin with scale 1, the target (2, 5), the zoom
target 2 and the reference offset 10: the target is anchored at x = 10, the velocity is
(150, 75). -/
theorem cursor_camera_transform_eased_witness :
    (cursor_camera_transform { pos := ⟨0, 0⟩, scale := ⟨1, 1⟩ } ⟨2, 5⟩ 2 10 1).velocity
      = ⟨150, 75⟩
    ∧ ∃ (T : Vec2f) (S : ℚ),
      S = min 2 max_camera_zoom
      ∧ max_camera_zoom = 3
      ∧ ((2 : ℚ) ≤ max_camera_zoom ∧ (1 : ℚ) ≠ 0 → T = ⟨max 2 (10 / 1), 5⟩)
      ∧ (max_camera_zoom < 2 ∨ (1 : ℚ) = 0 → T = ⟨2, 5⟩)
      ∧ cursor_camera_transform { pos := ⟨0, 0⟩, scale := ⟨1, 1⟩ } ⟨2, 5⟩ 2 10 1
        = { pos := ⟨0 + (T.x - 0) * 15 * 1, 0 + (T.y - 0) * 15 * 1⟩
            scale := ⟨1 + (S - 1) * 10 * 1, 1 + 0 * 1⟩
            scale_velocity := ⟨(S - 1) * 10, 0⟩
            velocity := ⟨(T.x - 0) * 15, (T.y - 0) * 15⟩ } :=
  ⟨by decide!,
    cursor_camera_transform_eased { pos := ⟨0, 0⟩, scale := ⟨1, 1⟩ } ⟨2, 5⟩ 2 10 1⟩

/-- C24 fails as stated when the zoom target is clamped: with scale 1, the target
(2, 5), the zoom target 4 and the reference offset 10, the velocity is (30, 75), eased
towards the raw target, and not the (150, 75) of a target anchored at
`max(2, 10 / 1) = 10`. -/
theorem camera_not_anchored_when_clamped :
    (cursor_camera_transform { pos := ⟨0, 0⟩, scale := ⟨1, 1⟩ } ⟨2, 5⟩ 4 10 1).velocity
      = ⟨30, 75⟩
    ∧ (cursor_camera_transform { pos := ⟨0, 0⟩, scale := ⟨1, 1⟩ } ⟨2, 5⟩ 4 10 1).velocity.x
      ≠ (max 2 (10 / 1) - 0) * 15
    ∧ (cursor_camera_transform { pos := ⟨0, 0⟩, scale := ⟨1, 1⟩ } ⟨2, 5⟩ 4 10 1).scale_velocity.x
      = (3 - 1) * 10 := by
  refine ⟨by decide!, by decide!, by decide!⟩

/-! ### The render-texture pool -/

theorem found_fold (tex : Nat) (list : List RenderTextureNode) :
    ∀ init : Bool,
      list.foldl (fun found e => if e.address = tex then true else found) init
        = (init || decide (tex ∈ list.map (fun e => e.address))) := by
  induction list with
  | nil => intro init; simp
  | cons e rest ih =>
    intro init
    rw [List.foldl_cons, ih]
    by_cases h : e.address = tex
    · simp [h]
    · have h' : ¬ tex = e.address := fun q => h q.symm
      simp [h, h']

/-- The debug check of `render_texture_data` accepts exactly the addresses of the live
nodes. -/
theorem render_texture_data_eq (pool : TexturePool) (tex : Nat) :
    render_texture_data pool tex
      = if tex ∈ live pool then Except.ok tex else Except.error PoolAssert.found := by
  unfold render_texture_data live
  simp only [found_fold, Bool.false_or, decide_eq_true_eq]

/-- The loop of `remove_list_element` on a list without the address. -/
theorem remove_loop_absent (elm : Nat) (list : List RenderTextureNode)
    (h : elm ∉ list.map (fun e => e.address)) : remove_loop list elm = none := by
  induction list with
  | nil => rfl
  | cons e rest ih =>
    simp only [List.map_cons, List.mem_cons, not_or] at h
    unfold remove_loop
    rw [if_neg (fun q => h.1 q.symm), ih h.2]

/-- The loop of `remove_list_element` on a list of nodes with distinct addresses: the
node at the address is unlinked, the others stay as they are, in their order. -/
theorem remove_loop_present (elm : Nat) (list : List RenderTextureNode)
    (hd : (list.map (fun e => e.address)).Nodup) (h : elm ∈ list.map (fun e => e.address)) :
    remove_loop list elm = some (list.filter (fun e => e.address ≠ elm)) := by
  induction list with
  | nil => exact absurd h (List.not_mem_nil _)
  | cons e rest ih =>
    simp only [List.map_cons, List.nodup_cons] at hd
    unfold remove_loop
    by_cases he : e.address = elm
    · rw [if_pos he]
      have hrest : rest.filter (fun x => x.address ≠ elm) = rest := by
        apply List.filter_eq_self.2
        intro x hx
        have : x.address ≠ elm := by
          intro q
          apply hd.1
          rw [he, ← q]
          exact List.mem_map_of_mem _ hx
        simp [this]
      rw [List.filter_cons_of_neg (by simp [he]), hrest]
    · rw [if_neg he]
      have hin : elm ∈ rest.map (fun x => x.address) := by
        simp only [List.map_cons, List.mem_cons] at h
        rcases h with h | h
        · exact absurd h.symm he
        · exact h
      rw [ih hd.2 hin, List.filter_cons_of_pos (by simp [he])]

theorem live_filter (pool : TexturePool) (tex : Nat) (list : List RenderTextureNode)
    (hl : list = pool.render_texture_allocator.filter (fun e => e.address ≠ tex)) :
    ∀ h, h ∈ list.map (fun e => e.address) ↔ h ∈ live pool ∧ h ≠ tex := by
  intro h
  rw [hl]
  unfold live
  simp only [List.mem_map, List.mem_filter, ne_eq, decide_not, Bool.not_eq_true',
    decide_eq_false_iff_not]
  constructor
  · rintro ⟨e, ⟨he, hne⟩, rfl⟩
    exact ⟨⟨e, he, rfl⟩, hne⟩
  · rintro ⟨⟨e, he, rfl⟩, hne⟩
    exact ⟨e, ⟨he, hne⟩, rfl⟩

theorem read_node_filter (list : List RenderTextureNode) (tex h : Nat) (hne : h ≠ tex) :
    read_node (list.filter (fun e => e.address ≠ tex)) h = read_node list h := by
  unfold read_node
  congr 1
  induction list with
  | nil => rfl
  | cons e rest ih =>
    by_cases he : e.address = tex
    · rw [List.filter_cons_of_neg (by simp [he]), List.find?_cons_of_neg _ (by
        simp only [decide_eq_true_eq]
        intro q
        exact hne (q.symm.trans he)), ih]
    · rw [List.filter_cons_of_pos (by simp [he])]
      by_cases hh : e.address = h
      · rw [List.find?_cons_of_pos _ (by simp [hh]), List.find?_cons_of_pos _ (by simp [hh])]
      · rw [List.find?_cons_of_neg _ (by simp [hh]), List.find?_cons_of_neg _ (by simp [hh]),
          ih]

/-- The method `delete_render_texture` on a live handle of a pool with distinct
addresses. -/
theorem delete_live (pool : TexturePool) (tex : Nat) (hd : (live pool).Nodup)
    (h : tex ∈ live pool) :
    ∃ value, read_node pool.render_texture_allocator tex = some value
      ∧ delete_render_texture pool tex
        = Except.ok
            { render_texture_allocator :=
                pool.render_texture_allocator.filter (fun e => e.address ≠ tex)
              freed := pool.freed ++ [value.data] } := by
  have hfind : ∃ value, read_node pool.render_texture_allocator tex = some value := by
    unfold read_node
    cases hf : pool.render_texture_allocator.find? (fun e => e.address = tex) with
    | some e => exact ⟨e.value, rfl⟩
    | none =>
      rw [List.find?_eq_none] at hf
      unfold live at h
      obtain ⟨e, he, q⟩ := List.mem_map.1 h
      exact absurd (by simp [q]) (hf e he)
  obtain ⟨value, hv⟩ := hfind
  refine ⟨value, hv, ?_⟩
  have hlive : live (free_render_texture pool tex) = live pool := by
    unfold free_render_texture
    rw [hv]
    rfl
  unfold delete_render_texture dealloc_render_texture
  rw [render_texture_data_eq, if_pos h]
  simp only [bind, Except.bind]
  rw [render_texture_data_eq, hlive, if_pos h]
  simp only []
  unfold remove_list_element
  have hrem := remove_loop_present tex (free_render_texture pool tex).render_texture_allocator
    (by
      have : (free_render_texture pool tex).render_texture_allocator.map (fun e => e.address)
          = live pool := hlive
      rw [this]; exact hd)
    (by
      have : (free_render_texture pool tex).render_texture_allocator.map (fun e => e.address)
          = live pool := hlive
      rw [this]; exact h)
  rw [hrem]
  simp only [pure, Except.pure]
  unfold free_render_texture
  rw [hv]

theorem delete_dead (pool : TexturePool) (tex : Nat) (h : tex ∉ live pool) :
    delete_render_texture pool tex = Except.error PoolAssert.found := by
  unfold delete_render_texture
  rw [render_texture_data_eq, if_neg h]
  rfl

theorem write_node_fresh (list : List RenderTextureNode) (address : Nat)
    (value : RenderTextureData) (h : address ∉ list.map (fun e => e.address)) :
    write_node list address value = list := by
  unfold write_node
  induction list with
  | nil => rfl
  | cons e rest ih =>
    simp only [List.map_cons, List.mem_cons, not_or] at h
    rw [List.map_cons, if_neg (fun q => h.1 q.symm), ih h.2]

/-- The method `create_render_texture` with an address that no live node has: the new
node is at the front, the others stay as they are. -/
theorem create_fresh (pool : TexturePool) (address : Nat) (framebuffer : FramebufferData)
    (screen : ScreenDimensions) (h : address ∉ live pool) :
    create_render_texture pool address framebuffer screen
      = Except.ok
          ({ pool with
              render_texture_allocator :=
                { address := address, value := { data := framebuffer, size := screen } }
                  :: pool.render_texture_allocator },
            address) := by
  unfold create_render_texture alloc_render_texture
  simp only []
  rw [render_texture_data_eq, if_pos (by unfold live; simp)]
  simp only [bind, Except.bind, pure, Except.pure, init_render_texture, write_node,
    List.map_cons, if_true]
  have := write_node_fresh pool.render_texture_allocator address
    { data := framebuffer, size := screen } h
  unfold write_node at this
  rw [this]

theorem apply_nodup (op : PoolOp) (pool pool' : TexturePool) (hd : (live pool).Nodup)
    (hf : fresh_addresses pool [op]) (he : op.apply pool = Except.ok pool') :
    (live pool').Nodup := by
  cases op with
  | create address framebuffer screen =>
    have hfresh : address ∉ live pool := hf.1
    simp only [PoolOp.apply] at he
    rw [create_fresh pool address framebuffer screen hfresh] at he
    simp only [Except.ok.injEq] at he
    rw [← he]
    show (address :: live pool).Nodup
    exact List.nodup_cons.2 ⟨hfresh, hd⟩
  | delete tex =>
    have he' : delete_render_texture pool tex = Except.ok pool' := he
    by_cases h : tex ∈ live pool
    · obtain ⟨value, _, hdel⟩ := delete_live pool tex hd h
      rw [hdel] at he'
      simp only [Except.ok.injEq] at he'
      rw [← he']
      show ((pool.render_texture_allocator.filter (fun e => e.address ≠ tex)).map
        (fun e => e.address)).Nodup
      exact (List.Nodup.sublist (List.Sublist.map _ (List.filter_sublist _)) hd)
    · rw [delete_dead pool tex h] at he'
      exact Except.noConfusion he'

theorem run_pool_nodup (ops : List PoolOp) :
    ∀ pool pool', (live pool).Nodup → fresh_addresses pool ops →
      run_pool pool ops = Except.ok pool' → (live pool').Nodup := by
  induction ops with
  | nil =>
    intro pool pool' hd _ he
    cases he
    exact hd
  | cons op rest ih =>
    intro pool pool' hd hf he
    unfold run_pool at he
    unfold fresh_addresses at hf
    cases e1 : op.apply pool with
    | error e => rw [e1] at he; exact Except.noConfusion he
    | ok p1 =>
      rw [e1] at he hf
      have hop : fresh_addresses pool [op] := by
        unfold fresh_addresses
        rw [e1]
        exact ⟨hf.1, trivial⟩
      exact ih p1 pool' (apply_nodup op pool p1 hd hop e1) hf.2 he

/-- Two requests, the first texture deleted, a third request: the pool holds the third
and the second node. -/
theorem request_delete_request (a1 a2 a3 : Nat) (f1 f2 f3 : FramebufferData)
    (s1 s2 s3 : ScreenDimensions) (h21 : a2 ≠ a1) (h32 : a3 ≠ a2) :
    run_pool {}
        [PoolOp.create a1 f1 s1, PoolOp.create a2 f2 s2, PoolOp.delete a1,
          PoolOp.create a3 f3 s3]
      = Except.ok
          { render_texture_allocator :=
              [{ address := a3, value := { data := f3, size := s3 } },
               { address := a2, value := { data := f2, size := s2 } }]
            freed := [f1] } := by
  have e1 := create_fresh {} a1 f1 s1 (by simp [live])
  have e2 := create_fresh
    { render_texture_allocator := [{ address := a1, value := { data := f1, size := s1 } }] }
    a2 f2 s2 (by simp [live, h21])
  obtain ⟨value, hv, e3⟩ := delete_live
    { render_texture_allocator :=
        [{ address := a2, value := { data := f2, size := s2 } },
         { address := a1, value := { data := f1, size := s1 } }] }
    a1 (by simp [live, h21]) (by simp [live])
  have hvalue : value = { data := f1, size := s1 } := by
    simp [read_node, h21] at hv
    exact hv.symm
  subst hvalue
  have hfilter : List.filter (fun e : RenderTextureNode => decide (e.address ≠ a1))
      [{ address := a2, value := { data := f2, size := s2 } },
       { address := a1, value := { data := f1, size := s1 } }]
      = [{ address := a2, value := { data := f2, size := s2 } }] := by
    simp [h21]
  rw [hfilter] at e3
  have e4 := create_fresh
    { render_texture_allocator := [{ address := a2, value := { data := f2, size := s2 } }]
      freed := [] ++ [f1] }
    a3 f3 s3 (by simp [live, h32])
  simp only [run_pool, PoolOp.apply, e1, e2, e3, e4]
  rfl

/-- C22: in every pool reached from the empty pool by `create_render_texture` and
`delete_render_texture` calls (the heap never placing a new node at the address of a
live one), the live nodes have distinct addresses. In such a pool
`delete_render_texture(h)` on a live handle returns, frees the GL objects of the node
of `h` and unlinks exactly that node: the list afterwards is the list before without
it, so every other node keeps its value and its place in the order, every other live
handle is still accepted by the check of `render_texture_data`, and `h` is not
accepted any more. A handle that is not live is stopped by the check, and
`remove_list_element` for an address that is not in the list stops at its
assertion. After two requests, the deletion of the first texture and a third request,
the second and the third handle are both accepted, whether or not the third node is
placed where the first was. -/
theorem delete_render_texture_unlinks :
    (∀ (ops : List PoolOp) (pool : TexturePool), fresh_addresses {} ops →
      run_pool {} ops = Except.ok pool → (live pool).Nodup)
    ∧ (∀ (pool : TexturePool) (h : Nat), (live pool).Nodup → h ∈ live pool →
      ∃ pool' value, delete_render_texture pool h = Except.ok pool'
        ∧ read_node pool.render_texture_allocator h = some value
        ∧ pool'.freed = pool.freed ++ [value.data]
        ∧ pool'.render_texture_allocator
          = pool.render_texture_allocator.filter (fun e => e.address ≠ h)
        ∧ render_texture_data pool' h = Except.error PoolAssert.found
        ∧ ∀ other, other ∈ live pool → other ≠ h →
            render_texture_data pool' other = Except.ok other
            ∧ read_node pool'.render_texture_allocator other
              = read_node pool.render_texture_allocator other)
    ∧ (∀ (pool : TexturePool) (h : Nat), h ∉ live pool →
      delete_render_texture pool h = Except.error PoolAssert.found)
    ∧ (∀ (list : List RenderTextureNode) (elm : Nat), elm ∉ list.map (fun e => e.address) →
      remove_list_element list elm = Except.error PoolAssert.removed)
    ∧ (∀ (a1 a2 a3 : Nat) (f1 f2 f3 : FramebufferData) (s1 s2 s3 : ScreenDimensions),
      a2 ≠ a1 → a3 ≠ a2 →
      ∃ pool, run_pool {}
            [PoolOp.create a1 f1 s1, PoolOp.create a2 f2 s2, PoolOp.delete a1,
              PoolOp.create a3 f3 s3] = Except.ok pool
        ∧ live pool = [a3, a2]
        ∧ render_texture_data pool a2 = Except.ok a2
        ∧ render_texture_data pool a3 = Except.ok a3) := by
  refine ⟨?_, ?_, delete_dead, ?_, ?_⟩
  · intro ops pool hf he
    exact run_pool_nodup ops {} pool List.nodup_nil hf he
  · intro pool h hd hl
    obtain ⟨value, hv, hdel⟩ := delete_live pool h hd hl
    have hmem := live_filter pool h _ rfl
    refine ⟨_, value, hdel, hv, rfl, rfl, ?_, ?_⟩
    · rw [render_texture_data_eq, if_neg]
      intro q
      exact ((hmem h).1 q).2 rfl
    · intro other ho hne
      refine ⟨?_, read_node_filter _ h other hne⟩
      rw [render_texture_data_eq, if_pos]
      exact (hmem other).2 ⟨ho, hne⟩
  · intro list elm h
    unfold remove_list_element
    rw [remove_loop_absent elm list h]
  · intro a1 a2 a3 f1 f2 f3 s1 s2 s3 h21 h32
    refine ⟨_, request_delete_request a1 a2 a3 f1 f2 f3 s1 s2 s3 h21 h32, rfl, ?_, ?_⟩
    · rw [render_texture_data_eq, if_pos (by simp [live])]
    · rw [render_texture_data_eq, if_pos (by simp [live])]

/-- The C22 theorem at the pool after two requests, at the addresses 100 and 200:
deleting the first leaves the second, and a third request, placed at the address 100
again, gives a pool in which the second and the third handle are both accepted and
distinct. -/
theorem delete_render_texture_unlinks_witness :
    (∃ pool' value,
      delete_render_texture
          { render_texture_allocator :=
              [{ address := 200, value := { data := { id := 2 }, size := ⟨640, 480⟩ } },
               { address := 100, value := { data := { id := 1 }, size := ⟨800, 600⟩ } }] }
          100 = Except.ok pool'
        ∧ read_node
            [{ address := 200, value := { data := { id := 2 }, size := ⟨640, 480⟩ } },
             { address := 100, value := { data := { id := 1 }, size := ⟨800, 600⟩ } }] 100
          = some value
        ∧ pool'.render_texture_allocator
          = [{ address := 200, value := { data := { id := 2 }, size := ⟨640, 480⟩ } }])
    ∧ run_pool {}
        [PoolOp.create 100 { id := 1 } ⟨800, 600⟩, PoolOp.create 200 { id := 2 } ⟨640, 480⟩,
          PoolOp.delete 100, PoolOp.create 100 { id := 3 } ⟨320, 200⟩]
      = Except.ok
          { render_texture_allocator :=
              [{ address := 100, value := { data := { id := 3 }, size := ⟨320, 200⟩ } },
               { address := 200, value := { data := { id := 2 }, size := ⟨640, 480⟩ } }]
            freed := [{ id := 1 }] } := by
  constructor
  · obtain ⟨pool', value, h1, h2, _, h4, _⟩ := delete_render_texture_unlinks.2.1
      { render_texture_allocator :=
          [{ address := 200, value := { data := { id := 2 }, size := ⟨640, 480⟩ } },
           { address := 100, value := { data := { id := 1 }, size := ⟨800, 600⟩ } }] }
      100 (by decide) (by decide)
    exact ⟨pool', value, h1, h2, h4.trans (by decide)⟩
  · rfl

end Render

/-! ## Theorems, part 3, continued: shader reload -/

namespace Render

/-- The messages `extra` were queued after `feed`, at least one, all of them errors. -/
theorem errors_append {a b : List Feed.Message}
    (ha : ∀ m ∈ a, m.severity = Feed.Severity.error)
    (hb : ∀ m ∈ b, m.severity = Feed.Severity.error) :
    ∀ m ∈ a ++ b, m.severity = Feed.Severity.error := by
  intro m hm
  rcases List.mem_append.1 hm with h | h
  · exact ha m h
  · exact hb m h

theorem compile_shader_file_cases (env : ShaderEnv) (path : String) (type : ShaderType)
    (feed : Feed.MessageFeed) :
    (shader_file_ok env type path
      ∧ shader_handle env type path ≠ 0
      ∧ compile_shader_file env path type feed = (shader_handle env type path, feed))
    ∨ (¬ shader_file_ok env type path
      ∧ ∃ extra, extra ≠ [] ∧ (∀ m ∈ extra, m.severity = Feed.Severity.error)
        ∧ compile_shader_file env path type feed = (0, feed ++ extra)) := by
  unfold compile_shader_file shader_file_ok shader_handle
  cases hr : env.read_file path with
  | error msg =>
    refine Or.inr ⟨?_, [⟨Feed.Severity.error,
      "Failed to load '" ++ path ++ "' shader file: " ++ msg⟩], by simp, ?_, rfl⟩
    · rintro ⟨src, h, _⟩
      exact Except.noConfusion h
    · intro m hm
      rw [List.mem_singleton.1 hm]
  | ok contents =>
    by_cases hc : env.create_shader type contents = 0
    · refine Or.inr ⟨?_, [⟨Feed.Severity.error, "Failed to compile shader file: " ++ path⟩],
        by simp, ?_, ?_⟩
      · rintro ⟨src, h, h0, _⟩
        cases h
        exact h0 hc
      · intro m hm
        rw [List.mem_singleton.1 hm]
      · simp [compile_shader, hc, Feed.queue_error]
    · cases hs : env.compile_status type contents with
      | error log =>
        refine Or.inr ⟨?_, [⟨Feed.Severity.error,
            "Unable to compile shader type '" ++ stringify type ++ "'"⟩,
          ⟨Feed.Severity.error, log⟩,
          ⟨Feed.Severity.error, "Failed to compile shader file: " ++ path⟩], by simp, ?_, ?_⟩
        · rintro ⟨src, h, _, h1⟩
          cases h
          rw [hs] at h1
          exact Except.noConfusion h1
        · intro m hm
          simp only [List.mem_cons, List.mem_singleton, List.not_mem_nil, or_false] at hm
          rcases hm with h | h | h <;> rw [h]
        · simp [compile_shader, hc, hs, Feed.queue_error]
      | ok u =>
        refine Or.inl ⟨⟨contents, rfl, hc, ?_⟩, hc, ?_⟩
        · exact hs
        · simp [compile_shader, hc, hs]

theorem link_program_cases (env : ShaderEnv) (prog : Nat) (feed : Feed.MessageFeed) :
    (env.link_status prog = Except.ok () ∧ link_program env prog feed = (true, feed))
    ∨ (env.link_status prog ≠ Except.ok ()
      ∧ ∃ extra, extra ≠ [] ∧ (∀ m ∈ extra, m.severity = Feed.Severity.error)
        ∧ link_program env prog feed = (false, feed ++ extra)) := by
  unfold link_program
  cases hs : env.link_status prog with
  | error log =>
    refine Or.inr ⟨fun h => Except.noConfusion h,
      [⟨Feed.Severity.error, "Failed to link shaders: " ++ log ++ "\n"⟩], by simp, ?_, rfl⟩
    intro m hm
    rw [List.mem_singleton.1 hm]
  | ok u =>
    cases u
    exact Or.inl ⟨rfl, rfl⟩

theorem mem_all_frag_shaders (f : FragShader) : f ∈ all_frag_shaders := by
  cases f <;> simp [all_frag_shaders]

theorem mem_all_vert_shaders (v : VertShader) : v ∈ all_vert_shaders := by
  cases v <;> simp [all_vert_shaders]

/-- The inner loop either completes every remaining fragment shader, filling row `v`
and queueing nothing, or stops with at least one error queued. -/
theorem reload_row_cases (env : ShaderEnv) (core : String) (v : VertShader) (h : Nat)
    (fs : List FragShader) :
    ∀ (np : ShaderProgramContainer) (feed : Feed.MessageFeed),
      ((∀ f ∈ fs, frag_ok env core f
          ∧ env.link_status (env.create_program h (shader_handle env ShaderType.Fragment
              (env.combine_paths core (builtin_frag_shader_path f)))) = Except.ok ())
        ∧ reload_row env core v h fs np feed
          = (some (fun v' f' => if v' = v ∧ f' ∈ fs then
                env.create_program h (shader_handle env ShaderType.Fragment
                  (env.combine_paths core (builtin_frag_shader_path f')))
              else np v' f'), feed))
      ∨ ((∃ f ∈ fs, ¬ (frag_ok env core f
          ∧ env.link_status (env.create_program h (shader_handle env ShaderType.Fragment
              (env.combine_paths core (builtin_frag_shader_path f)))) = Except.ok ()))
        ∧ ∃ extra, extra ≠ [] ∧ (∀ m ∈ extra, m.severity = Feed.Severity.error)
          ∧ reload_row env core v h fs np feed = (none, feed ++ extra)) := by
  induction fs with
  | nil =>
    intro np feed
    refine Or.inl ⟨fun f hf => absurd hf (List.not_mem_nil f), ?_⟩
    simp [reload_row]
  | cons f rest ih =>
    intro np feed
    rcases compile_shader_file_cases env
        (env.combine_paths core (builtin_frag_shader_path f)) ShaderType.Fragment feed with
      ⟨hok, hne, hc⟩ | ⟨hbad, extra, hx, herr, hc⟩
    · rcases link_program_cases env (env.create_program h (shader_handle env
          ShaderType.Fragment (env.combine_paths core (builtin_frag_shader_path f)))) feed with
        ⟨hl, hlp⟩ | ⟨hl, extra, hx, herr, hlp⟩
      · rcases ih (Function.update np v (Function.update (np v) f
            (env.create_program h (shader_handle env ShaderType.Fragment
              (env.combine_paths core (builtin_frag_shader_path f)))))) feed with
          ⟨hall, hrow⟩ | ⟨hex, extra, hx, herr, hrow⟩
        · refine Or.inl ⟨?_, ?_⟩
          · intro f' hf'
            rcases List.mem_cons.1 hf' with rfl | hmem
            · exact ⟨hok, hl⟩
            · exact hall f' hmem
          · simp only [reload_row, hc, hlp, if_neg hne, not_true_eq_false, if_false, hrow]
            congr 2
            funext v' f'
            by_cases hv : v' = v
            · subst hv
              by_cases hf1 : f' ∈ rest
              · simp [hf1]
              · by_cases hf2 : f' = f
                · subst hf2
                  simp [hf1]
                · simp [hf1, hf2, Function.update_noteq hf2]
            · simp [hv, Function.update_noteq hv]
        · refine Or.inr ⟨?_, extra, hx, herr, ?_⟩
          · obtain ⟨f', hf', hn⟩ := hex
            exact ⟨f', List.mem_cons_of_mem _ hf', hn⟩
          · simp only [reload_row, hc, hlp, if_neg hne, not_true_eq_false, if_false, hrow]
      · refine Or.inr ⟨⟨f, List.mem_cons_self _ _, fun hh => hl hh.2⟩, extra, hx, herr, ?_⟩
        simp only [reload_row, hc, hlp, if_neg hne]
        simp
    · refine Or.inr ⟨⟨f, List.mem_cons_self _ _, fun hh => hbad hh.1⟩, extra, hx, herr, ?_⟩
      simp only [reload_row, hc]
      simp

/-- The outer loop either completes every remaining vertex shader, filling their rows
and queueing nothing, or stops with at least one error queued. -/
theorem reload_matrix_cases (env : ShaderEnv) (core : String) (vs : List VertShader) :
    ∀ (np : ShaderProgramContainer) (feed : Feed.MessageFeed),
      ((∀ v ∈ vs, ∀ f, combination_ok env core v f)
        ∧ reload_matrix env core vs np feed
          = (some (fun v' f' => if v' ∈ vs then new_program env core v' f' else np v' f'),
              feed))
      ∨ ((∃ v ∈ vs, ∃ f, ¬ combination_ok env core v f)
        ∧ ∃ extra, extra ≠ [] ∧ (∀ m ∈ extra, m.severity = Feed.Severity.error)
          ∧ reload_matrix env core vs np feed = (none, feed ++ extra)) := by
  induction vs with
  | nil =>
    intro np feed
    refine Or.inl ⟨fun v hv => absurd hv (List.not_mem_nil v), ?_⟩
    simp [reload_matrix]
  | cons v rest ih =>
    intro np feed
    rcases compile_shader_file_cases env
        (env.combine_paths core (builtin_vert_shader_path v)) ShaderType.Vertex feed with
      ⟨hok, hne, hc⟩ | ⟨hbad, extra, hx, herr, hc⟩
    · rcases reload_row_cases env core v (shader_handle env ShaderType.Vertex
          (env.combine_paths core (builtin_vert_shader_path v))) all_frag_shaders np feed with
        ⟨hall, hrow⟩ | ⟨hex, extra, hx, herr, hrow⟩
      · rcases ih (fun v' f' => if v' = v ∧ f' ∈ all_frag_shaders then
              env.create_program (shader_handle env ShaderType.Vertex
                  (env.combine_paths core (builtin_vert_shader_path v)))
                (shader_handle env ShaderType.Fragment
                  (env.combine_paths core (builtin_frag_shader_path f')))
            else np v' f') feed with
          ⟨hrest, hm⟩ | ⟨hex, extra, hx, herr, hm⟩
        · refine Or.inl ⟨?_, ?_⟩
          · intro v' hv' f
            rcases List.mem_cons.1 hv' with rfl | hmem
            · exact ⟨hok, (hall f (mem_all_frag_shaders f)).1,
                (hall f (mem_all_frag_shaders f)).2⟩
            · exact hrest v' hmem f
          · simp only [reload_matrix, hc, if_neg hne, hrow, hm]
            congr 2
            funext v' f'
            by_cases hv1 : v' ∈ rest
            · simp [hv1]
            · by_cases hv2 : v' = v
              · subst hv2
                simp [hv1, mem_all_frag_shaders, new_program]
              · simp [hv1, hv2]
        · refine Or.inr ⟨?_, extra, hx, herr, ?_⟩
          · obtain ⟨v', hv', hn⟩ := hex
            exact ⟨v', List.mem_cons_of_mem _ hv', hn⟩
          · simp only [reload_matrix, hc, if_neg hne, hrow, hm]
      · refine Or.inr ⟨?_, extra, hx, herr, ?_⟩
        · obtain ⟨f, _, hn⟩ := hex
          exact ⟨v, List.mem_cons_self _ _, f, fun hh => hn ⟨hh.2.1, hh.2.2⟩⟩
        · simp only [reload_matrix, hc, if_neg hne, hrow]
    · refine Or.inr ⟨⟨v, List.mem_cons_self _ _, FragShader.BasicColor, fun hh => hbad hh.1⟩,
        extra, hx, herr, ?_⟩
      simp only [reload_matrix, hc]
      simp

/-- C10. `reload_shaders` is all-or-nothing. When every vertex and fragment combination
reads, compiles and links, the live matrix becomes the matrix of the new programs and
the one message queued is the info "Shaders reloaded.". When some combination fails,
the live matrix is returned as it was and the messages queued are errors, at least one
(hence no "Shaders reloaded." info). -/
theorem reload_shaders_all_or_nothing (env : ShaderEnv) (core : String)
    (live : ShaderProgramContainer) (feed : Feed.MessageFeed) :
    ((∀ v f, combination_ok env core v f) →
        reload_shaders env core live feed
          = (fun v f => new_program env core v f, Feed.queue_info feed "Shaders reloaded."))
    ∧ ((∃ v f, ¬ combination_ok env core v f) →
        ∃ extra, extra ≠ [] ∧ (∀ m ∈ extra, m.severity = Feed.Severity.error)
          ∧ reload_shaders env core live feed = (live, feed ++ extra)) := by
  rcases reload_matrix_cases env core all_vert_shaders (fun _ _ => 0) feed with
    ⟨hall, hm⟩ | ⟨hex, extra, hx, herr, hm⟩
  · constructor
    · intro _
      simp only [reload_shaders, hm]
      congr 1
      funext v f
      simp [mem_all_vert_shaders]
    · rintro ⟨v, f, hn⟩
      exact absurd (hall v (mem_all_vert_shaders v) f) hn
  · constructor
    · intro hall
      obtain ⟨v, _, f, hn⟩ := hex
      exact absurd (hall v f) hn
    · intro _
      exact ⟨extra, hx, herr, by simp only [reload_shaders, hm]⟩

/-- C10 at concrete environments: all shaders good, and a malformed `image.frag`. -/
theorem reload_shaders_all_or_nothing_witness :
    reload_shaders ShaderEnv.working "assets" (fun _ _ => 3) []
        = (fun v f => new_program ShaderEnv.working "assets" v f,
            Feed.queue_info [] "Shaders reloaded.")
    ∧ ∃ extra, extra ≠ [] ∧ (∀ m ∈ extra, m.severity = Feed.Severity.error)
        ∧ reload_shaders ShaderEnv.malformed_image "assets" (fun _ _ => 3) []
          = (fun _ _ => 3, [] ++ extra) :=
  ⟨(reload_shaders_all_or_nothing ShaderEnv.working "assets" (fun _ _ => 3) []).1
      (fun _ _ => ⟨⟨_, rfl, Nat.one_ne_zero, rfl⟩, ⟨_, rfl, Nat.one_ne_zero, rfl⟩, rfl⟩),
   (reload_shaders_all_or_nothing ShaderEnv.malformed_image "assets" (fun _ _ => 3) []).2
      ⟨VertShader.CameraTransform, FragShader.Image, fun h => by
        obtain ⟨_, ⟨src, hr, _, hc⟩, _⟩ := h
        cases hr
        exact Except.noConfusion hc⟩⟩

end Render
